import Mathlib

/-!
# Software two-wire interface (stwi): embedding of `src/stwi.h` and `src/stwi.c`

The driver is a set of C functions that talk to the bus only through the seven
callbacks stored in `struct stwi`.  The embedding threads an explicit `World`
through every function: the state of the platform behind the callbacks together
with the chronological list of callback invocations made so far.

The only unbounded loop of the driver is the `do ... while` of
`stwi_stretch_wait`.  It is bounded by `fuel` (the maximal number of loop
iterations of one stretch wait); `none` means that the loop is still running
after `fuel` iterations.

Layout: the types and functions of `stwi.h` and `stwi.c`; the pin-simulation
fixture of `test/main.c`; the reference the transactions are compared with (a list
of sub-operations run in order until the first failure); auxiliary definitions;
the lemmas; the claims of the specification, each followed by an instance on a
scenario of `test/main.c`.
-/

namespace Stwi

/-! ## Types of `stwi.h` -/

/-- Error codes (`stwi_err_t`). -/
inductive stwi_err_t where
  | STWI_ERR_OK
  | STWI_ERR_STRETCH
  | STWI_ERR_NACK
  deriving DecidableEq, Repr

/-- Complex operation progress (`stwi_stage_t`). -/
inductive stwi_stage_t where
  | STWI_STAGE_START
  | STWI_STAGE_ADDR
  | STWI_STAGE_REG
  | STWI_STAGE_DATA
  | STWI_STAGE_STOP
  deriving DecidableEq, Repr

/-- Complex operation result (`struct stwi_res`). -/
structure stwi_res where
  err : stwi_err_t
  stage : stwi_stage_t
  data_size : Nat
  deriving DecidableEq, Repr

/-- GPIO pin state (`stwi_pin_state_t`). -/
inductive stwi_pin_state_t where
  | STWI_PIN_LOW
  | STWI_PIN_HIGH
  deriving DecidableEq, Repr

/-- Register size in bits (`stwi_reg_size_t`). -/
inductive stwi_reg_size_t where
  | STWI_REG_0
  | STWI_REG_8
  | STWI_REG_16
  deriving DecidableEq, Repr

open stwi_err_t stwi_stage_t stwi_pin_state_t stwi_reg_size_t

/-- Software TWI bus handle (`struct stwi`): the seven callbacks.  The context the
callbacks work on is the platform state `σ`; a callback that returns a value
returns it together with the new platform state. -/
structure stwi (σ : Type) where
  write_scl : σ → stwi_pin_state_t → σ
  write_sda : σ → stwi_pin_state_t → σ
  read_scl : σ → stwi_pin_state_t × σ
  read_sda : σ → stwi_pin_state_t × σ
  delay : σ → σ
  timeout_start : σ → σ
  timeout_check : σ → Bool × σ

/-- One callback invocation, with the argument passed or the value returned. -/
inductive Call where
  | write_scl (state : stwi_pin_state_t)
  | write_sda (state : stwi_pin_state_t)
  | read_scl (ret : stwi_pin_state_t)
  | read_sda (ret : stwi_pin_state_t)
  | delay
  | timeout_start
  | timeout_check (ret : Bool)
  deriving DecidableEq, Repr

/-- The world a driver function runs in: the platform state and the callback
invocations made so far, oldest first. -/
structure World (σ : Type) where
  st : σ
  trace : List Call
  deriving DecidableEq, Repr

variable {σ : Type}

/-! ## Callback invocations `bus->f(bus, ...)` -/

/-- Invocation `bus->write_scl(bus, state)`. -/
def call_write_scl (bus : stwi σ) (state : stwi_pin_state_t) (s : World σ) : World σ :=
  ⟨bus.write_scl s.st state, s.trace ++ [Call.write_scl state]⟩

/-- Invocation `bus->write_sda(bus, state)`. -/
def call_write_sda (bus : stwi σ) (state : stwi_pin_state_t) (s : World σ) : World σ :=
  ⟨bus.write_sda s.st state, s.trace ++ [Call.write_sda state]⟩

/-- Invocation `bus->read_scl(bus)`. -/
def call_read_scl (bus : stwi σ) (s : World σ) : stwi_pin_state_t × World σ :=
  ((bus.read_scl s.st).1, ⟨(bus.read_scl s.st).2, s.trace ++ [Call.read_scl (bus.read_scl s.st).1]⟩)

/-- Invocation `bus->read_sda(bus)`. -/
def call_read_sda (bus : stwi σ) (s : World σ) : stwi_pin_state_t × World σ :=
  ((bus.read_sda s.st).1, ⟨(bus.read_sda s.st).2, s.trace ++ [Call.read_sda (bus.read_sda s.st).1]⟩)

/-- Invocation `bus->delay(bus)`. -/
def call_delay (bus : stwi σ) (s : World σ) : World σ :=
  ⟨bus.delay s.st, s.trace ++ [Call.delay]⟩

/-- Invocation `bus->timeout_start(bus)`. -/
def call_timeout_start (bus : stwi σ) (s : World σ) : World σ :=
  ⟨bus.timeout_start s.st, s.trace ++ [Call.timeout_start]⟩

/-- Invocation `bus->timeout_check(bus)`. -/
def call_timeout_check (bus : stwi σ) (s : World σ) : Bool × World σ :=
  ((bus.timeout_check s.st).1,
    ⟨(bus.timeout_check s.st).2, s.trace ++ [Call.timeout_check (bus.timeout_check s.st).1]⟩)

/-! ## Inline functions of `stwi.h` -/

/-- The `do { ... } while (bus->read_scl(bus) == STWI_PIN_LOW)` loop of
`stwi_stretch_wait`; the first argument bounds the number of iterations. -/
def stwi_stretch_wait.loop (bus : stwi σ) : Nat → World σ → Option (stwi_err_t × World σ)
  | 0, _ => none
  | fuel + 1, s =>
    let c := call_timeout_check bus s
    if c.1 = false then some (STWI_ERR_STRETCH, c.2)
    else
      let s1 := call_delay bus c.2
      let r := call_read_scl bus s1
      if r.1 = STWI_PIN_LOW then stwi_stretch_wait.loop bus fuel r.2
      else some (STWI_ERR_OK, r.2)

/-- Wait until slave device releases SCL line (clock stretch). -/
def stwi_stretch_wait (fuel : Nat) (bus : stwi σ) (s : World σ) :
    Option (stwi_err_t × World σ) :=
  let r := call_read_scl bus s
  if r.1 = STWI_PIN_LOW then
    let s1 := call_timeout_start bus r.2
    stwi_stretch_wait.loop bus fuel s1
  else some (STWI_ERR_OK, r.2)

/-- Generate clock pulse and send one bit. -/
def stwi_write_bit (fuel : Nat) (bus : stwi σ) (bit : stwi_pin_state_t) (s : World σ) :
    Option (stwi_err_t × World σ) :=
  let s := call_write_sda bus bit s
  let s := call_delay bus s
  let s := call_write_scl bus STWI_PIN_HIGH s
  let s := call_delay bus s
  match stwi_stretch_wait fuel bus s with
  | none => none
  | some (err, s) =>
    if err ≠ STWI_ERR_OK then some (err, s)
    else
      let s := call_delay bus s
      let s := call_write_scl bus STWI_PIN_LOW s
      let s := call_delay bus s
      some (STWI_ERR_OK, s)

/-- Generate clock pulse and receive one bit.  The argument `bit` is the content
of `*bit` before the call, the returned pin state its content after the call. -/
def stwi_read_bit (fuel : Nat) (bus : stwi σ) (bit : stwi_pin_state_t) (s : World σ) :
    Option (stwi_err_t × stwi_pin_state_t × World σ) :=
  let s := call_write_sda bus STWI_PIN_HIGH s
  let s := call_delay bus s
  let s := call_write_scl bus STWI_PIN_HIGH s
  let s := call_delay bus s
  match stwi_stretch_wait fuel bus s with
  | none => none
  | some (err, s) =>
    if err ≠ STWI_ERR_OK then some (err, bit, s)
    else
      let s := call_delay bus s
      let r := call_read_sda bus s
      let s := call_write_scl bus STWI_PIN_LOW r.2
      let s := call_delay bus s
      some (STWI_ERR_OK, r.1, s)

/-- Generate start or repeated start condition. -/
def stwi_start (fuel : Nat) (bus : stwi σ) (s : World σ) : Option (stwi_err_t × World σ) :=
  let s := call_write_sda bus STWI_PIN_HIGH s
  let s := call_delay bus s
  let s := call_write_scl bus STWI_PIN_HIGH s
  let s := call_delay bus s
  match stwi_stretch_wait fuel bus s with
  | none => none
  | some (err, s) =>
    if err ≠ STWI_ERR_OK then some (err, s)
    else
      let s := call_write_sda bus STWI_PIN_LOW s
      let s := call_delay bus s
      let s := call_write_scl bus STWI_PIN_LOW s
      let s := call_delay bus s
      some (STWI_ERR_OK, s)

/-- Generate stop condition. -/
def stwi_stop (fuel : Nat) (bus : stwi σ) (s : World σ) : Option (stwi_err_t × World σ) :=
  let s := call_write_sda bus STWI_PIN_LOW s
  let s := call_delay bus s
  let s := call_write_scl bus STWI_PIN_HIGH s
  let s := call_delay bus s
  match stwi_stretch_wait fuel bus s with
  | none => none
  | some (err, s) =>
    if err ≠ STWI_ERR_OK then some (err, s)
    else
      let s := call_write_sda bus STWI_PIN_HIGH s
      let s := call_delay bus s
      some (STWI_ERR_OK, s)

/-- The `for (int i = 0; i < 8; i++)` loop of `stwi_write_byte`; the first argument
is the number of iterations left, `byte` the current content of the variable
`uint8_t byte`. -/
def stwi_write_byte.loop (fuel : Nat) (bus : stwi σ) :
    Nat → Nat → World σ → Option (stwi_err_t × World σ)
  | 0, _, s => some (STWI_ERR_OK, s)
  | n + 1, byte, s =>
    match stwi_write_bit fuel bus
        (if byte &&& 0x80 ≠ 0 then STWI_PIN_HIGH else STWI_PIN_LOW) s with
    | none => none
    | some (err, s) =>
      if err ≠ STWI_ERR_OK then some (err, s)
      else stwi_write_byte.loop fuel bus n ((byte <<< 1) % 256) s

/-- Send one byte and receive ACK or NACK bit.  The local `bit` is not initialised in
C; it is read only after `stwi_read_bit` has succeeded and stored the sample, so
the content given to it before the call (LOW here) has no effect. -/
def stwi_write_byte (fuel : Nat) (bus : stwi σ) (byte : Nat) (s : World σ) :
    Option (stwi_err_t × World σ) :=
  match stwi_write_byte.loop fuel bus 8 byte s with
  | none => none
  | some (err, s) =>
    if err ≠ STWI_ERR_OK then some (err, s)
    else
      match stwi_read_bit fuel bus STWI_PIN_LOW s with
      | none => none
      | some (err, bit, s) =>
        if err ≠ STWI_ERR_OK then some (err, s)
        else some (if bit = STWI_PIN_LOW then STWI_ERR_OK else STWI_ERR_NACK, s)

/-- The `for (int i = 0; i < 8; i++)` loop of `stwi_read_byte`; the first argument
is the number of iterations left, `data` the current content of the `uint8_t`
accumulator.  The local `bit` is not initialised in C and is read only after
`stwi_read_bit` has succeeded (its content before the call is LOW here, without
effect). -/
def stwi_read_byte.loop (fuel : Nat) (bus : stwi σ) :
    Nat → Nat → World σ → Option (stwi_err_t × Nat × World σ)
  | 0, data, s => some (STWI_ERR_OK, data, s)
  | n + 1, data, s =>
    match stwi_read_bit fuel bus STWI_PIN_LOW s with
    | none => none
    | some (err, bit, s) =>
      if err ≠ STWI_ERR_OK then some (err, data, s)
      else
        stwi_read_byte.loop fuel bus n
          ((data <<< 1 ||| (if bit = STWI_PIN_HIGH then 0x01 else 0x00)) % 256) s

/-- Receive one byte and send ACK or NACK bit.  The argument `byte` is the content
of `*byte` before the call, the returned number its content after the call. -/
def stwi_read_byte (fuel : Nat) (bus : stwi σ) (byte : Nat) (ack : Bool) (s : World σ) :
    Option (stwi_err_t × Nat × World σ) :=
  match stwi_read_byte.loop fuel bus 8 0 s with
  | none => none
  | some (err, data, s) =>
    if err ≠ STWI_ERR_OK then some (err, byte, s)
    else
      match stwi_write_bit fuel bus (if ack then STWI_PIN_LOW else STWI_PIN_HIGH) s with
      | none => none
      | some (err, s) =>
        if err ≠ STWI_ERR_OK then some (err, byte, s)
        else some (STWI_ERR_OK, data, s)

/-! ## Functions of `stwi.c` -/

/-- The statement `STWI_ASSERT(!(res.err = op), return res;)`, where `r` is the
outcome of evaluating `op`: the error code is stored in `res.err`; a non-zero code
returns (`ret` builds the value returned from `res` and the world), a zero code
goes on with the rest `k` of the function. -/
def STWI_ASSERT {β : Type} (r : Option (stwi_err_t × World σ)) (res : stwi_res)
    (ret : stwi_res → World σ → β) (k : stwi_res → World σ → Option β) : Option β :=
  match r with
  | none => none
  | some (err, s) =>
    if err ≠ STWI_ERR_OK then some (ret { res with err := err } s)
    else k { res with err := err } s

/-- The `while (size--)` loop of `stwi_dev_write`, followed by the rest `k` of the
function.  `buff` is the memory the pointer `buff` points to, first byte first;
`*buff++` reads its head and advances (a read past the end of the list, undefined
in C, reads 0). -/
def stwi_dev_write.loop (fuel : Nat) (bus : stwi σ)
    (k : stwi_res → World σ → Option (stwi_res × World σ)) :
    Nat → List Nat → stwi_res → World σ → Option (stwi_res × World σ)
  | 0, _, res, s => k res s
  | size + 1, buff, res, s =>
    STWI_ASSERT (stwi_write_byte fuel bus (buff.headD 0) s) res (fun res s => (res, s))
      fun res s =>
        stwi_dev_write.loop fuel bus k size buff.tail
          { res with data_size := res.data_size + 1 } s

/-- Send data array to the specified register of the device with 7-bit address.
`addr` is a `uint8_t`, `reg` a `uint16_t`; the argument of `stwi_write_byte` is
converted to `uint8_t`. -/
def stwi_dev_write (fuel : Nat) (bus : stwi σ) (addr : Nat) (reg_size : stwi_reg_size_t)
    (reg : Nat) (buff : List Nat) (size : Nat) (s : World σ) : Option (stwi_res × World σ) :=
  let res : stwi_res := { err := STWI_ERR_OK, stage := STWI_STAGE_START, data_size := 0 }
  /- Generate start condition -/
  let res := { res with stage := STWI_STAGE_START }
  STWI_ASSERT (stwi_start fuel bus s) res (fun res s => (res, s)) fun res s =>
  /- Send device address with WRITE bit -/
  let res := { res with stage := STWI_STAGE_ADDR }
  STWI_ASSERT (stwi_write_byte fuel bus ((addr <<< 1 ||| 0x00) % 256) s) res
    (fun res s => (res, s)) fun res s =>
  /- Send register high byte -/
  let res := { res with stage := STWI_STAGE_REG }
  (if reg_size = STWI_REG_16 then
    STWI_ASSERT (stwi_write_byte fuel bus ((reg >>> 8 &&& 0xFF) % 256) s) res
      (fun res s => (res, s))
   else fun k => k res s) fun res s =>
  /- Send register low byte -/
  (if reg_size ≠ STWI_REG_0 then
    STWI_ASSERT (stwi_write_byte fuel bus ((reg &&& 0xFF) % 256) s) res
      (fun res s => (res, s))
   else fun k => k res s) fun res s =>
  /- Send data -/
  let res := { res with stage := STWI_STAGE_DATA }
  stwi_dev_write.loop fuel bus (fun res s =>
    /- Generate stop condition -/
    let res := { res with stage := STWI_STAGE_STOP }
    STWI_ASSERT (stwi_stop fuel bus s) res (fun res s => (res, s)) fun res s =>
    some (res, s)) size buff res s

/-- The `while (size--)` loop of `stwi_dev_read`, followed by the rest `k` of the
function.  `mem` is the caller's buffer and `i` the offset of the pointer `buff`
in it; `stwi_read_byte(bus, buff++, size > 0)` works on `mem[i]` and advances,
`size > 0` being evaluated after the decrement (an access past the end of the
list, undefined in C, reads 0 and stores nothing). -/
def stwi_dev_read.loop (fuel : Nat) (bus : stwi σ)
    (k : stwi_res → List Nat → World σ → Option (stwi_res × List Nat × World σ)) :
    Nat → Nat → List Nat → stwi_res → World σ → Option (stwi_res × List Nat × World σ)
  | 0, _, mem, res, s => k res mem s
  | size + 1, i, mem, res, s =>
    match stwi_read_byte fuel bus (mem.getD i 0) (decide (size > 0)) s with
    | none => none
    | some (err, byte, s) =>
      STWI_ASSERT (some (err, s)) res (fun res s => (res, mem.set i byte, s))
        fun res s =>
          stwi_dev_read.loop fuel bus k size (i + 1) (mem.set i byte)
            { res with data_size := res.data_size + 1 } s

/-- Receive data array from the specified register of the device with 7-bit
address.  The list returned with the result is the caller's buffer after the
call. -/
def stwi_dev_read (fuel : Nat) (bus : stwi σ) (addr : Nat) (reg_size : stwi_reg_size_t)
    (reg : Nat) (buff : List Nat) (size : Nat) (s : World σ) :
    Option (stwi_res × List Nat × World σ) :=
  let res : stwi_res := { err := STWI_ERR_OK, stage := STWI_STAGE_START, data_size := 0 }
  /- Generate start condition -/
  let res := { res with stage := STWI_STAGE_START }
  STWI_ASSERT (stwi_start fuel bus s) res (fun res s => (res, buff, s)) fun res s =>
  /- Send device address with WRITE bit -/
  let res := { res with stage := STWI_STAGE_ADDR }
  STWI_ASSERT (stwi_write_byte fuel bus ((addr <<< 1 ||| 0x00) % 256) s) res
    (fun res s => (res, buff, s)) fun res s =>
  /- Send register high byte -/
  let res := { res with stage := STWI_STAGE_REG }
  (if reg_size = STWI_REG_16 then
    STWI_ASSERT (stwi_write_byte fuel bus ((reg >>> 8 &&& 0xFF) % 256) s) res
      (fun res s => (res, buff, s))
   else fun k => k res s) fun res s =>
  /- Send register low byte -/
  (if reg_size ≠ STWI_REG_0 then
    STWI_ASSERT (stwi_write_byte fuel bus ((reg &&& 0xFF) % 256) s) res
      (fun res s => (res, buff, s))
   else fun k => k res s) fun res s =>
  /- Generate repeated start -/
  let res := { res with stage := STWI_STAGE_START }
  STWI_ASSERT (stwi_start fuel bus s) res (fun res s => (res, buff, s)) fun res s =>
  /- Send device address with READ bit -/
  let res := { res with stage := STWI_STAGE_ADDR }
  STWI_ASSERT (stwi_write_byte fuel bus ((addr <<< 1 ||| 0x01) % 256) s) res
    (fun res s => (res, buff, s)) fun res s =>
  /- Receive data -/
  let res := { res with stage := STWI_STAGE_DATA }
  stwi_dev_read.loop fuel bus (fun res mem s =>
    /- Generate stop condition -/
    let res := { res with stage := STWI_STAGE_STOP }
    STWI_ASSERT (stwi_stop fuel bus s) res (fun res s => (res, mem, s)) fun res s =>
    some (res, mem, s)) size 0 buff res s

/-! ## The pin-simulation fixture of `test/main.c` -/

/-- GPIO pin of the fixture (`struct gpio_pin`).  `in_samples` is the rest of the
oscillogram of the connected external device, `samples` the recorded oscillogram
(`samples_count` is its length). -/
structure gpio_pin where
  real : stwi_pin_state_t
  out : stwi_pin_state_t
  out_set : Bool
  in_samples : List Char
  samples : List Char
  deriving DecidableEq, Repr

/-- Set default pin state. -/
def gpio_pin_new : gpio_pin :=
  { real := STWI_PIN_HIGH, out := STWI_PIN_HIGH, out_set := false, in_samples := [],
    samples := [] }

/-- Get actual pin state. -/
def gpio_pin_read (pin : gpio_pin) : stwi_pin_state_t := pin.real

/-- Change pin state from the MCU side.  The Boolean returned is the value of the
expression checked by `TEST_ASSERT(!pin->out_set)`. -/
def gpio_pin_write (pin : gpio_pin) (state : stwi_pin_state_t) : Bool × gpio_pin :=
  (!pin.out_set, { pin with out_set := true, out := state })

/-- Set oscillogram of the connected external device. -/
def gpio_pin_set_in (pin : gpio_pin) (samples : List Char) : gpio_pin :=
  { pin with in_samples := samples }

/-- Save current GPIO state to the log.  The Boolean returned is the value of the
expression checked by `TEST_ASSERT(pin->samples_count < sizeof(pin->samples))`. -/
def gpio_pin_sample (pin : gpio_pin) : Bool × gpio_pin :=
  let pin_in :=
    if pin.in_samples.head? = some '_' ∨ pin.in_samples.head? = some '\\' then STWI_PIN_LOW
    else STWI_PIN_HIGH
  let in_samples := pin.in_samples.tail
  let new_real :=
    if pin.out = STWI_PIN_LOW ∨ pin_in = STWI_PIN_LOW then STWI_PIN_LOW else STWI_PIN_HIGH
  let c :=
    if pin.real = new_real then (if new_real = STWI_PIN_HIGH then '^' else '_')
    else (if new_real = STWI_PIN_HIGH then '/' else '\\')
  (decide (pin.samples.length < 500),
    { pin with in_samples := in_samples, samples := pin.samples ++ [c], out_set := false,
               real := new_real })

/-- The static variables of the fixture: the two pins and the stretch timer.
`asserts_ok` stays true as long as no `TEST_ASSERT` of the pin functions has
failed (the model goes on after a failed assertion, the test would be aborted). -/
structure Fixture where
  pin_scl : gpio_pin
  pin_sda : gpio_pin
  stretch_timer : Int
  asserts_ok : Bool
  deriving DecidableEq, Repr

/-- The constant `stretch_timer_max`. -/
def stretch_timer_max : Int := 16

/-- The bus handle `stwi` of the fixture. -/
def fixture_bus : stwi Fixture where
  write_scl f state :=
    let r := gpio_pin_write f.pin_scl state
    { f with pin_scl := r.2, asserts_ok := f.asserts_ok && r.1 }
  write_sda f state :=
    let r := gpio_pin_write f.pin_sda state
    { f with pin_sda := r.2, asserts_ok := f.asserts_ok && r.1 }
  read_scl f := (gpio_pin_read f.pin_scl, f)
  read_sda f := (gpio_pin_read f.pin_sda, f)
  timeout_start f := { f with stretch_timer := stretch_timer_max }
  timeout_check f := (decide (f.stretch_timer > 0), f)
  delay f :=
    let r1 := gpio_pin_sample f.pin_scl
    let r2 := gpio_pin_sample f.pin_sda
    { pin_scl := r1.2, pin_sda := r2.2,
      stretch_timer := if f.stretch_timer ≠ 0 then f.stretch_timer - 1 else f.stretch_timer,
      asserts_ok := f.asserts_ok && r1.1 && r2.1 }

/-- The state built by `setUp`, followed by `gpio_pin_set_in` on both pins (the
empty oscillogram is the default). -/
def setUp (scl_in sda_in : List Char) : World Fixture :=
  { st := { pin_scl := gpio_pin_set_in gpio_pin_new scl_in,
            pin_sda := gpio_pin_set_in gpio_pin_new sda_in,
            stretch_timer := 0, asserts_ok := true },
    trace := [] }

/-! ## Transactions as sequences of sub-operations

The reference against which the two transaction functions are compared: a list
of sub-operations run one after the other until the first one fails. -/

/-- A sub-operation of a transaction: START (or repeated START), write-byte of a
value, read-byte with an acknowledge flag, STOP. -/
inductive Op where
  | start
  | write_byte (byte : Nat)
  | read_byte (ack : Bool)
  | stop
  deriving DecidableEq, Repr

/-- Run one sub-operation: the driver function it names.  The middle component is
the byte stored by a successful read-byte. -/
def Op.run (fuel : Nat) (bus : stwi σ) (op : Op) (s : World σ) :
    Option (stwi_err_t × List Nat × World σ) :=
  match op with
  | Op.start => (stwi_start fuel bus s).map fun r => (r.1, [], r.2)
  | Op.write_byte byte => (stwi_write_byte fuel bus byte s).map fun r => (r.1, [], r.2)
  | Op.read_byte ack =>
    (stwi_read_byte fuel bus 0 ack s).map fun r =>
      (r.1, if r.1 = STWI_ERR_OK then [r.2.1] else [], r.2.2)
  | Op.stop => (stwi_stop fuel bus s).map fun r => (r.1, [], r.2)

/-- Run a list of sub-operations in order, stopping after the first one that
returns an error.  The result is the error code of the last sub-operation run
(`STWI_ERR_OK` for the empty list), the number of sub-operations that succeeded,
the bytes stored by the successful read-bytes, and the world reached. -/
def run_ops (fuel : Nat) (bus : stwi σ) :
    List Op → World σ → Option (stwi_err_t × Nat × List Nat × World σ)
  | [], s => some (STWI_ERR_OK, 0, [], s)
  | op :: ops, s =>
    match op.run fuel bus s with
    | none => none
    | some (err, rx, s1) =>
      if err ≠ STWI_ERR_OK then some (err, 0, [], s1)
      else
        match run_ops fuel bus ops s1 with
        | none => none
        | some (e, n, rxs, s2) => some (e, n + 1, rx ++ rxs, s2)

/-- The register bytes `R(w, reg)` of the specification: none for `STWI_REG_0`, the
low byte for `STWI_REG_8`, the high byte then the low byte for `STWI_REG_16`. -/
def reg_bytes (reg_size : stwi_reg_size_t) (reg : Nat) : List Nat :=
  match reg_size with
  | STWI_REG_0 => []
  | STWI_REG_8 => [reg &&& 0xFF]
  | STWI_REG_16 => [reg >>> 8 &&& 0xFF, reg &&& 0xFF]

/-- The first `size` bytes read through the pointer `buff` (0 past the end). -/
def payload : Nat → List Nat → List Nat
  | 0, _ => []
  | size + 1, buff => buff.headD 0 :: payload size buff.tail

/-- The sub-operations of the write transaction of the specification (section 4.5)
for the address byte `a`, the register bytes `regs` and the payload `p`. -/
def write_ops (a : Nat) (regs p : List Nat) : List Op :=
  [Op.start, Op.write_byte a] ++ regs.map Op.write_byte ++ p.map Op.write_byte ++ [Op.stop]

/-- The read-bytes of a read transaction of `n` bytes: byte `i` is acknowledged iff
it is not the last one. -/
def read_data_ops (n : Nat) : List Op :=
  (List.range n).map fun i => Op.read_byte (decide (i + 1 < n))

/-- The sub-operations of the read transaction of the specification (section 4.6)
for the write-direction address byte `a`, the register bytes `regs`, the
read-direction address byte `a1` and `n` data bytes. -/
def read_ops (a : Nat) (regs : List Nat) (a1 n : Nat) : List Op :=
  [Op.start, Op.write_byte a] ++ regs.map Op.write_byte ++ [Op.start, Op.write_byte a1]
    ++ read_data_ops n ++ [Op.stop]

/-- The result of a write transaction with `r` register bytes and `n` payload bytes
whose sub-operation number `idx` (from 0) returned `err`, or all of whose
sub-operations succeeded (`idx = 3 + r + n`). -/
def write_res (r n : Nat) (err : stwi_err_t) (idx : Nat) : stwi_res :=
  if idx = 0 then ⟨err, STWI_STAGE_START, 0⟩
  else if idx = 1 then ⟨err, STWI_STAGE_ADDR, 0⟩
  else if idx < 2 + r then ⟨err, STWI_STAGE_REG, 0⟩
  else if idx < 2 + r + n then ⟨err, STWI_STAGE_DATA, idx - (2 + r)⟩
  else ⟨err, STWI_STAGE_STOP, n⟩

/-- The result of a read transaction with `r` register bytes and `n` data bytes
whose sub-operation number `idx` (from 0) returned `err`, or all of whose
sub-operations succeeded (`idx = 5 + r + n`). -/
def read_res (r n : Nat) (err : stwi_err_t) (idx : Nat) : stwi_res :=
  if idx = 0 then ⟨err, STWI_STAGE_START, 0⟩
  else if idx = 1 then ⟨err, STWI_STAGE_ADDR, 0⟩
  else if idx < 2 + r then ⟨err, STWI_STAGE_REG, 0⟩
  else if idx = 2 + r then ⟨err, STWI_STAGE_START, 0⟩
  else if idx = 3 + r then ⟨err, STWI_STAGE_ADDR, 0⟩
  else if idx < 4 + r + n then ⟨err, STWI_STAGE_DATA, idx - (4 + r)⟩
  else ⟨err, STWI_STAGE_STOP, n⟩

/-! ## Auxiliary definitions for the statements -/

/-- The buffer `mem` after the bytes `rx` have been stored from offset `i` on. -/
def store : List Nat → Nat → List Nat → List Nat
  | mem, _, [] => mem
  | mem, i, b :: bs => store (mem.set i b) (i + 1) bs

/-- The read-bytes of the data loop of `stwi_dev_read` with `size` bytes left. -/
def read_tail : Nat → List Op
  | 0 => []
  | size + 1 => Op.read_byte (decide (size > 0)) :: read_tail size

/-- The callback invocations made on the way from world `s` to world `s1`. -/
def calls_since (s s1 : World σ) : List Call := s1.trace.drop s.trace.length

/-- The calls a stretch wait can make: `read_scl`, `timeout_start`, `timeout_check`
and `delay`. -/
def is_wait_call : Call → Bool
  | Call.read_scl _ => true
  | Call.timeout_start => true
  | Call.timeout_check _ => true
  | Call.delay => true
  | _ => false

/-- The levels returned by the `read_sda` calls of a trace, in order. -/
def sda_samples : List Call → List stwi_pin_state_t
  | [] => []
  | Call.read_sda v :: t => v :: sda_samples t
  | _ :: t => sda_samples t

/-- The number of clock pulses of a trace: the calls `write_scl(HIGH)`. -/
def scl_pulses (t : List Call) : Nat := t.count (Call.write_scl STWI_PIN_HIGH)

/-- The byte made of eight levels, the first one being the most significant bit:
the sum over `i` of `2^(7-i)` for the levels `i` that are HIGH. -/
def byte_msb (bits : List stwi_pin_state_t) : Nat :=
  (bits.enum.map fun ib => if ib.2 = STWI_PIN_HIGH then 2 ^ (7 - ib.1) else 0).sum

/-- The bytes made of a list of sampled levels, eight levels a byte; an incomplete
last group is dropped. -/
def bytes_of_samples : List stwi_pin_state_t → List Nat
  | b7 :: b6 :: b5 :: b4 :: b3 :: b2 :: b1 :: b0 :: rest =>
    byte_msb [b7, b6, b5, b4, b3, b2, b1, b0] :: bytes_of_samples rest
  | _ => []

/-- The number of acknowledge bits a sub-operation samples: one per write-byte. -/
def Op.acks : Op → Nat
  | Op.write_byte _ => 1
  | _ => 0

/-- The sub-operations that store no byte: START and write-byte. -/
def Op.is_tx : Op → Bool
  | Op.start => true
  | Op.write_byte _ => true
  | _ => false

/-- The sub-operations that sample no acknowledge bit: read-byte and STOP. -/
def Op.is_rx : Op → Bool
  | Op.read_byte _ => true
  | Op.stop => true
  | _ => false

/-! ## Scenarios of `test/main.c` used to instantiate the statements -/

/-- The world reached by a run of sub-operations (the initial world if the run does
not end within the fuel). -/
def ops_world (fuel : Nat) (bus : stwi σ) (ops : List Op) (s : World σ) : World σ :=
  match run_ops fuel bus ops s with
  | some r => r.2.2.2
  | none => s

/-- SDA oscillogram of the slave while the master generates a START. -/
def sda_start : List Char := "^^^^".toList

/-- SDA oscillogram of a slave that acknowledges the byte sent after a START. -/
def sda_ack : List Char := "^^^^^^^^^^^^^^^^^^^^^^^^^^^^^^^^\\___".toList

/-- SDA oscillogram of a slave that acknowledges a byte sent after another byte. -/
def sda_ack_next : List Char := "/^^^^^^^^^^^^^^^^^^^^^^^^^^^^^^^\\___".toList

/-- SDA oscillogram of the slave of `test_dev_write_reg16`. -/
def sda_write_reg16 : List Char :=
  sda_start ++ sda_ack ++ sda_ack_next ++ sda_ack_next ++ sda_ack_next ++ sda_ack_next

/-- SDA oscillogram of the slave of `test_dev_write_reg8`. -/
def sda_write_reg8 : List Char :=
  sda_start ++ sda_ack ++ sda_ack_next ++ sda_ack_next ++ sda_ack_next

/-- SDA oscillogram of the slave of `test_dev_write_err_data`. -/
def sda_write_err_data : List Char := sda_start ++ sda_ack ++ sda_ack_next ++ sda_ack_next

/-- SCL oscillogram of a slave that leaves the clock alone for `n` samples and then
holds it low for 18 samples (clock stretch). -/
def scl_stretch_after (n : Nat) : List Char :=
  List.replicate n '^' ++ "\\_________________".toList

/-- SDA oscillogram of the slave of `test_dev_read_reg16`. -/
def sda_read_reg16 : List Char :=
  sda_start ++ sda_ack ++ sda_ack_next ++ sda_ack_next ++ sda_start ++ sda_ack
    ++ "/^^^\\___/^^^^^^^^^^^^^^^^^^^^^^^^^^^".toList
    ++ "^^^^^^^^^^^^^^^^^^^^^^^^^^^^\\___/^^^".toList

/-- SDA oscillogram of the slave of `test_dev_read_err_stop`. -/
def sda_read_reg8 : List Char :=
  sda_start ++ sda_ack ++ sda_ack ++ "/^^^".toList ++ sda_ack
    ++ "/^^^\\___/^^^^^^^^^^^^^^^^^^^^^^^^^^^".toList
    ++ "^^^^^^^^^^^^^^^^^^^^^^^^^^^^\\___/^^^".toList

/-- The result and the world after `stwi_dev_write`, for a call that returns. -/
def write_outcome (r : Option (stwi_res × World Fixture)) : stwi_res × World Fixture :=
  r.getD (⟨STWI_ERR_OK, STWI_STAGE_START, 0⟩, setUp [] [])

/-- The result, the buffer and the world after `stwi_dev_read`, for a call that
returns. -/
def read_outcome (r : Option (stwi_res × List Nat × World Fixture)) :
    stwi_res × List Nat × World Fixture :=
  r.getD (⟨STWI_ERR_OK, STWI_STAGE_START, 0⟩, [], setUp [] [])

/-- The call of `test_dev_write_reg16`. -/
def test_dev_write_reg16 : stwi_res × World Fixture :=
  write_outcome (stwi_dev_write 20 fixture_bus 0x25 STWI_REG_16 0xF1F2 [0x12, 0x34] 2
    (setUp [] sda_write_reg16))

/-- The call of `test_dev_write_reg8`. -/
def test_dev_write_reg8 : stwi_res × World Fixture :=
  write_outcome (stwi_dev_write 20 fixture_bus 0x25 STWI_REG_8 0xF2 [0x12, 0x34] 2
    (setUp [] sda_write_reg8))

/-- The call of `test_dev_write_err_data`. -/
def test_dev_write_err_data : stwi_res × World Fixture :=
  write_outcome (stwi_dev_write 20 fixture_bus 0x25 STWI_REG_8 0xF2 [0x12, 0x34] 2
    (setUp [] sda_write_err_data))

/-- The call of `test_dev_read_reg16`. -/
def test_dev_read_reg16 : stwi_res × List Nat × World Fixture :=
  read_outcome (stwi_dev_read 20 fixture_bus 0x25 STWI_REG_16 0xF1F2 [0, 0] 2
    (setUp [] sda_read_reg16))

/-- A read of no byte, the buffer holding 7 and 9, from a slave that acknowledges. -/
def test_dev_read_size0 : stwi_res × List Nat × World Fixture :=
  read_outcome (stwi_dev_read 20 fixture_bus 0x25 STWI_REG_8 0xF2 [7, 9] 0
    (setUp [] sda_read_reg8))

/-- The call of `test_dev_read_err_data`. -/
def test_dev_read_err_data : stwi_res × List Nat × World Fixture :=
  read_outcome (stwi_dev_read 20 fixture_bus 0x25 STWI_REG_8 0xF2 [0, 0] 2
    (setUp (scl_stretch_after 152) sda_read_reg8))

/-- The world after a driver function that returns an error code, for a call that
returns (the world `s` otherwise). -/
def err_world {σ : Type} (r : Option (stwi_err_t × World σ)) (s : World σ) : World σ :=
  match r with
  | some x => x.2
  | none => s

/-- The world of `test_dev_write_err_data` when the second payload byte is about to
be sent. -/
def err_data_before : World Fixture :=
  ops_world 20 fixture_bus
    ([Op.start, Op.write_byte ((0x25 <<< 1 ||| 0x00) % 256)]
      ++ (reg_bytes STWI_REG_8 0xF2).map Op.write_byte
      ++ ([0x12, 0x34].take 1).map Op.write_byte) (setUp [] sda_write_err_data)

/-- The world of `test_dev_write_err_data` when the write-byte of the second payload
byte has returned. -/
def err_data_after : World Fixture :=
  err_world (stwi_write_byte 20 fixture_bus 0x34 err_data_before) err_data_before

/-- The world of `test_dev_write_err_addr` when START has returned. -/
def err_addr_before : World Fixture :=
  err_world (stwi_start 20 fixture_bus (setUp [] [])) (setUp [] [])

/-- The world of `test_dev_write_err_addr` when the write-byte of the address has
returned. -/
def err_addr_after : World Fixture :=
  err_world (stwi_write_byte 20 fixture_bus ((0x25 <<< 1 ||| 0x00) % 256) err_addr_before)
    err_addr_before

/-- The world of `test_dev_write_err_stop` when STOP is about to be generated. -/
def write_err_stop_before : World Fixture :=
  ops_world 20 fixture_bus
    ([Op.start, Op.write_byte ((0x25 <<< 1 ||| 0x00) % 256)]
      ++ (reg_bytes STWI_REG_8 0xF2).map Op.write_byte ++ [0x12, 0x34].map Op.write_byte)
    (setUp (scl_stretch_after 148) sda_write_reg8)

/-- The world of `test_dev_read_err_stop` when STOP is about to be generated. -/
def read_err_stop_before : World Fixture :=
  ops_world 20 fixture_bus
    ([Op.start, Op.write_byte ((0x25 <<< 1 ||| 0x00) % 256)]
      ++ (reg_bytes STWI_REG_8 0xF2).map Op.write_byte
      ++ [Op.start, Op.write_byte ((0x25 <<< 1 ||| 0x01) % 256)] ++ read_data_ops 2)
    (setUp (scl_stretch_after 188) sda_read_reg8)

/-! ## Further scenarios and trace projections -/

/-- SDA oscillogram of the slave of `test_dev_write_err_reg`. -/
def sda_write_err_reg : List Char := sda_start ++ sda_ack

/-- The call of `test_dev_write_err_reg`. -/
def test_dev_write_err_reg : stwi_res × World Fixture :=
  write_outcome (stwi_dev_write 20 fixture_bus 0x25 STWI_REG_8 0xF2 [0x12, 0x34] 2
    (setUp [] sda_write_err_reg))

/-- The call of `test_dev_write_err_stop`. -/
def test_dev_write_err_stop : stwi_res × World Fixture :=
  write_outcome (stwi_dev_write 20 fixture_bus 0x25 STWI_REG_8 0xF2 [0x12, 0x34] 2
    (setUp (scl_stretch_after 148) sda_write_reg8))

/-- SDA oscillogram of the slave of `test_dev_read_err_reg`. -/
def sda_read_err_reg : List Char := sda_start ++ sda_ack

/-- The call of `test_dev_read_err_reg`. -/
def test_dev_read_err_reg : stwi_res × List Nat × World Fixture :=
  read_outcome (stwi_dev_read 20 fixture_bus 0x25 STWI_REG_8 0xF2 [0, 0] 2
    (setUp [] sda_read_err_reg))

/-- The levels passed to the `write_scl` calls of a trace, in order. -/
def scl_writes : List Call → List stwi_pin_state_t
  | [] => []
  | Call.write_scl v :: t => v :: scl_writes t
  | _ :: t => scl_writes t

/-- The levels passed to the `write_sda` calls of a trace, in order. -/
def sda_writes : List Call → List stwi_pin_state_t
  | [] => []
  | Call.write_sda v :: t => v :: sda_writes t
  | _ :: t => sda_writes t

/-- The levels returned by the `read_scl` calls of a trace, in order. -/
def scl_reads : List Call → List stwi_pin_state_t
  | [] => []
  | Call.read_scl v :: t => v :: scl_reads t
  | _ :: t => scl_reads t

/-- The world in which the stretch wait of `stwi_start` begins: SDA and SCL have been
released, each release followed by a delay. -/
def start_raised (bus : stwi σ) (s : World σ) : World σ :=
  call_delay bus (call_write_scl bus STWI_PIN_HIGH
    (call_delay bus (call_write_sda bus STWI_PIN_HIGH s)))

/-- The bus handle of the fixture with clock stretching disabled: `timeout_check`
returns `false` always, as the comment of `struct stwi` prescribes. -/
def no_stretch_bus : stwi Fixture :=
  { fixture_bus with timeout_check := fun f => (false, f) }

/-- Bit `i` (from 0, most significant first) of a byte as sent on SDA according to
the specification: HIGH iff `((b >> (7-i)) & 1) = 1`. -/
def bit_level (b i : Nat) : stwi_pin_state_t :=
  if (b >>> (7 - i)) &&& 1 = 1 then STWI_PIN_HIGH else STWI_PIN_LOW

/-- The levels the loop of `stwi_write_byte` passes to `stwi_write_bit` in `n`
iterations starting with the content `byte`: mask 0x80, then shift left. -/
def sent_levels : Nat → Nat → List stwi_pin_state_t
  | 0, _ => []
  | n + 1, byte =>
    (if byte &&& 0x80 ≠ 0 then STWI_PIN_HIGH else STWI_PIN_LOW)
      :: sent_levels n ((byte <<< 1) % 256)

/-- The calls of a `stwi_write_bit` that succeeds, `w` being the calls of its stretch
wait. -/
def write_bit_calls (bit : stwi_pin_state_t) (w : List Call) : List Call :=
  [Call.write_sda bit, Call.delay, Call.write_scl STWI_PIN_HIGH, Call.delay] ++ w
    ++ [Call.delay, Call.write_scl STWI_PIN_LOW, Call.delay]

/-- The calls of a `stwi_read_bit` that succeeds and samples `bit`, `w` being the
calls of its stretch wait. -/
def read_bit_calls (bit : stwi_pin_state_t) (w : List Call) : List Call :=
  [Call.write_sda STWI_PIN_HIGH, Call.delay, Call.write_scl STWI_PIN_HIGH, Call.delay] ++ w
    ++ [Call.delay, Call.read_sda bit, Call.write_scl STWI_PIN_LOW, Call.delay]

/-- SDA oscillogram of the slave of `test_dev_write_reg0`. -/
def sda_write_reg0 : List Char := sda_start ++ sda_ack ++ sda_ack_next ++ sda_ack_next

/-- The call of `test_dev_write_reg0`. -/
def test_dev_write_reg0 : stwi_res × World Fixture :=
  write_outcome (stwi_dev_write 20 fixture_bus 0x25 STWI_REG_0 0x0 [0x12, 0x34] 2
    (setUp [] sda_write_reg0))

/-- The call of `test_dev_write_err_addr`. -/
def test_dev_write_err_addr : stwi_res × World Fixture :=
  write_outcome (stwi_dev_write 20 fixture_bus 0x25 STWI_REG_8 0xF2 [0x12, 0x34] 2
    (setUp [] []))

/-- The value of `res.stage` when each sub-operation of `stwi_dev_write` begins, for
`r` register bytes and `n` payload bytes: the assignments to `res.stage` in
`stwi.c` precede START, the address byte, the register bytes, the payload loop and
STOP. -/
def write_stages (r n : Nat) : List stwi_stage_t :=
  [STWI_STAGE_START, STWI_STAGE_ADDR] ++ List.replicate r STWI_STAGE_REG
    ++ List.replicate n STWI_STAGE_DATA ++ [STWI_STAGE_STOP]

/-- The value of `res.stage` when each sub-operation of `stwi_dev_read` begins, for
`r` register bytes and `n` data bytes. -/
def read_stages (r n : Nat) : List stwi_stage_t :=
  [STWI_STAGE_START, STWI_STAGE_ADDR] ++ List.replicate r STWI_STAGE_REG
    ++ [STWI_STAGE_START, STWI_STAGE_ADDR] ++ List.replicate n STWI_STAGE_DATA
    ++ [STWI_STAGE_STOP]

/-- SDA oscillogram of the slave of `test_dev_read_err_rep_addr`. -/
def sda_read_err_rep_addr : List Char := sda_start ++ sda_ack ++ sda_ack

/-- The call of `test_dev_read_err_rep_addr`. -/
def test_dev_read_err_rep_addr : stwi_res × List Nat × World Fixture :=
  read_outcome (stwi_dev_read 20 fixture_bus 0x25 STWI_REG_8 0xF2 [0, 0] 2
    (setUp [] sda_read_err_rep_addr))

/-- The world of `test_dev_read_err_rep_addr` when the repeated START has returned. -/
def rep_addr_before : World Fixture :=
  ops_world 20 fixture_bus
    ((read_ops ((0x25 <<< 1 ||| 0x00) % 256) (reg_bytes STWI_REG_8 0xF2)
      ((0x25 <<< 1 ||| 0x01) % 256) 2).take 4) (setUp [] sda_read_err_rep_addr)

/-- The world of `test_dev_read_err_rep_addr` when the write-byte of the second
address byte has returned. -/
def rep_addr_after : World Fixture :=
  err_world (stwi_write_byte 20 fixture_bus ((0x25 <<< 1 ||| 0x01) % 256) rep_addr_before)
    rep_addr_before

/-- The call of `test_dev_read_err_start`. -/
def test_dev_read_err_start : stwi_res × List Nat × World Fixture :=
  read_outcome (stwi_dev_read 20 fixture_bus 0x25 STWI_REG_8 0xF2 [0, 0] 2
    (setUp (scl_stretch_after 0) []))

/-- The call of `test_dev_read_err_rep_start`. -/
def test_dev_read_err_rep_start : stwi_res × List Nat × World Fixture :=
  read_outcome (stwi_dev_read 20 fixture_bus 0x25 STWI_REG_8 0xF2 [0, 0] 2
    (setUp (scl_stretch_after 76) sda_read_err_rep_addr))

/-- The call of `test_dev_read_err_addr`. -/
def test_dev_read_err_addr : stwi_res × List Nat × World Fixture :=
  read_outcome (stwi_dev_read 20 fixture_bus 0x25 STWI_REG_8 0xF2 [0, 0] 2 (setUp [] []))

/-- A write with a 16-bit register to a slave that acknowledges the address only. -/
def test_dev_write_err_reg16_high : stwi_res × World Fixture :=
  write_outcome (stwi_dev_write 20 fixture_bus 0x25 STWI_REG_16 0xF1F2 [0x12, 0x34] 2
    (setUp [] (sda_start ++ sda_ack)))

/-- A write with a 16-bit register to a slave that acknowledges the address and the
high register byte only. -/
def test_dev_write_err_reg16_low : stwi_res × World Fixture :=
  write_outcome (stwi_dev_write 20 fixture_bus 0x25 STWI_REG_16 0xF1F2 [0x12, 0x34] 2
    (setUp [] (sda_start ++ sda_ack ++ sda_ack_next)))

/-- The number of sub-operations a run has completed when it returns. -/
def ops_count {σ : Type} (r : Option (stwi_err_t × Nat × List Nat × World σ)) :
    Option Nat :=
  r.map fun x => x.2.1

/-- The world of the byte tests of `test/main.c` when the byte function is called:
`stwi_start` on the state built by `setUp`, then `gpio_pin_set_in(&pin_sda, sda_in)`. -/
def started_with (sda_in : List Char) : World Fixture :=
  let s := err_world (stwi_start 20 fixture_bus (setUp [] [])) (setUp [] [])
  { s with st := { s.st with pin_sda := gpio_pin_set_in s.st.pin_sda sda_in } }

/-- The error code, the byte and the world after `stwi_read_byte`, for a call that
returns. -/
def read_byte_outcome (r : Option (stwi_err_t × Nat × World Fixture)) :
    stwi_err_t × Nat × World Fixture :=
  r.getD (STWI_ERR_OK, 0, setUp [] [])

/-- The call of `stwi_write_byte` in `test_write_byte_ack`. -/
def test_write_byte_ack : World Fixture :=
  err_world (stwi_write_byte 20 fixture_bus 0x5A (started_with sda_ack)) (started_with sda_ack)

/-- SDA oscillogram of the slave in the first read of `test_read_2bytes`: the byte
0xC2. -/
def sda_byte_c2 : List Char := "/^^^^^^^\\_______________/^^^\\____".toList

/-- The first call of `stwi_read_byte` in `test_read_2bytes`. -/
def test_read_2bytes_first : stwi_err_t × Nat × World Fixture :=
  read_byte_outcome (stwi_read_byte 20 fixture_bus 0x00 true (started_with sda_byte_c2))

/-- The first call of `stwi_write_byte` in `test_write_2bytes`. -/
def test_write_2bytes_first : World Fixture :=
  err_world (stwi_write_byte 20 fixture_bus 0xC2 (started_with sda_ack)) (started_with sda_ack)

/-! ## Worlds inside the primitives, counts and scenarios of the bit and byte tests -/

/-- The world in which the stretch wait of a bit, of START or of STOP begins: SDA has
been written with `bit` and SCL has been raised, each write followed by a delay. -/
def bit_raised (bus : stwi σ) (bit : stwi_pin_state_t) (s : World σ) : World σ :=
  call_delay bus (call_write_scl bus STWI_PIN_HIGH
    (call_delay bus (call_write_sda bus bit s)))

/-- The end of `stwi_start` after its stretch wait: SDA is driven low, then SCL, each
write followed by a delay. -/
def start_lowered (bus : stwi σ) (s : World σ) : World σ :=
  call_delay bus (call_write_scl bus STWI_PIN_LOW
    (call_delay bus (call_write_sda bus STWI_PIN_LOW s)))

/-- The end of `stwi_stop` after its stretch wait: SDA is released, followed by a
delay. -/
def stop_released (bus : stwi σ) (s : World σ) : World σ :=
  call_delay bus (call_write_sda bus STWI_PIN_HIGH s)

/-- The number of `delay` calls (quarter periods) of a trace. -/
def delay_count (t : List Call) : Nat := t.count Call.delay

/-- The calls `write_scl` and `write_sda`. -/
def is_pin_write : Call → Bool
  | Call.write_scl _ => true
  | Call.write_sda _ => true
  | _ => false

/-- Every `write_scl` or `write_sda` call of the trace is immediately followed by a
`delay` call. -/
def writes_delayed : List Call → Bool
  | [] => true
  | c :: t => (if is_pin_write c then decide (t.head? = some Call.delay) else true)
      && writes_delayed t

/-- The assertions `TEST_ASSERT(!pin->out_set)` of `gpio_pin_write` along a trace.
The two flags are `out_set` of `pin_scl` and of `pin_sda`: a write checks that the
flag of its pin is clear and sets it, `delay` clears both (`gpio_pin_sample`). -/
def pin_asserts_hold : Bool → Bool → List Call → Bool
  | _, _, [] => true
  | scl_set, sda_set, Call.write_scl _ :: t => !scl_set && pin_asserts_hold true sda_set t
  | scl_set, sda_set, Call.write_sda _ :: t => !sda_set && pin_asserts_hold scl_set true t
  | _, _, Call.delay :: t => pin_asserts_hold false false t
  | scl_set, sda_set, _ :: t => pin_asserts_hold scl_set sda_set t

/-- One round of the loop of `stwi_stretch_wait` that finds budget left: the timeout
check, the delay and the sample `v` of SCL. -/
def wait_round (v : stwi_pin_state_t) : List Call :=
  [Call.timeout_check true, Call.delay, Call.read_scl v]

/-- The world of `test_start` after `stwi_start`. -/
def test_start : World Fixture :=
  err_world (stwi_start 20 fixture_bus (setUp [] [])) (setUp [] [])

/-- The world of `test_repeated_start` after the second `stwi_start`. -/
def test_repeated_start : World Fixture :=
  err_world (stwi_start 20 fixture_bus test_start) test_start

/-- The world of `test_stop` after `stwi_stop`. -/
def test_stop : World Fixture :=
  err_world (stwi_stop 20 fixture_bus test_start) test_start

/-- No sample of SCL in the trace is LOW: SCL reads HIGH at every stretch wait. -/
def scl_never_low (t : List Call) : Bool :=
  (scl_reads t).all fun v => decide (v = STWI_PIN_HIGH)

/-- The number of quarter periods of a sub-operation without clock stretching: four
for START, three for STOP, four for each of the nine bits of a byte. -/
def op_delays : Op → Nat
  | Op.start => 4
  | Op.stop => 3
  | Op.write_byte _ => 36
  | Op.read_byte _ => 36

/-- A property of traces that holds for the pieces the driver functions are made of
(the calls of a stretch wait, a pin write followed by a delay, a sample of SDA) and
is kept by concatenation. -/
def trace_closed (Q : List Call → Prop) : Prop :=
  Q [] ∧ (∀ a b, Q a → Q b → Q (a ++ b)) ∧
  (∀ w, (∀ c ∈ w, is_wait_call c = true) → Q w) ∧
  (∀ v, Q [Call.write_sda v, Call.delay]) ∧
  (∀ v, Q [Call.write_scl v, Call.delay]) ∧
  (∀ v, Q [Call.read_sda v])

/-- The world of the byte tests of `test/main.c` that script both lines:
`stwi_start` on the state built by `setUp`, then `gpio_pin_set_in` on both pins. -/
def started_lines (scl_in sda_in : List Char) : World Fixture :=
  let s := err_world (stwi_start 20 fixture_bus (setUp [] [])) (setUp [] [])
  { s with st := { s.st with pin_scl := gpio_pin_set_in s.st.pin_scl scl_in,
                             pin_sda := gpio_pin_set_in s.st.pin_sda sda_in } }

/-- SDA oscillogram of the slave of `test_read_byte_ack`: the byte 0xA5. -/
def sda_byte_a5 : List Char := "/^^^\\___/^^^\\_______/^^^\\___".toList

/-- The call of `stwi_read_byte` in `test_read_byte_ack`. -/
def test_read_byte_ack : stwi_err_t × Nat × World Fixture :=
  read_byte_outcome (stwi_read_byte 20 fixture_bus 0x00 true (started_with sda_byte_a5))

/-- SCL oscillogram of the slave of `test_read_byte_stretch`. -/
def scl_read_byte_stretch : List Char :=
  "_/^\\___/^\\___/^\\___/^\\_/^\\_/^\\_/^\\_/^\\_/^\\".toList

/-- SDA oscillogram of the slave of `test_read_byte_stretch`. -/
def sda_read_byte_stretch : List Char := "/^^^\\_______/^^^\\_________/^^^\\___".toList

/-- The call of `stwi_read_byte` in `test_read_byte_stretch`. -/
def test_read_byte_stretch : stwi_err_t × Nat × World Fixture :=
  read_byte_outcome (stwi_read_byte 20 fixture_bus 0x00 true
    (started_lines scl_read_byte_stretch sda_read_byte_stretch))

/-- The world of a `stwi_write_byte` of 0x5A, the slave holding SCL low from the
third data bit on, when the first two data bits have been sent. -/
def write_stretch_before : World Fixture :=
  err_world (stwi_write_byte.loop 20 fixture_bus 2 0x5A
    (started_lines (scl_stretch_after 9) sda_ack)) (started_lines (scl_stretch_after 9) sda_ack)

/-- The world of that `stwi_write_byte` when the stretch wait of the third data bit
has returned. -/
def write_stretch_after : World Fixture :=
  err_world (stwi_stretch_wait 20 fixture_bus
    (bit_raised fixture_bus (bit_level 0x5A 2) write_stretch_before)) write_stretch_before

/-- SDA oscillogram of the slave of `test_dev_read_reg0`. -/
def sda_read_reg0 : List Char :=
  sda_start ++ sda_ack ++ sda_start ++ sda_ack
    ++ "/^^^\\___/^^^^^^^^^^^^^^^^^^^^^^^^^^^".toList
    ++ "^^^^^^^^^^^^^^^^^^^^^^^^^^^^\\___/^^^".toList

/-- The call of `test_dev_read_reg0`. -/
def test_dev_read_reg0 : stwi_res × List Nat × World Fixture :=
  read_outcome (stwi_dev_read 20 fixture_bus 0x25 STWI_REG_0 0x00 [0, 0] 2
    (setUp [] sda_read_reg0))

/-- The world of the first `stwi_read_bit` of `test_read_byte_ack` when its stretch
wait has returned. -/
def read_bit_waited : World Fixture :=
  err_world (stwi_stretch_wait 20 fixture_bus
    (bit_raised fixture_bus STWI_PIN_HIGH (started_with sda_byte_a5)))
    (started_with sda_byte_a5)

/-- The world of a `stwi_read_bit` after START, the slave holding SCL low, when its
stretch wait has returned. -/
def read_bit_timed_out : World Fixture :=
  err_world (stwi_stretch_wait 20 fixture_bus
    (bit_raised fixture_bus STWI_PIN_HIGH (started_lines (scl_stretch_after 1) [])))
    (started_lines (scl_stretch_after 1) [])

/-! ## Driven line levels and START and STOP edges -/

/-- The levels the master drives on the two lines and the number of clock pulses it
has begun (the `write_scl(HIGH)` calls). -/
structure Driven where
  scl : stwi_pin_state_t
  sda : stwi_pin_state_t
  pulses : Nat
  deriving DecidableEq, Repr

/-- The effect of a callback on the driven levels. -/
def Driven.step (l : Driven) : Call → Driven
  | Call.write_scl v =>
    { l with scl := v, pulses := if v = STWI_PIN_HIGH then l.pulses + 1 else l.pulses }
  | Call.write_sda v => { l with sda := v }
  | _ => l

/-- The driven levels after the calls of a trace. -/
def driven_after (l : Driven) (t : List Call) : Driven := t.foldl Driven.step l

/-- The change of the driven SDA level a callback makes while the driven SCL level is
HIGH, if any: the new level, and the number of clock pulses begun before it. -/
def edge_at (l : Driven) : Call → List (stwi_pin_state_t × Nat)
  | Call.write_sda v => if l.scl = STWI_PIN_HIGH ∧ v ≠ l.sda then [(v, l.pulses)] else []
  | _ => []

/-- The changes of the driven SDA level made while the driven SCL level is HIGH, in
order. -/
def sda_edges : Driven → List Call → List (stwi_pin_state_t × Nat)
  | _, [] => []
  | l, c :: t => edge_at l c ++ sda_edges (l.step c) t

/-- A piece of trace that, entered with SCL driven LOW, changes SDA only while SCL is
driven LOW, leaves SCL driven LOW and begins `k` clock pulses. -/
def clocked (k : Nat) (t : List Call) : Prop :=
  ∀ l : Driven, l.scl = STWI_PIN_LOW →
    sda_edges l t = [] ∧ (driven_after l t).scl = STWI_PIN_LOW ∧
      (driven_after l t).pulses = l.pulses + k

/-- The sub-operations that send or receive a byte. -/
def Op.is_byte : Op → Bool
  | Op.write_byte _ => true
  | Op.read_byte _ => true
  | _ => false

/-- The world of a read of two bytes whose slave holds SCL low during the acknowledge
bit of the first data byte, when the first `stwi_read_byte` is called. -/
def ack_stretch_start : World Fixture :=
  ops_world 20 fixture_bus
    ([Op.start, Op.write_byte ((0x25 <<< 1 ||| 0x00) % 256)]
      ++ (reg_bytes STWI_REG_8 0xF2).map Op.write_byte
      ++ [Op.start, Op.write_byte ((0x25 <<< 1 ||| 0x01) % 256)]
      ++ List.replicate 0 (Op.read_byte true))
    (setUp (scl_stretch_after 149) sda_read_reg8)

/-- The outcome of the loop of that `stwi_read_byte`: the eight data bits are
sampled. -/
def ack_stretch_sampled : stwi_err_t × Nat × World Fixture :=
  read_byte_outcome (stwi_read_byte.loop 20 fixture_bus 8 0 ack_stretch_start)

/-- The world when the `stwi_write_bit` of the acknowledge bit has returned. -/
def ack_stretch_end : World Fixture :=
  err_world (stwi_write_bit 20 fixture_bus (if true = true then STWI_PIN_LOW else STWI_PIN_HIGH)
    ack_stretch_sampled.2.2) ack_stretch_sampled.2.2

/-- SCL oscillogram of a slave that leaves the clock alone during the START and holds
it low for four samples during the third bit of the address byte, as the slave of
`test_write_byte_stretch` does. -/
def scl_short_stretch : List Char := "^^^^".toList ++ "^^^^^^^^^^^____".toList

/-- SDA oscillogram of the slave of `test_dev_write_err_data` when the address byte
lasts two quarter periods longer: the first acknowledge comes two samples later, as
in `test_write_byte_stretch`. -/
def sda_write_err_data_late : List Char :=
  sda_start ++ "^^^^^^^^^^^^^^^^^^^^^^^^^^^^^^^^^^\\___".toList ++ sda_ack_next ++ sda_ack_next

/-- The call of `test_dev_write_err_data` to a slave that stretches the clock for a
short time during the address byte, with a stretch wait bounded by 25 iterations. -/
def test_dev_write_err_data_stretched : stwi_res × World Fixture :=
  write_outcome (stwi_dev_write 25 fixture_bus 0x25 STWI_REG_8 0xF2 [0x12, 0x34] 2
    (setUp scl_short_stretch sda_write_err_data_late))

/-! ## The transactions are runs of their sub-operation lists -/

theorem and_255_mod (x : Nat) : (x &&& 0xFF) % 256 = x &&& 0xFF :=
  Nat.mod_eq_of_lt (Nat.lt_succ_of_le Nat.and_le_right)

theorem run_ops_append (fuel : Nat) (bus : stwi σ) (a b : List Op) (s : World σ) :
    run_ops fuel bus (a ++ b) s =
      match run_ops fuel bus a s with
      | none => none
      | some (e, n, rx, s1) =>
        if e ≠ STWI_ERR_OK then some (e, n, rx, s1)
        else
          match run_ops fuel bus b s1 with
          | none => none
          | some (e2, m, rx2, s2) => some (e2, n + m, rx ++ rx2, s2) := by
  induction a generalizing s with
  | nil =>
    simp only [List.nil_append, run_ops]
    rcases run_ops fuel bus b s with _ | ⟨e2, m, rx2, s2⟩ <;> simp
  | cons op ops ih =>
    rw [List.cons_append, run_ops, run_ops]
    rcases Op.run fuel bus op s with _ | ⟨e, rx, s1⟩
    · rfl
    · by_cases he : e = STWI_ERR_OK
      · subst he
        simp only [ne_eq, not_true_eq_false, if_false]
        rw [ih s1]
        rcases run_ops fuel bus ops s1 with _ | ⟨e1, n1, rx1, s2⟩
        · rfl
        · by_cases he1 : e1 = STWI_ERR_OK
          · subst he1
            simp only [ne_eq, not_true_eq_false, if_false]
            rcases run_ops fuel bus b s2 with _ | ⟨e2, m, rx2, s3⟩
            · rfl
            · simp [Nat.add_right_comm, List.append_assoc]
          · simp [he1]
      · simp [he]

theorem dev_write_loop_eq (fuel : Nat) (bus : stwi σ)
    (k : stwi_res → World σ → Option (stwi_res × World σ)) (size : Nat) :
    ∀ (buff : List Nat) (res : stwi_res) (s : World σ), res.err = STWI_ERR_OK →
    stwi_dev_write.loop fuel bus k size buff res s =
      match run_ops fuel bus ((payload size buff).map Op.write_byte) s with
      | none => none
      | some (e, n, _, s1) =>
        if e ≠ STWI_ERR_OK then some (⟨e, res.stage, res.data_size + n⟩, s1)
        else k ⟨STWI_ERR_OK, res.stage, res.data_size + size⟩ s1 := by
  induction size with
  | zero =>
    intro buff res s hres
    cases res
    simp only at hres
    subst hres
    simp [stwi_dev_write.loop, payload, run_ops]
  | succ size ih =>
    intro buff res s hres
    simp only [stwi_dev_write.loop, payload, List.map_cons, run_ops, Op.run, STWI_ASSERT]
    rcases stwi_write_byte fuel bus (buff.headD 0) s with _ | ⟨e, s1⟩
    · rfl
    · by_cases he : e = STWI_ERR_OK
      · subst he
        simp only [Option.map_some', ne_eq, not_true_eq_false, if_false]
        rw [ih _ _ _ rfl]
        rcases run_ops fuel bus ((payload size buff.tail).map Op.write_byte) s1
          with _ | ⟨e1, n1, rx1, s2⟩
        · rfl
        · by_cases he1 : e1 = STWI_ERR_OK
          · simp [he1, Nat.add_assoc, Nat.add_comm 1 size]
          · simp [he1, Nat.add_assoc, Nat.add_comm 1 n1]
      · simp [he]

theorem payload_length (size : Nat) : ∀ buff : List Nat, (payload size buff).length = size := by
  induction size with
  | zero => intro buff; rfl
  | succ n ih => intro buff; simp [payload, ih]

theorem payload_self : ∀ buff : List Nat, payload buff.length buff = buff
  | [] => rfl
  | b :: bs => by simp [payload, payload_self bs]

theorem run_ops_stop (fuel : Nat) (bus : stwi σ) (s : World σ) :
    run_ops fuel bus [Op.stop] s =
      match stwi_stop fuel bus s with
      | none => none
      | some (e, s1) =>
        if e ≠ STWI_ERR_OK then some (e, 0, [], s1) else some (STWI_ERR_OK, 1, [], s1) := by
  simp only [run_ops, Op.run]
  rcases stwi_stop fuel bus s with _ | ⟨e, s1⟩
  · rfl
  · by_cases he : e = STWI_ERR_OK <;> simp [he]

theorem run_ops_count (fuel : Nat) (bus : stwi σ) (ops : List Op) :
    ∀ (s : World σ) (e : stwi_err_t) (n : Nat) (rx : List Nat) (s1 : World σ),
    run_ops fuel bus ops s = some (e, n, rx, s1) →
      (e = STWI_ERR_OK → n = ops.length) ∧ (e ≠ STWI_ERR_OK → n < ops.length) := by
  induction ops with
  | nil =>
    intro s e n rx s1 h
    simp only [run_ops, Option.some.injEq, Prod.mk.injEq] at h
    obtain ⟨rfl, rfl, -, -⟩ := h
    simp
  | cons op ops ih =>
    intro s e n rx s1 h
    rw [run_ops] at h
    rcases hop : Op.run fuel bus op s with _ | ⟨e0, rx0, s0⟩
    · simp [hop] at h
    · by_cases he0 : e0 = STWI_ERR_OK
      · subst he0
        simp only [hop, ne_eq, not_true_eq_false, if_false] at h
        rcases hr : run_ops fuel bus ops s0 with _ | ⟨e1, n1, rx1, s2⟩
        · simp [hr] at h
        · simp only [hr, Option.some.injEq, Prod.mk.injEq] at h
          obtain ⟨rfl, rfl, -, -⟩ := h
          have := ih _ _ _ _ _ hr
          simpa using this
      · simp only [hop, ne_eq, he0, not_false_eq_true, if_true, Option.some.injEq,
          Prod.mk.injEq] at h
        obtain ⟨rfl, rfl, -, -⟩ := h
        simp [he0]

theorem write_res_data (r n j : Nat) (e : stwi_err_t) (h : j < n) :
    write_res r n e (2 + r + j) = ⟨e, STWI_STAGE_DATA, j⟩ := by
  unfold write_res
  rw [if_neg (by omega), if_neg (by omega), if_neg (by omega), if_pos (by omega)]
  congr
  omega

theorem write_res_stop (r n idx : Nat) (e : stwi_err_t) (h : 2 + r + n ≤ idx) :
    write_res r n e idx = ⟨e, STWI_STAGE_STOP, n⟩ := by
  unfold write_res
  rw [if_neg (by omega), if_neg (by omega), if_neg (by omega), if_neg (by omega)]

theorem assert_step {β : Type} (fuel : Nat) (bus : stwi σ) (s : World σ)
    (opr : Option (stwi_err_t × World σ)) (op : Op)
    (hop : Op.run fuel bus op s = opr.map fun r => (r.1, [], r.2)) (ops : List Op)
    (res : stwi_res) (ret : stwi_res → World σ → β) (k : stwi_res → World σ → Option β)
    (f : stwi_err_t × Nat × List Nat × World σ → β)
    (hfail : ∀ e s1, e ≠ STWI_ERR_OK → ret { res with err := e } s1 = f (e, 0, [], s1))
    (hok : ∀ s1, k { res with err := STWI_ERR_OK } s1 =
      (run_ops fuel bus ops s1).map fun x => f (x.1, x.2.1 + 1, x.2.2.1, x.2.2.2)) :
    STWI_ASSERT opr res ret k = (run_ops fuel bus (op :: ops) s).map f := by
  rw [run_ops, hop]
  rcases opr with _ | ⟨e, s1⟩
  · rfl
  · by_cases he : e = STWI_ERR_OK
    · subst he
      simp only [STWI_ASSERT, Option.map_some', ne_eq, not_true_eq_false, if_false, hok]
      rcases run_ops fuel bus ops s1 with _ | ⟨e1, n1, rx1, s2⟩ <;> simp
    · simp [STWI_ASSERT, he, hfail]

theorem dev_write_eq (fuel : Nat) (bus : stwi σ) (addr : Nat) (reg_size : stwi_reg_size_t)
    (reg : Nat) (buff : List Nat) (size : Nat) (s : World σ) :
    stwi_dev_write fuel bus addr reg_size reg buff size s =
      (run_ops fuel bus
        (write_ops ((addr <<< 1 ||| 0x00) % 256) (reg_bytes reg_size reg) (payload size buff))
        s).map
        fun x => (write_res (reg_bytes reg_size reg).length size x.1 x.2.1, x.2.2.2) := by
  have tail : ∀ (r : Nat) (s : World σ),
      stwi_dev_write.loop fuel bus (fun res s =>
          STWI_ASSERT (stwi_stop fuel bus s) { res with stage := STWI_STAGE_STOP }
            (fun res s => (res, s)) fun res s => some (res, s))
        size buff ⟨STWI_ERR_OK, STWI_STAGE_DATA, 0⟩ s =
      (run_ops fuel bus ((payload size buff).map Op.write_byte ++ [Op.stop]) s).map
        fun x => (write_res r size x.1 (2 + r + x.2.1), x.2.2.2) := by
    intro r s
    rw [dev_write_loop_eq _ _ _ _ _ _ _ rfl, run_ops_append]
    rcases hp : run_ops fuel bus ((payload size buff).map Op.write_byte) s
      with _ | ⟨e, n, rx, s1⟩
    · rfl
    · have hc := run_ops_count _ _ _ _ _ _ _ _ hp
      simp only [List.length_map, payload_length] at hc
      by_cases he : e = STWI_ERR_OK
      · subst he
        have hn := hc.1 rfl
        subst hn
        simp only [ne_eq, not_true_eq_false, if_false, run_ops_stop, STWI_ASSERT]
        rcases stwi_stop fuel bus s1 with _ | ⟨e2, s2⟩
        · rfl
        · by_cases he2 : e2 = STWI_ERR_OK
          · simp [he2, write_res_stop]
          · simp [he2, write_res_stop]
      · have hn := hc.2 he
        simp [he, write_res_data _ _ _ _ hn]
  unfold stwi_dev_write write_ops
  cases reg_size <;>
  simp only [reg_bytes, List.map_nil, List.map_cons, List.append_nil, List.cons_append,
    List.nil_append, List.length_nil, List.length_cons, List.append_assoc, and_255_mod,
    reduceCtorEq, if_false, if_true, ne_eq, not_true_eq_false, not_false_eq_true]
  · refine assert_step fuel bus s _ Op.start rfl _ _ _ _ _ (fun e s1 he => rfl) fun s1 => ?_
    refine assert_step fuel bus s1 _ (Op.write_byte _) rfl _ _ _ _ _
      (fun e s1 he => rfl) fun s2 => ?_
    rw [tail 0 s2]
    congr 1
    funext x
    simp only [Nat.add_zero, Nat.add_comm 2 x.2.1]
  · refine assert_step fuel bus s _ Op.start rfl _ _ _ _ _ (fun e s1 he => rfl) fun s1 => ?_
    refine assert_step fuel bus s1 _ (Op.write_byte _) rfl _ _ _ _ _
      (fun e s1 he => rfl) fun s2 => ?_
    refine assert_step fuel bus s2 _ (Op.write_byte _) rfl _ _ _ _ _
      (fun e s1 he => rfl) fun s3 => ?_
    rw [tail 1 s3]
    congr 1
    funext x
    simp only [Nat.add_comm (2 + 1) x.2.1]
  · refine assert_step fuel bus s _ Op.start rfl _ _ _ _ _ (fun e s1 he => rfl) fun s1 => ?_
    refine assert_step fuel bus s1 _ (Op.write_byte _) rfl _ _ _ _ _
      (fun e s1 he => rfl) fun s2 => ?_
    refine assert_step fuel bus s2 _ (Op.write_byte _) rfl _ _ _ _ _
      (fun e s1 he => rfl) fun s3 => ?_
    refine assert_step fuel bus s3 _ (Op.write_byte _) rfl _ _ _ _ _
      (fun e s1 he => rfl) fun s4 => ?_
    rw [tail 2 s4]
    congr 1
    funext x
    simp only [Nat.add_comm (2 + 2) x.2.1]

theorem read_byte_dest (fuel : Nat) (bus : stwi σ) (byte : Nat) (ack : Bool) (s : World σ) :
    stwi_read_byte fuel bus byte ack s =
      (stwi_read_byte fuel bus 0 ack s).map fun r =>
        (r.1, if r.1 = STWI_ERR_OK then r.2.1 else byte, r.2.2) := by
  unfold stwi_read_byte
  rcases stwi_read_byte.loop fuel bus 8 0 s with _ | ⟨e, d, s1⟩
  · rfl
  · by_cases he : e = STWI_ERR_OK
    · subst he
      simp only [ne_eq, not_true_eq_false, if_false]
      rcases stwi_write_bit fuel bus (if ack = true then STWI_PIN_LOW else STWI_PIN_HIGH) s1
        with _ | ⟨e1, s2⟩
      · rfl
      · by_cases he1 : e1 = STWI_ERR_OK <;> simp [he1]
    · simp [he]

theorem set_getD_self (mem : List Nat) (i : Nat) : mem.set i (mem[i]?.getD 0) = mem := by
  induction mem generalizing i with
  | nil => rfl
  | cons a as ih =>
    cases i with
    | zero => simp
    | succ i => simpa [List.set] using ih i

theorem dev_read_loop_eq (fuel : Nat) (bus : stwi σ)
    (k : stwi_res → List Nat → World σ → Option (stwi_res × List Nat × World σ))
    (size : Nat) :
    ∀ (i : Nat) (mem : List Nat) (res : stwi_res) (s : World σ), res.err = STWI_ERR_OK →
    stwi_dev_read.loop fuel bus k size i mem res s =
      match run_ops fuel bus (read_tail size) s with
      | none => none
      | some (e, n, rx, s1) =>
        if e ≠ STWI_ERR_OK then some (⟨e, res.stage, res.data_size + n⟩, store mem i rx, s1)
        else k ⟨STWI_ERR_OK, res.stage, res.data_size + size⟩ (store mem i rx) s1 := by
  induction size with
  | zero =>
    intro i mem res s hres
    cases res
    simp only at hres
    subst hres
    simp [stwi_dev_read.loop, read_tail, run_ops, store]
  | succ size ih =>
    intro i mem res s hres
    simp only [stwi_dev_read.loop, read_tail, run_ops, Op.run, STWI_ASSERT]
    rw [read_byte_dest]
    rcases stwi_read_byte fuel bus 0 (decide (size > 0)) s with _ | ⟨e, d, s1⟩
    · rfl
    · by_cases he : e = STWI_ERR_OK
      · subst he
        simp only [Option.map_some', ne_eq, not_true_eq_false, if_false, if_true]
        rw [ih _ _ _ _ rfl]
        rcases run_ops fuel bus (read_tail size) s1 with _ | ⟨e1, n1, rx1, s2⟩
        · rfl
        · by_cases he1 : e1 = STWI_ERR_OK
          · simp [he1, Nat.add_assoc, Nat.add_comm 1 size, store]
          · simp [he1, Nat.add_assoc, Nat.add_comm 1 n1, store]
      · simp [he, store, set_getD_self]

theorem read_data_ops_eq_tail (n : Nat) : read_data_ops n = read_tail n := by
  induction n with
  | zero => rfl
  | succ n ih =>
    rw [read_tail, ← ih]
    simp only [read_data_ops, List.range_succ_eq_map, List.map_cons, List.map_map]
    congr 1
    · simp
    · apply List.map_congr_left
      intro i _
      simp

theorem read_tail_length (n : Nat) : (read_tail n).length = n := by
  induction n with
  | zero => rfl
  | succ n ih => simp [read_tail, ih]

theorem read_res_data (r n j : Nat) (e : stwi_err_t) (h : j < n) :
    read_res r n e (4 + r + j) = ⟨e, STWI_STAGE_DATA, j⟩ := by
  unfold read_res
  rw [if_neg (by omega), if_neg (by omega), if_neg (by omega), if_neg (by omega),
    if_neg (by omega), if_pos (by omega)]
  congr
  omega

theorem read_res_stop (r n idx : Nat) (e : stwi_err_t) (h : 4 + r + n ≤ idx) :
    read_res r n e idx = ⟨e, STWI_STAGE_STOP, n⟩ := by
  unfold read_res
  rw [if_neg (by omega), if_neg (by omega), if_neg (by omega), if_neg (by omega),
    if_neg (by omega), if_neg (by omega)]

theorem dev_read_eq (fuel : Nat) (bus : stwi σ) (addr : Nat) (reg_size : stwi_reg_size_t)
    (reg : Nat) (buff : List Nat) (size : Nat) (s : World σ) :
    stwi_dev_read fuel bus addr reg_size reg buff size s =
      (run_ops fuel bus
        (read_ops ((addr <<< 1 ||| 0x00) % 256) (reg_bytes reg_size reg)
          ((addr <<< 1 ||| 0x01) % 256) size) s).map
        fun x => (read_res (reg_bytes reg_size reg).length size x.1 x.2.1,
          store buff 0 x.2.2.1, x.2.2.2) := by
  have tail : ∀ (r : Nat) (s : World σ),
      stwi_dev_read.loop fuel bus (fun res mem s =>
          STWI_ASSERT (stwi_stop fuel bus s) { res with stage := STWI_STAGE_STOP }
            (fun res s => (res, mem, s)) fun res s => some (res, mem, s))
        size 0 buff ⟨STWI_ERR_OK, STWI_STAGE_DATA, 0⟩ s =
      (run_ops fuel bus (read_data_ops size ++ [Op.stop]) s).map
        fun x => (read_res r size x.1 (4 + r + x.2.1), store buff 0 x.2.2.1, x.2.2.2) := by
    intro r s
    rw [dev_read_loop_eq _ _ _ _ _ _ _ _ rfl, run_ops_append, read_data_ops_eq_tail]
    rcases hp : run_ops fuel bus (read_tail size) s with _ | ⟨e, n, rx, s1⟩
    · rfl
    · have hc := run_ops_count _ _ _ _ _ _ _ _ hp
      simp only [read_tail_length] at hc
      by_cases he : e = STWI_ERR_OK
      · subst he
        have hn := hc.1 rfl
        subst hn
        simp only [ne_eq, not_true_eq_false, if_false, run_ops_stop, STWI_ASSERT]
        rcases stwi_stop fuel bus s1 with _ | ⟨e2, s2⟩
        · rfl
        · by_cases he2 : e2 = STWI_ERR_OK
          · simp [he2, read_res_stop]
          · simp [he2, read_res_stop]
      · have hn := hc.2 he
        simp [he, read_res_data _ _ _ _ hn]
  unfold stwi_dev_read read_ops
  cases reg_size <;>
  simp only [reg_bytes, List.map_nil, List.map_cons, List.append_nil, List.cons_append,
    List.nil_append, List.length_nil, List.length_cons, List.append_assoc, and_255_mod,
    reduceCtorEq, if_false, if_true, ne_eq, not_true_eq_false, not_false_eq_true]
  · refine assert_step fuel bus s _ Op.start rfl _ _ _ _ _ (fun e s1 he => rfl) fun s1 => ?_
    refine assert_step fuel bus s1 _ (Op.write_byte _) rfl _ _ _ _ _
      (fun e s1 he => rfl) fun s2 => ?_
    refine assert_step fuel bus s2 _ Op.start rfl _ _ _ _ _ (fun e s1 he => rfl) fun s3 => ?_
    refine assert_step fuel bus s3 _ (Op.write_byte _) rfl _ _ _ _ _
      (fun e s1 he => rfl) fun s4 => ?_
    rw [tail 0 s4]
    congr 1
    funext x
    simp only [Nat.add_zero, Nat.add_comm 4 x.2.1]
  · refine assert_step fuel bus s _ Op.start rfl _ _ _ _ _ (fun e s1 he => rfl) fun s1 => ?_
    refine assert_step fuel bus s1 _ (Op.write_byte _) rfl _ _ _ _ _
      (fun e s1 he => rfl) fun s2 => ?_
    refine assert_step fuel bus s2 _ (Op.write_byte _) rfl _ _ _ _ _
      (fun e s1 he => rfl) fun s3 => ?_
    refine assert_step fuel bus s3 _ Op.start rfl _ _ _ _ _ (fun e s1 he => rfl) fun s4 => ?_
    refine assert_step fuel bus s4 _ (Op.write_byte _) rfl _ _ _ _ _
      (fun e s1 he => rfl) fun s5 => ?_
    rw [tail 1 s5]
    congr 1
    funext x
    simp only [Nat.add_comm (4 + 1) x.2.1]
  · refine assert_step fuel bus s _ Op.start rfl _ _ _ _ _ (fun e s1 he => rfl) fun s1 => ?_
    refine assert_step fuel bus s1 _ (Op.write_byte _) rfl _ _ _ _ _
      (fun e s1 he => rfl) fun s2 => ?_
    refine assert_step fuel bus s2 _ (Op.write_byte _) rfl _ _ _ _ _
      (fun e s1 he => rfl) fun s3 => ?_
    refine assert_step fuel bus s3 _ (Op.write_byte _) rfl _ _ _ _ _
      (fun e s1 he => rfl) fun s4 => ?_
    refine assert_step fuel bus s4 _ Op.start rfl _ _ _ _ _ (fun e s1 he => rfl) fun s5 => ?_
    refine assert_step fuel bus s5 _ (Op.write_byte _) rfl _ _ _ _ _
      (fun e s1 he => rfl) fun s6 => ?_
    rw [tail 2 s6]
    congr 1
    funext x
    simp only [Nat.add_comm (4 + 2) x.2.1]

/-! ## Callback traces of the sub-operations -/

theorem sda_samples_append (a b : List Call) :
    sda_samples (a ++ b) = sda_samples a ++ sda_samples b := by
  induction a with
  | nil => rfl
  | cons c a ih => cases c <;> simp [sda_samples, ih]

theorem scl_pulses_append (a b : List Call) :
    scl_pulses (a ++ b) = scl_pulses a + scl_pulses b := by
  simp [scl_pulses]

theorem sda_samples_wait (w : List Call) (hw : ∀ c ∈ w, is_wait_call c = true) :
    sda_samples w = [] := by
  induction w with
  | nil => rfl
  | cons c w ih =>
    have hc := hw c (List.mem_cons_self _ _)
    have hw' : ∀ c ∈ w, is_wait_call c = true := fun c h => hw c (List.mem_cons_of_mem _ h)
    cases c <;> simp_all [sda_samples, is_wait_call]

theorem scl_pulses_wait (w : List Call) (hw : ∀ c ∈ w, is_wait_call c = true) :
    scl_pulses w = 0 := by
  unfold scl_pulses
  rw [List.count_eq_zero]
  intro h
  have := hw _ h
  simp [is_wait_call] at this

theorem stretch_loop_trace (bus : stwi σ) (fuel : Nat) :
    ∀ (s : World σ) (e : stwi_err_t) (s1 : World σ),
    stwi_stretch_wait.loop bus fuel s = some (e, s1) →
      ∃ w, (∀ c ∈ w, is_wait_call c = true) ∧ s1.trace = s.trace ++ w := by
  induction fuel with
  | zero => intro s e s1 h; simp [stwi_stretch_wait.loop] at h
  | succ fuel ih =>
    intro s e s1 h
    simp only [stwi_stretch_wait.loop] at h
    split at h
    · simp only [Option.some.injEq, Prod.mk.injEq] at h
      obtain ⟨-, rfl⟩ := h
      exact ⟨[Call.timeout_check (bus.timeout_check s.st).1],
        by simp [is_wait_call], rfl⟩
    · split at h
      · obtain ⟨w, hw, ht⟩ := ih _ _ _ h
        refine ⟨[Call.timeout_check (bus.timeout_check s.st).1, Call.delay,
          Call.read_scl (bus.read_scl (bus.delay (bus.timeout_check s.st).2)).1] ++ w, ?_, ?_⟩
        · intro c hc
          simp only [List.cons_append, List.nil_append, List.mem_cons] at hc
          rcases hc with rfl | rfl | rfl | hc
          · rfl
          · rfl
          · rfl
          · exact hw c hc
        · rw [ht]
          simp [call_read_scl, call_delay, call_timeout_check]
      · simp only [Option.some.injEq, Prod.mk.injEq] at h
        obtain ⟨-, rfl⟩ := h
        exact ⟨[Call.timeout_check (bus.timeout_check s.st).1, Call.delay,
          Call.read_scl (bus.read_scl (bus.delay (bus.timeout_check s.st).2)).1],
          by simp [is_wait_call], by simp [call_read_scl, call_delay, call_timeout_check]⟩

theorem stretch_wait_trace (fuel : Nat) (bus : stwi σ) (s : World σ) (e : stwi_err_t)
    (s1 : World σ) (h : stwi_stretch_wait fuel bus s = some (e, s1)) :
    ∃ w, (∀ c ∈ w, is_wait_call c = true) ∧ s1.trace = s.trace ++ w := by
  simp only [stwi_stretch_wait] at h
  split at h
  · obtain ⟨w, hw, ht⟩ := stretch_loop_trace _ _ _ _ _ h
    refine ⟨[Call.read_scl (bus.read_scl s.st).1, Call.timeout_start] ++ w, ?_, ?_⟩
    · intro c hc
      simp only [List.cons_append, List.nil_append, List.mem_cons] at hc
      rcases hc with rfl | rfl | hc
      · rfl
      · rfl
      · exact hw c hc
    · rw [ht]
      simp [call_read_scl, call_timeout_start]
  · simp only [Option.some.injEq, Prod.mk.injEq] at h
    obtain ⟨-, rfl⟩ := h
    exact ⟨[Call.read_scl (bus.read_scl s.st).1], by simp [is_wait_call], rfl⟩

theorem write_bit_trace (fuel : Nat) (bus : stwi σ) (bit : stwi_pin_state_t) (s : World σ)
    (e : stwi_err_t) (s1 : World σ) (h : stwi_write_bit fuel bus bit s = some (e, s1)) :
    ∃ w, (∀ c ∈ w, is_wait_call c = true) ∧
      s1.trace = s.trace ++
        ([Call.write_sda bit, Call.delay, Call.write_scl STWI_PIN_HIGH, Call.delay] ++ w ++
          if e = STWI_ERR_OK then [Call.delay, Call.write_scl STWI_PIN_LOW, Call.delay]
          else []) := by
  simp only [stwi_write_bit] at h
  split at h
  · simp at h
  · rename_i e0 s0 hsw
    obtain ⟨w, hw, ht⟩ := stretch_wait_trace _ _ _ _ _ hsw
    refine ⟨w, hw, ?_⟩
    split at h
    · rename_i he0
      simp only [Option.some.injEq, Prod.mk.injEq] at h
      obtain ⟨rfl, rfl⟩ := h
      rw [ht]
      simp [he0, call_write_sda, call_delay, call_write_scl]
    · simp only [Option.some.injEq, Prod.mk.injEq] at h
      obtain ⟨rfl, rfl⟩ := h
      simp [ht, call_write_sda, call_delay, call_write_scl]

theorem read_bit_trace (fuel : Nat) (bus : stwi σ) (b0 : stwi_pin_state_t) (s : World σ)
    (e : stwi_err_t) (bit : stwi_pin_state_t) (s1 : World σ)
    (h : stwi_read_bit fuel bus b0 s = some (e, bit, s1)) :
    ∃ w, (∀ c ∈ w, is_wait_call c = true) ∧
      s1.trace = s.trace ++
        ([Call.write_sda STWI_PIN_HIGH, Call.delay, Call.write_scl STWI_PIN_HIGH, Call.delay]
          ++ w ++
          if e = STWI_ERR_OK then
            [Call.delay, Call.read_sda bit, Call.write_scl STWI_PIN_LOW, Call.delay]
          else []) := by
  simp only [stwi_read_bit] at h
  split at h
  · simp at h
  · rename_i e0 s0 hsw
    obtain ⟨w, hw, ht⟩ := stretch_wait_trace _ _ _ _ _ hsw
    refine ⟨w, hw, ?_⟩
    split at h
    · rename_i he0
      simp only [Option.some.injEq, Prod.mk.injEq] at h
      obtain ⟨rfl, -, rfl⟩ := h
      rw [ht]
      simp [he0, call_write_sda, call_delay, call_write_scl]
    · simp only [Option.some.injEq, Prod.mk.injEq] at h
      obtain ⟨rfl, rfl, rfl⟩ := h
      simp [ht, call_write_sda, call_delay, call_write_scl, call_read_sda]

theorem stretch_loop_err (bus : stwi σ) (fuel : Nat) :
    ∀ (s : World σ) (e : stwi_err_t) (s1 : World σ),
    stwi_stretch_wait.loop bus fuel s = some (e, s1) → e ≠ STWI_ERR_NACK := by
  induction fuel with
  | zero => intro s e s1 h; simp [stwi_stretch_wait.loop] at h
  | succ fuel ih =>
    intro s e s1 h
    simp only [stwi_stretch_wait.loop] at h
    split at h
    · simp only [Option.some.injEq, Prod.mk.injEq] at h
      obtain ⟨rfl, -⟩ := h
      simp
    · split at h
      · exact ih _ _ _ h
      · simp only [Option.some.injEq, Prod.mk.injEq] at h
        obtain ⟨rfl, -⟩ := h
        simp

theorem stretch_wait_err (fuel : Nat) (bus : stwi σ) (s : World σ) (e : stwi_err_t)
    (s1 : World σ) (h : stwi_stretch_wait fuel bus s = some (e, s1)) : e ≠ STWI_ERR_NACK := by
  simp only [stwi_stretch_wait] at h
  split at h
  · exact stretch_loop_err _ _ _ _ _ h
  · simp only [Option.some.injEq, Prod.mk.injEq] at h
    obtain ⟨rfl, -⟩ := h
    simp

theorem write_bit_err (fuel : Nat) (bus : stwi σ) (bit : stwi_pin_state_t) (s : World σ)
    (e : stwi_err_t) (s1 : World σ) (h : stwi_write_bit fuel bus bit s = some (e, s1)) :
    e ≠ STWI_ERR_NACK := by
  simp only [stwi_write_bit] at h
  split at h
  · simp at h
  · rename_i e0 s0 hsw
    have := stretch_wait_err _ _ _ _ _ hsw
    split at h <;>
    · simp only [Option.some.injEq, Prod.mk.injEq] at h
      obtain ⟨rfl, -⟩ := h
      first | exact this | simp

theorem read_bit_err (fuel : Nat) (bus : stwi σ) (b0 : stwi_pin_state_t) (s : World σ)
    (e : stwi_err_t) (bit : stwi_pin_state_t) (s1 : World σ)
    (h : stwi_read_bit fuel bus b0 s = some (e, bit, s1)) : e ≠ STWI_ERR_NACK := by
  simp only [stwi_read_bit] at h
  split at h
  · simp at h
  · rename_i e0 s0 hsw
    have := stretch_wait_err _ _ _ _ _ hsw
    split at h <;>
    · simp only [Option.some.injEq, Prod.mk.injEq] at h
      obtain ⟨rfl, -⟩ := h
      first | exact this | simp

theorem write_byte_loop_trace (fuel : Nat) (bus : stwi σ) (n : Nat) :
    ∀ (byte : Nat) (s : World σ) (e : stwi_err_t) (s1 : World σ),
    stwi_write_byte.loop fuel bus n byte s = some (e, s1) →
      e ≠ STWI_ERR_NACK ∧
      ∃ t, s1.trace = s.trace ++ t ∧ sda_samples t = [] ∧
        (e = STWI_ERR_OK → scl_pulses t = n) := by
  induction n with
  | zero =>
    intro byte s e s1 h
    simp only [stwi_write_byte.loop, Option.some.injEq, Prod.mk.injEq] at h
    obtain ⟨rfl, rfl⟩ := h
    exact ⟨by simp, [], by simp, rfl, fun _ => rfl⟩
  | succ n ih =>
    intro byte s e s1 h
    simp only [stwi_write_byte.loop] at h
    split at h
    · simp at h
    · rename_i e0 s0 hwb
      obtain ⟨w, hw, ht⟩ := write_bit_trace _ _ _ _ _ _ hwb
      have hs0 : sda_samples w = [] := sda_samples_wait w hw
      have hp0 : scl_pulses w = 0 := scl_pulses_wait w hw
      split at h
      · rename_i he0
        simp only [Option.some.injEq, Prod.mk.injEq] at h
        obtain ⟨rfl, rfl⟩ := h
        refine ⟨write_bit_err _ _ _ _ _ _ hwb, _, ht, ?_, fun h => absurd h he0⟩
        simp only [ne_eq] at he0
        simp [sda_samples_append, hs0, sda_samples, he0]
      · rename_i he0
        simp only [ne_eq, not_not] at he0
        subst he0
        obtain ⟨hne, t, ht2, hs2, hp2⟩ := ih _ _ _ _ h
        refine ⟨hne, _, by rw [ht2, ht, List.append_assoc], ?_, ?_⟩
        · simp [sda_samples_append, hs0, hs2, sda_samples]
        · intro he
          simp only [scl_pulses_append, hp0, hp2 he, if_true]
          simp [scl_pulses]
          omega

theorem write_byte_trace (fuel : Nat) (bus : stwi σ) (byte : Nat) (s : World σ)
    (e : stwi_err_t) (s1 : World σ) (h : stwi_write_byte fuel bus byte s = some (e, s1)) :
    ∃ t, s1.trace = s.trace ++ t ∧
      (e = STWI_ERR_OK → scl_pulses t = 9 ∧ sda_samples t = [STWI_PIN_LOW]) ∧
      (e = STWI_ERR_NACK → scl_pulses t = 9 ∧ sda_samples t = [STWI_PIN_HIGH]) := by
  simp only [stwi_write_byte] at h
  split at h
  · simp at h
  · rename_i e0 s0 hl
    obtain ⟨hne, t, ht, hs, hp⟩ := write_byte_loop_trace _ _ _ _ _ _ _ hl
    split at h
    · rename_i he0
      simp only [Option.some.injEq, Prod.mk.injEq] at h
      obtain ⟨rfl, rfl⟩ := h
      exact ⟨t, ht, fun h => absurd h he0, fun h => absurd h hne⟩
    · rename_i he0
      simp only [ne_eq, not_not] at he0
      subst he0
      split at h
      · simp at h
      · rename_i e1 bit s2 hrb
        obtain ⟨w, hw, ht2⟩ := read_bit_trace _ _ _ _ _ _ _ hrb
        have hs0 : sda_samples w = [] := sda_samples_wait w hw
        have hp0 : scl_pulses w = 0 := scl_pulses_wait w hw
        split at h
        · rename_i he1
          simp only [Option.some.injEq, Prod.mk.injEq] at h
          obtain ⟨rfl, rfl⟩ := h
          exact ⟨_, by rw [ht2, ht, List.append_assoc], fun h => absurd h he1,
            fun h => absurd h (read_bit_err _ _ _ _ _ _ _ hrb)⟩
        · rename_i he1
          simp only [ne_eq, not_not] at he1
          subst he1
          simp only [Option.some.injEq, Prod.mk.injEq] at h
          obtain ⟨rfl, rfl⟩ := h
          refine ⟨_, by rw [ht2, ht, List.append_assoc], ?_, ?_⟩
          · intro he
            have hb : bit = STWI_PIN_LOW := by
              by_contra hb
              simp [hb] at he
            subst hb
            simp only [scl_pulses_append, sda_samples_append, hp0, hs0, hs, hp rfl, if_true]
            simp [scl_pulses, sda_samples]
          · intro he
            have hb : bit = STWI_PIN_HIGH := by
              cases bit
              · simp at he
              · rfl
            subst hb
            simp only [scl_pulses_append, sda_samples_append, hp0, hs0, hs, hp rfl, if_true]
            simp [scl_pulses, sda_samples]

theorem read_byte_loop_trace (fuel : Nat) (bus : stwi σ) (n : Nat) :
    ∀ (data : Nat) (s : World σ) (e : stwi_err_t) (d : Nat) (s1 : World σ),
    stwi_read_byte.loop fuel bus n data s = some (e, d, s1) →
      e ≠ STWI_ERR_NACK ∧
      ∃ t, s1.trace = s.trace ++ t ∧
        (e = STWI_ERR_OK → (sda_samples t).length = n ∧
          d = (sda_samples t).foldl
            (fun d b => (d <<< 1 ||| (if b = STWI_PIN_HIGH then 0x01 else 0x00)) % 256)
            data) := by
  induction n with
  | zero =>
    intro data s e d s1 h
    simp only [stwi_read_byte.loop, Option.some.injEq, Prod.mk.injEq] at h
    obtain ⟨rfl, rfl, rfl⟩ := h
    exact ⟨by simp, [], by simp, fun _ => ⟨rfl, rfl⟩⟩
  | succ n ih =>
    intro data s e d s1 h
    simp only [stwi_read_byte.loop] at h
    split at h
    · simp at h
    · rename_i e0 bit s0 hrb
      obtain ⟨w, hw, ht⟩ := read_bit_trace _ _ _ _ _ _ _ hrb
      have hs0 : sda_samples w = [] := sda_samples_wait w hw
      split at h
      · rename_i he0
        simp only [Option.some.injEq, Prod.mk.injEq] at h
        obtain ⟨rfl, rfl, rfl⟩ := h
        exact ⟨read_bit_err _ _ _ _ _ _ _ hrb, _, ht, fun h => absurd h he0⟩
      · rename_i he0
        simp only [ne_eq, not_not] at he0
        subst he0
        obtain ⟨hne, t, ht2, hok⟩ := ih _ _ _ _ _ h
        refine ⟨hne, _, by rw [ht2, ht, List.append_assoc], ?_⟩
        intro he
        obtain ⟨hlen, hd⟩ := hok he
        have hst : sda_samples
            (([Call.write_sda STWI_PIN_HIGH, Call.delay, Call.write_scl STWI_PIN_HIGH,
                  Call.delay] ++ w ++
                if STWI_ERR_OK = STWI_ERR_OK then
                  [Call.delay, Call.read_sda bit, Call.write_scl STWI_PIN_LOW, Call.delay]
                else []) ++ t) = bit :: sda_samples t := by
          simp [sda_samples_append, hs0, sda_samples]
        rw [hst]
        exact ⟨by simp [hlen], by simpa using hd⟩

theorem foldl_eq_byte_msb (bits : List stwi_pin_state_t) (h : bits.length = 8) :
    bits.foldl
      (fun d b => (d <<< 1 ||| (if b = STWI_PIN_HIGH then 0x01 else 0x00)) % 256) 0
      = byte_msb bits := by
  match bits, h with
  | [b7, b6, b5, b4, b3, b2, b1, b0], _ =>
    cases b7 <;> cases b6 <;> cases b5 <;> cases b4 <;> cases b3 <;> cases b2 <;>
      cases b1 <;> cases b0 <;> rfl

theorem read_byte_trace (fuel : Nat) (bus : stwi σ) (b0 : Nat) (ack : Bool) (s : World σ)
    (e : stwi_err_t) (d : Nat) (s1 : World σ)
    (h : stwi_read_byte fuel bus b0 ack s = some (e, d, s1)) :
    e ≠ STWI_ERR_NACK ∧
    ∃ t, s1.trace = s.trace ++ t ∧
      (e = STWI_ERR_OK → (sda_samples t).length = 8 ∧ d = byte_msb (sda_samples t)) := by
  simp only [stwi_read_byte] at h
  split at h
  · simp at h
  · rename_i e0 d0 s0 hl
    obtain ⟨hne, t, ht, hok⟩ := read_byte_loop_trace _ _ _ _ _ _ _ _ hl
    split at h
    · rename_i he0
      simp only [Option.some.injEq, Prod.mk.injEq] at h
      obtain ⟨rfl, rfl, rfl⟩ := h
      exact ⟨hne, t, ht, fun h => absurd h he0⟩
    · rename_i he0
      simp only [ne_eq, not_not] at he0
      subst he0
      obtain ⟨hlen, hd⟩ := hok rfl
      split at h
      · simp at h
      · rename_i e1 s2 hwb
        obtain ⟨w, hw, ht2⟩ := write_bit_trace _ _ _ _ _ _ hwb
        have hs0 : sda_samples w = [] := sda_samples_wait w hw
        split at h
        · rename_i he1
          simp only [Option.some.injEq, Prod.mk.injEq] at h
          obtain ⟨rfl, rfl, rfl⟩ := h
          exact ⟨write_bit_err _ _ _ _ _ _ hwb, _, by rw [ht2, ht, List.append_assoc],
            fun h => absurd h he1⟩
        · rename_i he1
          simp only [ne_eq, not_not] at he1
          subst he1
          simp only [Option.some.injEq, Prod.mk.injEq] at h
          obtain ⟨rfl, rfl, rfl⟩ := h
          refine ⟨by simp, _, by rw [ht2, ht, List.append_assoc], fun _ => ?_⟩
          have hst : sda_samples (t ++
              ([Call.write_sda (if ack = true then STWI_PIN_LOW else STWI_PIN_HIGH),
                  Call.delay, Call.write_scl STWI_PIN_HIGH, Call.delay] ++ w ++
                if STWI_ERR_OK = STWI_ERR_OK then
                  [Call.delay, Call.write_scl STWI_PIN_LOW, Call.delay]
                else [])) = sda_samples t := by
            simp [sda_samples_append, hs0, sda_samples]
          rw [hst]
          exact ⟨hlen, by rw [hd, foldl_eq_byte_msb _ hlen]⟩

theorem start_trace (fuel : Nat) (bus : stwi σ) (s : World σ) (e : stwi_err_t)
    (s1 : World σ) (h : stwi_start fuel bus s = some (e, s1)) :
    e ≠ STWI_ERR_NACK ∧ ∃ t, s1.trace = s.trace ++ t ∧ sda_samples t = [] := by
  simp only [stwi_start] at h
  split at h
  · simp at h
  · rename_i e0 s0 hsw
    obtain ⟨w, hw, ht⟩ := stretch_wait_trace _ _ _ _ _ hsw
    have hs0 : sda_samples w = [] := sda_samples_wait w hw
    split at h
    · simp only [Option.some.injEq, Prod.mk.injEq] at h
      obtain ⟨rfl, rfl⟩ := h
      refine ⟨stretch_wait_err _ _ _ _ _ hsw, [Call.write_sda STWI_PIN_HIGH, Call.delay,
        Call.write_scl STWI_PIN_HIGH, Call.delay] ++ w, ?_, ?_⟩
      · simp [ht, call_write_sda, call_delay, call_write_scl]
      · simp [sda_samples_append, sda_samples, hs0]
    · simp only [Option.some.injEq, Prod.mk.injEq] at h
      obtain ⟨rfl, rfl⟩ := h
      refine ⟨by simp, [Call.write_sda STWI_PIN_HIGH, Call.delay,
        Call.write_scl STWI_PIN_HIGH, Call.delay] ++ w ++
        [Call.write_sda STWI_PIN_LOW, Call.delay, Call.write_scl STWI_PIN_LOW, Call.delay],
        ?_, ?_⟩
      · simp [ht, call_write_sda, call_delay, call_write_scl]
      · simp [sda_samples_append, sda_samples, hs0]

theorem stop_trace (fuel : Nat) (bus : stwi σ) (s : World σ) (e : stwi_err_t)
    (s1 : World σ) (h : stwi_stop fuel bus s = some (e, s1)) :
    e ≠ STWI_ERR_NACK ∧ ∃ t, s1.trace = s.trace ++ t ∧ sda_samples t = [] := by
  simp only [stwi_stop] at h
  split at h
  · simp at h
  · rename_i e0 s0 hsw
    obtain ⟨w, hw, ht⟩ := stretch_wait_trace _ _ _ _ _ hsw
    have hs0 : sda_samples w = [] := sda_samples_wait w hw
    split at h
    · simp only [Option.some.injEq, Prod.mk.injEq] at h
      obtain ⟨rfl, rfl⟩ := h
      refine ⟨stretch_wait_err _ _ _ _ _ hsw, [Call.write_sda STWI_PIN_LOW, Call.delay,
        Call.write_scl STWI_PIN_HIGH, Call.delay] ++ w, ?_, ?_⟩
      · simp [ht, call_write_sda, call_delay, call_write_scl]
      · simp [sda_samples_append, sda_samples, hs0]
    · simp only [Option.some.injEq, Prod.mk.injEq] at h
      obtain ⟨rfl, rfl⟩ := h
      refine ⟨by simp, [Call.write_sda STWI_PIN_LOW, Call.delay,
        Call.write_scl STWI_PIN_HIGH, Call.delay] ++ w ++
        [Call.write_sda STWI_PIN_HIGH, Call.delay], ?_, ?_⟩
      · simp [ht, call_write_sda, call_delay, call_write_scl]
      · simp [sda_samples_append, sda_samples, hs0]

theorem op_run_trace (fuel : Nat) (bus : stwi σ) (op : Op) (s : World σ) (e : stwi_err_t)
    (rx : List Nat) (s1 : World σ) (h : Op.run fuel bus op s = some (e, rx, s1)) :
    ∃ t, s1.trace = s.trace ++ t ∧
      (op.is_tx = true → rx = [] ∧ (e = STWI_ERR_OK → (sda_samples t).length = op.acks)) ∧
      (op.is_rx = true → e = STWI_ERR_OK → ∃ enc, sda_samples t = enc ∧
        ∀ tail, bytes_of_samples (enc ++ tail) = rx ++ bytes_of_samples tail) ∧
      (e ≠ STWI_ERR_OK → rx = []) ∧
      (e = STWI_ERR_OK → rx.length = if op.is_tx = true ∨ op = Op.stop then 0 else 1) := by
  cases op with
  | start =>
    simp only [Op.run, Option.map_eq_some', Prod.mk.injEq, Prod.exists] at h
    obtain ⟨e', s', h, rfl, rfl, rfl⟩ := h
    obtain ⟨-, t, ht, hs⟩ := start_trace _ _ _ _ _ h
    exact ⟨t, ht, by simp [hs, Op.acks], by simp [Op.is_rx], by simp, by simp [Op.is_tx]⟩
  | stop =>
    simp only [Op.run, Option.map_eq_some', Prod.mk.injEq, Prod.exists] at h
    obtain ⟨e', s', h, rfl, rfl, rfl⟩ := h
    obtain ⟨-, t, ht, hs⟩ := stop_trace _ _ _ _ _ h
    exact ⟨t, ht, by simp [Op.is_tx], by simp [hs], by simp, by simp⟩
  | write_byte b =>
    simp only [Op.run, Option.map_eq_some', Prod.mk.injEq, Prod.exists] at h
    obtain ⟨e', s', h, rfl, rfl, rfl⟩ := h
    obtain ⟨t, ht, hok, -⟩ := write_byte_trace _ _ _ _ _ _ h
    refine ⟨t, ht, ?_, by simp [Op.is_rx], by simp, by simp [Op.is_tx]⟩
    intro _
    refine ⟨rfl, fun he => ?_⟩
    rw [(hok he).2]
    rfl
  | read_byte ack =>
    simp only [Op.run, Option.map_eq_some', Prod.mk.injEq, Prod.exists] at h
    obtain ⟨e', d, s', h, rfl, rfl, rfl⟩ := h
    obtain ⟨-, t, ht, hok⟩ := read_byte_trace _ _ _ _ _ _ _ _ h
    refine ⟨t, ht, by simp [Op.is_tx], ?_, ?_, ?_⟩
    · intro _ he
      obtain ⟨hlen, hd⟩ := hok he
      refine ⟨_, rfl, fun tail => ?_⟩
      subst he
      match hst : sda_samples t, hlen with
      | [b7, b6, b5, b4, b3, b2, b1, b0], _ =>
        rw [hst] at hd
        simp [bytes_of_samples, hd]
    · intro he
      simp [he]
    · intro he
      simp [he, Op.is_tx]

theorem run_ops_cons_some (fuel : Nat) (bus : stwi σ) (op : Op) (ops : List Op)
    (s : World σ) (e : stwi_err_t) (n : Nat) (rx : List Nat) (s1 : World σ)
    (h : run_ops fuel bus (op :: ops) s = some (e, n, rx, s1)) :
    (∃ e0, e0 ≠ STWI_ERR_OK ∧ Op.run fuel bus op s = some (e0, [], s1) ∧ e = e0 ∧ n = 0 ∧
        rx = []) ∨
      (e ≠ STWI_ERR_OK ∧ Op.run fuel bus op s = some (e, rx, s1) ∧ n = 0 ∧ rx = []) ∨
      ∃ rx0 s0 m rxs, Op.run fuel bus op s = some (STWI_ERR_OK, rx0, s0) ∧
        run_ops fuel bus ops s0 = some (e, m, rxs, s1) ∧ n = m + 1 ∧ rx = rx0 ++ rxs := by
  rw [run_ops] at h
  rcases hop : Op.run fuel bus op s with _ | ⟨e0, rx0, s0⟩
  · simp [hop] at h
  · by_cases he0 : e0 = STWI_ERR_OK
    · subst he0
      simp only [hop, ne_eq, not_true_eq_false, if_false] at h
      rcases hr : run_ops fuel bus ops s0 with _ | ⟨e1, n1, rx1, s2⟩
      · simp [hr] at h
      · simp only [hr, Option.some.injEq, Prod.mk.injEq] at h
        obtain ⟨rfl, rfl, rfl, rfl⟩ := h
        exact Or.inr (Or.inr ⟨rx0, s0, n1, rx1, rfl, hr, rfl, rfl⟩)
    · simp only [hop, ne_eq, he0, not_false_eq_true, if_true, Option.some.injEq,
        Prod.mk.injEq] at h
      obtain ⟨rfl, rfl, rfl, rfl⟩ := h
      have hrx : rx0 = [] := by
        obtain ⟨t, -, -, -, hne, -⟩ := op_run_trace _ _ _ _ _ _ _ hop
        exact hne he0
      subst hrx
      exact Or.inl ⟨e0, he0, rfl, rfl, rfl, rfl⟩

theorem run_ops_tx_trace (fuel : Nat) (bus : stwi σ) (ops : List Op) :
    ∀ (s : World σ) (e : stwi_err_t) (n : Nat) (rx : List Nat) (s1 : World σ),
    (∀ op ∈ ops, Op.is_tx op = true) →
    run_ops fuel bus ops s = some (e, n, rx, s1) →
      rx = [] ∧ ∃ t, s1.trace = s.trace ++ t ∧
        (e = STWI_ERR_OK → (sda_samples t).length = (ops.map Op.acks).sum) := by
  induction ops with
  | nil =>
    intro s e n rx s1 _ h
    simp only [run_ops, Option.some.injEq, Prod.mk.injEq] at h
    obtain ⟨-, -, rfl, rfl⟩ := h
    exact ⟨rfl, [], by simp, fun _ => rfl⟩
  | cons op ops ih =>
    intro s e n rx s1 htx h
    have hop_tx := htx op (List.mem_cons_self _ _)
    rcases run_ops_cons_some _ _ _ _ _ _ _ _ _ h with
      ⟨e0, he0, hop, rfl, -, rfl⟩ | ⟨he, hop, -, rfl⟩ | ⟨rx0, s0, m, rxs, hop, hr, -, rfl⟩
    · obtain ⟨t, ht, -⟩ := op_run_trace _ _ _ _ _ _ _ hop
      exact ⟨rfl, t, ht, fun h => absurd h he0⟩
    · obtain ⟨t, ht, -⟩ := op_run_trace _ _ _ _ _ _ _ hop
      exact ⟨rfl, t, ht, fun h => absurd h he⟩
    · obtain ⟨t, ht, htx0, -⟩ := op_run_trace _ _ _ _ _ _ _ hop
      obtain ⟨hrx0, hlen0⟩ := htx0 hop_tx
      obtain ⟨hrxs, t2, ht2, hlen2⟩ :=
        ih _ _ _ _ _ (fun o ho => htx o (List.mem_cons_of_mem _ ho)) hr
      refine ⟨by simp [hrx0, hrxs], t ++ t2, by rw [ht2, ht, List.append_assoc], ?_⟩
      intro he
      simp [sda_samples_append, hlen0 rfl, hlen2 he]

theorem run_ops_rx_trace (fuel : Nat) (bus : stwi σ) (ops : List Op) :
    ∀ (s : World σ) (e : stwi_err_t) (n : Nat) (rx : List Nat) (s1 : World σ),
    (∀ op ∈ ops, Op.is_rx op = true) →
    run_ops fuel bus ops s = some (e, n, rx, s1) →
      ∃ t, s1.trace = s.trace ++ t ∧ ∃ enc rest, sda_samples t = enc ++ rest ∧
        ∀ tail, bytes_of_samples (enc ++ tail) = rx ++ bytes_of_samples tail := by
  induction ops with
  | nil =>
    intro s e n rx s1 _ h
    simp only [run_ops, Option.some.injEq, Prod.mk.injEq] at h
    obtain ⟨-, -, rfl, rfl⟩ := h
    exact ⟨[], by simp, [], [], rfl, fun _ => rfl⟩
  | cons op ops ih =>
    intro s e n rx s1 hrxs h
    have hop_rx := hrxs op (List.mem_cons_self _ _)
    rcases run_ops_cons_some _ _ _ _ _ _ _ _ _ h with
      ⟨e0, he0, hop, rfl, -, rfl⟩ | ⟨he, hop, -, rfl⟩ | ⟨rx0, s0, m, rxs, hop, hr, -, rfl⟩
    · obtain ⟨t, ht, -⟩ := op_run_trace _ _ _ _ _ _ _ hop
      exact ⟨t, ht, [], sda_samples t, rfl, fun _ => rfl⟩
    · obtain ⟨t, ht, -⟩ := op_run_trace _ _ _ _ _ _ _ hop
      exact ⟨t, ht, [], sda_samples t, rfl, fun _ => rfl⟩
    · obtain ⟨t, ht, -, hrx0, -⟩ := op_run_trace _ _ _ _ _ _ _ hop
      obtain ⟨enc0, henc0, hb0⟩ := hrx0 hop_rx rfl
      obtain ⟨t2, ht2, enc, rest, hs2, hb⟩ :=
        ih _ _ _ _ _ (fun o ho => hrxs o (List.mem_cons_of_mem _ ho)) hr
      refine ⟨t ++ t2, by rw [ht2, ht, List.append_assoc], enc0 ++ enc, rest, ?_, ?_⟩
      · rw [sda_samples_append, henc0, hs2, List.append_assoc]
      · intro tail
        rw [List.append_assoc, hb0, hb, List.append_assoc]

theorem run_ops_reads_length (fuel : Nat) (bus : stwi σ) (size : Nat) :
    ∀ (s : World σ) (e : stwi_err_t) (n : Nat) (rx : List Nat) (s1 : World σ),
    run_ops fuel bus (read_tail size) s = some (e, n, rx, s1) → rx.length = n := by
  induction size with
  | zero =>
    intro s e n rx s1 h
    simp only [read_tail, run_ops, Option.some.injEq, Prod.mk.injEq] at h
    obtain ⟨-, rfl, rfl, -⟩ := h
    rfl
  | succ size ih =>
    intro s e n rx s1 h
    rw [read_tail] at h
    rcases run_ops_cons_some _ _ _ _ _ _ _ _ _ h with
      ⟨e0, he0, hop, rfl, rfl, rfl⟩ | ⟨he, hop, rfl, rfl⟩ |
      ⟨rx0, s0, m, rxs, hop, hr, rfl, rfl⟩
    · rfl
    · rfl
    · obtain ⟨t, -, -, -, -, hlen⟩ := op_run_trace _ _ _ _ _ _ _ hop
      have := hlen rfl
      simp only [Op.is_tx, Bool.false_eq_true, reduceCtorEq, or_self, if_false] at this
      simp [this, ih _ _ _ _ _ hr, Nat.add_comm]

theorem read_tail_is_rx (size : Nat) : ∀ op ∈ read_tail size ++ [Op.stop], Op.is_rx op = true := by
  induction size with
  | zero => simp [read_tail, Op.is_rx]
  | succ size ih =>
    intro op hop
    simp only [read_tail, List.cons_append, List.mem_cons] at hop
    rcases hop with rfl | hop
    · rfl
    · exact ih op hop

theorem set_append_cons (pre : List Nat) (p b : Nat) (post : List Nat) :
    (pre ++ p :: post).set pre.length b = pre ++ b :: post := by
  induction pre with
  | nil => rfl
  | cons a pre ih => simp [List.set, ih]

theorem store_append (rx : List Nat) :
    ∀ (pre post : List Nat), rx.length ≤ post.length →
      store (pre ++ post) pre.length rx = pre ++ rx ++ post.drop rx.length := by
  induction rx with
  | nil => intro pre post _; simp [store]
  | cons b bs ih =>
    intro pre post h
    cases post with
    | nil => simp at h
    | cons p post =>
      simp only [List.length_cons, Nat.add_le_add_iff_right] at h
      rw [store, set_append_cons]
      have := ih (pre ++ [b]) post h
      simp only [List.length_append, List.length_singleton, List.append_assoc,
        List.singleton_append] at this
      simp [this]

theorem store_zero (rx buff : List Nat) (h : rx.length ≤ buff.length) :
    store buff 0 rx = rx ++ buff.drop rx.length := by
  simpa using store_append rx [] buff h

theorem run_ops_append_inv (fuel : Nat) (bus : stwi σ) (a b : List Op) (s s2 : World σ)
    (e : stwi_err_t) (n : Nat) (rx : List Nat)
    (h : run_ops fuel bus (a ++ b) s = some (e, n, rx, s2)) :
    (e ≠ STWI_ERR_OK ∧ run_ops fuel bus a s = some (e, n, rx, s2)) ∨
      ∃ n1 rx1 s1 m rx2, run_ops fuel bus a s = some (STWI_ERR_OK, n1, rx1, s1) ∧
        run_ops fuel bus b s1 = some (e, m, rx2, s2) ∧ n = n1 + m ∧ rx = rx1 ++ rx2 := by
  rw [run_ops_append] at h
  rcases hp : run_ops fuel bus a s with _ | ⟨e0, n0, rx0, s0⟩
  · simp [hp] at h
  · rw [hp] at h
    by_cases he0 : e0 = STWI_ERR_OK
    · subst he0
      simp only [ne_eq, not_true_eq_false, if_false] at h
      rcases hb : run_ops fuel bus b s0 with _ | ⟨e2, m, rx2, s3⟩
      · simp [hb] at h
      · simp only [hb, Option.some.injEq, Prod.mk.injEq] at h
        obtain ⟨rfl, rfl, rfl, rfl⟩ := h
        exact Or.inr ⟨n0, rx0, s0, m, rx2, rfl, hb, rfl, rfl⟩
    · simp only [ne_eq, he0, not_false_eq_true, if_true, Option.some.injEq,
        Prod.mk.injEq] at h
      obtain ⟨rfl, rfl, rfl, rfl⟩ := h
      exact Or.inl ⟨he0, rfl⟩

theorem run_ops_append_ok (fuel : Nat) (bus : stwi σ) (a b : List Op) (s s1 : World σ)
    (n1 : Nat) (rx1 : List Nat) (h : run_ops fuel bus a s = some (STWI_ERR_OK, n1, rx1, s1)) :
    run_ops fuel bus (a ++ b) s =
      (run_ops fuel bus b s1).map fun x => (x.1, n1 + x.2.1, rx1 ++ x.2.2.1, x.2.2.2) := by
  rw [run_ops_append, h]
  simp only [ne_eq, not_true_eq_false, if_false]
  rcases run_ops fuel bus b s1 with _ | ⟨e2, m, rx2, s2⟩ <;> rfl

theorem run_ops_no_read (fuel : Nat) (bus : stwi σ) (ops : List Op) :
    ∀ (s : World σ) (e : stwi_err_t) (n : Nat) (rx : List Nat) (s1 : World σ),
    (∀ op ∈ ops, Op.is_tx op = true ∨ op = Op.stop) →
    run_ops fuel bus ops s = some (e, n, rx, s1) → rx = [] := by
  induction ops with
  | nil =>
    intro s e n rx s1 _ h
    simp only [run_ops, Option.some.injEq, Prod.mk.injEq] at h
    exact h.2.2.1.symm
  | cons op ops ih =>
    intro s e n rx s1 hno h
    rcases run_ops_cons_some _ _ _ _ _ _ _ _ _ h with
      ⟨e0, he0, hop, rfl, -, rfl⟩ | ⟨he, hop, -, rfl⟩ | ⟨rx0, s0, m, rxs, hop, hr, -, rfl⟩
    · rfl
    · rfl
    · obtain ⟨t, -, -, -, -, hlen⟩ := op_run_trace _ _ _ _ _ _ _ hop
      have h0 := hlen rfl
      rw [if_pos (hno op (List.mem_cons_self _ _))] at h0
      have hrxs := ih _ _ _ _ _ (fun o ho => hno o (List.mem_cons_of_mem _ ho)) hr
      rw [hrxs, List.length_eq_zero.mp h0]
      rfl

theorem run_ops_single (fuel : Nat) (bus : stwi σ) (op : Op) (s : World σ) :
    run_ops fuel bus [op] s =
      (Op.run fuel bus op s).map fun r =>
        (r.1, if r.1 = STWI_ERR_OK then 1 else 0, if r.1 = STWI_ERR_OK then r.2.1 else [],
          r.2.2) := by
  simp only [run_ops]
  rcases Op.run fuel bus op s with _ | ⟨e, rx, s1⟩
  · rfl
  · by_cases he : e = STWI_ERR_OK <;> simp [he]

theorem run_ops_fail_head (fuel : Nat) (bus : stwi σ) (op : Op) (ops : List Op)
    (s s1 : World σ) (e : stwi_err_t) (rx : List Nat)
    (h : Op.run fuel bus op s = some (e, rx, s1)) (he : e ≠ STWI_ERR_OK) :
    run_ops fuel bus (op :: ops) s = some (e, 0, [], s1) := by
  rw [run_ops, h]
  simp [he]

theorem run_ops_ok_head (fuel : Nat) (bus : stwi σ) (op : Op) (ops : List Op)
    (s s1 : World σ) (rx : List Nat)
    (h : Op.run fuel bus op s = some (STWI_ERR_OK, rx, s1)) :
    run_ops fuel bus (op :: ops) s =
      (run_ops fuel bus ops s1).map fun x => (x.1, x.2.1 + 1, rx ++ x.2.2.1, x.2.2.2) := by
  rw [run_ops, h]
  simp only [ne_eq, not_true_eq_false, if_false]
  rcases run_ops fuel bus ops s1 with _ | ⟨e2, m, rx2, s2⟩ <;> rfl

theorem addr_byte_write (addr : Nat) (h : addr < 128) :
    (addr <<< 1 ||| 0x00) % 256 = addr <<< 1 := by
  rw [Nat.or_zero, Nat.shiftLeft_eq]
  exact Nat.mod_eq_of_lt (by omega)

theorem addr_byte_read (addr : Nat) (h : addr < 128) :
    (addr <<< 1 ||| 0x01) % 256 = addr <<< 1 ||| 1 := by
  interval_cases addr <;> rfl

theorem reg_big_endian (reg : Nat) (h : reg < 65536) :
    (reg >>> 8 &&& 0xFF) * 256 + (reg &&& 0xFF) = reg := by
  have h1 : reg &&& 0xFF = reg % 256 := Nat.and_pow_two_sub_one_eq_mod reg 8
  have h2 : reg >>> 8 &&& 0xFF = (reg >>> 8) % 256 := Nat.and_pow_two_sub_one_eq_mod _ 8
  rw [h1, h2, Nat.shiftRight_eq_div_pow]
  omega

theorem dev_write_inv (fuel : Nat) (bus : stwi σ) (addr : Nat) (reg_size : stwi_reg_size_t)
    (reg : Nat) (buff : List Nat) (size : Nat) (s s1 : World σ) (res : stwi_res)
    (h : stwi_dev_write fuel bus addr reg_size reg buff size s = some (res, s1)) :
    ∃ e n rx, run_ops fuel bus
        (write_ops ((addr <<< 1 ||| 0x00) % 256) (reg_bytes reg_size reg) (payload size buff))
        s = some (e, n, rx, s1) ∧
      res = write_res (reg_bytes reg_size reg).length size e n := by
  rw [dev_write_eq] at h
  simp only [Option.map_eq_some', Prod.mk.injEq, Prod.exists] at h
  obtain ⟨e, n, rx, s2, hr, rfl, rfl⟩ := h
  exact ⟨e, n, rx, hr, rfl⟩

theorem dev_read_inv (fuel : Nat) (bus : stwi σ) (addr : Nat) (reg_size : stwi_reg_size_t)
    (reg : Nat) (buff : List Nat) (size : Nat) (s s1 : World σ) (res : stwi_res)
    (mem : List Nat)
    (h : stwi_dev_read fuel bus addr reg_size reg buff size s = some (res, mem, s1)) :
    ∃ e n rx, run_ops fuel bus
        (read_ops ((addr <<< 1 ||| 0x00) % 256) (reg_bytes reg_size reg)
          ((addr <<< 1 ||| 0x01) % 256) size) s = some (e, n, rx, s1) ∧
      res = read_res (reg_bytes reg_size reg).length size e n ∧ mem = store buff 0 rx := by
  rw [dev_read_eq] at h
  simp only [Option.map_eq_some', Prod.mk.injEq, Prod.exists] at h
  obtain ⟨e, n, rx, s2, hr, rfl, rfl, rfl⟩ := h
  exact ⟨e, n, rx, hr, rfl, rfl⟩

theorem write_res_err (r n idx : Nat) (e : stwi_err_t) : (write_res r n e idx).err = e := by
  unfold write_res
  split_ifs <;> rfl

theorem read_res_err (r n idx : Nat) (e : stwi_err_t) : (read_res r n e idx).err = e := by
  unfold read_res
  split_ifs <;> rfl

theorem write_res_le (r n idx : Nat) (e : stwi_err_t) : (write_res r n e idx).data_size ≤ n := by
  unfold write_res
  split_ifs <;> (simp; try omega)

theorem read_res_le (r n idx : Nat) (e : stwi_err_t) : (read_res r n e idx).data_size ≤ n := by
  unfold read_res
  split_ifs <;> (simp; try omega)

theorem write_ops_length (a : Nat) (regs p : List Nat) :
    (write_ops a regs p).length = 3 + regs.length + p.length := by
  simp [write_ops]
  omega

theorem read_data_ops_length (n : Nat) : (read_data_ops n).length = n := by
  simp [read_data_ops]

theorem read_ops_length (a : Nat) (regs : List Nat) (a1 n : Nat) :
    (read_ops a regs a1 n).length = 5 + regs.length + n := by
  simp [read_ops, read_data_ops_length]
  omega

theorem count_start_map_write (l : List Nat) : (l.map Op.write_byte).count Op.start = 0 := by
  rw [List.count_eq_zero]
  simp

theorem count_start_read_data (n : Nat) : (read_data_ops n).count Op.start = 0 := by
  rw [List.count_eq_zero]
  simp [read_data_ops]

theorem read_tail_succ_eq (m : Nat) :
    read_tail (m + 1) = List.replicate m (Op.read_byte true) ++ [Op.read_byte false] := by
  induction m with
  | zero => rfl
  | succ m ih =>
    rw [read_tail, ih, List.replicate_succ]
    simp

theorem calls_since_append (s s1 : World σ) (t : List Call) (h : s1.trace = s.trace ++ t) :
    calls_since s s1 = t := by
  simp [calls_since, h]

theorem read_res_pre (r n idx : Nat) (e : stwi_err_t) (h : idx < 4 + r) :
    (read_res r n e idx).data_size = 0 := by
  unfold read_res
  split_ifs <;> first | rfl | omega

theorem read_ops_split (a : Nat) (regs : List Nat) (a1 n : Nat) :
    read_ops a regs a1 n =
      ([Op.start, Op.write_byte a] ++ regs.map Op.write_byte ++ [Op.start, Op.write_byte a1])
        ++ (read_tail n ++ [Op.stop]) := by
  simp [read_ops, read_data_ops_eq_tail]

theorem read_pre_is_tx (a : Nat) (regs : List Nat) (a1 : Nat) :
    ∀ op ∈ [Op.start, Op.write_byte a] ++ regs.map Op.write_byte
      ++ [Op.start, Op.write_byte a1], Op.is_tx op = true := by
  simp [Op.is_tx, or_imp, forall_and]

theorem read_pre_acks (a : Nat) (regs : List Nat) (a1 : Nat) :
    (([Op.start, Op.write_byte a] ++ regs.map Op.write_byte
      ++ [Op.start, Op.write_byte a1]).map Op.acks).sum = 2 + regs.length := by
  have : (regs.map (Op.acks ∘ Op.write_byte)).sum = regs.length := by
    induction regs with
    | nil => rfl
    | cons b bs ih => simp [ih, Op.acks, Nat.add_comm]
  simp [Op.acks, this]
  omega

/-! ## Failed timeout checks and unacknowledged bytes in the trace -/

theorem stretch_loop_timeout (bus : stwi σ) (fuel : Nat) :
    ∀ (s s1 : World σ),
    stwi_stretch_wait.loop bus fuel s = some (STWI_ERR_STRETCH, s1) →
      ∃ t, s1.trace = s.trace ++ t ∧ Call.timeout_check false ∈ t := by
  induction fuel with
  | zero => intro s s1 h; simp [stwi_stretch_wait.loop] at h
  | succ fuel ih =>
    intro s s1 h
    simp only [stwi_stretch_wait.loop] at h
    split at h
    · rename_i hc
      simp only [Option.some.injEq, Prod.mk.injEq, true_and] at h
      subst h
      refine ⟨[Call.timeout_check (bus.timeout_check s.st).1], rfl, ?_⟩
      simp only [call_timeout_check] at hc
      simp [hc]
    · split at h
      · obtain ⟨t, ht, hm⟩ := ih _ _ h
        refine ⟨[Call.timeout_check (bus.timeout_check s.st).1, Call.delay,
          Call.read_scl (bus.read_scl (bus.delay (bus.timeout_check s.st).2)).1] ++ t, ?_,
          List.mem_append_right _ hm⟩
        rw [ht]
        simp [call_read_scl, call_delay, call_timeout_check]
      · simp at h

theorem stretch_wait_timeout (fuel : Nat) (bus : stwi σ) (s s1 : World σ)
    (h : stwi_stretch_wait fuel bus s = some (STWI_ERR_STRETCH, s1)) :
    ∃ t, s1.trace = s.trace ++ t ∧ Call.timeout_check false ∈ t := by
  simp only [stwi_stretch_wait] at h
  split at h
  · obtain ⟨t, ht, hm⟩ := stretch_loop_timeout _ _ _ _ h
    refine ⟨[Call.read_scl (bus.read_scl s.st).1, Call.timeout_start] ++ t, ?_,
      List.mem_append_right _ hm⟩
    rw [ht]
    simp [call_read_scl, call_timeout_start]
  · simp at h

theorem timeout_after_calls (s0 s s1 : World σ) (pre : List Call)
    (hpre : s.trace = s0.trace ++ pre)
    (h : ∃ t, s1.trace = s.trace ++ t ∧ Call.timeout_check false ∈ t) :
    ∃ t, s1.trace = s0.trace ++ t ∧ Call.timeout_check false ∈ t := by
  obtain ⟨t, ht, hm⟩ := h
  exact ⟨pre ++ t, by rw [ht, hpre, List.append_assoc], List.mem_append_right _ hm⟩

theorem timeout_before_calls (s s1 s2 : World σ) (post : List Call)
    (hpost : s2.trace = s1.trace ++ post)
    (h : ∃ t, s1.trace = s.trace ++ t ∧ Call.timeout_check false ∈ t) :
    ∃ t, s2.trace = s.trace ++ t ∧ Call.timeout_check false ∈ t := by
  obtain ⟨t, ht, hm⟩ := h
  exact ⟨t ++ post, by rw [hpost, ht, List.append_assoc], List.mem_append_left _ hm⟩

theorem write_bit_timeout (fuel : Nat) (bus : stwi σ) (bit : stwi_pin_state_t)
    (s s1 : World σ) (h : stwi_write_bit fuel bus bit s = some (STWI_ERR_STRETCH, s1)) :
    ∃ t, s1.trace = s.trace ++ t ∧ Call.timeout_check false ∈ t := by
  simp only [stwi_write_bit] at h
  split at h
  · simp at h
  · rename_i e0 s0 hsw
    split at h
    · simp only [Option.some.injEq, Prod.mk.injEq] at h
      obtain ⟨rfl, rfl⟩ := h
      refine timeout_after_calls s _ _
        [Call.write_sda bit, Call.delay, Call.write_scl STWI_PIN_HIGH, Call.delay] ?_
        (stretch_wait_timeout _ _ _ _ hsw)
      simp [call_write_sda, call_delay, call_write_scl]
    · simp at h

theorem read_bit_timeout (fuel : Nat) (bus : stwi σ) (b0 bit : stwi_pin_state_t)
    (s s1 : World σ) (h : stwi_read_bit fuel bus b0 s = some (STWI_ERR_STRETCH, bit, s1)) :
    ∃ t, s1.trace = s.trace ++ t ∧ Call.timeout_check false ∈ t := by
  simp only [stwi_read_bit] at h
  split at h
  · simp at h
  · rename_i e0 s0 hsw
    split at h
    · simp only [Option.some.injEq, Prod.mk.injEq] at h
      obtain ⟨rfl, -, rfl⟩ := h
      refine timeout_after_calls s _ _
        [Call.write_sda STWI_PIN_HIGH, Call.delay, Call.write_scl STWI_PIN_HIGH, Call.delay]
        ?_ (stretch_wait_timeout _ _ _ _ hsw)
      simp [call_write_sda, call_delay, call_write_scl]
    · simp at h

theorem start_timeout (fuel : Nat) (bus : stwi σ) (s s1 : World σ)
    (h : stwi_start fuel bus s = some (STWI_ERR_STRETCH, s1)) :
    ∃ t, s1.trace = s.trace ++ t ∧ Call.timeout_check false ∈ t := by
  simp only [stwi_start] at h
  split at h
  · simp at h
  · rename_i e0 s0 hsw
    split at h
    · simp only [Option.some.injEq, Prod.mk.injEq] at h
      obtain ⟨rfl, rfl⟩ := h
      refine timeout_after_calls s _ _
        [Call.write_sda STWI_PIN_HIGH, Call.delay, Call.write_scl STWI_PIN_HIGH, Call.delay]
        ?_ (stretch_wait_timeout _ _ _ _ hsw)
      simp [call_write_sda, call_delay, call_write_scl]
    · simp at h

theorem stop_timeout (fuel : Nat) (bus : stwi σ) (s s1 : World σ)
    (h : stwi_stop fuel bus s = some (STWI_ERR_STRETCH, s1)) :
    ∃ t, s1.trace = s.trace ++ t ∧ Call.timeout_check false ∈ t := by
  simp only [stwi_stop] at h
  split at h
  · simp at h
  · rename_i e0 s0 hsw
    split at h
    · simp only [Option.some.injEq, Prod.mk.injEq] at h
      obtain ⟨rfl, rfl⟩ := h
      refine timeout_after_calls s _ _
        [Call.write_sda STWI_PIN_LOW, Call.delay, Call.write_scl STWI_PIN_HIGH, Call.delay]
        ?_ (stretch_wait_timeout _ _ _ _ hsw)
      simp [call_write_sda, call_delay, call_write_scl]
    · simp at h

theorem write_byte_loop_timeout (fuel : Nat) (bus : stwi σ) (n : Nat) :
    ∀ (byte : Nat) (s s1 : World σ),
    stwi_write_byte.loop fuel bus n byte s = some (STWI_ERR_STRETCH, s1) →
      ∃ t, s1.trace = s.trace ++ t ∧ Call.timeout_check false ∈ t := by
  induction n with
  | zero => intro byte s s1 h; simp [stwi_write_byte.loop] at h
  | succ n ih =>
    intro byte s s1 h
    simp only [stwi_write_byte.loop] at h
    split at h
    · simp at h
    · rename_i e0 s0 hwb
      split at h
      · simp only [Option.some.injEq, Prod.mk.injEq] at h
        obtain ⟨rfl, rfl⟩ := h
        exact write_bit_timeout _ _ _ _ _ hwb
      · obtain ⟨w, -, ht⟩ := write_bit_trace _ _ _ _ _ _ hwb
        exact timeout_after_calls s _ _ _ ht (ih _ _ _ h)

theorem write_byte_timeout (fuel : Nat) (bus : stwi σ) (byte : Nat) (s s1 : World σ)
    (h : stwi_write_byte fuel bus byte s = some (STWI_ERR_STRETCH, s1)) :
    ∃ t, s1.trace = s.trace ++ t ∧ Call.timeout_check false ∈ t := by
  simp only [stwi_write_byte] at h
  split at h
  · simp at h
  · rename_i e0 s0 hl
    split at h
    · simp only [Option.some.injEq, Prod.mk.injEq] at h
      obtain ⟨rfl, rfl⟩ := h
      exact write_byte_loop_timeout _ _ _ _ _ _ hl
    · obtain ⟨-, t, ht, -⟩ := write_byte_loop_trace _ _ _ _ _ _ _ hl
      split at h
      · simp at h
      · rename_i e1 bit s2 hrb
        split at h
        · simp only [Option.some.injEq, Prod.mk.injEq] at h
          obtain ⟨rfl, rfl⟩ := h
          exact timeout_after_calls s _ _ _ ht (read_bit_timeout _ _ _ _ _ _ hrb)
        · simp only [Option.some.injEq, Prod.mk.injEq] at h
          obtain ⟨h1, -⟩ := h
          split at h1 <;> simp at h1

theorem read_byte_loop_timeout (fuel : Nat) (bus : stwi σ) (n : Nat) :
    ∀ (data d : Nat) (s s1 : World σ),
    stwi_read_byte.loop fuel bus n data s = some (STWI_ERR_STRETCH, d, s1) →
      ∃ t, s1.trace = s.trace ++ t ∧ Call.timeout_check false ∈ t := by
  induction n with
  | zero => intro data d s s1 h; simp [stwi_read_byte.loop] at h
  | succ n ih =>
    intro data d s s1 h
    simp only [stwi_read_byte.loop] at h
    split at h
    · simp at h
    · rename_i e0 bit s0 hrb
      split at h
      · simp only [Option.some.injEq, Prod.mk.injEq] at h
        obtain ⟨rfl, -, rfl⟩ := h
        exact read_bit_timeout _ _ _ _ _ _ hrb
      · obtain ⟨w, -, ht⟩ := read_bit_trace _ _ _ _ _ _ _ hrb
        exact timeout_after_calls s _ _ _ ht (ih _ _ _ _ h)

theorem read_byte_timeout (fuel : Nat) (bus : stwi σ) (b0 d : Nat) (ack : Bool)
    (s s1 : World σ)
    (h : stwi_read_byte fuel bus b0 ack s = some (STWI_ERR_STRETCH, d, s1)) :
    ∃ t, s1.trace = s.trace ++ t ∧ Call.timeout_check false ∈ t := by
  simp only [stwi_read_byte] at h
  split at h
  · simp at h
  · rename_i e0 d0 s0 hl
    split at h
    · simp only [Option.some.injEq, Prod.mk.injEq] at h
      obtain ⟨rfl, -, rfl⟩ := h
      exact read_byte_loop_timeout _ _ _ _ _ _ _ hl
    · obtain ⟨-, t, ht, -⟩ := read_byte_loop_trace _ _ _ _ _ _ _ _ hl
      split at h
      · simp at h
      · rename_i e1 s2 hwb
        split at h
        · simp only [Option.some.injEq, Prod.mk.injEq] at h
          obtain ⟨rfl, -, rfl⟩ := h
          exact timeout_after_calls s _ _ _ ht (write_bit_timeout _ _ _ _ _ hwb)
        · simp at h

theorem mem_of_sda_samples (t : List Call) (v : stwi_pin_state_t) (h : v ∈ sda_samples t) :
    Call.read_sda v ∈ t := by
  induction t with
  | nil => simp [sda_samples] at h
  | cons c t ih =>
    cases c <;> simp only [sda_samples, List.mem_cons] at h ⊢
    case read_sda r =>
      rcases h with rfl | h
      · exact Or.inl rfl
      · exact Or.inr (ih h)
    all_goals exact Or.inr (ih h)

theorem op_run_events (fuel : Nat) (bus : stwi σ) (op : Op) (s : World σ) (e : stwi_err_t)
    (rx : List Nat) (s1 : World σ) (h : Op.run fuel bus op s = some (e, rx, s1)) :
    ∃ t, s1.trace = s.trace ++ t ∧
      (e = STWI_ERR_STRETCH → Call.timeout_check false ∈ t) ∧
      (e = STWI_ERR_NACK → Call.read_sda STWI_PIN_HIGH ∈ t) := by
  obtain ⟨t, ht, -⟩ := op_run_trace _ _ _ _ _ _ _ h
  refine ⟨t, ht, ?_, ?_⟩
  · intro he
    subst he
    have key : ∃ t', s1.trace = s.trace ++ t' ∧ Call.timeout_check false ∈ t' := by
      cases op with
      | start =>
        simp only [Op.run, Option.map_eq_some', Prod.mk.injEq, Prod.exists] at h
        obtain ⟨e', s', h, rfl, -, rfl⟩ := h
        exact start_timeout _ _ _ _ h
      | stop =>
        simp only [Op.run, Option.map_eq_some', Prod.mk.injEq, Prod.exists] at h
        obtain ⟨e', s', h, rfl, -, rfl⟩ := h
        exact stop_timeout _ _ _ _ h
      | write_byte b =>
        simp only [Op.run, Option.map_eq_some', Prod.mk.injEq, Prod.exists] at h
        obtain ⟨e', s', h, rfl, -, rfl⟩ := h
        exact write_byte_timeout _ _ _ _ _ h
      | read_byte ack =>
        simp only [Op.run, Option.map_eq_some', Prod.mk.injEq, Prod.exists] at h
        obtain ⟨e', d, s', h, rfl, -, rfl⟩ := h
        exact read_byte_timeout _ _ _ _ _ _ _ h
    obtain ⟨t', ht', hm⟩ := key
    have : t' = t := List.append_cancel_left (ht'.symm.trans ht)
    exact this ▸ hm
  · intro he
    subst he
    cases op with
    | start =>
      simp only [Op.run, Option.map_eq_some', Prod.mk.injEq, Prod.exists] at h
      obtain ⟨e', s', h, rfl, -, rfl⟩ := h
      exact absurd rfl (start_trace _ _ _ _ _ h).1
    | stop =>
      simp only [Op.run, Option.map_eq_some', Prod.mk.injEq, Prod.exists] at h
      obtain ⟨e', s', h, rfl, -, rfl⟩ := h
      exact absurd rfl (stop_trace _ _ _ _ _ h).1
    | write_byte b =>
      simp only [Op.run, Option.map_eq_some', Prod.mk.injEq, Prod.exists] at h
      obtain ⟨e', s', h, rfl, -, rfl⟩ := h
      obtain ⟨t', ht', -, hn⟩ := write_byte_trace _ _ _ _ _ _ h
      have : t' = t := List.append_cancel_left (ht'.symm.trans ht)
      subst this
      exact mem_of_sda_samples _ _ (by rw [(hn rfl).2]; simp)
    | read_byte ack =>
      simp only [Op.run, Option.map_eq_some', Prod.mk.injEq, Prod.exists] at h
      obtain ⟨e', d, s', h, rfl, -, rfl⟩ := h
      exact absurd rfl (read_byte_trace _ _ _ _ _ _ _ _ h).1

theorem run_ops_events (fuel : Nat) (bus : stwi σ) (ops : List Op) :
    ∀ (s : World σ) (e : stwi_err_t) (n : Nat) (rx : List Nat) (s1 : World σ),
    run_ops fuel bus ops s = some (e, n, rx, s1) →
      ∃ t, s1.trace = s.trace ++ t ∧
        (e = STWI_ERR_STRETCH → Call.timeout_check false ∈ t) ∧
        (e = STWI_ERR_NACK → Call.read_sda STWI_PIN_HIGH ∈ t) := by
  induction ops with
  | nil =>
    intro s e n rx s1 h
    simp only [run_ops, Option.some.injEq, Prod.mk.injEq] at h
    obtain ⟨rfl, -, -, rfl⟩ := h
    exact ⟨[], by simp, by simp, by simp⟩
  | cons op ops ih =>
    intro s e n rx s1 h
    rcases run_ops_cons_some _ _ _ _ _ _ _ _ _ h with
      ⟨e0, he0, hop, rfl, -, rfl⟩ | ⟨he, hop, -, rfl⟩ | ⟨rx0, s0, m, rxs, hop, hr, -, rfl⟩
    · exact op_run_events _ _ _ _ _ _ _ hop
    · exact op_run_events _ _ _ _ _ _ _ hop
    · obtain ⟨t, ht, -⟩ := op_run_events _ _ _ _ _ _ _ hop
      obtain ⟨t2, ht2, hs, hn⟩ := ih _ _ _ _ _ hr
      exact ⟨t ++ t2, by rw [ht2, ht, List.append_assoc],
        fun he => List.mem_append_right _ (hs he), fun he => List.mem_append_right _ (hn he)⟩

theorem op_run_not_nack (fuel : Nat) (bus : stwi σ) (op : Op) (s : World σ) (e : stwi_err_t)
    (rx : List Nat) (s1 : World σ) (hop : ∀ b, op ≠ Op.write_byte b)
    (h : Op.run fuel bus op s = some (e, rx, s1)) : e ≠ STWI_ERR_NACK := by
  cases op with
  | start =>
    simp only [Op.run, Option.map_eq_some', Prod.mk.injEq, Prod.exists] at h
    obtain ⟨e', s', h, rfl, -, rfl⟩ := h
    exact (start_trace _ _ _ _ _ h).1
  | stop =>
    simp only [Op.run, Option.map_eq_some', Prod.mk.injEq, Prod.exists] at h
    obtain ⟨e', s', h, rfl, -, rfl⟩ := h
    exact (stop_trace _ _ _ _ _ h).1
  | write_byte b => exact absurd rfl (hop b)
  | read_byte ack =>
    simp only [Op.run, Option.map_eq_some', Prod.mk.injEq, Prod.exists] at h
    obtain ⟨e', d, s', h, rfl, -, rfl⟩ := h
    exact (read_byte_trace _ _ _ _ _ _ _ _ h).1

theorem run_ops_rx_not_nack (fuel : Nat) (bus : stwi σ) (ops : List Op) :
    ∀ (s : World σ) (e : stwi_err_t) (n : Nat) (rx : List Nat) (s1 : World σ),
    (∀ op ∈ ops, Op.is_rx op = true) →
    run_ops fuel bus ops s = some (e, n, rx, s1) → e ≠ STWI_ERR_NACK := by
  induction ops with
  | nil =>
    intro s e n rx s1 _ h
    simp only [run_ops, Option.some.injEq, Prod.mk.injEq] at h
    obtain ⟨rfl, -⟩ := h
    simp
  | cons op ops ih =>
    intro s e n rx s1 hrx h
    have hop_rx := hrx op (List.mem_cons_self _ _)
    have hnw : ∀ b, op ≠ Op.write_byte b := by
      intro b hb
      subst hb
      simp [Op.is_rx] at hop_rx
    rcases run_ops_cons_some _ _ _ _ _ _ _ _ _ h with
      ⟨e0, he0, hop, rfl, -, rfl⟩ | ⟨he, hop, -, rfl⟩ | ⟨rx0, s0, m, rxs, hop, hr, -, rfl⟩
    · exact op_run_not_nack _ _ _ _ _ _ _ hnw hop
    · exact op_run_not_nack _ _ _ _ _ _ _ hnw hop
    · exact ih _ _ _ _ _ (fun o ho => hrx o (List.mem_cons_of_mem _ ho)) hr

theorem run_ops_tx_nack (fuel : Nat) (bus : stwi σ) (ops : List Op) :
    ∀ (s : World σ) (n : Nat) (rx : List Nat) (s1 : World σ),
    (∀ op ∈ ops, Op.is_tx op = true) →
    run_ops fuel bus ops s = some (STWI_ERR_NACK, n, rx, s1) →
      ∃ t, s1.trace = s.trace ++ t ∧ (sda_samples t).length ≤ (ops.map Op.acks).sum ∧
        STWI_PIN_HIGH ∈ sda_samples t := by
  induction ops with
  | nil =>
    intro s n rx s1 _ h
    simp [run_ops] at h
  | cons op ops ih =>
    intro s n rx s1 htx h
    have hop_tx := htx op (List.mem_cons_self _ _)
    have key : ∀ rx0, Op.run fuel bus op s = some (STWI_ERR_NACK, rx0, s1) →
        ∃ t, s1.trace = s.trace ++ t ∧ (sda_samples t).length ≤ ((op :: ops).map Op.acks).sum ∧
          STWI_PIN_HIGH ∈ sda_samples t := by
      intro rx0 hop
      cases op with
      | write_byte b =>
        simp only [Op.run, Option.map_eq_some', Prod.mk.injEq, Prod.exists] at hop
        obtain ⟨e', s', hop, rfl, -, rfl⟩ := hop
        obtain ⟨t, ht, -, hn⟩ := write_byte_trace _ _ _ _ _ _ hop
        refine ⟨t, ht, ?_, ?_⟩
        · rw [(hn rfl).2]
          simp [Op.acks]
        · rw [(hn rfl).2]
          simp
      | start => exact absurd rfl (op_run_not_nack _ _ _ _ _ _ _ (by simp) hop)
      | stop => exact absurd rfl (op_run_not_nack _ _ _ _ _ _ _ (by simp) hop)
      | read_byte ack => exact absurd rfl (op_run_not_nack _ _ _ _ _ _ _ (by simp) hop)
    rcases run_ops_cons_some _ _ _ _ _ _ _ _ _ h with
      ⟨e0, he0, hop, rfl, -, rfl⟩ | ⟨he, hop, -, rfl⟩ | ⟨rx0, s0, m, rxs, hop, hr, -, rfl⟩
    · exact key _ hop
    · exact key _ hop
    · obtain ⟨t, ht, htx0, -⟩ := op_run_trace _ _ _ _ _ _ _ hop
      have hlen0 := (htx0 hop_tx).2 rfl
      obtain ⟨t2, ht2, hlen2, hm⟩ :=
        ih _ _ _ _ (fun o ho => htx o (List.mem_cons_of_mem _ ho)) hr
      refine ⟨t ++ t2, by rw [ht2, ht, List.append_assoc], ?_, ?_⟩
      · simp only [sda_samples_append, List.length_append, List.map_cons, List.sum_cons, hlen0]
        omega
      · rw [sda_samples_append]
        exact List.mem_append_right _ hm

/-! ## Last sub-operation, line levels and bit frames -/

theorem run_ops_last_op (fuel : Nat) (bus : stwi σ) (ops : List Op) :
    ∀ (s : World σ) (e : stwi_err_t) (n : Nat) (rx : List Nat) (s1 : World σ),
    ops ≠ [] → run_ops fuel bus ops s = some (e, n, rx, s1) →
      ∃ op s0 rx0 t0, Op.run fuel bus op s0 = some (e, rx0, s1) ∧
        s0.trace = s.trace ++ t0 ∧
        ops[if e = STWI_ERR_OK then ops.length - 1 else n]? = some op := by
  induction ops with
  | nil => intro s e n rx s1 h; exact absurd rfl h
  | cons op ops ih =>
    intro s e n rx s1 _ h
    rcases run_ops_cons_some _ _ _ _ _ _ _ _ _ h with
      ⟨e0, he0, hop, rfl, rfl, rfl⟩ | ⟨he, hop, rfl, rfl⟩ |
      ⟨rx0, s0, m, rxs, hop, hr, rfl, rfl⟩
    · exact ⟨op, s, [], [], hop, by simp, by simp [he0]⟩
    · exact ⟨op, s, [], [], hop, by simp, by simp [he]⟩
    · obtain ⟨t, ht, -⟩ := op_run_trace _ _ _ _ _ _ _ hop
      by_cases hnil : ops = []
      · subst hnil
        simp only [run_ops, Option.some.injEq, Prod.mk.injEq] at hr
        obtain ⟨rfl, rfl, rfl, rfl⟩ := hr
        exact ⟨op, s, rx0, [], hop, by simp, by simp⟩
      · obtain ⟨op', s0', rx0', t0, hop', ht0, hidx⟩ := ih _ _ _ _ _ hnil hr
        refine ⟨op', s0', rx0', t ++ t0, hop', by rw [ht0, ht, List.append_assoc], ?_⟩
        by_cases he : e = STWI_ERR_OK
        · simp only [he, if_true, List.length_cons, Nat.add_sub_cancel] at hidx ⊢
          have hpos : 0 < ops.length := List.length_pos.mpr hnil
          have : ops.length = (ops.length - 1) + 1 := by omega
          rw [this, List.getElem?_cons_succ]
          exact hidx
        · simp only [he, if_false] at hidx ⊢
          rw [List.getElem?_cons_succ]
          exact hidx

theorem write_ops_get (a : Nat) (regs p : List Nat) (i : Nat) (op : Op)
    (h : (write_ops a regs p)[i]? = some op) :
    (i = 0 ∧ op = Op.start) ∨
      (1 ≤ i ∧ i < 2 + regs.length + p.length ∧ ∃ b, op = Op.write_byte b) ∨
      (i = 2 + regs.length + p.length ∧ op = Op.stop) := by
  have hw : write_ops a regs p =
      Op.start :: ((a :: (regs ++ p)).map Op.write_byte ++ [Op.stop]) := by
    simp [write_ops]
  rw [hw] at h
  cases i with
  | zero =>
    simp only [List.getElem?_cons_zero, Option.some.injEq] at h
    exact Or.inl ⟨rfl, h.symm⟩
  | succ j =>
    rw [List.getElem?_cons_succ] at h
    by_cases hj : j < ((a :: (regs ++ p)).map Op.write_byte).length
    · rw [List.getElem?_append_left hj, List.getElem?_map] at h
      simp only [Option.map_eq_some'] at h
      obtain ⟨b, -, rfl⟩ := h
      simp only [List.length_map, List.length_cons, List.length_append] at hj
      exact Or.inr (Or.inl ⟨by omega, by omega, b, rfl⟩)
    · rw [List.getElem?_append_right (Nat.le_of_not_lt hj)] at h
      simp only [List.length_map, List.length_cons, List.length_append] at h hj
      have hz : j - (regs.length + p.length + 1) = 0 := by
        by_contra hne
        obtain ⟨k, hk⟩ : ∃ k, j - (regs.length + p.length + 1) = k + 1 :=
          ⟨j - (regs.length + p.length + 1) - 1, by omega⟩
        rw [hk] at h
        simp at h
      rw [hz] at h
      simp only [List.getElem?_cons_zero, Option.some.injEq] at h
      exact Or.inr (Or.inr ⟨by omega, h.symm⟩)

theorem getElem?_singleton_some {α : Type} (x y : α) (k : Nat) (h : [x][k]? = some y) :
    k = 0 ∧ y = x := by
  cases k with
  | zero =>
    simp only [List.getElem?_cons_zero, Option.some.injEq] at h
    exact ⟨rfl, h.symm⟩
  | succ k => simp at h

theorem read_ops_get (a : Nat) (regs : List Nat) (a1 n i : Nat) (op : Op)
    (h : (read_ops a regs a1 n)[i]? = some op) :
    (i = 0 ∧ op = Op.start) ∨
      (1 ≤ i ∧ i < 2 + regs.length ∧ ∃ b, op = Op.write_byte b) ∨
      (i = 2 + regs.length ∧ op = Op.start) ∨
      (i = 3 + regs.length ∧ ∃ b, op = Op.write_byte b) ∨
      (4 + regs.length ≤ i ∧ i < 4 + regs.length + n ∧ ∃ ack, op = Op.read_byte ack) ∨
      (i = 4 + regs.length + n ∧ op = Op.stop) := by
  have hw : read_ops a regs a1 n =
      Op.start :: ((a :: regs).map Op.write_byte ++
        (Op.start :: Op.write_byte a1 :: (read_data_ops n ++ [Op.stop]))) := by
    simp [read_ops]
  rw [hw] at h
  cases i with
  | zero =>
    simp only [List.getElem?_cons_zero, Option.some.injEq] at h
    exact Or.inl ⟨rfl, h.symm⟩
  | succ j =>
    rw [List.getElem?_cons_succ] at h
    by_cases hj : j < ((a :: regs).map Op.write_byte).length
    · rw [List.getElem?_append_left hj, List.getElem?_map] at h
      simp only [Option.map_eq_some'] at h
      obtain ⟨b, -, rfl⟩ := h
      simp only [List.length_map, List.length_cons] at hj
      exact Or.inr (Or.inl ⟨by omega, by omega, b, rfl⟩)
    · rw [List.getElem?_append_right (Nat.le_of_not_lt hj)] at h
      simp only [List.length_map, List.length_cons] at h hj
      obtain ⟨k, hk⟩ : ∃ k, j = regs.length + 1 + k := ⟨j - (regs.length + 1), by omega⟩
      subst hk
      rw [Nat.add_sub_cancel_left] at h
      cases k with
      | zero =>
        simp only [List.getElem?_cons_zero, Option.some.injEq] at h
        exact Or.inr (Or.inr (Or.inl ⟨by omega, h.symm⟩))
      | succ k =>
        rw [List.getElem?_cons_succ] at h
        cases k with
        | zero =>
          simp only [List.getElem?_cons_zero, Option.some.injEq] at h
          exact Or.inr (Or.inr (Or.inr (Or.inl ⟨by omega, a1, h.symm⟩)))
        | succ k =>
          rw [List.getElem?_cons_succ] at h
          by_cases hk : k < (read_data_ops n).length
          · rw [List.getElem?_append_left hk] at h
            have hmem := List.getElem?_mem h
            simp only [read_data_ops, List.mem_map, List.mem_range] at hmem
            obtain ⟨x, -, rfl⟩ := hmem
            rw [read_data_ops_length] at hk
            exact Or.inr (Or.inr (Or.inr (Or.inr (Or.inl ⟨by omega, by omega, _, rfl⟩))))
          · rw [List.getElem?_append_right (Nat.le_of_not_lt hk)] at h
            obtain ⟨hz, rfl⟩ := getElem?_singleton_some _ _ _ h
            rw [read_data_ops_length] at hk hz
            exact Or.inr (Or.inr (Or.inr (Or.inr (Or.inr ⟨by omega, rfl⟩))))

theorem run_ops_nack_op (fuel : Nat) (bus : stwi σ) (ops : List Op) (s s1 : World σ)
    (n : Nat) (rx : List Nat)
    (h : run_ops fuel bus ops s = some (STWI_ERR_NACK, n, rx, s1)) :
    ∃ b, ops[n]? = some (Op.write_byte b) := by
  have hne : ops ≠ [] := by
    intro hnil
    subst hnil
    simp [run_ops] at h
  obtain ⟨op, s0, rx0, t0, hop, -, hidx⟩ := run_ops_last_op _ _ _ _ _ _ _ _ hne h
  simp only [reduceCtorEq, if_false] at hidx
  by_cases hw : ∃ b, op = Op.write_byte b
  · obtain ⟨b, rfl⟩ := hw
    exact ⟨b, hidx⟩
  · exact absurd rfl (op_run_not_nack _ _ _ _ _ _ _ (fun b hb => hw ⟨b, hb⟩) hop)

theorem write_res_mid (r n idx : Nat) (e : stwi_err_t) (h1 : 1 ≤ idx)
    (h2 : idx < 2 + r + n) :
    (write_res r n e idx).stage = STWI_STAGE_ADDR ∨
      (write_res r n e idx).stage = STWI_STAGE_REG ∨
      (write_res r n e idx).stage = STWI_STAGE_DATA := by
  unfold write_res
  split_ifs <;> first | omega | simp

theorem dev_write_nack_stage (fuel : Nat) (bus : stwi σ) (addr : Nat)
    (reg_size : stwi_reg_size_t) (reg : Nat) (buff : List Nat) (size : Nat)
    (s s1 : World σ) (res : stwi_res)
    (h : stwi_dev_write fuel bus addr reg_size reg buff size s = some (res, s1))
    (hn : res.err = STWI_ERR_NACK) :
    res.stage = STWI_STAGE_ADDR ∨ res.stage = STWI_STAGE_REG ∨
      res.stage = STWI_STAGE_DATA := by
  obtain ⟨e, n, rx, hr, rfl⟩ := dev_write_inv _ _ _ _ _ _ _ _ _ _ h
  rw [write_res_err] at hn
  subst hn
  obtain ⟨b, hb⟩ := run_ops_nack_op _ _ _ _ _ _ _ hr
  rcases write_ops_get _ _ _ _ _ hb with ⟨-, h0⟩ | ⟨h1, h2, -⟩ | ⟨-, h0⟩
  · simp at h0
  · rw [payload_length] at h2
    exact write_res_mid _ _ _ _ h1 h2
  · simp at h0

theorem dev_read_nack_stage (fuel : Nat) (bus : stwi σ) (addr : Nat)
    (reg_size : stwi_reg_size_t) (reg : Nat) (buff : List Nat) (size : Nat)
    (s s1 : World σ) (res : stwi_res) (mem : List Nat)
    (h : stwi_dev_read fuel bus addr reg_size reg buff size s = some (res, mem, s1))
    (hn : res.err = STWI_ERR_NACK) :
    res.stage = STWI_STAGE_ADDR ∨ res.stage = STWI_STAGE_REG := by
  obtain ⟨e, n, rx, hr, rfl, -⟩ := dev_read_inv _ _ _ _ _ _ _ _ _ _ _ h
  rw [read_res_err] at hn
  subst hn
  obtain ⟨b, hb⟩ := run_ops_nack_op _ _ _ _ _ _ _ hr
  rcases read_ops_get _ _ _ _ _ _ hb with
    ⟨-, h0⟩ | ⟨h1, h2, -⟩ | ⟨-, h0⟩ | ⟨h1, -⟩ | ⟨-, -, ack, h0⟩ | ⟨-, h0⟩
  · simp at h0
  · unfold read_res
    split_ifs <;> first | omega | simp
  · simp at h0
  · unfold read_res
    split_ifs <;> first | omega | simp
  · simp at h0
  · simp at h0

theorem start_no_budget (fuel : Nat) (bus : stwi σ) (s : World σ)
    (htc : ∀ st, (bus.timeout_check st).1 = false)
    (hlow : (call_read_scl bus (start_raised bus s)).1 = STWI_PIN_LOW) :
    stwi_start (fuel + 1) bus s =
      some (STWI_ERR_STRETCH,
        (call_timeout_check bus
          (call_timeout_start bus (call_read_scl bus (start_raised bus s)).2)).2) := by
  have hc : (call_timeout_check bus
      (call_timeout_start bus (call_read_scl bus (start_raised bus s)).2)).1 = false := by
    simp only [call_timeout_check]
    exact htc _
  unfold stwi_start stwi_stretch_wait
  simp only [start_raised] at hlow hc ⊢
  simp only [hlow, if_true, stwi_stretch_wait.loop, hc]
  rfl

theorem start_no_budget_calls (bus : stwi σ) (s : World σ)
    (htc : ∀ st, (bus.timeout_check st).1 = false)
    (hlow : (call_read_scl bus (start_raised bus s)).1 = STWI_PIN_LOW) :
    calls_since s (call_timeout_check bus
        (call_timeout_start bus (call_read_scl bus (start_raised bus s)).2)).2 =
      [Call.write_sda STWI_PIN_HIGH, Call.delay, Call.write_scl STWI_PIN_HIGH, Call.delay,
        Call.read_scl STWI_PIN_LOW, Call.timeout_start, Call.timeout_check false] := by
  apply calls_since_append
  have h1 : (bus.read_scl (start_raised bus s).st).1 = STWI_PIN_LOW := hlow
  simp only [call_timeout_check, call_timeout_start, call_read_scl, start_raised,
    call_delay, call_write_scl, call_write_sda, htc, List.append_assoc,
    List.singleton_append] at h1 ⊢
  rw [h1]
  rfl

theorem scl_writes_append (a b : List Call) :
    scl_writes (a ++ b) = scl_writes a ++ scl_writes b := by
  induction a with
  | nil => rfl
  | cons c a ih => cases c <;> simp [scl_writes, ih]

theorem sda_writes_append (a b : List Call) :
    sda_writes (a ++ b) = sda_writes a ++ sda_writes b := by
  induction a with
  | nil => rfl
  | cons c a ih => cases c <;> simp [sda_writes, ih]

theorem scl_reads_append (a b : List Call) :
    scl_reads (a ++ b) = scl_reads a ++ scl_reads b := by
  induction a with
  | nil => rfl
  | cons c a ih => cases c <;> simp [scl_reads, ih]

theorem scl_writes_wait (w : List Call) (hw : ∀ c ∈ w, is_wait_call c = true) :
    scl_writes w = [] := by
  induction w with
  | nil => rfl
  | cons c w ih =>
    have hc := hw c (List.mem_cons_self _ _)
    have hw' : ∀ c ∈ w, is_wait_call c = true := fun c h => hw c (List.mem_cons_of_mem _ h)
    cases c <;> simp_all [scl_writes, is_wait_call]

theorem sda_writes_wait (w : List Call) (hw : ∀ c ∈ w, is_wait_call c = true) :
    sda_writes w = [] := by
  induction w with
  | nil => rfl
  | cons c w ih =>
    have hc := hw c (List.mem_cons_self _ _)
    have hw' : ∀ c ∈ w, is_wait_call c = true := fun c h => hw c (List.mem_cons_of_mem _ h)
    cases c <;> simp_all [sda_writes, is_wait_call]

theorem getLast?_append_some {α : Type} (l₁ l₂ : List α) (x : α)
    (h : l₂.getLast? = some x) : (l₁ ++ l₂).getLast? = some x := by
  rw [List.getLast?_append, h]
  rfl

theorem stretch_loop_reads (bus : stwi σ) (fuel : Nat) :
    ∀ (s s1 : World σ),
    stwi_stretch_wait.loop bus fuel s = some (STWI_ERR_OK, s1) →
      ∃ w, s1.trace = s.trace ++ w ∧ (scl_reads w).getLast? = some STWI_PIN_HIGH := by
  induction fuel with
  | zero => intro s s1 h; simp [stwi_stretch_wait.loop] at h
  | succ fuel ih =>
    intro s s1 h
    simp only [stwi_stretch_wait.loop] at h
    split at h
    · simp at h
    · split at h
      · obtain ⟨w, ht, hl⟩ := ih _ _ h
        refine ⟨[Call.timeout_check (bus.timeout_check s.st).1, Call.delay,
          Call.read_scl (bus.read_scl (bus.delay (bus.timeout_check s.st).2)).1] ++ w, ?_, ?_⟩
        · rw [ht]
          simp [call_read_scl, call_delay, call_timeout_check]
        · rw [scl_reads_append]
          exact getLast?_append_some _ _ _ hl
      · rename_i hc hr
        simp only [Option.some.injEq, Prod.mk.injEq, true_and] at h
        subst h
        refine ⟨[Call.timeout_check (bus.timeout_check s.st).1, Call.delay,
          Call.read_scl (bus.read_scl (bus.delay (bus.timeout_check s.st).2)).1], ?_, ?_⟩
        · simp [call_read_scl, call_delay, call_timeout_check]
        · have hh : (bus.read_scl (bus.delay (bus.timeout_check s.st).2)).1
              = STWI_PIN_HIGH := by
            simp only [call_read_scl, call_delay, call_timeout_check] at hr
            cases hv : (bus.read_scl (bus.delay (bus.timeout_check s.st).2)).1
            · exact absurd hv hr
            · rfl
          simp [scl_reads, hh]

theorem stretch_wait_reads (fuel : Nat) (bus : stwi σ) (s s1 : World σ)
    (h : stwi_stretch_wait fuel bus s = some (STWI_ERR_OK, s1)) :
    ∃ w, s1.trace = s.trace ++ w ∧ (scl_reads w).getLast? = some STWI_PIN_HIGH := by
  simp only [stwi_stretch_wait] at h
  split at h
  · obtain ⟨w, ht, hl⟩ := stretch_loop_reads _ _ _ _ h
    refine ⟨[Call.read_scl (bus.read_scl s.st).1, Call.timeout_start] ++ w, ?_, ?_⟩
    · rw [ht]
      simp [call_read_scl, call_timeout_start]
    · rw [scl_reads_append]
      exact getLast?_append_some _ _ _ hl
  · rename_i hr
    simp only [Option.some.injEq, Prod.mk.injEq, true_and] at h
    subst h
    refine ⟨[Call.read_scl (bus.read_scl s.st).1], rfl, ?_⟩
    have hh : (bus.read_scl s.st).1 = STWI_PIN_HIGH := by
      simp only [call_read_scl] at hr
      cases hv : (bus.read_scl s.st).1
      · exact absurd hv hr
      · rfl
    simp [scl_reads, hh]

theorem write_bit_ok_calls (fuel : Nat) (bus : stwi σ) (bit : stwi_pin_state_t)
    (s s1 : World σ) (h : stwi_write_bit fuel bus bit s = some (STWI_ERR_OK, s1)) :
    ∃ w, (∀ c ∈ w, is_wait_call c = true) ∧ s1.trace = s.trace ++ write_bit_calls bit w := by
  obtain ⟨w, hw, ht⟩ := write_bit_trace _ _ _ _ _ _ h
  exact ⟨w, hw, by simpa [write_bit_calls] using ht⟩

theorem read_bit_ok_calls (fuel : Nat) (bus : stwi σ) (b0 bit : stwi_pin_state_t)
    (s s1 : World σ) (h : stwi_read_bit fuel bus b0 s = some (STWI_ERR_OK, bit, s1)) :
    ∃ w, (∀ c ∈ w, is_wait_call c = true) ∧ s1.trace = s.trace ++ read_bit_calls bit w := by
  obtain ⟨w, hw, ht⟩ := read_bit_trace _ _ _ _ _ _ _ h
  exact ⟨w, hw, by simpa [read_bit_calls] using ht⟩

theorem write_byte_loop_frames (fuel : Nat) (bus : stwi σ) (n : Nat) :
    ∀ (byte : Nat) (s s1 : World σ),
    stwi_write_byte.loop fuel bus n byte s = some (STWI_ERR_OK, s1) →
      ∃ ws : List (List Call), ws.length = n ∧
        (∀ w ∈ ws, ∀ c ∈ w, is_wait_call c = true) ∧
        s1.trace = s.trace ++ (List.zipWith write_bit_calls (sent_levels n byte) ws).flatten := by
  induction n with
  | zero =>
    intro byte s s1 h
    simp only [stwi_write_byte.loop, Option.some.injEq, Prod.mk.injEq, true_and] at h
    subst h
    exact ⟨[], rfl, by simp, by simp [sent_levels]⟩
  | succ n ih =>
    intro byte s s1 h
    simp only [stwi_write_byte.loop] at h
    split at h
    · simp at h
    · rename_i e0 s0 hwb
      split at h
      · rename_i he0
        simp only [Option.some.injEq, Prod.mk.injEq] at h
        exact absurd h.1 he0
      · rename_i he0
        simp only [ne_eq, not_not] at he0
        subst he0
        obtain ⟨w, hw, ht⟩ := write_bit_ok_calls _ _ _ _ _ hwb
        obtain ⟨ws, hlen, hws, ht2⟩ := ih _ _ _ h
        refine ⟨w :: ws, by simp [hlen], ?_, ?_⟩
        · intro w' hw'
          rcases List.mem_cons.mp hw' with rfl | hw'
          · exact hw
          · exact hws w' hw'
        · rw [ht2, ht]
          simp [sent_levels, List.append_assoc]

theorem write_byte_frames (fuel : Nat) (bus : stwi σ) (byte : Nat) (s s1 : World σ)
    (e : stwi_err_t) (h : stwi_write_byte fuel bus byte s = some (e, s1))
    (he : e ≠ STWI_ERR_STRETCH) :
    ∃ (ws : List (List Call)) (w : List Call) (bit : stwi_pin_state_t), ws.length = 8 ∧
      (∀ w' ∈ w :: ws, ∀ c ∈ w', is_wait_call c = true) ∧
      s1.trace = s.trace ++
        ((List.zipWith write_bit_calls (sent_levels 8 byte) ws).flatten ++ read_bit_calls bit w) ∧
      e = if bit = STWI_PIN_LOW then STWI_ERR_OK else STWI_ERR_NACK := by
  simp only [stwi_write_byte] at h
  split at h
  · simp at h
  · rename_i e0 s0 hl
    have hne0 := (write_byte_loop_trace _ _ _ _ _ _ _ hl).1
    split at h
    · rename_i he0
      simp only [Option.some.injEq, Prod.mk.injEq] at h
      obtain ⟨rfl, rfl⟩ := h
      cases e0 <;> simp_all
    · rename_i he0
      simp only [ne_eq, not_not] at he0
      subst he0
      obtain ⟨ws, hlen, hws, ht⟩ := write_byte_loop_frames _ _ _ _ _ _ hl
      split at h
      · simp at h
      · rename_i e1 bit s2 hrb
        have hne1 := read_bit_err _ _ _ _ _ _ _ hrb
        split at h
        · rename_i he1
          simp only [Option.some.injEq, Prod.mk.injEq] at h
          obtain ⟨rfl, rfl⟩ := h
          cases e1 <;> simp_all
        · rename_i he1
          simp only [ne_eq, not_not] at he1
          subst he1
          simp only [Option.some.injEq, Prod.mk.injEq] at h
          obtain ⟨rfl, rfl⟩ := h
          obtain ⟨w, hw, ht2⟩ := read_bit_ok_calls _ _ _ _ _ _ hrb
          refine ⟨ws, w, bit, hlen, ?_, by rw [ht2, ht, List.append_assoc], rfl⟩
          intro w' hw'
          rcases List.mem_cons.mp hw' with rfl | hw'
          · exact hw
          · exact hws w' hw'

theorem frames_sda_writes (levels : List stwi_pin_state_t) :
    ∀ ws : List (List Call), ws.length = levels.length →
      (∀ w ∈ ws, ∀ c ∈ w, is_wait_call c = true) →
      sda_writes (List.zipWith write_bit_calls levels ws).flatten = levels := by
  induction levels with
  | nil => intro ws _ _; simp [sda_writes]
  | cons l levels ih =>
    intro ws hlen hws
    cases ws with
    | nil => simp at hlen
    | cons w ws =>
      simp only [List.length_cons, Nat.add_right_cancel_iff] at hlen
      have hw := hws w (List.mem_cons_self _ _)
      have hrest := ih ws hlen (fun w' h => hws w' (List.mem_cons_of_mem _ h))
      simp only [List.zipWith_cons_cons, List.flatten_cons, sda_writes_append, hrest]
      simp [write_bit_calls, sda_writes_append, sda_writes, sda_writes_wait w hw]

theorem sent_levels_length (n : Nat) : ∀ byte, (sent_levels n byte).length = n := by
  induction n with
  | zero => intro byte; rfl
  | succ n ih => intro byte; simp [sent_levels, ih]

theorem start_calls (fuel : Nat) (bus : stwi σ) (s : World σ) (e : stwi_err_t)
    (s1 : World σ) (h : stwi_start fuel bus s = some (e, s1)) :
    ∃ w, (∀ c ∈ w, is_wait_call c = true) ∧
      s1.trace = s.trace ++
        ([Call.write_sda STWI_PIN_HIGH, Call.delay, Call.write_scl STWI_PIN_HIGH, Call.delay]
          ++ w ++
          if e = STWI_ERR_OK then
            [Call.write_sda STWI_PIN_LOW, Call.delay, Call.write_scl STWI_PIN_LOW, Call.delay]
          else []) := by
  simp only [stwi_start] at h
  split at h
  · simp at h
  · rename_i e0 s0 hsw
    obtain ⟨w, hw, ht⟩ := stretch_wait_trace _ _ _ _ _ hsw
    refine ⟨w, hw, ?_⟩
    split at h
    · rename_i he0
      simp only [Option.some.injEq, Prod.mk.injEq] at h
      obtain ⟨rfl, rfl⟩ := h
      rw [ht]
      simp [he0, call_write_sda, call_delay, call_write_scl]
    · simp only [Option.some.injEq, Prod.mk.injEq] at h
      obtain ⟨rfl, rfl⟩ := h
      simp [ht, call_write_sda, call_delay, call_write_scl]

theorem stop_calls (fuel : Nat) (bus : stwi σ) (s : World σ) (e : stwi_err_t)
    (s1 : World σ) (h : stwi_stop fuel bus s = some (e, s1)) :
    ∃ w, (∀ c ∈ w, is_wait_call c = true) ∧
      (e = STWI_ERR_OK → (scl_reads w).getLast? = some STWI_PIN_HIGH) ∧
      s1.trace = s.trace ++
        ([Call.write_sda STWI_PIN_LOW, Call.delay, Call.write_scl STWI_PIN_HIGH, Call.delay]
          ++ w ++
          if e = STWI_ERR_OK then [Call.write_sda STWI_PIN_HIGH, Call.delay] else []) := by
  simp only [stwi_stop] at h
  split at h
  · simp at h
  · rename_i e0 s0 hsw
    obtain ⟨w, hw, ht⟩ := stretch_wait_trace _ _ _ _ _ hsw
    refine ⟨w, hw, ?_, ?_⟩
    · intro he
      split at h
      · rename_i he0
        simp only [Option.some.injEq, Prod.mk.injEq] at h
        exact absurd (h.1.trans he) he0
      · rename_i he0
        simp only [ne_eq, not_not] at he0
        subst he0
        obtain ⟨w2, ht2, hr⟩ := stretch_wait_reads _ _ _ _ hsw
        have : w = w2 := List.append_cancel_left (ht.symm.trans ht2)
        rw [this]
        exact hr
    · split at h
      · rename_i he0
        simp only [Option.some.injEq, Prod.mk.injEq] at h
        obtain ⟨rfl, rfl⟩ := h
        rw [ht]
        simp [he0, call_write_sda, call_delay, call_write_scl]
      · simp only [Option.some.injEq, Prod.mk.injEq] at h
        obtain ⟨rfl, rfl⟩ := h
        simp [ht, call_write_sda, call_delay, call_write_scl]

theorem stop_ok_lines (fuel : Nat) (bus : stwi σ) (s s1 : World σ)
    (h : stwi_stop fuel bus s = some (STWI_ERR_OK, s1)) :
    ∃ t, s1.trace = s.trace ++ t ∧ (scl_writes t).getLast? = some STWI_PIN_HIGH ∧
      (sda_writes t).getLast? = some STWI_PIN_HIGH ∧
      (scl_reads t).getLast? = some STWI_PIN_HIGH := by
  obtain ⟨w, hw, hr, ht⟩ := stop_calls _ _ _ _ _ h
  refine ⟨_, ht, ?_, ?_, ?_⟩
  · simp [scl_writes_append, scl_writes, scl_writes_wait w hw]
  · simp [sda_writes_append, sda_writes, sda_writes_wait w hw]
  · simp only [scl_reads_append, if_true]
    simpa [scl_reads] using hr rfl

/-- The last level written to SCL in a delta is also the last one of a longer delta
that ends with it. -/
theorem scl_last_after {s s0 s1 : World σ} {t0 : List Call} {x : stwi_pin_state_t}
    (h0 : s0.trace = s.trace ++ t0)
    (h : ∃ t, s1.trace = s0.trace ++ t ∧ (scl_writes t).getLast? = some x) :
    ∃ t, s1.trace = s.trace ++ t ∧ (scl_writes t).getLast? = some x := by
  obtain ⟨t, ht, hl⟩ := h
  refine ⟨t0 ++ t, by rw [ht, h0, List.append_assoc], ?_⟩
  rw [scl_writes_append]
  exact getLast?_append_some _ _ _ hl

theorem write_bit_stretch_scl (fuel : Nat) (bus : stwi σ) (bit : stwi_pin_state_t)
    (s s1 : World σ) (h : stwi_write_bit fuel bus bit s = some (STWI_ERR_STRETCH, s1)) :
    ∃ t, s1.trace = s.trace ++ t ∧ (scl_writes t).getLast? = some STWI_PIN_HIGH := by
  obtain ⟨w, hw, ht⟩ := write_bit_trace _ _ _ _ _ _ h
  exact ⟨_, ht, by simp [scl_writes_append, scl_writes, scl_writes_wait w hw]⟩

theorem read_bit_stretch_scl (fuel : Nat) (bus : stwi σ) (b0 bit : stwi_pin_state_t)
    (s s1 : World σ) (h : stwi_read_bit fuel bus b0 s = some (STWI_ERR_STRETCH, bit, s1)) :
    ∃ t, s1.trace = s.trace ++ t ∧ (scl_writes t).getLast? = some STWI_PIN_HIGH := by
  obtain ⟨w, hw, ht⟩ := read_bit_trace _ _ _ _ _ _ _ h
  exact ⟨_, ht, by simp [scl_writes_append, scl_writes, scl_writes_wait w hw]⟩

theorem start_stretch_scl (fuel : Nat) (bus : stwi σ) (s s1 : World σ)
    (h : stwi_start fuel bus s = some (STWI_ERR_STRETCH, s1)) :
    ∃ t, s1.trace = s.trace ++ t ∧ (scl_writes t).getLast? = some STWI_PIN_HIGH := by
  obtain ⟨w, hw, ht⟩ := start_calls _ _ _ _ _ h
  exact ⟨_, ht, by simp [scl_writes_append, scl_writes, scl_writes_wait w hw]⟩

theorem stop_stretch_scl (fuel : Nat) (bus : stwi σ) (s s1 : World σ)
    (h : stwi_stop fuel bus s = some (STWI_ERR_STRETCH, s1)) :
    ∃ t, s1.trace = s.trace ++ t ∧ (scl_writes t).getLast? = some STWI_PIN_HIGH := by
  obtain ⟨w, hw, -, ht⟩ := stop_calls _ _ _ _ _ h
  exact ⟨_, ht, by simp [scl_writes_append, scl_writes, scl_writes_wait w hw]⟩

theorem write_byte_loop_stretch_scl (fuel : Nat) (bus : stwi σ) (n : Nat) :
    ∀ (byte : Nat) (s s1 : World σ),
    stwi_write_byte.loop fuel bus n byte s = some (STWI_ERR_STRETCH, s1) →
    ∃ t, s1.trace = s.trace ++ t ∧ (scl_writes t).getLast? = some STWI_PIN_HIGH := by
  induction n with
  | zero => intro byte s s1 h; simp [stwi_write_byte.loop] at h
  | succ n ih =>
    intro byte s s1 h
    simp only [stwi_write_byte.loop] at h
    split at h
    · simp at h
    · rename_i e0 s0 hwb
      split at h
      · simp only [Option.some.injEq, Prod.mk.injEq] at h
        obtain ⟨rfl, rfl⟩ := h
        exact write_bit_stretch_scl _ _ _ _ _ hwb
      · obtain ⟨w, -, ht⟩ := write_bit_trace _ _ _ _ _ _ hwb
        exact scl_last_after ht (ih _ _ _ h)

theorem read_byte_loop_stretch_scl (fuel : Nat) (bus : stwi σ) (n : Nat) :
    ∀ (d0 d : Nat) (s s1 : World σ),
    stwi_read_byte.loop fuel bus n d0 s = some (STWI_ERR_STRETCH, d, s1) →
    ∃ t, s1.trace = s.trace ++ t ∧ (scl_writes t).getLast? = some STWI_PIN_HIGH := by
  induction n with
  | zero => intro d0 d s s1 h; simp [stwi_read_byte.loop] at h
  | succ n ih =>
    intro d0 d s s1 h
    simp only [stwi_read_byte.loop] at h
    split at h
    · simp at h
    · rename_i e0 bit s0 hrb
      split at h
      · simp only [Option.some.injEq, Prod.mk.injEq] at h
        obtain ⟨rfl, -, rfl⟩ := h
        exact read_bit_stretch_scl _ _ _ _ _ _ hrb
      · obtain ⟨w, -, ht⟩ := read_bit_trace _ _ _ _ _ _ _ hrb
        exact scl_last_after ht (ih _ _ _ _ h)

theorem write_byte_stretch_scl (fuel : Nat) (bus : stwi σ) (byte : Nat) (s s1 : World σ)
    (h : stwi_write_byte fuel bus byte s = some (STWI_ERR_STRETCH, s1)) :
    ∃ t, s1.trace = s.trace ++ t ∧ (scl_writes t).getLast? = some STWI_PIN_HIGH := by
  simp only [stwi_write_byte] at h
  split at h
  · simp at h
  · rename_i e0 s0 hl
    split at h
    · simp only [Option.some.injEq, Prod.mk.injEq] at h
      obtain ⟨rfl, rfl⟩ := h
      exact write_byte_loop_stretch_scl _ _ _ _ _ _ hl
    · obtain ⟨t0, ht0, -⟩ := (write_byte_loop_trace _ _ _ _ _ _ _ hl).2
      split at h
      · simp at h
      · rename_i e1 bit s2 hrb
        split at h
        · simp only [Option.some.injEq, Prod.mk.injEq] at h
          obtain ⟨rfl, rfl⟩ := h
          exact scl_last_after ht0 (read_bit_stretch_scl _ _ _ _ _ _ hrb)
        · simp only [Option.some.injEq, Prod.mk.injEq] at h
          split at h <;> simp at h

theorem read_byte_stretch_scl (fuel : Nat) (bus : stwi σ) (b0 : Nat) (ack : Bool)
    (d : Nat) (s s1 : World σ)
    (h : stwi_read_byte fuel bus b0 ack s = some (STWI_ERR_STRETCH, d, s1)) :
    ∃ t, s1.trace = s.trace ++ t ∧ (scl_writes t).getLast? = some STWI_PIN_HIGH := by
  simp only [stwi_read_byte] at h
  split at h
  · simp at h
  · rename_i e0 d0 s0 hl
    split at h
    · simp only [Option.some.injEq, Prod.mk.injEq] at h
      obtain ⟨rfl, -, rfl⟩ := h
      exact read_byte_loop_stretch_scl _ _ _ _ _ _ _ hl
    · obtain ⟨t0, ht0, -⟩ := (read_byte_loop_trace _ _ _ _ _ _ _ _ hl).2
      split at h
      · simp at h
      · rename_i e1 s2 hwb
        split at h
        · simp only [Option.some.injEq, Prod.mk.injEq] at h
          obtain ⟨rfl, -, rfl⟩ := h
          exact scl_last_after ht0 (write_bit_stretch_scl _ _ _ _ _ hwb)
        · simp at h

theorem write_byte_nack_lines (fuel : Nat) (bus : stwi σ) (byte : Nat) (s s1 : World σ)
    (h : stwi_write_byte fuel bus byte s = some (STWI_ERR_NACK, s1)) :
    ∃ t, s1.trace = s.trace ++ t ∧ (scl_writes t).getLast? = some STWI_PIN_LOW ∧
      (sda_writes t).getLast? = some STWI_PIN_HIGH := by
  obtain ⟨ws, w, bit, -, hws, ht, -⟩ := write_byte_frames _ _ _ _ _ _ h (by simp)
  have hw := hws w (List.mem_cons_self _ _)
  refine ⟨_, ht, ?_, ?_⟩
  · rw [scl_writes_append]
    apply getLast?_append_some
    simp [read_bit_calls, scl_writes_append, scl_writes, scl_writes_wait w hw]
  · rw [sda_writes_append]
    apply getLast?_append_some
    simp [read_bit_calls, sda_writes_append, sda_writes, sda_writes_wait w hw]

theorem op_run_stretch_scl (fuel : Nat) (bus : stwi σ) (op : Op) (s : World σ)
    (rx : List Nat) (s1 : World σ)
    (h : Op.run fuel bus op s = some (STWI_ERR_STRETCH, rx, s1)) :
    ∃ t, s1.trace = s.trace ++ t ∧ (scl_writes t).getLast? = some STWI_PIN_HIGH := by
  cases op with
  | start =>
    simp only [Op.run, Option.map_eq_some', Prod.mk.injEq, Prod.exists] at h
    obtain ⟨e', s', h, rfl, -, rfl⟩ := h
    exact start_stretch_scl _ _ _ _ h
  | stop =>
    simp only [Op.run, Option.map_eq_some', Prod.mk.injEq, Prod.exists] at h
    obtain ⟨e', s', h, rfl, -, rfl⟩ := h
    exact stop_stretch_scl _ _ _ _ h
  | write_byte b =>
    simp only [Op.run, Option.map_eq_some', Prod.mk.injEq, Prod.exists] at h
    obtain ⟨e', s', h, rfl, -, rfl⟩ := h
    exact write_byte_stretch_scl _ _ _ _ _ h
  | read_byte ack =>
    simp only [Op.run, Option.map_eq_some', Prod.mk.injEq, Prod.exists] at h
    obtain ⟨e', d, s', h, rfl, -, rfl⟩ := h
    exact read_byte_stretch_scl _ _ _ _ _ _ _ h

theorem op_run_nack_lines (fuel : Nat) (bus : stwi σ) (op : Op) (s : World σ)
    (rx : List Nat) (s1 : World σ)
    (h : Op.run fuel bus op s = some (STWI_ERR_NACK, rx, s1)) :
    ∃ t, s1.trace = s.trace ++ t ∧ (scl_writes t).getLast? = some STWI_PIN_LOW ∧
      (sda_writes t).getLast? = some STWI_PIN_HIGH := by
  cases op with
  | start =>
    simp only [Op.run, Option.map_eq_some', Prod.mk.injEq, Prod.exists] at h
    obtain ⟨e', s', h, rfl, -, rfl⟩ := h
    exact absurd rfl (start_trace _ _ _ _ _ h).1
  | stop =>
    simp only [Op.run, Option.map_eq_some', Prod.mk.injEq, Prod.exists] at h
    obtain ⟨e', s', h, rfl, -, rfl⟩ := h
    exact absurd rfl (stop_trace _ _ _ _ _ h).1
  | write_byte b =>
    simp only [Op.run, Option.map_eq_some', Prod.mk.injEq, Prod.exists] at h
    obtain ⟨e', s', h, rfl, -, rfl⟩ := h
    exact write_byte_nack_lines _ _ _ _ _ h
  | read_byte ack =>
    simp only [Op.run, Option.map_eq_some', Prod.mk.injEq, Prod.exists] at h
    obtain ⟨e', d, s', h, rfl, -, rfl⟩ := h
    exact absurd rfl (read_byte_trace _ _ _ _ _ _ _ _ h).1

/-- The line levels a run of sub-operations leaves behind, by outcome: a run that
ends with a successful STOP has released both lines and seen SCL high, a run stopped
by a stretch timeout has released SCL, a run stopped by a NACK holds SCL low with SDA
released. -/
theorem run_ops_lines (fuel : Nat) (bus : stwi σ) (ops : List Op) (s s1 : World σ)
    (e : stwi_err_t) (n : Nat) (rx : List Nat) (hne : ops ≠ [])
    (hlast : ops[ops.length - 1]? = some Op.stop)
    (h : run_ops fuel bus ops s = some (e, n, rx, s1)) :
    (e = STWI_ERR_OK → (scl_writes (calls_since s s1)).getLast? = some STWI_PIN_HIGH ∧
      (sda_writes (calls_since s s1)).getLast? = some STWI_PIN_HIGH ∧
      (scl_reads (calls_since s s1)).getLast? = some STWI_PIN_HIGH) ∧
    (e = STWI_ERR_STRETCH →
      (scl_writes (calls_since s s1)).getLast? = some STWI_PIN_HIGH) ∧
    (e = STWI_ERR_NACK → (scl_writes (calls_since s s1)).getLast? = some STWI_PIN_LOW ∧
      (sda_writes (calls_since s s1)).getLast? = some STWI_PIN_HIGH) := by
  obtain ⟨op, s0, rx0, t0, hrun, ht0, hop⟩ := run_ops_last_op _ _ _ _ _ _ _ _ hne h
  refine ⟨?_, ?_, ?_⟩
  · intro he
    subst he
    rw [if_pos rfl, hlast] at hop
    cases hop
    simp only [Op.run, Option.map_eq_some', Prod.mk.injEq, Prod.exists] at hrun
    obtain ⟨e', s', hstop, rfl, -, rfl⟩ := hrun
    obtain ⟨t, ht, h1, h2, h3⟩ := stop_ok_lines _ _ _ _ hstop
    have hc : calls_since s s' = t0 ++ t := by
      simp [calls_since, ht, ht0]
    rw [hc, scl_writes_append, sda_writes_append, scl_reads_append]
    exact ⟨getLast?_append_some _ _ _ h1, getLast?_append_some _ _ _ h2,
      getLast?_append_some _ _ _ h3⟩
  · intro he
    subst he
    obtain ⟨t, ht, h1⟩ := op_run_stretch_scl _ _ _ _ _ _ hrun
    have hc : calls_since s s1 = t0 ++ t := by
      simp [calls_since, ht, ht0]
    rw [hc, scl_writes_append]
    exact getLast?_append_some _ _ _ h1
  · intro he
    subst he
    obtain ⟨t, ht, h1, h2⟩ := op_run_nack_lines _ _ _ _ _ _ hrun
    have hc : calls_since s s1 = t0 ++ t := by
      simp [calls_since, ht, ht0]
    rw [hc, scl_writes_append, sda_writes_append]
    exact ⟨getLast?_append_some _ _ _ h1, getLast?_append_some _ _ _ h2⟩

theorem getElem?_concat_last {α : Type} (l : List α) (x : α) :
    (l ++ [x])[(l ++ [x]).length - 1]? = some x := by
  simp

theorem write_ops_last (a : Nat) (regs p : List Nat) :
    write_ops a regs p ≠ [] ∧
      (write_ops a regs p)[(write_ops a regs p).length - 1]? = some Op.stop :=
  ⟨by simp [write_ops], getElem?_concat_last _ _⟩

theorem read_ops_last (a : Nat) (regs : List Nat) (a1 n : Nat) :
    read_ops a regs a1 n ≠ [] ∧
      (read_ops a regs a1 n)[(read_ops a regs a1 n).length - 1]? = some Op.stop :=
  ⟨by simp [read_ops], getElem?_concat_last _ _⟩

/-- The line levels a transaction leaves behind, by outcome. -/
theorem dev_lines (fuel : Nat) (bus : stwi σ) (addr : Nat) (reg_size : stwi_reg_size_t)
    (reg : Nat) (buff : List Nat) (size : Nat) (s s1 : World σ) (res : stwi_res)
    (h : stwi_dev_write fuel bus addr reg_size reg buff size s = some (res, s1) ∨
      ∃ mem, stwi_dev_read fuel bus addr reg_size reg buff size s = some (res, mem, s1)) :
    (res.err = STWI_ERR_OK →
      (scl_writes (calls_since s s1)).getLast? = some STWI_PIN_HIGH ∧
      (sda_writes (calls_since s s1)).getLast? = some STWI_PIN_HIGH ∧
      (scl_reads (calls_since s s1)).getLast? = some STWI_PIN_HIGH) ∧
    (res.err = STWI_ERR_STRETCH →
      (scl_writes (calls_since s s1)).getLast? = some STWI_PIN_HIGH) ∧
    (res.err = STWI_ERR_NACK →
      (scl_writes (calls_since s s1)).getLast? = some STWI_PIN_LOW ∧
      (sda_writes (calls_since s s1)).getLast? = some STWI_PIN_HIGH) := by
  rcases h with h | ⟨mem, h⟩
  · obtain ⟨e, n, rx, hr, rfl⟩ := dev_write_inv _ _ _ _ _ _ _ _ _ _ h
    rw [write_res_err]
    exact run_ops_lines _ _ _ _ _ _ _ _ (write_ops_last _ _ _).1 (write_ops_last _ _ _).2 hr
  · obtain ⟨e, n, rx, hr, rfl, -⟩ := dev_read_inv _ _ _ _ _ _ _ _ _ _ _ h
    rw [read_res_err]
    exact run_ops_lines _ _ _ _ _ _ _ _ (read_ops_last _ _ _ _).1 (read_ops_last _ _ _ _).2 hr

theorem run_ops_first_failure (fuel : Nat) (bus : stwi σ) (ops : List Op) (i : Nat)
    (op : Op) (s s0 s1 : World σ) (e : stwi_err_t) (n0 : Nat) (rx rx0 : List Nat)
    (hop : ops[i]? = some op)
    (hpre : run_ops fuel bus (ops.take i) s = some (STWI_ERR_OK, n0, rx, s0))
    (hrun : Op.run fuel bus op s0 = some (e, rx0, s1)) (he : e ≠ STWI_ERR_OK) :
    run_ops fuel bus ops s = some (e, i, rx, s1) := by
  obtain ⟨hi, hget⟩ := List.getElem?_eq_some.mp hop
  have hsplit : ops = ops.take i ++ op :: ops.drop (i + 1) := by
    rw [← hget, ← List.drop_eq_getElem_cons hi, List.take_append_drop]
  have hn0 : n0 = i := by
    have := (run_ops_count _ _ _ _ _ _ _ _ hpre).1 rfl
    rw [this, List.length_take]
    omega
  subst hn0
  rw [hsplit, run_ops_append_ok _ _ _ _ _ _ _ _ hpre,
    run_ops_fail_head _ _ _ _ _ _ _ _ hrun he]
  simp

theorem getElem?_replicate_append_lt {α : Type} (a i : Nat) (x : α) (l : List α)
    (h : i < a) : (List.replicate a x ++ l)[i]? = some x := by
  rw [List.getElem?_append_left (by simpa using h), List.getElem?_replicate, if_pos h]

theorem getElem?_replicate_append_ge {α : Type} (a i : Nat) (x : α) (l : List α)
    (h : a ≤ i) : (List.replicate a x ++ l)[i]? = l[i - a]? := by
  rw [List.getElem?_append_right (by simpa using h), List.length_replicate]

theorem write_stages_get (r n j : Nat) :
    (write_stages r n)[j + 2]? =
      if j < r then some STWI_STAGE_REG
      else if j < r + n then some STWI_STAGE_DATA
      else if j = r + n then some STWI_STAGE_STOP else none := by
  simp only [write_stages, List.append_assoc, List.cons_append, List.nil_append,
    List.getElem?_cons_succ]
  split_ifs with h1 h2 h3
  · exact getElem?_replicate_append_lt _ _ _ _ h1
  · rw [getElem?_replicate_append_ge _ _ _ _ (by omega),
      getElem?_replicate_append_lt _ _ _ _ (by omega)]
  · rw [getElem?_replicate_append_ge _ _ _ _ (by omega),
      getElem?_replicate_append_ge _ _ _ _ (by omega)]
    have : j - r - n = 0 := by omega
    rw [this]
    rfl
  · rw [getElem?_replicate_append_ge _ _ _ _ (by omega),
      getElem?_replicate_append_ge _ _ _ _ (by omega)]
    obtain ⟨k, hk⟩ : ∃ k, j - r - n = k + 1 := ⟨j - r - n - 1, by omega⟩
    rw [hk]
    rfl

theorem read_stages_get (r n j : Nat) :
    (read_stages r n)[j + 2]? =
      if j < r then some STWI_STAGE_REG
      else if j = r then some STWI_STAGE_START
      else if j = r + 1 then some STWI_STAGE_ADDR
      else if j < r + 2 + n then some STWI_STAGE_DATA
      else if j = r + 2 + n then some STWI_STAGE_STOP else none := by
  simp only [read_stages, List.append_assoc, List.cons_append, List.nil_append,
    List.getElem?_cons_succ]
  split_ifs with h1 h2 h3 h4 h5
  · exact getElem?_replicate_append_lt _ _ _ _ h1
  · rw [getElem?_replicate_append_ge _ _ _ _ (by omega)]
    have : j - r = 0 := by omega
    rw [this]
    rfl
  · rw [getElem?_replicate_append_ge _ _ _ _ (by omega)]
    have : j - r = 1 := by omega
    rw [this]
    simp
  · rw [getElem?_replicate_append_ge _ _ _ _ (by omega)]
    obtain ⟨k, hk⟩ : ∃ k, j - r = k + 2 := ⟨j - r - 2, by omega⟩
    rw [hk, List.getElem?_cons_succ, List.getElem?_cons_succ,
      getElem?_replicate_append_lt _ _ _ _ (by omega)]
  · rw [getElem?_replicate_append_ge _ _ _ _ (by omega)]
    obtain ⟨k, hk⟩ : ∃ k, j - r = k + 2 := ⟨j - r - 2, by omega⟩
    rw [hk, List.getElem?_cons_succ, List.getElem?_cons_succ,
      getElem?_replicate_append_ge _ _ _ _ (by omega)]
    have : k - n = 0 := by omega
    rw [this]
    rfl
  · rw [getElem?_replicate_append_ge _ _ _ _ (by omega)]
    obtain ⟨k, hk⟩ : ∃ k, j - r = k + 2 := ⟨j - r - 2, by omega⟩
    rw [hk, List.getElem?_cons_succ, List.getElem?_cons_succ,
      getElem?_replicate_append_ge _ _ _ _ (by omega)]
    obtain ⟨m, hm⟩ : ∃ m, k - n = m + 1 := ⟨k - n - 1, by omega⟩
    rw [hm]
    rfl

theorem write_res_stage_get (r n i : Nat) (e : stwi_err_t) (hi : i < 3 + r + n) :
    (write_stages r n)[i]? = some (write_res r n e i).stage := by
  rcases i with _ | _ | j
  · simp [write_stages, write_res]
  · simp [write_stages, write_res]
  · rw [write_stages_get]
    unfold write_res
    split_ifs <;> first | rfl | contradiction | omega

theorem read_res_stage_get (r n i : Nat) (e : stwi_err_t) (hi : i < 5 + r + n) :
    (read_stages r n)[i]? = some (read_res r n e i).stage := by
  rcases i with _ | _ | j
  · simp [read_stages, read_res]
  · simp [read_stages, read_res]
  · rw [read_stages_get]
    unfold read_res
    split_ifs <;> first | rfl | contradiction | omega

theorem reg_bytes_length_le (reg_size : stwi_reg_size_t) (reg : Nat)
    (h : reg_size ≠ STWI_REG_16) : (reg_bytes reg_size reg).length ≤ 1 := by
  cases reg_size <;> simp_all [reg_bytes]

theorem write_res_index_of (r n i : Nat) (e : stwi_err_t) (hi : i < 3 + r + n) :
    ((write_res r n e i).stage = STWI_STAGE_START → i = 0) ∧
    ((write_res r n e i).stage = STWI_STAGE_ADDR → i = 1) ∧
    ((write_res r n e i).stage = STWI_STAGE_REG → 2 ≤ i ∧ i < 2 + r) ∧
    ((write_res r n e i).stage = STWI_STAGE_DATA → i = 2 + r + (write_res r n e i).data_size) ∧
    ((write_res r n e i).stage = STWI_STAGE_STOP → i = 2 + r + n) := by
  unfold write_res
  split_ifs <;> refine ⟨?_, ?_, ?_, ?_, ?_⟩ <;> intro h <;>
    first | exact absurd h (by decide) | omega | (dsimp only; omega)

theorem read_res_index_of (r n i : Nat) (e : stwi_err_t) (hi : i < 5 + r + n) :
    ((read_res r n e i).stage = STWI_STAGE_START → i = 0 ∨ i = 2 + r) ∧
    ((read_res r n e i).stage = STWI_STAGE_ADDR → i = 1 ∨ i = 3 + r) ∧
    ((read_res r n e i).stage = STWI_STAGE_REG → 2 ≤ i ∧ i < 2 + r) ∧
    ((read_res r n e i).stage = STWI_STAGE_DATA → i = 4 + r + (read_res r n e i).data_size) ∧
    ((read_res r n e i).stage = STWI_STAGE_STOP → i = 4 + r + n) := by
  unfold read_res
  split_ifs <;> refine ⟨?_, ?_, ?_, ?_, ?_⟩ <;> intro h <;>
    first | exact absurd h (by decide) | omega | (dsimp only; omega)

theorem write_res_index (r n i j : Nat) (e1 e2 : stwi_err_t)
    (hi : i < 3 + r + n) (hj : j < 3 + r + n)
    (h : write_res r n e1 i = write_res r n e2 j)
    (hreg : r ≤ 1 ∨ (write_res r n e1 i).stage ≠ STWI_STAGE_REG) : i = j := by
  obtain ⟨a1, a2, a3, a4, a5⟩ := write_res_index_of r n i e1 hi
  obtain ⟨b1, b2, b3, b4, b5⟩ := write_res_index_of r n j e2 hj
  rw [← h] at b1 b2 b3 b4 b5
  cases hs : (write_res r n e1 i).stage
  · rw [a1 hs, b1 hs]
  · rw [a2 hs, b2 hs]
  · have := a3 hs
    have := b3 hs
    rcases hreg with hr | hr
    · omega
    · exact absurd hs hr
  · rw [a4 hs, b4 hs]
  · rw [a5 hs, b5 hs]

theorem read_res_index (r n i j : Nat) (e1 e2 : stwi_err_t)
    (hi : i < 5 + r + n) (hj : j < 5 + r + n)
    (h : read_res r n e1 i = read_res r n e2 j)
    (hst : (read_res r n e1 i).stage = STWI_STAGE_DATA ∨
      (read_res r n e1 i).stage = STWI_STAGE_STOP ∨
      ((read_res r n e1 i).stage = STWI_STAGE_REG ∧ r ≤ 1)) : i = j := by
  obtain ⟨-, -, a3, a4, a5⟩ := read_res_index_of r n i e1 hi
  obtain ⟨-, -, b3, b4, b5⟩ := read_res_index_of r n j e2 hj
  rw [← h] at b3 b4 b5
  rcases hst with hs | hs | ⟨hs, hr⟩
  · rw [a4 hs, b4 hs]
  · rw [a5 hs, b5 hs]
  · have := a3 hs
    have := b3 hs
    omega

set_option maxRecDepth 100000 in
theorem sent_levels_eq : ∀ b, b < 256 → sent_levels 8 b = (List.range 8).map (bit_level b) := by
  decide

set_option maxRecDepth 100000 in
theorem byte_msb_bit_levels :
    ∀ b, b < 256 → byte_msb ((List.range 8).map (bit_level b)) = b := by
  decide

theorem write_byte_sda_writes (fuel : Nat) (bus : stwi σ) (byte : Nat) (s s1 : World σ)
    (e : stwi_err_t) (h : stwi_write_byte fuel bus byte s = some (e, s1))
    (he : e ≠ STWI_ERR_STRETCH) :
    sda_writes (calls_since s s1) = sent_levels 8 byte ++ [STWI_PIN_HIGH] := by
  obtain ⟨ws, w, bit, hlen, hws, ht, -⟩ := write_byte_frames _ _ _ _ _ _ h he
  rw [calls_since_append _ _ _ ht, sda_writes_append,
    frames_sda_writes _ ws (by rw [hlen, sent_levels_length])
      (fun w' hw' => hws w' (List.mem_cons_of_mem _ hw'))]
  have hw := hws w (List.mem_cons_self _ _)
  simp [read_bit_calls, sda_writes_append, sda_writes, sda_writes_wait w hw]

/-! ## Stretch wait, termination, quarter periods and pin writes -/

theorem stretch_wait_high (fuel : Nat) (bus : stwi σ) (s : World σ)
    (h : (bus.read_scl s.st).1 = STWI_PIN_HIGH) :
    stwi_stretch_wait fuel bus s = some (STWI_ERR_OK, (call_read_scl bus s).2) := by
  simp [stwi_stretch_wait, call_read_scl, h]

theorem start_of_wait (fuel : Nat) (bus : stwi σ) (s : World σ) :
    stwi_start fuel bus s =
      match stwi_stretch_wait fuel bus (bit_raised bus STWI_PIN_HIGH s) with
      | none => none
      | some (err, s0) =>
        if err ≠ STWI_ERR_OK then some (err, s0) else some (STWI_ERR_OK, start_lowered bus s0) :=
  rfl

theorem stop_of_wait (fuel : Nat) (bus : stwi σ) (s : World σ) :
    stwi_stop fuel bus s =
      match stwi_stretch_wait fuel bus (bit_raised bus STWI_PIN_LOW s) with
      | none => none
      | some (err, s0) =>
        if err ≠ STWI_ERR_OK then some (err, s0) else some (STWI_ERR_OK, stop_released bus s0) :=
  rfl

theorem write_bit_of_wait (fuel : Nat) (bus : stwi σ) (bit : stwi_pin_state_t)
    (s : World σ) :
    stwi_write_bit fuel bus bit s =
      match stwi_stretch_wait fuel bus (bit_raised bus bit s) with
      | none => none
      | some (err, s0) =>
        if err ≠ STWI_ERR_OK then some (err, s0)
        else some (STWI_ERR_OK,
          call_delay bus (call_write_scl bus STWI_PIN_LOW (call_delay bus s0))) :=
  rfl

theorem read_bit_of_wait (fuel : Nat) (bus : stwi σ) (b0 : stwi_pin_state_t)
    (s : World σ) :
    stwi_read_bit fuel bus b0 s =
      match stwi_stretch_wait fuel bus (bit_raised bus STWI_PIN_HIGH s) with
      | none => none
      | some (err, s0) =>
        if err ≠ STWI_ERR_OK then some (err, b0, s0)
        else some (STWI_ERR_OK, (call_read_sda bus (call_delay bus s0)).1,
          call_delay bus (call_write_scl bus STWI_PIN_LOW
            (call_read_sda bus (call_delay bus s0)).2)) :=
  rfl

theorem bit_raised_trace (bus : stwi σ) (bit : stwi_pin_state_t) (s : World σ) :
    (bit_raised bus bit s).trace = s.trace ++
      [Call.write_sda bit, Call.delay, Call.write_scl STWI_PIN_HIGH, Call.delay] := by
  simp [bit_raised, call_delay, call_write_scl, call_write_sda]

theorem start_lowered_trace (bus : stwi σ) (s : World σ) :
    (start_lowered bus s).trace = s.trace ++
      [Call.write_sda STWI_PIN_LOW, Call.delay, Call.write_scl STWI_PIN_LOW, Call.delay] := by
  simp [start_lowered, call_delay, call_write_scl, call_write_sda]

theorem stop_released_trace (bus : stwi σ) (s : World σ) :
    (stop_released bus s).trace = s.trace ++ [Call.write_sda STWI_PIN_HIGH, Call.delay] := by
  simp [stop_released, call_delay, call_write_sda]

theorem read_scl_trace (bus : stwi σ) (s : World σ) :
    (call_read_scl bus s).2.trace = s.trace ++ [Call.read_scl (bus.read_scl s.st).1] :=
  rfl

theorem wait_rounds_succ (n : Nat) (v : stwi_pin_state_t) (l : List Call) :
    wait_round v ++ ((List.replicate n (wait_round v)).flatten ++ l) =
      (List.replicate (n + 1) (wait_round v)).flatten ++ l := by
  simp [List.replicate_succ]

theorem stretch_loop_step (bus : stwi σ) (fuel : Nat) (s : World σ)
    (hc : (bus.timeout_check s.st).1 = true) :
    stwi_stretch_wait.loop bus (fuel + 1) s =
      if (call_read_scl bus (call_delay bus (call_timeout_check bus s).2)).1 = STWI_PIN_LOW
      then stwi_stretch_wait.loop bus fuel
        (call_read_scl bus (call_delay bus (call_timeout_check bus s).2)).2
      else some (STWI_ERR_OK,
        (call_read_scl bus (call_delay bus (call_timeout_check bus s).2)).2) := by
  have hc2 : (call_timeout_check bus s).1 = true := hc
  rw [stwi_stretch_wait.loop]
  simp only [hc2, Bool.true_eq_false, if_false]

theorem stretch_loop_stop (bus : stwi σ) (fuel : Nat) (s : World σ)
    (hc : (bus.timeout_check s.st).1 = false) :
    stwi_stretch_wait.loop bus (fuel + 1) s
      = some (STWI_ERR_STRETCH, (call_timeout_check bus s).2) := by
  have hc2 : (call_timeout_check bus s).1 = false := hc
  rw [stwi_stretch_wait.loop]
  simp only [hc2, if_true]

theorem countdown_loop (bus : stwi σ) (budget : σ → Nat)
    (hcheck : ∀ st, (bus.timeout_check st).1 = decide (0 < budget st) ∧
      budget (bus.timeout_check st).2 = budget st)
    (hdelay : ∀ st, budget (bus.delay st) = budget st - 1)
    (hread : ∀ st, budget (bus.read_scl st).2 = budget st) :
    ∀ (m fuel : Nat) (s : World σ), budget s.st = m → m < fuel →
      ∃ e s1, stwi_stretch_wait.loop bus fuel s = some (e, s1) ∧
        ((e = STWI_ERR_OK ∧ ∃ k, 1 ≤ k ∧ k ≤ m ∧
            s1.trace = s.trace ++
              ((List.replicate (k - 1) (wait_round STWI_PIN_LOW)).flatten
                ++ wait_round STWI_PIN_HIGH)) ∨
          (e = STWI_ERR_STRETCH ∧
            s1.trace = s.trace ++
              ((List.replicate m (wait_round STWI_PIN_LOW)).flatten
                ++ [Call.timeout_check false]))) := by
  intro m
  induction m with
  | zero =>
    intro fuel s hb hf
    obtain ⟨f, rfl⟩ : ∃ f, fuel = f + 1 := ⟨fuel - 1, by omega⟩
    have hc : (bus.timeout_check s.st).1 = false := by
      rw [(hcheck s.st).1, hb]
      rfl
    refine ⟨STWI_ERR_STRETCH, (call_timeout_check bus s).2, ?_, Or.inr ⟨rfl, ?_⟩⟩
    · exact stretch_loop_stop bus f s hc
    · simp [call_timeout_check, hc]
  | succ m ih =>
    intro fuel s hb hf
    obtain ⟨f, rfl⟩ : ∃ f, fuel = f + 1 := ⟨fuel - 1, by omega⟩
    have hc : (bus.timeout_check s.st).1 = true := by
      rw [(hcheck s.st).1, hb]
      simp
    have hb2 : budget (call_read_scl bus (call_delay bus (call_timeout_check bus s).2)).2.st
        = m := by
      simp only [call_read_scl, call_delay, call_timeout_check]
      rw [hread, hdelay, (hcheck s.st).2, hb]
      rfl
    have htr : (call_read_scl bus (call_delay bus (call_timeout_check bus s).2)).2.trace
        = s.trace ++ wait_round
          (call_read_scl bus (call_delay bus (call_timeout_check bus s).2)).1 := by
      simp [call_read_scl, call_delay, call_timeout_check, hc, wait_round]
    by_cases hlow : (call_read_scl bus (call_delay bus (call_timeout_check bus s).2)).1
        = STWI_PIN_LOW
    · obtain ⟨e, s1, hl, hres⟩ := ih f _ hb2 (by omega)
      refine ⟨e, s1, ?_, ?_⟩
      · rw [stretch_loop_step bus f s hc, if_pos hlow]
        exact hl
      · rw [htr, hlow] at hres
        rcases hres with ⟨he, k, hk1, hk2, ht⟩ | ⟨he, ht⟩
        · refine Or.inl ⟨he, k + 1, by omega, by omega, ?_⟩
          rw [ht, List.append_assoc, Nat.add_sub_cancel]
          obtain ⟨j, rfl⟩ : ∃ j, k = j + 1 := ⟨k - 1, by omega⟩
          rw [Nat.add_sub_cancel, wait_rounds_succ]
        · refine Or.inr ⟨he, ?_⟩
          rw [ht, List.append_assoc, wait_rounds_succ]
    · have hhigh : (call_read_scl bus (call_delay bus (call_timeout_check bus s).2)).1
          = STWI_PIN_HIGH := by
        cases hv : (call_read_scl bus (call_delay bus (call_timeout_check bus s).2)).1
        · exact absurd hv hlow
        · rfl
      refine ⟨STWI_ERR_OK, (call_read_scl bus (call_delay bus (call_timeout_check bus s).2)).2,
        ?_, Or.inl ⟨rfl, 1, le_refl 1, by omega, ?_⟩⟩
      · rw [stretch_loop_step bus f s hc, if_neg hlow]
      · rw [htr, hhigh]
        simp

theorem delay_count_append (a b : List Call) :
    delay_count (a ++ b) = delay_count a + delay_count b := by
  simp [delay_count]

theorem delay_count_rounds (n : Nat) (v : stwi_pin_state_t) :
    delay_count (List.replicate n (wait_round v)).flatten = n := by
  induction n with
  | zero => rfl
  | succ n ih =>
    rw [List.replicate_succ, List.flatten_cons, delay_count_append, ih]
    simp [delay_count, wait_round]
    omega

theorem count_start_rounds (n : Nat) (v : stwi_pin_state_t) :
    (List.replicate n (wait_round v)).flatten.count Call.timeout_start = 0 := by
  induction n with
  | zero => rfl
  | succ n ih =>
    rw [List.replicate_succ, List.flatten_cons, List.count_append, ih]
    simp [wait_round]

theorem countdown_wait (bus : stwi σ) (budget : σ → Nat) (N fuel : Nat) (s : World σ)
    (hstart : ∀ st, budget (bus.timeout_start st) = N)
    (hcheck : ∀ st, (bus.timeout_check st).1 = decide (0 < budget st) ∧
      budget (bus.timeout_check st).2 = budget st)
    (hdelay : ∀ st, budget (bus.delay st) = budget st - 1)
    (hread : ∀ st, budget (bus.read_scl st).2 = budget st)
    (hfuel : N < fuel) (hlow : (bus.read_scl s.st).1 = STWI_PIN_LOW) :
    ∃ e s1, stwi_stretch_wait fuel bus s = some (e, s1) ∧
      ((e = STWI_ERR_OK ∧ ∃ k, 1 ≤ k ∧ k ≤ N ∧
          calls_since s s1 = [Call.read_scl STWI_PIN_LOW, Call.timeout_start] ++
            ((List.replicate (k - 1) (wait_round STWI_PIN_LOW)).flatten
              ++ wait_round STWI_PIN_HIGH)) ∨
        (e = STWI_ERR_STRETCH ∧
          calls_since s s1 = [Call.read_scl STWI_PIN_LOW, Call.timeout_start] ++
            ((List.replicate N (wait_round STWI_PIN_LOW)).flatten
              ++ [Call.timeout_check false]))) := by
  have hb : budget (call_timeout_start bus (call_read_scl bus s).2).st = N := hstart _
  have htr : (call_timeout_start bus (call_read_scl bus s).2).trace
      = s.trace ++ [Call.read_scl STWI_PIN_LOW, Call.timeout_start] := by
    simp [call_timeout_start, call_read_scl, hlow]
  obtain ⟨e, s1, hl, hres⟩ :=
    countdown_loop bus budget hcheck hdelay hread N fuel _ hb hfuel
  refine ⟨e, s1, ?_, ?_⟩
  · have hlow2 : (call_read_scl bus s).1 = STWI_PIN_LOW := hlow
    simp only [stwi_stretch_wait, hlow2, if_true]
    exact hl
  · rw [htr] at hres
    rcases hres with ⟨he, k, hk1, hk2, ht⟩ | ⟨he, ht⟩
    · refine Or.inl ⟨he, k, hk1, hk2, calls_since_append _ _ _ ?_⟩
      rw [ht, List.append_assoc]
    · refine Or.inr ⟨he, calls_since_append _ _ _ ?_⟩
      rw [ht, List.append_assoc]

theorem fixture_budget :
    (∀ st : Fixture, (fixture_bus.timeout_start st).stretch_timer.toNat = 16) ∧
    (∀ st : Fixture,
      (fixture_bus.timeout_check st).1 = decide (0 < st.stretch_timer.toNat) ∧
      (fixture_bus.timeout_check st).2.stretch_timer.toNat = st.stretch_timer.toNat) ∧
    (∀ st : Fixture,
      (fixture_bus.delay st).stretch_timer.toNat = st.stretch_timer.toNat - 1) ∧
    (∀ st : Fixture, (fixture_bus.read_scl st).2.stretch_timer.toNat = st.stretch_timer.toNat) := by
  refine ⟨fun st => rfl, fun st => ⟨?_, rfl⟩, fun st => ?_, fun st => rfl⟩
  · simp [fixture_bus]
  · simp only [fixture_bus]
    split_ifs <;> omega

theorem fixture_wait_total (fuel : Nat) (hfuel : 16 < fuel) (s : World Fixture) :
    stwi_stretch_wait fuel fixture_bus s ≠ none := by
  cases hv : (fixture_bus.read_scl s.st).1
  · obtain ⟨e, s1, h, -⟩ := countdown_wait fixture_bus (fun st => st.stretch_timer.toNat) 16
      fuel s fixture_budget.1 fixture_budget.2.1 fixture_budget.2.2.1 fixture_budget.2.2.2
      hfuel hv
    rw [h]
    simp
  · rw [stretch_wait_high fuel fixture_bus s hv]
    simp

theorem scl_reads_rounds (n : Nat) (v : stwi_pin_state_t) :
    scl_reads (List.replicate n (wait_round v)).flatten = List.replicate n v := by
  induction n with
  | zero => rfl
  | succ n ih =>
    rw [List.replicate_succ, List.flatten_cons, scl_reads_append, ih, List.replicate_succ]
    rfl

theorem write_bit_total (fuel : Nat) (bus : stwi σ)
    (hwait : ∀ s, stwi_stretch_wait fuel bus s ≠ none) (bit : stwi_pin_state_t)
    (s : World σ) : stwi_write_bit fuel bus bit s ≠ none := by
  rw [write_bit_of_wait]
  rcases h : stwi_stretch_wait fuel bus (bit_raised bus bit s) with _ | ⟨e, s0⟩
  · exact absurd h (hwait _)
  · dsimp only
    split_ifs <;> simp

theorem read_bit_total (fuel : Nat) (bus : stwi σ)
    (hwait : ∀ s, stwi_stretch_wait fuel bus s ≠ none) (b0 : stwi_pin_state_t)
    (s : World σ) : stwi_read_bit fuel bus b0 s ≠ none := by
  rw [read_bit_of_wait]
  rcases h : stwi_stretch_wait fuel bus (bit_raised bus STWI_PIN_HIGH s) with _ | ⟨e, s0⟩
  · exact absurd h (hwait _)
  · dsimp only
    split_ifs <;> simp

theorem start_total (fuel : Nat) (bus : stwi σ)
    (hwait : ∀ s, stwi_stretch_wait fuel bus s ≠ none) (s : World σ) :
    stwi_start fuel bus s ≠ none := by
  rw [start_of_wait]
  rcases h : stwi_stretch_wait fuel bus (bit_raised bus STWI_PIN_HIGH s) with _ | ⟨e, s0⟩
  · exact absurd h (hwait _)
  · dsimp only
    split_ifs <;> simp

theorem stop_total (fuel : Nat) (bus : stwi σ)
    (hwait : ∀ s, stwi_stretch_wait fuel bus s ≠ none) (s : World σ) :
    stwi_stop fuel bus s ≠ none := by
  rw [stop_of_wait]
  rcases h : stwi_stretch_wait fuel bus (bit_raised bus STWI_PIN_LOW s) with _ | ⟨e, s0⟩
  · exact absurd h (hwait _)
  · dsimp only
    split_ifs <;> simp

theorem write_byte_loop_total (fuel : Nat) (bus : stwi σ)
    (hwait : ∀ s, stwi_stretch_wait fuel bus s ≠ none) (n : Nat) :
    ∀ (byte : Nat) (s : World σ), stwi_write_byte.loop fuel bus n byte s ≠ none := by
  induction n with
  | zero => intro byte s; simp [stwi_write_byte.loop]
  | succ n ih =>
    intro byte s
    rw [stwi_write_byte.loop]
    rcases h : stwi_write_bit fuel bus
        (if byte &&& 0x80 ≠ 0 then STWI_PIN_HIGH else STWI_PIN_LOW) s with _ | ⟨e, s0⟩
    · exact absurd h (write_bit_total fuel bus hwait _ _)
    · dsimp only
      by_cases he : e ≠ STWI_ERR_OK
      · rw [if_pos he]
        simp
      · rw [if_neg he]
        exact ih _ _

theorem read_byte_loop_total (fuel : Nat) (bus : stwi σ)
    (hwait : ∀ s, stwi_stretch_wait fuel bus s ≠ none) (n : Nat) :
    ∀ (data : Nat) (s : World σ), stwi_read_byte.loop fuel bus n data s ≠ none := by
  induction n with
  | zero => intro data s; simp [stwi_read_byte.loop]
  | succ n ih =>
    intro data s
    rw [stwi_read_byte.loop]
    rcases h : stwi_read_bit fuel bus STWI_PIN_LOW s with _ | ⟨e, bit, s0⟩
    · exact absurd h (read_bit_total fuel bus hwait _ _)
    · dsimp only
      by_cases he : e ≠ STWI_ERR_OK
      · rw [if_pos he]
        simp
      · rw [if_neg he]
        exact ih _ _

theorem write_byte_total (fuel : Nat) (bus : stwi σ)
    (hwait : ∀ s, stwi_stretch_wait fuel bus s ≠ none) (byte : Nat) (s : World σ) :
    stwi_write_byte fuel bus byte s ≠ none := by
  rw [stwi_write_byte]
  rcases h : stwi_write_byte.loop fuel bus 8 byte s with _ | ⟨e, s0⟩
  · exact absurd h (write_byte_loop_total fuel bus hwait _ _ _)
  · dsimp only
    by_cases he : e ≠ STWI_ERR_OK
    · rw [if_pos he]
      simp
    · rw [if_neg he]
      rcases h2 : stwi_read_bit fuel bus STWI_PIN_LOW s0 with _ | ⟨e1, bit, s2⟩
      · exact absurd h2 (read_bit_total fuel bus hwait _ _)
      · dsimp only
        split_ifs <;> simp

theorem read_byte_total (fuel : Nat) (bus : stwi σ)
    (hwait : ∀ s, stwi_stretch_wait fuel bus s ≠ none) (byte : Nat) (ack : Bool)
    (s : World σ) : stwi_read_byte fuel bus byte ack s ≠ none := by
  rw [stwi_read_byte]
  rcases h : stwi_read_byte.loop fuel bus 8 0 s with _ | ⟨e, d, s0⟩
  · exact absurd h (read_byte_loop_total fuel bus hwait _ _ _)
  · dsimp only
    by_cases he : e ≠ STWI_ERR_OK
    · rw [if_pos he]
      simp
    · rw [if_neg he]
      rcases h2 : stwi_write_bit fuel bus (if ack then STWI_PIN_LOW else STWI_PIN_HIGH) s0
        with _ | ⟨e1, s2⟩
      · exact absurd h2 (write_bit_total fuel bus hwait _ _)
      · dsimp only
        split_ifs <;> simp

theorem read_byte_loop_frames (fuel : Nat) (bus : stwi σ) (n : Nat) :
    ∀ (d0 d : Nat) (s s1 : World σ),
    stwi_read_byte.loop fuel bus n d0 s = some (STWI_ERR_OK, d, s1) →
      ∃ (samples : List stwi_pin_state_t) (ws : List (List Call)),
        samples.length = n ∧ ws.length = n ∧
        (∀ w ∈ ws, ∀ c ∈ w, is_wait_call c = true) ∧
        s1.trace = s.trace ++ (List.zipWith read_bit_calls samples ws).flatten := by
  induction n with
  | zero =>
    intro d0 d s s1 h
    simp only [stwi_read_byte.loop, Option.some.injEq, Prod.mk.injEq, true_and] at h
    obtain ⟨-, rfl⟩ := h
    exact ⟨[], [], rfl, rfl, by simp, by simp⟩
  | succ n ih =>
    intro d0 d s s1 h
    simp only [stwi_read_byte.loop] at h
    split at h
    · simp at h
    · rename_i e0 bit s0 hrb
      split at h
      · rename_i he0
        simp only [Option.some.injEq, Prod.mk.injEq] at h
        exact absurd h.1 he0
      · rename_i he0
        simp only [ne_eq, not_not] at he0
        subst he0
        obtain ⟨w, hw, ht⟩ := read_bit_ok_calls _ _ _ _ _ _ hrb
        obtain ⟨samples, ws, hl1, hl2, hws, ht2⟩ := ih _ _ _ _ h
        refine ⟨bit :: samples, w :: ws, by simp [hl1], by simp [hl2], ?_, ?_⟩
        · intro w' hw'
          rcases List.mem_cons.mp hw' with rfl | hw'
          · exact hw
          · exact hws w' hw'
        · rw [ht2, ht]
          simp [List.append_assoc]

theorem frames_sda_samples (samples : List stwi_pin_state_t) :
    ∀ ws : List (List Call), ws.length = samples.length →
      (∀ w ∈ ws, ∀ c ∈ w, is_wait_call c = true) →
      sda_samples (List.zipWith read_bit_calls samples ws).flatten = samples := by
  induction samples with
  | nil => intro ws _ _; simp [sda_samples]
  | cons l samples ih =>
    intro ws hlen hws
    cases ws with
    | nil => simp at hlen
    | cons w ws =>
      simp only [List.length_cons, Nat.add_right_cancel_iff] at hlen
      have hw := hws w (List.mem_cons_self _ _)
      have hrest := ih ws hlen (fun w' h => hws w' (List.mem_cons_of_mem _ h))
      simp only [List.zipWith_cons_cons, List.flatten_cons, sda_samples_append, hrest]
      simp [read_bit_calls, sda_samples_append, sda_samples, sda_samples_wait w hw]

theorem read_byte_frames (fuel : Nat) (bus : stwi σ) (b0 : Nat) (ack : Bool)
    (s s1 : World σ) (e : stwi_err_t) (d : Nat)
    (h : stwi_read_byte fuel bus b0 ack s = some (e, d, s1))
    (he : e ≠ STWI_ERR_STRETCH) :
    e = STWI_ERR_OK ∧
    ∃ (samples : List stwi_pin_state_t) (ws : List (List Call)) (w : List Call),
      samples.length = 8 ∧ ws.length = 8 ∧
      (∀ w' ∈ w :: ws, ∀ c ∈ w', is_wait_call c = true) ∧
      s1.trace = s.trace ++
        ((List.zipWith read_bit_calls samples ws).flatten
          ++ write_bit_calls (if ack then STWI_PIN_LOW else STWI_PIN_HIGH) w) ∧
      d = byte_msb samples := by
  obtain ⟨hnack, t, ht, hok⟩ := read_byte_trace _ _ _ _ _ _ _ _ h
  have heok : e = STWI_ERR_OK := by
    cases e
    · rfl
    · exact absurd rfl he
    · exact absurd rfl hnack
  subst heok
  refine ⟨rfl, ?_⟩
  obtain ⟨-, hd⟩ := hok rfl
  simp only [stwi_read_byte] at h
  split at h
  · simp at h
  · rename_i e0 d1 s0 hl
    split at h
    · rename_i he0
      simp only [Option.some.injEq, Prod.mk.injEq] at h
      exact absurd h.1 he0
    · rename_i he0
      simp only [ne_eq, not_not] at he0
      subst he0
      obtain ⟨samples, ws, hl1, hl2, hws, ht0⟩ := read_byte_loop_frames _ _ _ _ _ _ _ hl
      split at h
      · simp at h
      · rename_i e1 s2 hwb
        split at h
        · rename_i he1
          simp only [Option.some.injEq, Prod.mk.injEq] at h
          exact absurd h.1 he1
        · rename_i he1
          simp only [ne_eq, not_not] at he1
          subst he1
          simp only [Option.some.injEq, Prod.mk.injEq, true_and] at h
          obtain ⟨rfl, rfl⟩ := h
          obtain ⟨w, hw, ht2⟩ := write_bit_ok_calls _ _ _ _ _ hwb
          have hall : ∀ w' ∈ w :: ws, ∀ c ∈ w', is_wait_call c = true := by
            intro w' hw'
            rcases List.mem_cons.mp hw' with rfl | hw'
            · exact hw
            · exact hws w' hw'
          have htr : s2.trace = s.trace ++
              ((List.zipWith read_bit_calls samples ws).flatten
                ++ write_bit_calls (if ack then STWI_PIN_LOW else STWI_PIN_HIGH) w) := by
            rw [ht2, ht0, List.append_assoc]
          refine ⟨samples, ws, w, hl1, hl2, hall, htr, ?_⟩
          have htt : t = (List.zipWith read_bit_calls samples ws).flatten
              ++ write_bit_calls (if ack then STWI_PIN_LOW else STWI_PIN_HIGH) w :=
            List.append_cancel_left (ht.symm.trans htr)
          rw [hd, htt, sda_samples_append, frames_sda_samples samples ws (by rw [hl2, hl1]) hws]
          simp [write_bit_calls, sda_samples_append, sda_samples, sda_samples_wait w hw]

theorem stretch_loop_last (bus : stwi σ) (fuel : Nat) :
    ∀ (s s1 : World σ),
    stwi_stretch_wait.loop bus fuel s = some (STWI_ERR_STRETCH, s1) →
      s1.trace.getLast? = some (Call.timeout_check false) := by
  induction fuel with
  | zero => intro s s1 h; simp [stwi_stretch_wait.loop] at h
  | succ fuel ih =>
    intro s s1 h
    cases hc : (bus.timeout_check s.st).1
    · rw [stretch_loop_stop bus fuel s hc] at h
      simp only [Option.some.injEq, Prod.mk.injEq, true_and] at h
      subst h
      simp [call_timeout_check, hc]
    · rw [stretch_loop_step bus fuel s hc] at h
      split_ifs at h
      · exact ih _ _ h
      · simp at h

theorem stretch_wait_last (fuel : Nat) (bus : stwi σ) (s s1 : World σ)
    (h : stwi_stretch_wait fuel bus s = some (STWI_ERR_STRETCH, s1)) :
    s1.trace.getLast? = some (Call.timeout_check false) := by
  simp only [stwi_stretch_wait] at h
  split at h
  · exact stretch_loop_last _ _ _ _ h
  · simp at h

theorem write_byte_loop_stretch_at (fuel : Nat) (bus : stwi σ) (k : Nat) :
    ∀ (n b : Nat) (s s0 s1 : World σ) (lvl : stwi_pin_state_t),
    (sent_levels n b)[k]? = some lvl →
    stwi_write_byte.loop fuel bus k b s = some (STWI_ERR_OK, s0) →
    stwi_stretch_wait fuel bus (bit_raised bus lvl s0) = some (STWI_ERR_STRETCH, s1) →
    stwi_write_byte.loop fuel bus n b s = some (STWI_ERR_STRETCH, s1) := by
  induction k with
  | zero =>
    intro n b s s0 s1 lvl hl hpre hw
    simp only [stwi_write_byte.loop, Option.some.injEq, Prod.mk.injEq, true_and] at hpre
    subst hpre
    cases n with
    | zero => simp [sent_levels] at hl
    | succ n =>
      simp only [sent_levels, List.getElem?_cons_zero, Option.some.injEq] at hl
      rw [stwi_write_byte.loop, hl, write_bit_of_wait, hw]
      rfl
  | succ k ih =>
    intro n b s s0 s1 lvl hl hpre hw
    cases n with
    | zero => simp [sent_levels] at hl
    | succ n =>
      simp only [sent_levels, List.getElem?_cons_succ] at hl
      rw [stwi_write_byte.loop] at hpre ⊢
      rcases hwb : stwi_write_bit fuel bus
          (if b &&& 0x80 ≠ 0 then STWI_PIN_HIGH else STWI_PIN_LOW) s with _ | ⟨e0, s2⟩
      · rw [hwb] at hpre
        simp at hpre
      · rw [hwb] at hpre
        dsimp only at hpre ⊢
        by_cases he0 : e0 ≠ STWI_ERR_OK
        · rw [if_pos he0] at hpre
          simp only [Option.some.injEq, Prod.mk.injEq] at hpre
          exact absurd hpre.1 he0
        · rw [if_neg he0] at hpre ⊢
          exact ih _ _ _ _ _ _ hl hpre hw

theorem sent_levels_take (k : Nat) :
    ∀ (n b : Nat), k ≤ n → (sent_levels n b).take k = sent_levels k b := by
  induction k with
  | zero => intro n b _; simp [sent_levels]
  | succ k ih =>
    intro n b hk
    cases n with
    | zero => omega
    | succ n =>
      simp only [sent_levels, List.take_succ_cons]
      rw [ih n _ (by omega)]

theorem bit_levels_get (b k : Nat) (hk : k < 8) :
    ((List.range 8).map (bit_level b))[k]? = some (bit_level b k) := by
  rw [List.getElem?_map, List.getElem?_range hk]
  rfl

theorem frames_no_samples (levels : List stwi_pin_state_t) :
    ∀ ws : List (List Call), (∀ w ∈ ws, ∀ c ∈ w, is_wait_call c = true) →
      sda_samples (List.zipWith write_bit_calls levels ws).flatten = [] := by
  induction levels with
  | nil => intro ws _; simp [sda_samples]
  | cons l levels ih =>
    intro ws hws
    cases ws with
    | nil => simp [sda_samples]
    | cons w ws =>
      have hw := hws w (List.mem_cons_self _ _)
      have hrest := ih ws (fun w' h => hws w' (List.mem_cons_of_mem _ h))
      simp only [List.zipWith_cons_cons, List.flatten_cons, sda_samples_append, hrest]
      simp [write_bit_calls, sda_samples_append, sda_samples, sda_samples_wait w hw]

theorem scl_never_low_append (a b : List Call) :
    scl_never_low (a ++ b) = (scl_never_low a && scl_never_low b) := by
  simp [scl_never_low, scl_reads_append]

theorem wait_quiet (fuel : Nat) (bus : stwi σ) (s s1 : World σ) (e : stwi_err_t)
    (h : stwi_stretch_wait fuel bus s = some (e, s1)) :
    ∃ w, s1.trace = s.trace ++ w ∧
      (scl_never_low w = true → e = STWI_ERR_OK ∧ w = [Call.read_scl STWI_PIN_HIGH]) := by
  cases hv : (bus.read_scl s.st).1
  · have hv2 : (call_read_scl bus s).1 = STWI_PIN_LOW := hv
    simp only [stwi_stretch_wait, hv2, if_true] at h
    obtain ⟨w, -, ht⟩ := stretch_loop_trace _ _ _ _ _ h
    refine ⟨[Call.read_scl STWI_PIN_LOW, Call.timeout_start] ++ w, ?_, ?_⟩
    · rw [ht]
      simp [call_timeout_start, call_read_scl, hv]
    · intro hq
      simp [scl_never_low, scl_reads] at hq
  · rw [stretch_wait_high fuel bus s hv] at h
    simp only [Option.some.injEq, Prod.mk.injEq] at h
    obtain ⟨rfl, rfl⟩ := h
    exact ⟨[Call.read_scl STWI_PIN_HIGH], by rw [read_scl_trace, hv], fun _ => ⟨rfl, rfl⟩⟩

theorem write_bit_quiet (fuel : Nat) (bus : stwi σ) (bit : stwi_pin_state_t)
    (s s1 : World σ) (e : stwi_err_t) (h : stwi_write_bit fuel bus bit s = some (e, s1)) :
    ∃ t, s1.trace = s.trace ++ t ∧
      (scl_never_low t = true → e = STWI_ERR_OK ∧ delay_count t = 4) := by
  rw [write_bit_of_wait] at h
  rcases hsw : stwi_stretch_wait fuel bus (bit_raised bus bit s) with _ | ⟨e0, s0⟩
  · rw [hsw] at h
    simp at h
  · rw [hsw] at h
    dsimp only at h
    obtain ⟨w, ht, hq⟩ := wait_quiet _ _ _ _ _ hsw
    rw [bit_raised_trace] at ht
    by_cases he0 : e0 ≠ STWI_ERR_OK
    · rw [if_pos he0] at h
      simp only [Option.some.injEq, Prod.mk.injEq] at h
      obtain ⟨rfl, rfl⟩ := h
      refine ⟨[Call.write_sda bit, Call.delay, Call.write_scl STWI_PIN_HIGH, Call.delay] ++ w,
        by rw [ht, List.append_assoc], ?_⟩
      intro hq2
      rw [scl_never_low_append, Bool.and_eq_true] at hq2
      exact absurd (hq hq2.2).1 he0
    · rw [if_neg he0] at h
      simp only [Option.some.injEq, Prod.mk.injEq] at h
      obtain ⟨rfl, rfl⟩ := h
      refine ⟨[Call.write_sda bit, Call.delay, Call.write_scl STWI_PIN_HIGH, Call.delay] ++ w
        ++ [Call.delay, Call.write_scl STWI_PIN_LOW, Call.delay], ?_, ?_⟩
      · simp [call_delay, call_write_scl, ht]
      · intro hq2
        rw [scl_never_low_append, scl_never_low_append, Bool.and_eq_true,
          Bool.and_eq_true] at hq2
        rw [(hq hq2.1.2).2]
        exact ⟨rfl, by simp [delay_count]⟩

theorem read_bit_quiet (fuel : Nat) (bus : stwi σ) (b0 bit : stwi_pin_state_t)
    (s s1 : World σ) (e : stwi_err_t)
    (h : stwi_read_bit fuel bus b0 s = some (e, bit, s1)) :
    ∃ t, s1.trace = s.trace ++ t ∧
      (scl_never_low t = true → e = STWI_ERR_OK ∧ delay_count t = 4) := by
  rw [read_bit_of_wait] at h
  rcases hsw : stwi_stretch_wait fuel bus (bit_raised bus STWI_PIN_HIGH s) with _ | ⟨e0, s0⟩
  · rw [hsw] at h
    simp at h
  · rw [hsw] at h
    dsimp only at h
    obtain ⟨w, ht, hq⟩ := wait_quiet _ _ _ _ _ hsw
    rw [bit_raised_trace] at ht
    by_cases he0 : e0 ≠ STWI_ERR_OK
    · rw [if_pos he0] at h
      simp only [Option.some.injEq, Prod.mk.injEq] at h
      obtain ⟨rfl, -, rfl⟩ := h
      refine ⟨[Call.write_sda STWI_PIN_HIGH, Call.delay, Call.write_scl STWI_PIN_HIGH, Call.delay] ++ w,
        by rw [ht, List.append_assoc], ?_⟩
      intro hq2
      rw [scl_never_low_append, Bool.and_eq_true] at hq2
      exact absurd (hq hq2.2).1 he0
    · rw [if_neg he0] at h
      simp only [Option.some.injEq, Prod.mk.injEq] at h
      obtain ⟨rfl, -, rfl⟩ := h
      refine ⟨[Call.write_sda STWI_PIN_HIGH, Call.delay, Call.write_scl STWI_PIN_HIGH,
        Call.delay] ++ w ++ [Call.delay, Call.read_sda (bus.read_sda (bus.delay s0.st)).1,
          Call.write_scl STWI_PIN_LOW, Call.delay], ?_, ?_⟩
      · simp [call_delay, call_write_scl, call_read_sda, ht]
      · intro hq2
        rw [scl_never_low_append, scl_never_low_append, Bool.and_eq_true,
          Bool.and_eq_true] at hq2
        rw [(hq hq2.1.2).2]
        exact ⟨rfl, by simp [delay_count]⟩

theorem start_quiet (fuel : Nat) (bus : stwi σ) (s s1 : World σ) (e : stwi_err_t)
    (h : stwi_start fuel bus s = some (e, s1)) :
    ∃ t, s1.trace = s.trace ++ t ∧
      (scl_never_low t = true → e = STWI_ERR_OK ∧ delay_count t = 4) := by
  rw [start_of_wait] at h
  rcases hsw : stwi_stretch_wait fuel bus (bit_raised bus STWI_PIN_HIGH s) with _ | ⟨e0, s0⟩
  · rw [hsw] at h
    simp at h
  · rw [hsw] at h
    dsimp only at h
    obtain ⟨w, ht, hq⟩ := wait_quiet _ _ _ _ _ hsw
    rw [bit_raised_trace] at ht
    by_cases he0 : e0 ≠ STWI_ERR_OK
    · rw [if_pos he0] at h
      simp only [Option.some.injEq, Prod.mk.injEq] at h
      obtain ⟨rfl, rfl⟩ := h
      refine ⟨[Call.write_sda STWI_PIN_HIGH, Call.delay, Call.write_scl STWI_PIN_HIGH, Call.delay] ++ w,
        by rw [ht, List.append_assoc], ?_⟩
      intro hq2
      rw [scl_never_low_append, Bool.and_eq_true] at hq2
      exact absurd (hq hq2.2).1 he0
    · rw [if_neg he0] at h
      simp only [Option.some.injEq, Prod.mk.injEq] at h
      obtain ⟨rfl, rfl⟩ := h
      refine ⟨[Call.write_sda STWI_PIN_HIGH, Call.delay, Call.write_scl STWI_PIN_HIGH,
        Call.delay] ++ w ++ [Call.write_sda STWI_PIN_LOW, Call.delay,
          Call.write_scl STWI_PIN_LOW, Call.delay], ?_, ?_⟩
      · rw [start_lowered_trace, ht]
        simp
      · intro hq2
        rw [scl_never_low_append, scl_never_low_append, Bool.and_eq_true,
          Bool.and_eq_true] at hq2
        rw [(hq hq2.1.2).2]
        exact ⟨rfl, by simp [delay_count]⟩

theorem stop_quiet (fuel : Nat) (bus : stwi σ) (s s1 : World σ) (e : stwi_err_t)
    (h : stwi_stop fuel bus s = some (e, s1)) :
    ∃ t, s1.trace = s.trace ++ t ∧
      (scl_never_low t = true → e = STWI_ERR_OK ∧ delay_count t = 3) := by
  rw [stop_of_wait] at h
  rcases hsw : stwi_stretch_wait fuel bus (bit_raised bus STWI_PIN_LOW s) with _ | ⟨e0, s0⟩
  · rw [hsw] at h
    simp at h
  · rw [hsw] at h
    dsimp only at h
    obtain ⟨w, ht, hq⟩ := wait_quiet _ _ _ _ _ hsw
    rw [bit_raised_trace] at ht
    by_cases he0 : e0 ≠ STWI_ERR_OK
    · rw [if_pos he0] at h
      simp only [Option.some.injEq, Prod.mk.injEq] at h
      obtain ⟨rfl, rfl⟩ := h
      refine ⟨[Call.write_sda STWI_PIN_LOW, Call.delay, Call.write_scl STWI_PIN_HIGH, Call.delay] ++ w,
        by rw [ht, List.append_assoc], ?_⟩
      intro hq2
      rw [scl_never_low_append, Bool.and_eq_true] at hq2
      exact absurd (hq hq2.2).1 he0
    · rw [if_neg he0] at h
      simp only [Option.some.injEq, Prod.mk.injEq] at h
      obtain ⟨rfl, rfl⟩ := h
      refine ⟨[Call.write_sda STWI_PIN_LOW, Call.delay, Call.write_scl STWI_PIN_HIGH,
        Call.delay] ++ w ++ [Call.write_sda STWI_PIN_HIGH, Call.delay], ?_, ?_⟩
      · rw [stop_released_trace, ht]
        simp
      · intro hq2
        rw [scl_never_low_append, scl_never_low_append, Bool.and_eq_true,
          Bool.and_eq_true] at hq2
        rw [(hq hq2.1.2).2]
        exact ⟨rfl, by simp [delay_count]⟩

theorem write_byte_loop_quiet (fuel : Nat) (bus : stwi σ) (n : Nat) :
    ∀ (byte : Nat) (s s1 : World σ) (e : stwi_err_t),
    stwi_write_byte.loop fuel bus n byte s = some (e, s1) →
      ∃ t, s1.trace = s.trace ++ t ∧
        (scl_never_low t = true → e = STWI_ERR_OK ∧ delay_count t = 4 * n) := by
  induction n with
  | zero =>
    intro byte s s1 e h
    simp only [stwi_write_byte.loop, Option.some.injEq, Prod.mk.injEq] at h
    obtain ⟨rfl, rfl⟩ := h
    exact ⟨[], by simp, fun _ => ⟨rfl, rfl⟩⟩
  | succ n ih =>
    intro byte s s1 e h
    rw [stwi_write_byte.loop] at h
    rcases hwb : stwi_write_bit fuel bus
        (if byte &&& 0x80 ≠ 0 then STWI_PIN_HIGH else STWI_PIN_LOW) s with _ | ⟨e0, s0⟩
    · rw [hwb] at h
      simp at h
    · rw [hwb] at h
      dsimp only at h
      obtain ⟨t0, ht0, hq0⟩ := write_bit_quiet _ _ _ _ _ _ hwb
      by_cases he0 : e0 ≠ STWI_ERR_OK
      · rw [if_pos he0] at h
        simp only [Option.some.injEq, Prod.mk.injEq] at h
        obtain ⟨rfl, rfl⟩ := h
        exact ⟨t0, ht0, fun hq => absurd (hq0 hq).1 he0⟩
      · rw [if_neg he0] at h
        obtain ⟨t1, ht1, hq1⟩ := ih _ _ _ _ h
        refine ⟨t0 ++ t1, by rw [ht1, ht0, List.append_assoc], ?_⟩
        intro hq
        rw [scl_never_low_append, Bool.and_eq_true] at hq
        refine ⟨(hq1 hq.2).1, ?_⟩
        rw [delay_count_append, (hq0 hq.1).2, (hq1 hq.2).2]
        omega

theorem read_byte_loop_quiet (fuel : Nat) (bus : stwi σ) (n : Nat) :
    ∀ (d0 d : Nat) (s s1 : World σ) (e : stwi_err_t),
    stwi_read_byte.loop fuel bus n d0 s = some (e, d, s1) →
      ∃ t, s1.trace = s.trace ++ t ∧
        (scl_never_low t = true → e = STWI_ERR_OK ∧ delay_count t = 4 * n) := by
  induction n with
  | zero =>
    intro d0 d s s1 e h
    simp only [stwi_read_byte.loop, Option.some.injEq, Prod.mk.injEq] at h
    obtain ⟨rfl, -, rfl⟩ := h
    exact ⟨[], by simp, fun _ => ⟨rfl, rfl⟩⟩
  | succ n ih =>
    intro d0 d s s1 e h
    rw [stwi_read_byte.loop] at h
    rcases hrb : stwi_read_bit fuel bus STWI_PIN_LOW s with _ | ⟨e0, bit, s0⟩
    · rw [hrb] at h
      simp at h
    · rw [hrb] at h
      dsimp only at h
      obtain ⟨t0, ht0, hq0⟩ := read_bit_quiet _ _ _ _ _ _ _ hrb
      by_cases he0 : e0 ≠ STWI_ERR_OK
      · rw [if_pos he0] at h
        simp only [Option.some.injEq, Prod.mk.injEq] at h
        obtain ⟨rfl, -, rfl⟩ := h
        exact ⟨t0, ht0, fun hq => absurd (hq0 hq).1 he0⟩
      · rw [if_neg he0] at h
        obtain ⟨t1, ht1, hq1⟩ := ih _ _ _ _ _ h
        refine ⟨t0 ++ t1, by rw [ht1, ht0, List.append_assoc], ?_⟩
        intro hq
        rw [scl_never_low_append, Bool.and_eq_true] at hq
        refine ⟨(hq1 hq.2).1, ?_⟩
        rw [delay_count_append, (hq0 hq.1).2, (hq1 hq.2).2]
        omega

theorem write_byte_quiet (fuel : Nat) (bus : stwi σ) (byte : Nat) (s s1 : World σ)
    (e : stwi_err_t) (h : stwi_write_byte fuel bus byte s = some (e, s1)) :
    ∃ t, s1.trace = s.trace ++ t ∧
      (scl_never_low t = true → e ≠ STWI_ERR_STRETCH ∧ delay_count t = 36) := by
  rw [stwi_write_byte] at h
  rcases hl : stwi_write_byte.loop fuel bus 8 byte s with _ | ⟨e0, s0⟩
  · rw [hl] at h
    simp at h
  · rw [hl] at h
    dsimp only at h
    obtain ⟨t0, ht0, hq0⟩ := write_byte_loop_quiet _ _ _ _ _ _ _ hl
    by_cases he0 : e0 ≠ STWI_ERR_OK
    · rw [if_pos he0] at h
      simp only [Option.some.injEq, Prod.mk.injEq] at h
      obtain ⟨rfl, rfl⟩ := h
      exact ⟨t0, ht0, fun hq => absurd (hq0 hq).1 he0⟩
    · rw [if_neg he0] at h
      rcases hrb : stwi_read_bit fuel bus STWI_PIN_LOW s0 with _ | ⟨e1, bit, s2⟩
      · rw [hrb] at h
        simp at h
      · rw [hrb] at h
        dsimp only at h
        obtain ⟨t1, ht1, hq1⟩ := read_bit_quiet _ _ _ _ _ _ _ hrb
        by_cases he1 : e1 ≠ STWI_ERR_OK
        · rw [if_pos he1] at h
          simp only [Option.some.injEq, Prod.mk.injEq] at h
          obtain ⟨rfl, rfl⟩ := h
          refine ⟨t0 ++ t1, by rw [ht1, ht0, List.append_assoc], ?_⟩
          intro hq
          rw [scl_never_low_append, Bool.and_eq_true] at hq
          exact absurd (hq1 hq.2).1 he1
        · rw [if_neg he1] at h
          simp only [Option.some.injEq, Prod.mk.injEq] at h
          obtain ⟨rfl, rfl⟩ := h
          refine ⟨t0 ++ t1, by rw [ht1, ht0, List.append_assoc], ?_⟩
          intro hq
          rw [scl_never_low_append, Bool.and_eq_true] at hq
          refine ⟨by split_ifs <;> simp, ?_⟩
          rw [delay_count_append, (hq0 hq.1).2, (hq1 hq.2).2]

theorem read_byte_quiet (fuel : Nat) (bus : stwi σ) (b0 : Nat) (ack : Bool) (d : Nat)
    (s s1 : World σ) (e : stwi_err_t)
    (h : stwi_read_byte fuel bus b0 ack s = some (e, d, s1)) :
    ∃ t, s1.trace = s.trace ++ t ∧
      (scl_never_low t = true → e = STWI_ERR_OK ∧ delay_count t = 36) := by
  rw [stwi_read_byte] at h
  rcases hl : stwi_read_byte.loop fuel bus 8 0 s with _ | ⟨e0, d0, s0⟩
  · rw [hl] at h
    simp at h
  · rw [hl] at h
    dsimp only at h
    obtain ⟨t0, ht0, hq0⟩ := read_byte_loop_quiet _ _ _ _ _ _ _ _ hl
    by_cases he0 : e0 ≠ STWI_ERR_OK
    · rw [if_pos he0] at h
      simp only [Option.some.injEq, Prod.mk.injEq] at h
      obtain ⟨rfl, -, rfl⟩ := h
      exact ⟨t0, ht0, fun hq => absurd (hq0 hq).1 he0⟩
    · rw [if_neg he0] at h
      rcases hwb : stwi_write_bit fuel bus (if ack then STWI_PIN_LOW else STWI_PIN_HIGH) s0
        with _ | ⟨e1, s2⟩
      · rw [hwb] at h
        simp at h
      · rw [hwb] at h
        dsimp only at h
        obtain ⟨t1, ht1, hq1⟩ := write_bit_quiet _ _ _ _ _ _ hwb
        by_cases he1 : e1 ≠ STWI_ERR_OK
        · rw [if_pos he1] at h
          simp only [Option.some.injEq, Prod.mk.injEq] at h
          obtain ⟨rfl, -, rfl⟩ := h
          refine ⟨t0 ++ t1, by rw [ht1, ht0, List.append_assoc], ?_⟩
          intro hq
          rw [scl_never_low_append, Bool.and_eq_true] at hq
          exact absurd (hq1 hq.2).1 he1
        · rw [if_neg he1] at h
          simp only [Option.some.injEq, Prod.mk.injEq] at h
          obtain ⟨rfl, -, rfl⟩ := h
          refine ⟨t0 ++ t1, by rw [ht1, ht0, List.append_assoc], ?_⟩
          intro hq
          rw [scl_never_low_append, Bool.and_eq_true] at hq
          refine ⟨rfl, ?_⟩
          rw [delay_count_append, (hq0 hq.1).2, (hq1 hq.2).2]

theorem op_run_quiet (fuel : Nat) (bus : stwi σ) (op : Op) (s s1 : World σ)
    (e : stwi_err_t) (rx : List Nat) (h : Op.run fuel bus op s = some (e, rx, s1)) :
    ∃ t, s1.trace = s.trace ++ t ∧
      (scl_never_low t = true → e ≠ STWI_ERR_STRETCH ∧ delay_count t = op_delays op) := by
  cases op with
  | start =>
    simp only [Op.run, Option.map_eq_some', Prod.mk.injEq, Prod.exists] at h
    obtain ⟨e', s', h, rfl, -, rfl⟩ := h
    obtain ⟨t, ht, hq⟩ := start_quiet _ _ _ _ _ h
    exact ⟨t, ht, fun hq2 => ⟨by rw [(hq hq2).1]; simp, (hq hq2).2⟩⟩
  | stop =>
    simp only [Op.run, Option.map_eq_some', Prod.mk.injEq, Prod.exists] at h
    obtain ⟨e', s', h, rfl, -, rfl⟩ := h
    obtain ⟨t, ht, hq⟩ := stop_quiet _ _ _ _ _ h
    exact ⟨t, ht, fun hq2 => ⟨by rw [(hq hq2).1]; simp, (hq hq2).2⟩⟩
  | write_byte b =>
    simp only [Op.run, Option.map_eq_some', Prod.mk.injEq, Prod.exists] at h
    obtain ⟨e', s', h, rfl, -, rfl⟩ := h
    exact write_byte_quiet _ _ _ _ _ _ h
  | read_byte ack =>
    simp only [Op.run, Option.map_eq_some', Prod.mk.injEq, Prod.exists] at h
    obtain ⟨e', d, s', h, rfl, -, rfl⟩ := h
    obtain ⟨t, ht, hq⟩ := read_byte_quiet _ _ _ _ _ _ _ _ h
    exact ⟨t, ht, fun hq2 => ⟨by rw [(hq hq2).1]; simp, (hq hq2).2⟩⟩

theorem run_ops_quiet (fuel : Nat) (bus : stwi σ) (ops : List Op) :
    ∀ (s s1 : World σ) (e : stwi_err_t) (n : Nat) (rx : List Nat),
    run_ops fuel bus ops s = some (e, n, rx, s1) →
      ∃ t, s1.trace = s.trace ++ t ∧
        (scl_never_low t = true → e ≠ STWI_ERR_STRETCH ∧
          (e = STWI_ERR_OK → delay_count t = (ops.map op_delays).sum)) := by
  induction ops with
  | nil =>
    intro s s1 e n rx h
    simp only [run_ops, Option.some.injEq, Prod.mk.injEq] at h
    obtain ⟨rfl, -, -, rfl⟩ := h
    exact ⟨[], by simp, fun _ => ⟨by simp, fun _ => rfl⟩⟩
  | cons op ops ih =>
    intro s s1 e n rx h
    rcases run_ops_cons_some _ _ _ _ _ _ _ _ _ h with
      ⟨e0, he0, hop, rfl, rfl, rfl⟩ | ⟨he, hop, rfl, rfl⟩ |
      ⟨rx0, s0, m, rxs, hop, hr, rfl, rfl⟩
    · obtain ⟨t, ht, hq⟩ := op_run_quiet _ _ _ _ _ _ _ hop
      exact ⟨t, ht, fun hq2 => ⟨(hq hq2).1, fun hok => absurd hok he0⟩⟩
    · obtain ⟨t, ht, hq⟩ := op_run_quiet _ _ _ _ _ _ _ hop
      exact ⟨t, ht, fun hq2 => ⟨(hq hq2).1, fun hok => absurd hok he⟩⟩
    · obtain ⟨t0, ht0, hq0⟩ := op_run_quiet _ _ _ _ _ _ _ hop
      obtain ⟨t1, ht1, hq1⟩ := ih _ _ _ _ _ hr
      refine ⟨t0 ++ t1, by rw [ht1, ht0, List.append_assoc], ?_⟩
      intro hq
      rw [scl_never_low_append, Bool.and_eq_true] at hq
      refine ⟨(hq1 hq.2).1, fun hok => ?_⟩
      rw [delay_count_append, (hq0 hq.1).2, (hq1 hq.2).2 hok, List.map_cons, List.sum_cons]

theorem write_ops_delays (a : Nat) (regs p : List Nat) :
    ((write_ops a regs p).map op_delays).sum = 7 + 36 * (1 + regs.length + p.length) := by
  simp [write_ops, op_delays, Function.comp_def]
  omega

theorem read_ops_delays (a : Nat) (regs : List Nat) (a1 n : Nat) :
    ((read_ops a regs a1 n).map op_delays).sum = 11 + 36 * (2 + regs.length + n) := by
  simp [read_ops, read_data_ops, op_delays, Function.comp_def]
  omega

theorem closed_bit_raised {Q : List Call → Prop} (hQ : trace_closed Q)
    (bit : stwi_pin_state_t) (w : List Call) (hw : ∀ c ∈ w, is_wait_call c = true) :
    Q ([Call.write_sda bit, Call.delay, Call.write_scl STWI_PIN_HIGH, Call.delay] ++ w) := by
  obtain ⟨-, happ, hwait, hsda, hscl, -⟩ := hQ
  exact happ _ _ (happ [Call.write_sda bit, Call.delay] [Call.write_scl STWI_PIN_HIGH, Call.delay]
    (hsda bit) (hscl STWI_PIN_HIGH)) (hwait w hw)

theorem closed_write_bit {Q : List Call → Prop} (hQ : trace_closed Q) (fuel : Nat)
    (bus : stwi σ) (bit : stwi_pin_state_t) (s s1 : World σ) (e : stwi_err_t)
    (h : stwi_write_bit fuel bus bit s = some (e, s1)) :
    ∃ t, s1.trace = s.trace ++ t ∧ Q t := by
  obtain ⟨w, hw, ht⟩ := write_bit_trace _ _ _ _ _ _ h
  refine ⟨_, ht, ?_⟩
  have hpre := closed_bit_raised hQ bit w hw
  obtain ⟨hnil, happ, hwait, -, hscl, -⟩ := hQ
  refine happ _ _ hpre ?_
  split_ifs
  · exact happ [Call.delay] [Call.write_scl STWI_PIN_LOW, Call.delay]
      (hwait _ (by simp [is_wait_call])) (hscl _)
  · exact hnil

theorem closed_read_bit {Q : List Call → Prop} (hQ : trace_closed Q) (fuel : Nat)
    (bus : stwi σ) (b0 bit : stwi_pin_state_t) (s s1 : World σ) (e : stwi_err_t)
    (h : stwi_read_bit fuel bus b0 s = some (e, bit, s1)) :
    ∃ t, s1.trace = s.trace ++ t ∧ Q t := by
  obtain ⟨w, hw, ht⟩ := read_bit_trace _ _ _ _ _ _ _ h
  refine ⟨_, ht, ?_⟩
  have hpre := closed_bit_raised hQ STWI_PIN_HIGH w hw
  obtain ⟨hnil, happ, hwait, -, hscl, hrd⟩ := hQ
  refine happ _ _ hpre ?_
  split_ifs
  · exact happ [Call.delay] [Call.read_sda bit, Call.write_scl STWI_PIN_LOW, Call.delay]
      (hwait _ (by simp [is_wait_call]))
      (happ [Call.read_sda bit] [Call.write_scl STWI_PIN_LOW, Call.delay] (hrd _) (hscl _))
  · exact hnil

theorem closed_start {Q : List Call → Prop} (hQ : trace_closed Q) (fuel : Nat)
    (bus : stwi σ) (s s1 : World σ) (e : stwi_err_t)
    (h : stwi_start fuel bus s = some (e, s1)) :
    ∃ t, s1.trace = s.trace ++ t ∧ Q t := by
  obtain ⟨w, hw, ht⟩ := start_calls _ _ _ _ _ h
  refine ⟨_, ht, ?_⟩
  have hpre := closed_bit_raised hQ STWI_PIN_HIGH w hw
  obtain ⟨hnil, happ, -, hsda, hscl, -⟩ := hQ
  refine happ _ _ hpre ?_
  split_ifs
  · exact happ [Call.write_sda STWI_PIN_LOW, Call.delay]
      [Call.write_scl STWI_PIN_LOW, Call.delay] (hsda _) (hscl _)
  · exact hnil

theorem closed_stop {Q : List Call → Prop} (hQ : trace_closed Q) (fuel : Nat)
    (bus : stwi σ) (s s1 : World σ) (e : stwi_err_t)
    (h : stwi_stop fuel bus s = some (e, s1)) :
    ∃ t, s1.trace = s.trace ++ t ∧ Q t := by
  obtain ⟨w, hw, -, ht⟩ := stop_calls _ _ _ _ _ h
  refine ⟨_, ht, ?_⟩
  have hpre := closed_bit_raised hQ STWI_PIN_LOW w hw
  obtain ⟨hnil, happ, -, hsda, -, -⟩ := hQ
  refine happ _ _ hpre ?_
  split_ifs
  · exact hsda _
  · exact hnil

theorem closed_write_byte_loop {Q : List Call → Prop} (hQ : trace_closed Q) (fuel : Nat)
    (bus : stwi σ) (n : Nat) :
    ∀ (byte : Nat) (s s1 : World σ) (e : stwi_err_t),
    stwi_write_byte.loop fuel bus n byte s = some (e, s1) →
      ∃ t, s1.trace = s.trace ++ t ∧ Q t := by
  induction n with
  | zero =>
    intro byte s s1 e h
    simp only [stwi_write_byte.loop, Option.some.injEq, Prod.mk.injEq] at h
    obtain ⟨-, rfl⟩ := h
    exact ⟨[], by simp, hQ.1⟩
  | succ n ih =>
    intro byte s s1 e h
    rw [stwi_write_byte.loop] at h
    rcases hwb : stwi_write_bit fuel bus
        (if byte &&& 0x80 ≠ 0 then STWI_PIN_HIGH else STWI_PIN_LOW) s with _ | ⟨e0, s0⟩
    · rw [hwb] at h
      simp at h
    · rw [hwb] at h
      dsimp only at h
      obtain ⟨t0, ht0, hq0⟩ := closed_write_bit hQ _ _ _ _ _ _ hwb
      by_cases he0 : e0 ≠ STWI_ERR_OK
      · rw [if_pos he0] at h
        simp only [Option.some.injEq, Prod.mk.injEq] at h
        obtain ⟨-, rfl⟩ := h
        exact ⟨t0, ht0, hq0⟩
      · rw [if_neg he0] at h
        obtain ⟨t1, ht1, hq1⟩ := ih _ _ _ _ h
        exact ⟨t0 ++ t1, by rw [ht1, ht0, List.append_assoc], hQ.2.1 _ _ hq0 hq1⟩

theorem closed_read_byte_loop {Q : List Call → Prop} (hQ : trace_closed Q) (fuel : Nat)
    (bus : stwi σ) (n : Nat) :
    ∀ (d0 d : Nat) (s s1 : World σ) (e : stwi_err_t),
    stwi_read_byte.loop fuel bus n d0 s = some (e, d, s1) →
      ∃ t, s1.trace = s.trace ++ t ∧ Q t := by
  induction n with
  | zero =>
    intro d0 d s s1 e h
    simp only [stwi_read_byte.loop, Option.some.injEq, Prod.mk.injEq] at h
    obtain ⟨-, -, rfl⟩ := h
    exact ⟨[], by simp, hQ.1⟩
  | succ n ih =>
    intro d0 d s s1 e h
    rw [stwi_read_byte.loop] at h
    rcases hrb : stwi_read_bit fuel bus STWI_PIN_LOW s with _ | ⟨e0, bit, s0⟩
    · rw [hrb] at h
      simp at h
    · rw [hrb] at h
      dsimp only at h
      obtain ⟨t0, ht0, hq0⟩ := closed_read_bit hQ _ _ _ _ _ _ _ hrb
      by_cases he0 : e0 ≠ STWI_ERR_OK
      · rw [if_pos he0] at h
        simp only [Option.some.injEq, Prod.mk.injEq] at h
        obtain ⟨-, -, rfl⟩ := h
        exact ⟨t0, ht0, hq0⟩
      · rw [if_neg he0] at h
        obtain ⟨t1, ht1, hq1⟩ := ih _ _ _ _ _ h
        exact ⟨t0 ++ t1, by rw [ht1, ht0, List.append_assoc], hQ.2.1 _ _ hq0 hq1⟩

theorem closed_write_byte {Q : List Call → Prop} (hQ : trace_closed Q) (fuel : Nat)
    (bus : stwi σ) (byte : Nat) (s s1 : World σ) (e : stwi_err_t)
    (h : stwi_write_byte fuel bus byte s = some (e, s1)) :
    ∃ t, s1.trace = s.trace ++ t ∧ Q t := by
  rw [stwi_write_byte] at h
  rcases hl : stwi_write_byte.loop fuel bus 8 byte s with _ | ⟨e0, s0⟩
  · rw [hl] at h
    simp at h
  · rw [hl] at h
    dsimp only at h
    obtain ⟨t0, ht0, hq0⟩ := closed_write_byte_loop hQ _ _ _ _ _ _ _ hl
    by_cases he0 : e0 ≠ STWI_ERR_OK
    · rw [if_pos he0] at h
      simp only [Option.some.injEq, Prod.mk.injEq] at h
      obtain ⟨-, rfl⟩ := h
      exact ⟨t0, ht0, hq0⟩
    · rw [if_neg he0] at h
      rcases hrb : stwi_read_bit fuel bus STWI_PIN_LOW s0 with _ | ⟨e1, bit, s2⟩
      · rw [hrb] at h
        simp at h
      · rw [hrb] at h
        dsimp only at h
        obtain ⟨t1, ht1, hq1⟩ := closed_read_bit hQ _ _ _ _ _ _ _ hrb
        have hs : s1 = s2 := by
          by_cases he1 : e1 ≠ STWI_ERR_OK
          · rw [if_pos he1] at h
            simp only [Option.some.injEq, Prod.mk.injEq] at h
            exact h.2.symm
          · rw [if_neg he1] at h
            simp only [Option.some.injEq, Prod.mk.injEq] at h
            exact h.2.symm
        subst hs
        exact ⟨t0 ++ t1, by rw [ht1, ht0, List.append_assoc], hQ.2.1 _ _ hq0 hq1⟩

theorem closed_read_byte {Q : List Call → Prop} (hQ : trace_closed Q) (fuel : Nat)
    (bus : stwi σ) (b0 : Nat) (ack : Bool) (d : Nat) (s s1 : World σ) (e : stwi_err_t)
    (h : stwi_read_byte fuel bus b0 ack s = some (e, d, s1)) :
    ∃ t, s1.trace = s.trace ++ t ∧ Q t := by
  rw [stwi_read_byte] at h
  rcases hl : stwi_read_byte.loop fuel bus 8 0 s with _ | ⟨e0, d0, s0⟩
  · rw [hl] at h
    simp at h
  · rw [hl] at h
    dsimp only at h
    obtain ⟨t0, ht0, hq0⟩ := closed_read_byte_loop hQ _ _ _ _ _ _ _ _ hl
    by_cases he0 : e0 ≠ STWI_ERR_OK
    · rw [if_pos he0] at h
      simp only [Option.some.injEq, Prod.mk.injEq] at h
      obtain ⟨-, -, rfl⟩ := h
      exact ⟨t0, ht0, hq0⟩
    · rw [if_neg he0] at h
      rcases hwb : stwi_write_bit fuel bus (if ack then STWI_PIN_LOW else STWI_PIN_HIGH) s0
        with _ | ⟨e1, s2⟩
      · rw [hwb] at h
        simp at h
      · rw [hwb] at h
        dsimp only at h
        obtain ⟨t1, ht1, hq1⟩ := closed_write_bit hQ _ _ _ _ _ _ hwb
        have hs : s1 = s2 := by
          by_cases he1 : e1 ≠ STWI_ERR_OK
          · rw [if_pos he1] at h
            simp only [Option.some.injEq, Prod.mk.injEq] at h
            exact h.2.2.symm
          · rw [if_neg he1] at h
            simp only [Option.some.injEq, Prod.mk.injEq] at h
            exact h.2.2.symm
        subst hs
        exact ⟨t0 ++ t1, by rw [ht1, ht0, List.append_assoc], hQ.2.1 _ _ hq0 hq1⟩

theorem closed_op_run {Q : List Call → Prop} (hQ : trace_closed Q) (fuel : Nat)
    (bus : stwi σ) (op : Op) (s s1 : World σ) (e : stwi_err_t) (rx : List Nat)
    (h : Op.run fuel bus op s = some (e, rx, s1)) :
    ∃ t, s1.trace = s.trace ++ t ∧ Q t := by
  cases op with
  | start =>
    simp only [Op.run, Option.map_eq_some', Prod.mk.injEq, Prod.exists] at h
    obtain ⟨e', s', h, -, -, rfl⟩ := h
    exact closed_start hQ _ _ _ _ _ h
  | stop =>
    simp only [Op.run, Option.map_eq_some', Prod.mk.injEq, Prod.exists] at h
    obtain ⟨e', s', h, -, -, rfl⟩ := h
    exact closed_stop hQ _ _ _ _ _ h
  | write_byte b =>
    simp only [Op.run, Option.map_eq_some', Prod.mk.injEq, Prod.exists] at h
    obtain ⟨e', s', h, -, -, rfl⟩ := h
    exact closed_write_byte hQ _ _ _ _ _ _ h
  | read_byte ack =>
    simp only [Op.run, Option.map_eq_some', Prod.mk.injEq, Prod.exists] at h
    obtain ⟨e', d, s', h, -, -, rfl⟩ := h
    exact closed_read_byte hQ _ _ _ _ _ _ _ _ h

theorem closed_run_ops {Q : List Call → Prop} (hQ : trace_closed Q) (fuel : Nat)
    (bus : stwi σ) (ops : List Op) :
    ∀ (s s1 : World σ) (e : stwi_err_t) (n : Nat) (rx : List Nat),
    run_ops fuel bus ops s = some (e, n, rx, s1) →
      ∃ t, s1.trace = s.trace ++ t ∧ Q t := by
  induction ops with
  | nil =>
    intro s s1 e n rx h
    simp only [run_ops, Option.some.injEq, Prod.mk.injEq] at h
    obtain ⟨-, -, -, rfl⟩ := h
    exact ⟨[], by simp, hQ.1⟩
  | cons op ops ih =>
    intro s s1 e n rx h
    rcases run_ops_cons_some _ _ _ _ _ _ _ _ _ h with
      ⟨e0, he0, hop, rfl, rfl, rfl⟩ | ⟨he, hop, rfl, rfl⟩ |
      ⟨rx0, s0, m, rxs, hop, hr, rfl, rfl⟩
    · exact closed_op_run hQ _ _ _ _ _ _ _ hop
    · exact closed_op_run hQ _ _ _ _ _ _ _ hop
    · obtain ⟨t0, ht0, hq0⟩ := closed_op_run hQ _ _ _ _ _ _ _ hop
      obtain ⟨t1, ht1, hq1⟩ := ih _ _ _ _ _ hr
      exact ⟨t0 ++ t1, by rw [ht1, ht0, List.append_assoc], hQ.2.1 _ _ hq0 hq1⟩

theorem writes_delayed_append (a b : List Call) (ha : writes_delayed a = true)
    (hb : writes_delayed b = true) : writes_delayed (a ++ b) = true := by
  induction a with
  | nil => exact hb
  | cons c a ih =>
    simp only [writes_delayed, Bool.and_eq_true] at ha
    simp only [List.cons_append, writes_delayed, Bool.and_eq_true]
    refine ⟨?_, ih ha.2⟩
    have h1 := ha.1
    split_ifs at h1 ⊢ with hc
    · cases a with
      | nil => simp at h1
      | cons d a => simpa using h1
    · rfl

theorem writes_delayed_wait (w : List Call) (hw : ∀ c ∈ w, is_wait_call c = true) :
    writes_delayed w = true := by
  induction w with
  | nil => rfl
  | cons c w ih =>
    have hc := hw c (List.mem_cons_self _ _)
    have hrest := ih (fun c' h => hw c' (List.mem_cons_of_mem _ h))
    cases c <;> simp_all [writes_delayed, is_pin_write, is_wait_call]

theorem writes_delayed_closed : trace_closed fun t => writes_delayed t = true := by
  refine ⟨rfl, writes_delayed_append, writes_delayed_wait, ?_, ?_, ?_⟩
  · intro v
    simp [writes_delayed, is_pin_write]
  · intro v
    simp [writes_delayed, is_pin_write]
  · intro v
    simp [writes_delayed, is_pin_write]

theorem pin_asserts_of_delayed (t : List Call) :
    ∀ scl_set sda_set : Bool, writes_delayed t = true →
      t.head? = some Call.delay ∨ (scl_set = false ∧ sda_set = false) →
      pin_asserts_hold scl_set sda_set t = true := by
  induction t with
  | nil => intro _ _ _ _; rfl
  | cons c t ih =>
    intro scl_set sda_set hd hs
    simp only [writes_delayed, Bool.and_eq_true] at hd
    obtain ⟨hc, hrest⟩ := hd
    cases c with
    | delay => exact ih false false hrest (Or.inr ⟨rfl, rfl⟩)
    | write_scl v =>
      rcases hs with hs | ⟨rfl, rfl⟩
      · simp at hs
      · simp only [is_pin_write, if_true, decide_eq_true_eq] at hc
        simp only [pin_asserts_hold, Bool.not_false, Bool.true_and]
        exact ih true false hrest (Or.inl hc)
    | write_sda v =>
      rcases hs with hs | ⟨rfl, rfl⟩
      · simp at hs
      · simp only [is_pin_write, if_true, decide_eq_true_eq] at hc
        simp only [pin_asserts_hold, Bool.not_false, Bool.true_and]
        exact ih false true hrest (Or.inl hc)
    | read_scl v =>
      rcases hs with hs | ⟨rfl, rfl⟩
      · simp at hs
      · exact ih false false hrest (Or.inr ⟨rfl, rfl⟩)
    | read_sda v =>
      rcases hs with hs | ⟨rfl, rfl⟩
      · simp at hs
      · exact ih false false hrest (Or.inr ⟨rfl, rfl⟩)
    | timeout_start =>
      rcases hs with hs | ⟨rfl, rfl⟩
      · simp at hs
      · exact ih false false hrest (Or.inr ⟨rfl, rfl⟩)
    | timeout_check b =>
      rcases hs with hs | ⟨rfl, rfl⟩
      · simp at hs
      · exact ih false false hrest (Or.inr ⟨rfl, rfl⟩)

/-! ## Address byte, edges of SDA under a high clock, unchanged destination -/

set_option maxRecDepth 100000 in
theorem addr_byte_mod : ∀ a, a < 256 →
    (a <<< 1 ||| 0x00) % 256 = (2 * a) % 256 ∧
    (a <<< 1 ||| 0x01) % 256 = (2 * a) % 256 + 1 ∧
    ((a ^^^ 0x80) <<< 1 ||| 0x00) % 256 = (a <<< 1 ||| 0x00) % 256 ∧
    ((a ^^^ 0x80) <<< 1 ||| 0x01) % 256 = (a <<< 1 ||| 0x01) % 256 := by
  decide

set_option maxRecDepth 100000 in
theorem addr_byte_seven : ∀ a, a < 128 →
    (2 * a) % 256 = a <<< 1 ||| 0x00 ∧ (2 * a) % 256 + 1 = a <<< 1 ||| 0x01 := by
  decide

theorem driven_after_append (l : Driven) (a b : List Call) :
    driven_after l (a ++ b) = driven_after (driven_after l a) b := by
  simp [driven_after]

theorem sda_edges_append (a : List Call) :
    ∀ (l : Driven) (b : List Call),
      sda_edges l (a ++ b) = sda_edges l a ++ sda_edges (driven_after l a) b := by
  induction a with
  | nil => intro l b; rfl
  | cons c a ih =>
    intro l b
    have hd : driven_after l (c :: a) = driven_after (l.step c) a := rfl
    rw [List.cons_append, sda_edges, sda_edges, ih, hd, List.append_assoc]

theorem driven_after_wait (w : List Call) (hw : ∀ c ∈ w, is_wait_call c = true) :
    ∀ l : Driven, driven_after l w = l ∧ sda_edges l w = [] := by
  induction w with
  | nil => intro l; exact ⟨rfl, rfl⟩
  | cons c w ih =>
    intro l
    have hc := hw c (List.mem_cons_self _ _)
    have hrest := ih (fun c' h => hw c' (List.mem_cons_of_mem _ h))
    have hstep : l.step c = l := by
      cases c <;> simp_all [is_wait_call, Driven.step]
    have hnone : edge_at l c = [] := by
      cases c <;> simp_all [is_wait_call, edge_at]
    constructor
    · show driven_after (l.step c) w = l
      rw [hstep]
      exact (hrest l).1
    · show _ ++ sda_edges (l.step c) w = []
      rw [hnone, hstep, (hrest l).2]
      rfl

theorem clocked_nil : clocked 0 [] := fun _ hl => ⟨rfl, hl, rfl⟩

theorem clocked_append (j k : Nat) (a b : List Call) (ha : clocked j a) (hb : clocked k b) :
    clocked (j + k) (a ++ b) := by
  intro l hl
  obtain ⟨ha1, ha2, ha3⟩ := ha l hl
  obtain ⟨hb1, hb2, hb3⟩ := hb (driven_after l a) ha2
  rw [sda_edges_append, driven_after_append, ha1, hb1, hb2, hb3, ha3]
  exact ⟨rfl, rfl, by omega⟩

theorem clocked_write_bit (bit : stwi_pin_state_t) (w : List Call)
    (hw : ∀ c ∈ w, is_wait_call c = true) : clocked 1 (write_bit_calls bit w) := by
  intro l hl
  have hwl := driven_after_wait w hw
  simp only [write_bit_calls, sda_edges_append, driven_after_append, (hwl _).1, (hwl _).2]
  simp [sda_edges, edge_at, driven_after, Driven.step, hl]

theorem clocked_read_bit (bit : stwi_pin_state_t) (w : List Call)
    (hw : ∀ c ∈ w, is_wait_call c = true) : clocked 1 (read_bit_calls bit w) := by
  intro l hl
  have hwl := driven_after_wait w hw
  simp only [read_bit_calls, sda_edges_append, driven_after_append, (hwl _).1, (hwl _).2]
  simp [sda_edges, edge_at, driven_after, Driven.step, hl]

theorem clocked_write_frames (levels : List stwi_pin_state_t) :
    ∀ ws : List (List Call), ws.length = levels.length →
      (∀ w ∈ ws, ∀ c ∈ w, is_wait_call c = true) →
      clocked levels.length (List.zipWith write_bit_calls levels ws).flatten := by
  induction levels with
  | nil => intro ws _ _; simpa using clocked_nil
  | cons v levels ih =>
    intro ws hlen hws
    cases ws with
    | nil => simp at hlen
    | cons w ws =>
      simp only [List.length_cons, Nat.add_right_cancel_iff] at hlen
      have hw := hws w (List.mem_cons_self _ _)
      have hrest := ih ws hlen (fun w' h => hws w' (List.mem_cons_of_mem _ h))
      simp only [List.zipWith_cons_cons, List.flatten_cons, List.length_cons]
      rw [Nat.add_comm]
      exact clocked_append _ _ _ _ (clocked_write_bit v w hw) hrest

theorem clocked_read_frames (samples : List stwi_pin_state_t) :
    ∀ ws : List (List Call), ws.length = samples.length →
      (∀ w ∈ ws, ∀ c ∈ w, is_wait_call c = true) →
      clocked samples.length (List.zipWith read_bit_calls samples ws).flatten := by
  induction samples with
  | nil => intro ws _ _; simpa using clocked_nil
  | cons v samples ih =>
    intro ws hlen hws
    cases ws with
    | nil => simp at hlen
    | cons w ws =>
      simp only [List.length_cons, Nat.add_right_cancel_iff] at hlen
      have hw := hws w (List.mem_cons_self _ _)
      have hrest := ih ws hlen (fun w' h => hws w' (List.mem_cons_of_mem _ h))
      simp only [List.zipWith_cons_cons, List.flatten_cons, List.length_cons]
      rw [Nat.add_comm]
      exact clocked_append _ _ _ _ (clocked_read_bit v w hw) hrest

theorem clocked_byte_op (fuel : Nat) (bus : stwi σ) (op : Op) (s s1 : World σ)
    (e : stwi_err_t) (rx : List Nat) (hop : op.is_byte = true)
    (h : Op.run fuel bus op s = some (e, rx, s1)) (he : e ≠ STWI_ERR_STRETCH) :
    ∃ t, s1.trace = s.trace ++ t ∧ clocked 9 t := by
  cases op with
  | start => simp [Op.is_byte] at hop
  | stop => simp [Op.is_byte] at hop
  | write_byte b =>
    simp only [Op.run, Option.map_eq_some', Prod.mk.injEq, Prod.exists] at h
    obtain ⟨e', s', h, rfl, -, rfl⟩ := h
    obtain ⟨ws, w, bit, hlen, hws, ht, -⟩ := write_byte_frames _ _ _ _ _ _ h he
    refine ⟨_, ht, ?_⟩
    have h8 := clocked_write_frames (sent_levels 8 b) ws (by rw [hlen, sent_levels_length])
      (fun w' hw' => hws w' (List.mem_cons_of_mem _ hw'))
    rw [sent_levels_length] at h8
    exact clocked_append 8 1 _ _ h8 (clocked_read_bit bit w (hws w (List.mem_cons_self _ _)))
  | read_byte ack =>
    simp only [Op.run, Option.map_eq_some', Prod.mk.injEq, Prod.exists] at h
    obtain ⟨e', d, s', h, rfl, -, rfl⟩ := h
    obtain ⟨-, samples, ws, w, hl1, hl2, hws, ht, -⟩ := read_byte_frames _ _ _ _ _ _ _ _ h he
    refine ⟨_, ht, ?_⟩
    have h8 := clocked_read_frames samples ws (by rw [hl2, hl1])
      (fun w' hw' => hws w' (List.mem_cons_of_mem _ hw'))
    rw [hl1] at h8
    exact clocked_append 8 1 _ _ h8
      (clocked_write_bit _ w (hws w (List.mem_cons_self _ _)))

theorem clocked_byte_ops (fuel : Nat) (bus : stwi σ) (ops : List Op) :
    ∀ (s s1 : World σ) (n : Nat) (rx : List Nat), (∀ op ∈ ops, Op.is_byte op = true) →
    run_ops fuel bus ops s = some (STWI_ERR_OK, n, rx, s1) →
      ∃ t, s1.trace = s.trace ++ t ∧ clocked (9 * ops.length) t := by
  induction ops with
  | nil =>
    intro s s1 n rx _ h
    simp only [run_ops, Option.some.injEq, Prod.mk.injEq, true_and] at h
    obtain ⟨-, -, rfl⟩ := h
    exact ⟨[], by simp, clocked_nil⟩
  | cons op ops ih =>
    intro s s1 n rx hops h
    rcases run_ops_cons_some _ _ _ _ _ _ _ _ _ h with
      ⟨e0, he0, -, he, -, -⟩ | ⟨he, -, -, -⟩ | ⟨rx0, s0, m, rxs, hop, hr, -, -⟩
    · exact absurd he.symm he0
    · exact absurd rfl he
    · obtain ⟨t0, ht0, hc0⟩ := clocked_byte_op _ _ _ _ _ _ _
        (hops op (List.mem_cons_self _ _)) hop (by decide)
      obtain ⟨t1, ht1, hc1⟩ := ih _ _ _ _ (fun o ho => hops o (List.mem_cons_of_mem _ ho)) hr
      refine ⟨t0 ++ t1, by rw [ht1, ht0, List.append_assoc], ?_⟩
      have := clocked_append 9 (9 * ops.length) _ _ hc0 hc1
      rw [List.length_cons]
      have he : 9 * (ops.length + 1) = 9 + 9 * ops.length := by omega
      rw [he]
      exact this

theorem start_ok_edges (fuel : Nat) (bus : stwi σ) (s s1 : World σ)
    (h : stwi_start fuel bus s = some (STWI_ERR_OK, s1)) :
    ∃ t, s1.trace = s.trace ++ t ∧
      ∀ l : Driven, l.scl = STWI_PIN_LOW ∨ l.sda = STWI_PIN_HIGH →
        sda_edges l t = [(STWI_PIN_LOW, l.pulses + 1)] ∧
        driven_after l t = ⟨STWI_PIN_LOW, STWI_PIN_LOW, l.pulses + 1⟩ := by
  obtain ⟨w, hw, ht⟩ := start_calls _ _ _ _ _ h
  refine ⟨_, ht, ?_⟩
  intro l hl
  have hwl := driven_after_wait w hw
  simp only [if_true, sda_edges_append, driven_after_append, (hwl _).1, (hwl _).2]
  rcases hl with hl | hl <;>
    simp [sda_edges, edge_at, driven_after, Driven.step, hl]

theorem stop_ok_edges (fuel : Nat) (bus : stwi σ) (s s1 : World σ)
    (h : stwi_stop fuel bus s = some (STWI_ERR_OK, s1)) :
    ∃ t, s1.trace = s.trace ++ t ∧
      ∀ l : Driven, l.scl = STWI_PIN_LOW →
        sda_edges l t = [(STWI_PIN_HIGH, l.pulses + 1)] ∧
        driven_after l t = ⟨STWI_PIN_HIGH, STWI_PIN_HIGH, l.pulses + 1⟩ := by
  obtain ⟨w, hw, -, ht⟩ := stop_calls _ _ _ _ _ h
  refine ⟨_, ht, ?_⟩
  intro l hl
  have hwl := driven_after_wait w hw
  simp only [if_true, sda_edges_append, driven_after_append, (hwl _).1, (hwl _).2]
  simp [sda_edges, edge_at, driven_after, Driven.step, hl]

theorem run_ops_ok_append (fuel : Nat) (bus : stwi σ) (a b : List Op) (s s2 : World σ)
    (n : Nat) (rx : List Nat)
    (h : run_ops fuel bus (a ++ b) s = some (STWI_ERR_OK, n, rx, s2)) :
    ∃ n1 rx1 s1 m rx2, run_ops fuel bus a s = some (STWI_ERR_OK, n1, rx1, s1) ∧
      run_ops fuel bus b s1 = some (STWI_ERR_OK, m, rx2, s2) := by
  rcases run_ops_append_inv _ _ _ _ _ _ _ _ _ h with ⟨he, -⟩ |
    ⟨n1, rx1, s1, m, rx2, h1, h2, -, -⟩
  · exact absurd rfl he
  · exact ⟨n1, rx1, s1, m, rx2, h1, h2⟩

theorem run_single_start (fuel : Nat) (bus : stwi σ) (s s1 : World σ) (n : Nat)
    (rx : List Nat) (h : run_ops fuel bus [Op.start] s = some (STWI_ERR_OK, n, rx, s1)) :
    stwi_start fuel bus s = some (STWI_ERR_OK, s1) := by
  rw [run_ops_single] at h
  simp only [Op.run, Option.map_map, Option.map_eq_some', Prod.mk.injEq, Function.comp,
    Prod.exists] at h
  obtain ⟨e, s', h, rfl, -, -, rfl⟩ := h
  exact h

theorem run_single_stop (fuel : Nat) (bus : stwi σ) (s s1 : World σ) (n : Nat)
    (rx : List Nat) (h : run_ops fuel bus [Op.stop] s = some (STWI_ERR_OK, n, rx, s1)) :
    stwi_stop fuel bus s = some (STWI_ERR_OK, s1) := by
  rw [run_ops_single] at h
  simp only [Op.run, Option.map_map, Option.map_eq_some', Prod.mk.injEq, Function.comp,
    Prod.exists] at h
  obtain ⟨e, s', h, rfl, -, -, rfl⟩ := h
  exact h

theorem segment_edges (fuel : Nat) (bus : stwi σ) (bytes : List Op) (s s1 : World σ)
    (n : Nat) (rx : List Nat) (hb : ∀ op ∈ bytes, Op.is_byte op = true)
    (h : run_ops fuel bus ([Op.start] ++ bytes) s = some (STWI_ERR_OK, n, rx, s1)) :
    ∃ t, s1.trace = s.trace ++ t ∧
      ∀ l : Driven, l.scl = STWI_PIN_LOW ∨ l.sda = STWI_PIN_HIGH →
        sda_edges l t = [(STWI_PIN_LOW, l.pulses + 1)] ∧
        (driven_after l t).scl = STWI_PIN_LOW ∧
        (driven_after l t).pulses = l.pulses + 1 + 9 * bytes.length := by
  obtain ⟨n1, rx1, s0, m, rx2, h1, h2⟩ := run_ops_ok_append _ _ _ _ _ _ _ _ h
  obtain ⟨t0, ht0, he0⟩ := start_ok_edges _ _ _ _ (run_single_start _ _ _ _ _ _ h1)
  obtain ⟨t1, ht1, hc1⟩ := clocked_byte_ops _ _ _ _ _ _ _ hb h2
  refine ⟨t0 ++ t1, by rw [ht1, ht0, List.append_assoc], ?_⟩
  intro l hl
  obtain ⟨hs, hd⟩ := he0 l hl
  obtain ⟨h3, h4, h5⟩ := hc1 (driven_after l t0) (by rw [hd])
  rw [sda_edges_append, driven_after_append, hs, h3, h4, h5, hd]
  exact ⟨rfl, rfl, rfl⟩

theorem write_ops_segments (a : Nat) (regs p : List Nat) :
    write_ops a regs p =
      ([Op.start] ++ (Op.write_byte a :: (regs.map Op.write_byte ++ p.map Op.write_byte)))
        ++ [Op.stop] := by
  simp [write_ops]

theorem read_ops_segments (a : Nat) (regs : List Nat) (a1 n : Nat) :
    read_ops a regs a1 n =
      ([Op.start] ++ (Op.write_byte a :: regs.map Op.write_byte))
        ++ (([Op.start] ++ (Op.write_byte a1 :: read_data_ops n)) ++ [Op.stop]) := by
  simp [read_ops]

theorem write_bytes_are_bytes (a : Nat) (regs p : List Nat) :
    ∀ op ∈ Op.write_byte a :: (regs.map Op.write_byte ++ p.map Op.write_byte),
      Op.is_byte op = true := by
  intro op hop
  simp only [List.mem_cons, List.mem_append, List.mem_map] at hop
  rcases hop with rfl | ⟨b, -, rfl⟩ | ⟨b, -, rfl⟩ <;> rfl

theorem read_bytes_are_bytes (a1 n : Nat) :
    ∀ op ∈ Op.write_byte a1 :: read_data_ops n, Op.is_byte op = true := by
  intro op hop
  simp only [read_data_ops, List.mem_cons, List.mem_map] at hop
  rcases hop with rfl | ⟨i, -, rfl⟩ <;> rfl

theorem reg_bytes_are_bytes (a : Nat) (regs : List Nat) :
    ∀ op ∈ Op.write_byte a :: regs.map Op.write_byte, Op.is_byte op = true := by
  intro op hop
  simp only [List.mem_cons, List.mem_map] at hop
  rcases hop with rfl | ⟨b, -, rfl⟩ <;> rfl

theorem write_ops_edges (fuel : Nat) (bus : stwi σ) (a : Nat) (regs p : List Nat)
    (s s1 : World σ) (n : Nat) (rx : List Nat)
    (h : run_ops fuel bus (write_ops a regs p) s = some (STWI_ERR_OK, n, rx, s1)) :
    sda_edges ⟨STWI_PIN_HIGH, STWI_PIN_HIGH, 0⟩ (calls_since s s1) =
        [(STWI_PIN_LOW, 1), (STWI_PIN_HIGH, 2 + 9 * (1 + regs.length + p.length))] ∧
      driven_after ⟨STWI_PIN_HIGH, STWI_PIN_HIGH, 0⟩ (calls_since s s1) =
        ⟨STWI_PIN_HIGH, STWI_PIN_HIGH, 2 + 9 * (1 + regs.length + p.length)⟩ := by
  rw [write_ops_segments] at h
  obtain ⟨n1, rx1, s0, m, rx2, h1, h2⟩ := run_ops_ok_append _ _ _ _ _ _ _ _ h
  obtain ⟨t0, ht0, he0⟩ := segment_edges _ _ _ _ _ _ _ (write_bytes_are_bytes a regs p) h1
  obtain ⟨t1, ht1, he1⟩ := stop_ok_edges _ _ _ _ (run_single_stop _ _ _ _ _ _ h2)
  obtain ⟨hs, hscl, hp⟩ := he0 ⟨STWI_PIN_HIGH, STWI_PIN_HIGH, 0⟩ (Or.inr rfl)
  obtain ⟨hs1, hd1⟩ := he1 _ hscl
  rw [calls_since_append s s1 (t0 ++ t1) (by rw [ht1, ht0, List.append_assoc]),
    sda_edges_append, driven_after_append, hs, hs1, hd1, hp]
  simp only [List.length_cons, List.length_append, List.length_map]
  refine ⟨?_, ?_⟩
  · simp only [List.cons_append, List.nil_append, List.cons.injEq, Prod.mk.injEq, true_and,
      and_true]
    omega
  · congr 1
    omega

theorem read_ops_edges (fuel : Nat) (bus : stwi σ) (a : Nat) (regs : List Nat) (a1 k : Nat)
    (s s1 : World σ) (n : Nat) (rx : List Nat)
    (h : run_ops fuel bus (read_ops a regs a1 k) s = some (STWI_ERR_OK, n, rx, s1)) :
    sda_edges ⟨STWI_PIN_HIGH, STWI_PIN_HIGH, 0⟩ (calls_since s s1) =
        [(STWI_PIN_LOW, 1), (STWI_PIN_LOW, 2 + 9 * (1 + regs.length)),
          (STWI_PIN_HIGH, 3 + 9 * (2 + regs.length + k))] ∧
      driven_after ⟨STWI_PIN_HIGH, STWI_PIN_HIGH, 0⟩ (calls_since s s1) =
        ⟨STWI_PIN_HIGH, STWI_PIN_HIGH, 3 + 9 * (2 + regs.length + k)⟩ := by
  rw [read_ops_segments] at h
  obtain ⟨n1, rx1, s0, m, rx2, h1, h2⟩ := run_ops_ok_append _ _ _ _ _ _ _ _ h
  obtain ⟨n3, rx3, s2, m4, rx4, h3, h4⟩ := run_ops_ok_append _ _ _ _ _ _ _ _ h2
  obtain ⟨t0, ht0, he0⟩ := segment_edges _ _ _ _ _ _ _ (reg_bytes_are_bytes a regs) h1
  obtain ⟨t1, ht1, he1⟩ := segment_edges _ _ _ _ _ _ _ (read_bytes_are_bytes a1 k) h3
  obtain ⟨t2, ht2, he2⟩ := stop_ok_edges _ _ _ _ (run_single_stop _ _ _ _ _ _ h4)
  obtain ⟨hs, hscl, hp⟩ := he0 ⟨STWI_PIN_HIGH, STWI_PIN_HIGH, 0⟩ (Or.inr rfl)
  obtain ⟨hs1, hscl1, hp1⟩ := he1 _ (Or.inl hscl)
  obtain ⟨hs2, hd2⟩ := he2 _ hscl1
  rw [calls_since_append s s1 (t0 ++ (t1 ++ t2))
      (by rw [ht2, ht1, ht0, List.append_assoc, List.append_assoc]),
    sda_edges_append, sda_edges_append, driven_after_append, driven_after_append, hs, hs1,
    hs2, hd2, hp1, hp]
  simp only [List.length_cons, List.length_map, read_data_ops_length]
  refine ⟨?_, ?_⟩
  · simp only [List.cons_append, List.nil_append, List.cons.injEq, Prod.mk.injEq, true_and,
      and_true]
    omega
  · congr 1
    omega

theorem read_byte_fail_keeps (fuel : Nat) (bus : stwi σ) (b0 : Nat) (ack : Bool)
    (s s1 : World σ) (e : stwi_err_t) (d : Nat)
    (h : stwi_read_byte fuel bus b0 ack s = some (e, d, s1)) (he : e ≠ STWI_ERR_OK) :
    d = b0 := by
  rw [read_byte_dest] at h
  simp only [Option.map_eq_some', Prod.mk.injEq, Prod.exists] at h
  obtain ⟨e', d', s', -, rfl, hd, -⟩ := h
  rw [if_neg he] at hd
  exact hd.symm

theorem read_byte_ack_timeout (fuel : Nat) (bus : stwi σ) (b0 : Nat) (ack : Bool)
    (s s0 s1 : World σ) (data : Nat)
    (hloop : stwi_read_byte.loop fuel bus 8 0 s = some (STWI_ERR_OK, data, s0))
    (hack : stwi_write_bit fuel bus (if ack then STWI_PIN_LOW else STWI_PIN_HIGH) s0
      = some (STWI_ERR_STRETCH, s1)) :
    stwi_read_byte fuel bus b0 ack s = some (STWI_ERR_STRETCH, b0, s1) := by
  rw [stwi_read_byte, hloop]
  dsimp only
  rw [if_neg (by simp), hack]
  rfl

theorem run_reads_length (fuel : Nat) (bus : stwi σ) (j : Nat) :
    ∀ (s s1 : World σ) (n : Nat) (rx : List Nat),
    run_ops fuel bus (List.replicate j (Op.read_byte true)) s
      = some (STWI_ERR_OK, n, rx, s1) → rx.length = j := by
  induction j with
  | zero =>
    intro s s1 n rx h
    simp only [List.replicate_zero, run_ops, Option.some.injEq, Prod.mk.injEq, true_and] at h
    rw [← h.2.1]
    rfl
  | succ j ih =>
    intro s s1 n rx h
    rw [List.replicate_succ] at h
    rcases run_ops_cons_some _ _ _ _ _ _ _ _ _ h with
      ⟨e0, he0, -, he, -, -⟩ | ⟨he, -, -, -⟩ | ⟨rx0, s0, m, rxs, hop, hr, -, rfl⟩
    · exact absurd he.symm he0
    · exact absurd rfl he
    · obtain ⟨-, -, -, -, -, hlen⟩ := op_run_trace _ _ _ _ _ _ _ hop
      have h1 : rx0.length = 1 := by
        rw [hlen rfl]
        simp [Op.is_tx]
      rw [List.length_append, h1, ih _ _ _ _ hr]
      omega

theorem read_ops_at_data (a : Nat) (regs : List Nat) (a1 n j : Nat) (hj : j < n) :
    ∃ rest, read_ops a regs a1 n =
      ([Op.start, Op.write_byte a] ++ regs.map Op.write_byte ++ [Op.start, Op.write_byte a1]
        ++ List.replicate j (Op.read_byte true))
        ++ Op.read_byte (decide (j + 1 < n)) :: rest := by
  obtain ⟨m, rfl⟩ : ∃ m, n = m + 1 := ⟨n - 1, by omega⟩
  rw [read_ops_split, read_tail_succ_eq]
  by_cases hjm : j = m
  · subst hjm
    refine ⟨[Op.stop], ?_⟩
    simp
  · obtain ⟨i, rfl⟩ : ∃ i, m = j + 1 + i := ⟨m - (j + 1), by omega⟩
    refine ⟨List.replicate i (Op.read_byte true) ++ [Op.read_byte false] ++ [Op.stop], ?_⟩
    have hrep : List.replicate (j + 1 + i) (Op.read_byte true)
        = List.replicate j (Op.read_byte true) ++ Op.read_byte true
          :: List.replicate i (Op.read_byte true) := by
      rw [Nat.add_assoc, List.replicate_add, Nat.add_comm 1 i, List.replicate_succ]
    rw [hrep]
    have hd : decide (j + 1 < j + 1 + i + 1) = true := decide_eq_true (by omega)
    rw [hd]
    simp

theorem store_keeps_rest (rx buff : List Nat) (h : rx.length ≤ buff.length) :
    (store buff 0 rx).drop rx.length = buff.drop rx.length ∧
      (store buff 0 rx).length = buff.length := by
  rw [store_zero rx buff h]
  constructor
  · simp
  · simp
    omega

/-! ## The claims -/

set_option maxRecDepth 100000

/-- C1: for an address below 128 and a 16-bit register value, with `R(w, reg)` the
register bytes: (1) if START, the write-byte of each element of
`[addr<<1] ++ R(w, reg) ++ p` in that order and STOP all succeed when run one after
the other, then `stwi_dev_write` does exactly that (same final platform state and
callback trace) and returns err=OK, stage=STOP, data_size=|p|; (2) if
`stwi_dev_write` returns and, among the calls it made, every SDA sample (each one
is taken on a ninth clock) was LOW and no `timeout_check` reported an expired
timeout, then it returned err=OK, stage=STOP, data_size=|p| and did exactly that
sequence, all of whose sub-operations succeeded; (3) the register bytes of
`STWI_REG_16` are big-endian: high byte times 256 plus low byte is `reg`. -/
theorem dev_write_success (fuel : Nat) (bus : stwi σ) (addr : Nat)
    (w : stwi_reg_size_t) (reg : Nat) (p : List Nat) (s : World σ)
    (haddr : addr < 128) (hreg : reg < 65536) :
    (∀ (n : Nat) (rx : List Nat) (s1 : World σ),
      run_ops fuel bus
        ([Op.start] ++ ([addr <<< 1] ++ reg_bytes w reg ++ p).map Op.write_byte
          ++ [Op.stop]) s = some (STWI_ERR_OK, n, rx, s1) →
      stwi_dev_write fuel bus addr w reg p p.length s =
        some (⟨STWI_ERR_OK, STWI_STAGE_STOP, p.length⟩, s1)) ∧
    (∀ (res : stwi_res) (s1 : World σ),
      stwi_dev_write fuel bus addr w reg p p.length s = some (res, s1) →
      (∀ c ∈ calls_since s s1,
        c ≠ Call.read_sda STWI_PIN_HIGH ∧ c ≠ Call.timeout_check false) →
      res = ⟨STWI_ERR_OK, STWI_STAGE_STOP, p.length⟩ ∧
        ∃ n rx, run_ops fuel bus
          ([Op.start] ++ ([addr <<< 1] ++ reg_bytes w reg ++ p).map Op.write_byte
            ++ [Op.stop]) s = some (STWI_ERR_OK, n, rx, s1)) ∧
    (reg_bytes STWI_REG_16 reg = [reg >>> 8 &&& 0xFF, reg &&& 0xFF] ∧
      (reg >>> 8 &&& 0xFF) * 256 + (reg &&& 0xFF) = reg) := by
  have hops : [Op.start] ++ ([addr <<< 1] ++ reg_bytes w reg ++ p).map Op.write_byte
      ++ [Op.stop] = write_ops ((addr <<< 1 ||| 0x00) % 256) (reg_bytes w reg) p := by
    rw [addr_byte_write addr haddr]
    simp [write_ops]
  rw [hops]
  refine ⟨?_, ?_, rfl, reg_big_endian reg hreg⟩
  · intro n rx s1 hrun
    have hc := (run_ops_count _ _ _ _ _ _ _ _ hrun).1 rfl
    rw [write_ops_length] at hc
    rw [dev_write_eq, payload_self, hrun]
    simp only [Option.map_some']
    rw [write_res_stop _ _ _ _ (by omega)]
  · intro res s1 hret hev
    obtain ⟨e, n, rx, hr, rfl⟩ := dev_write_inv _ _ _ _ _ _ _ _ _ _ hret
    rw [payload_self] at hr
    obtain ⟨t, ht, hst, hna⟩ := run_ops_events _ _ _ _ _ _ _ _ hr
    rw [calls_since_append s s1 t ht] at hev
    have he : e = STWI_ERR_OK := by
      cases e with
      | STWI_ERR_OK => rfl
      | STWI_ERR_STRETCH => exact absurd rfl (hev _ (hst rfl)).2
      | STWI_ERR_NACK => exact absurd rfl (hev _ (hna rfl)).1
    subst he
    have hc := (run_ops_count _ _ _ _ _ _ _ _ hr).1 rfl
    rw [write_ops_length] at hc
    rw [write_res_stop _ _ _ _ (by omega)]
    exact ⟨rfl, n, rx, hr⟩

/-- Witness of C1: the transaction of `test_dev_write_reg16`. -/
theorem dev_write_success_witness :
    stwi_dev_write 20 fixture_bus 0x25 STWI_REG_16 0xF1F2 [0x12, 0x34] 2
        (setUp [] sda_write_reg16) =
      some (⟨STWI_ERR_OK, STWI_STAGE_STOP, 2⟩,
        ops_world 20 fixture_bus
          ([Op.start] ++ ([0x25 <<< 1] ++ reg_bytes STWI_REG_16 0xF1F2 ++ [0x12, 0x34]).map
            Op.write_byte ++ [Op.stop]) (setUp [] sda_write_reg16)) ∧
      (test_dev_write_reg16.1 = ⟨STWI_ERR_OK, STWI_STAGE_STOP, 2⟩ ∧
        ∃ n rx, run_ops 20 fixture_bus
          ([Op.start] ++ ([0x25 <<< 1] ++ reg_bytes STWI_REG_16 0xF1F2 ++ [0x12, 0x34]).map
            Op.write_byte ++ [Op.stop]) (setUp [] sda_write_reg16)
            = some (STWI_ERR_OK, n, rx, test_dev_write_reg16.2)) ∧
      (0xF1F2 >>> 8 &&& 0xFF) * 256 + (0xF1F2 &&& 0xFF) = 0xF1F2 :=
  ⟨(dev_write_success 20 fixture_bus 0x25 STWI_REG_16 0xF1F2 [0x12, 0x34]
      (setUp [] sda_write_reg16) (by decide) (by decide)).1 7 [] _ (by rfl),
    (dev_write_success 20 fixture_bus 0x25 STWI_REG_16 0xF1F2 [0x12, 0x34]
      (setUp [] sda_write_reg16) (by decide) (by decide)).2.1 test_dev_write_reg16.1
      test_dev_write_reg16.2 (by rfl) (fun c hc => by
        have hall : (calls_since (setUp [] sda_write_reg16) test_dev_write_reg16.2).all
            (fun c => decide (c ≠ Call.read_sda STWI_PIN_HIGH ∧
              c ≠ Call.timeout_check false)) = true := by rfl
        exact of_decide_eq_true (List.all_eq_true.mp hall c hc)),
    (dev_write_success 20 fixture_bus 0x25 STWI_REG_16 0xF1F2 [0x12, 0x34]
      (setUp [] sda_write_reg16) (by decide) (by decide)).2.2.2⟩

/-- C2: whatever the arguments and the callbacks, if `stwi_dev_write` or
`stwi_dev_read` returns a result with err=OK, then its stage is STOP and its
data_size is the requested size. -/
theorem dev_ok_stop_size (fuel : Nat) (bus : stwi σ) (addr : Nat)
    (reg_size : stwi_reg_size_t) (reg : Nat) (buff : List Nat) (size : Nat)
    (s s1 : World σ) (res : stwi_res)
    (h : stwi_dev_write fuel bus addr reg_size reg buff size s = some (res, s1) ∨
      ∃ mem, stwi_dev_read fuel bus addr reg_size reg buff size s = some (res, mem, s1))
    (hok : res.err = STWI_ERR_OK) :
    res.stage = STWI_STAGE_STOP ∧ res.data_size = size := by
  rcases h with h | ⟨mem, h⟩
  · obtain ⟨e, n, rx, hr, rfl⟩ := dev_write_inv _ _ _ _ _ _ _ _ _ _ h
    rw [write_res_err] at hok
    have hn := (run_ops_count _ _ _ _ _ _ _ _ hr).1 hok
    rw [write_ops_length, payload_length] at hn
    rw [write_res_stop _ _ _ _ (by omega)]
    exact ⟨rfl, rfl⟩
  · obtain ⟨e, n, rx, hr, rfl, -⟩ := dev_read_inv _ _ _ _ _ _ _ _ _ _ _ h
    rw [read_res_err] at hok
    have hn := (run_ops_count _ _ _ _ _ _ _ _ hr).1 hok
    rw [read_ops_length] at hn
    rw [read_res_stop _ _ _ _ (by omega)]
    exact ⟨rfl, rfl⟩

/-- Witness of C2: the transaction of `test_dev_write_reg8`. -/
theorem dev_ok_stop_size_witness :
    test_dev_write_reg8.1.err = STWI_ERR_OK ∧
      test_dev_write_reg8.1.stage = STWI_STAGE_STOP ∧ test_dev_write_reg8.1.data_size = 2 :=
  ⟨by rfl, dev_ok_stop_size 20 fixture_bus 0x25 STWI_REG_8 0xF2 [0x12, 0x34] 2
    (setUp [] sda_write_reg8) test_dev_write_reg8.2 test_dev_write_reg8.1
    (Or.inl (by rfl)) (by rfl)⟩

/-- C3: whatever the outcome of `stwi_dev_write` or `stwi_dev_read`, the data_size
returned is at most the requested size. -/
theorem dev_data_size_le (fuel : Nat) (bus : stwi σ) (addr : Nat)
    (reg_size : stwi_reg_size_t) (reg : Nat) (buff : List Nat) (size : Nat)
    (s s1 : World σ) (res : stwi_res)
    (h : stwi_dev_write fuel bus addr reg_size reg buff size s = some (res, s1) ∨
      ∃ mem, stwi_dev_read fuel bus addr reg_size reg buff size s = some (res, mem, s1)) :
    res.data_size ≤ size := by
  rcases h with h | ⟨mem, h⟩
  · obtain ⟨e, n, rx, -, rfl⟩ := dev_write_inv _ _ _ _ _ _ _ _ _ _ h
    exact write_res_le _ _ _ _
  · obtain ⟨e, n, rx, -, rfl, -⟩ := dev_read_inv _ _ _ _ _ _ _ _ _ _ _ h
    exact read_res_le _ _ _ _

/-- Witness of C3: the transaction of `test_dev_write_err_data`. -/
theorem dev_data_size_le_witness :
    test_dev_write_err_data.1.err = STWI_ERR_NACK ∧ test_dev_write_err_data.1.data_size ≤ 2 :=
  ⟨by rfl, dev_data_size_le 20 fixture_bus 0x25 STWI_REG_8 0xF2 [0x12, 0x34] 2
    (setUp [] sda_write_err_data) test_dev_write_err_data.2 test_dev_write_err_data.1
    (Or.inl (by rfl))⟩

/-- C4: for an address below 128: (1) if the sub-operations START, write-byte
`(addr<<1)|0`, write-byte of the register bytes `R(w, reg)`, START, write-byte
`(addr<<1)|1`, `n` read-bytes and STOP all succeed when run one after the other, then
`stwi_dev_read` does exactly that and returns err=OK, stage=STOP, data_size=n;
(2) if `stwi_dev_read` returns and, among the calls it made, no `timeout_check`
reported an expired timeout and the SDA samples of the acknowledge bits (the first
`2 + |R(w, reg)|` samples) were all LOW, then it returned err=OK, stage=STOP,
data_size=n and did exactly that sequence; (3) the sequence holds exactly two
STARTs, the second one comes right after the last register byte and right before
the read-direction address byte, which the `n` read-bytes follow. -/
theorem dev_read_success (fuel : Nat) (bus : stwi σ) (addr : Nat)
    (w : stwi_reg_size_t) (reg : Nat) (buff : List Nat) (n : Nat) (s : World σ)
    (haddr : addr < 128) :
    (∀ (k : Nat) (rx : List Nat) (s1 : World σ),
      run_ops fuel bus
        ([Op.start, Op.write_byte (addr <<< 1 ||| 0)] ++ (reg_bytes w reg).map Op.write_byte
          ++ [Op.start, Op.write_byte (addr <<< 1 ||| 1)] ++ read_data_ops n ++ [Op.stop]) s
          = some (STWI_ERR_OK, k, rx, s1) →
      stwi_dev_read fuel bus addr w reg buff n s =
        some (⟨STWI_ERR_OK, STWI_STAGE_STOP, n⟩, store buff 0 rx, s1)) ∧
    (∀ (res : stwi_res) (mem : List Nat) (s1 : World σ),
      stwi_dev_read fuel bus addr w reg buff n s = some (res, mem, s1) →
      (∀ c ∈ calls_since s s1, c ≠ Call.timeout_check false) →
      (∀ v ∈ (sda_samples (calls_since s s1)).take (2 + (reg_bytes w reg).length),
        v = STWI_PIN_LOW) →
      res = ⟨STWI_ERR_OK, STWI_STAGE_STOP, n⟩ ∧
        ∃ k rx, run_ops fuel bus
          ([Op.start, Op.write_byte (addr <<< 1 ||| 0)]
            ++ (reg_bytes w reg).map Op.write_byte
            ++ [Op.start, Op.write_byte (addr <<< 1 ||| 1)] ++ read_data_ops n
            ++ [Op.stop]) s = some (STWI_ERR_OK, k, rx, s1) ∧ mem = store buff 0 rx) ∧
    ([Op.start, Op.write_byte (addr <<< 1 ||| 0)] ++ (reg_bytes w reg).map Op.write_byte
      ++ [Op.start, Op.write_byte (addr <<< 1 ||| 1)] ++ read_data_ops n
      ++ [Op.stop]).count Op.start = 2 ∧
    ([Op.start, Op.write_byte (addr <<< 1 ||| 0)] ++ (reg_bytes w reg).map Op.write_byte
      ++ [Op.start, Op.write_byte (addr <<< 1 ||| 1)] ++ read_data_ops n
      ++ [Op.stop]).drop (2 + (reg_bytes w reg).length) =
        [Op.start, Op.write_byte (addr <<< 1 ||| 1)] ++ read_data_ops n ++ [Op.stop] ∧
    (read_data_ops n).length = n ∧ ∀ op ∈ read_data_ops n, ∃ ack, op = Op.read_byte ack := by
  have hops : [Op.start, Op.write_byte (addr <<< 1 ||| 0)]
      ++ (reg_bytes w reg).map Op.write_byte
      ++ [Op.start, Op.write_byte (addr <<< 1 ||| 1)] ++ read_data_ops n ++ [Op.stop]
      = read_ops ((addr <<< 1 ||| 0x00) % 256) (reg_bytes w reg)
          ((addr <<< 1 ||| 0x01) % 256) n := by
    rw [addr_byte_write addr haddr, addr_byte_read addr haddr]
    simp [read_ops]
  refine ⟨?_, ?_, ?_, ?_, read_data_ops_length n, ?_⟩
  · intro k rx s1 hrun
    rw [hops] at hrun
    have hc := (run_ops_count _ _ _ _ _ _ _ _ hrun).1 rfl
    rw [read_ops_length] at hc
    rw [dev_read_eq, hrun]
    simp only [Option.map_some']
    rw [read_res_stop _ _ _ _ (by omega)]
  · intro res mem s1 hret hto hack
    rw [hops]
    obtain ⟨e, k, rx, hr, rfl, rfl⟩ := dev_read_inv _ _ _ _ _ _ _ _ _ _ _ hret
    obtain ⟨t, ht, hst, -⟩ := run_ops_events _ _ _ _ _ _ _ _ hr
    rw [calls_since_append s s1 t ht] at hto hack
    have he : e = STWI_ERR_OK := by
      cases e with
      | STWI_ERR_OK => rfl
      | STWI_ERR_STRETCH => exact absurd rfl (hto _ (hst rfl))
      | STWI_ERR_NACK =>
        exfalso
        have hr2 := hr
        rw [read_ops_split] at hr2
        rcases run_ops_append_inv _ _ _ _ _ _ _ _ _ hr2 with
          ⟨-, hpre⟩ | ⟨n1, rx1, s0, m, rx2, -, hrest, -, -⟩
        · obtain ⟨t', ht', hlen, hm⟩ :=
            run_ops_tx_nack _ _ _ _ _ _ _ (read_pre_is_tx _ _ _) hpre
          have htt : t' = t := List.append_cancel_left (ht'.symm.trans ht)
          subst htt
          rw [read_pre_acks] at hlen
          rw [List.take_of_length_le hlen] at hack
          exact absurd (hack _ hm) (by simp)
        · exact run_ops_rx_not_nack _ _ _ _ _ _ _ _ (read_tail_is_rx n) hrest rfl
    subst he
    have hc := (run_ops_count _ _ _ _ _ _ _ _ hr).1 rfl
    rw [read_ops_length] at hc
    rw [read_res_stop _ _ _ _ (by omega)]
    exact ⟨rfl, k, rx, hr, rfl⟩
  · simp [List.count_append, count_start_map_write, count_start_read_data, List.count_cons]
  · have hlen : 2 + (reg_bytes w reg).length =
        ([Op.start, Op.write_byte (addr <<< 1 ||| 0)]
          ++ (reg_bytes w reg).map Op.write_byte).length := by
      simp only [List.length_append, List.length_cons, List.length_nil, List.length_map]
    rw [hlen]
    simp only [List.append_assoc]
    rw [← List.append_assoc [Op.start, Op.write_byte (addr <<< 1 ||| 0)], List.drop_left]
  · intro op hop
    simp only [read_data_ops, List.mem_map, List.mem_range] at hop
    obtain ⟨i, -, rfl⟩ := hop
    exact ⟨_, rfl⟩

/-- Witness of C4: the transaction of `test_dev_read_reg16`, which stores 0xBF and
0xFE. -/
theorem dev_read_success_witness :
    stwi_dev_read 20 fixture_bus 0x25 STWI_REG_16 0xF1F2 [0, 0] 2 (setUp [] sda_read_reg16) =
        some (⟨STWI_ERR_OK, STWI_STAGE_STOP, 2⟩, store [0, 0] 0 [0xBF, 0xFE],
          ops_world 20 fixture_bus
            ([Op.start, Op.write_byte (0x25 <<< 1 ||| 0)]
              ++ (reg_bytes STWI_REG_16 0xF1F2).map Op.write_byte
              ++ [Op.start, Op.write_byte (0x25 <<< 1 ||| 1)] ++ read_data_ops 2
              ++ [Op.stop]) (setUp [] sda_read_reg16)) ∧
      (test_dev_read_reg16.1 = ⟨STWI_ERR_OK, STWI_STAGE_STOP, 2⟩ ∧
        ∃ k rx, run_ops 20 fixture_bus
          ([Op.start, Op.write_byte (0x25 <<< 1 ||| 0)]
            ++ (reg_bytes STWI_REG_16 0xF1F2).map Op.write_byte
            ++ [Op.start, Op.write_byte (0x25 <<< 1 ||| 1)] ++ read_data_ops 2
            ++ [Op.stop]) (setUp [] sda_read_reg16)
            = some (STWI_ERR_OK, k, rx, test_dev_read_reg16.2.2) ∧
          test_dev_read_reg16.2.1 = store [0, 0] 0 rx) :=
  ⟨(dev_read_success 20 fixture_bus 0x25 STWI_REG_16 0xF1F2 [0, 0] 2
      (setUp [] sda_read_reg16) (by decide)).1 9 [0xBF, 0xFE] _ (by rfl),
    (dev_read_success 20 fixture_bus 0x25 STWI_REG_16 0xF1F2 [0, 0] 2
      (setUp [] sda_read_reg16) (by decide)).2.1 test_dev_read_reg16.1
      test_dev_read_reg16.2.1 test_dev_read_reg16.2.2 (by rfl)
      (fun c hc => by
        have hall : (calls_since (setUp [] sda_read_reg16) test_dev_read_reg16.2.2).all
            (fun c => decide (c ≠ Call.timeout_check false)) = true := by rfl
        exact of_decide_eq_true (List.all_eq_true.mp hall c hc))
      (fun v hv => by
        have hall : ((sda_samples (calls_since (setUp [] sda_read_reg16)
            test_dev_read_reg16.2.2)).take (2 + (reg_bytes STWI_REG_16 0xF1F2).length)).all
            (fun v => decide (v = STWI_PIN_LOW)) = true := by rfl
        exact of_decide_eq_true (List.all_eq_true.mp hall v hv))⟩

/-- C5: `stwi_dev_read` with a requested size `n >= 1` is, whatever its outcome, the
run up to the first failure of START, write-byte of the address, write-byte of the
register bytes, START, write-byte of the address with the read bit, `n - 1`
read-bytes with ack = true, one last read-byte with ack = false, STOP: every
read-byte that is started is called with ack = true except the one of the final
byte, which is called with ack = false. -/
theorem dev_read_ack_flags (fuel : Nat) (bus : stwi σ) (addr : Nat)
    (w : stwi_reg_size_t) (reg : Nat) (buff : List Nat) (n : Nat) (s : World σ)
    (hn : 1 ≤ n) :
    stwi_dev_read fuel bus addr w reg buff n s =
      (run_ops fuel bus
        ([Op.start, Op.write_byte ((addr <<< 1 ||| 0x00) % 256)]
          ++ (reg_bytes w reg).map Op.write_byte
          ++ [Op.start, Op.write_byte ((addr <<< 1 ||| 0x01) % 256)]
          ++ (List.replicate (n - 1) (Op.read_byte true) ++ [Op.read_byte false])
          ++ [Op.stop]) s).map
        fun x => (read_res (reg_bytes w reg).length n x.1 x.2.1, store buff 0 x.2.2.1,
          x.2.2.2) := by
  obtain ⟨m, rfl⟩ : ∃ m, n = m + 1 := ⟨n - 1, by omega⟩
  rw [dev_read_eq, read_ops, read_data_ops_eq_tail, read_tail_succ_eq]
  simp

/-- Witness of C5: a read of two bytes on the fixture. -/
theorem dev_read_ack_flags_witness :
    stwi_dev_read 20 fixture_bus 0x25 STWI_REG_8 0xF2 [0, 0] 2 (setUp [] sda_read_reg8) =
      (run_ops 20 fixture_bus
        ([Op.start, Op.write_byte ((0x25 <<< 1 ||| 0x00) % 256)]
          ++ (reg_bytes STWI_REG_8 0xF2).map Op.write_byte
          ++ [Op.start, Op.write_byte ((0x25 <<< 1 ||| 0x01) % 256)]
          ++ (List.replicate (2 - 1) (Op.read_byte true) ++ [Op.read_byte false])
          ++ [Op.stop]) (setUp [] sda_read_reg8)).map
        fun x => (read_res (reg_bytes STWI_REG_8 0xF2).length 2 x.1 x.2.1,
          store [0, 0] 0 x.2.2.1, x.2.2.2) :=
  dev_read_ack_flags 20 fixture_bus 0x25 STWI_REG_8 0xF2 [0, 0] 2 (setUp [] sda_read_reg8)
    (by decide)

/-- C6: for every outcome of `stwi_dev_read` on a buffer of at least `size` bytes,
with data_size = k in the result: the calls made hold at least `k` complete groups
of eight SDA samples after the acknowledge samples of the address and register
bytes, the first `k` bytes of the buffer are the bytes made of those groups, first
sample most significant, in order, and the buffer is unchanged from index `k`
on. -/
theorem dev_read_buffer (fuel : Nat) (bus : stwi σ) (addr : Nat) (w : stwi_reg_size_t)
    (reg : Nat) (buff : List Nat) (size : Nat) (s s1 : World σ) (res : stwi_res)
    (mem : List Nat) (hsize : size ≤ buff.length)
    (h : stwi_dev_read fuel bus addr w reg buff size s = some (res, mem, s1)) :
    res.data_size ≤ (bytes_of_samples
        ((sda_samples (calls_since s s1)).drop (2 + (reg_bytes w reg).length))).length ∧
      mem = (bytes_of_samples
          ((sda_samples (calls_since s s1)).drop (2 + (reg_bytes w reg).length))).take
            res.data_size ++ buff.drop res.data_size := by
  obtain ⟨e, n, rx, hr, rfl, rfl⟩ := dev_read_inv _ _ _ _ _ _ _ _ _ _ _ h
  rw [read_ops_split] at hr
  rcases run_ops_append_inv _ _ _ _ _ _ _ _ _ hr with
    ⟨he, hpre⟩ | ⟨n1, rx1, s0, m, rx2, hpre, hrest, rfl, rfl⟩
  · have hrx := (run_ops_tx_trace _ _ _ _ _ _ _ _ (read_pre_is_tx _ _ _) hpre).1
    have hn := (run_ops_count _ _ _ _ _ _ _ _ hpre).2 he
    subst hrx
    have hn4 : n < 4 + (reg_bytes w reg).length := by
      simp only [List.length_append, List.length_cons, List.length_nil, List.length_map]
        at hn
      omega
    rw [read_res_pre _ _ _ _ hn4]
    simp [store]
  · obtain ⟨hrx1, t1, ht1, hlen1⟩ :=
      run_ops_tx_trace _ _ _ _ _ _ _ _ (read_pre_is_tx _ _ _) hpre
    have hn1 := (run_ops_count _ _ _ _ _ _ _ _ hpre).1 rfl
    have hs1 := hlen1 rfl
    rw [read_pre_acks] at hs1
    subst hrx1
    obtain ⟨t2, ht2, enc, rest, henc, hb⟩ :=
      run_ops_rx_trace _ _ _ _ _ _ _ _ (read_tail_is_rx size) hrest
    have hcalls : calls_since s s1 = t1 ++ t2 :=
      calls_since_append _ _ _ (by rw [ht2, ht1, List.append_assoc])
    have hdrop : (sda_samples (calls_since s s1)).drop (2 + (reg_bytes w reg).length)
        = enc ++ rest := by
      rw [hcalls, sda_samples_append, henc, ← hs1, List.drop_left]
    have hrecv : bytes_of_samples (enc ++ rest) = rx2 ++ bytes_of_samples rest := hb rest
    have hk : (read_res (reg_bytes w reg).length size e (n1 + m)).data_size = rx2.length ∧
        rx2.length ≤ size := by
      have hidx : n1 = 4 + (reg_bytes w reg).length := by
        rw [hn1]
        simp only [List.length_append, List.length_cons, List.length_nil, List.length_map]
        omega
      subst hidx
      rcases run_ops_append_inv _ _ _ _ _ _ _ _ _ hrest with
        ⟨he, hreads⟩ | ⟨m1, rx21, s2, m2, rx22, hreads, hstop, rfl, rfl⟩
      · have hlen := run_ops_reads_length _ _ _ _ _ _ _ _ hreads
        have hm := (run_ops_count _ _ _ _ _ _ _ _ hreads).2 he
        rw [read_tail_length] at hm
        rw [read_res_data _ _ _ _ hm, hlen]
        exact ⟨rfl, Nat.le_of_lt hm⟩
      · have hlen := run_ops_reads_length _ _ _ _ _ _ _ _ hreads
        have hm := (run_ops_count _ _ _ _ _ _ _ _ hreads).1 rfl
        rw [read_tail_length] at hm
        have hrx22 : rx22 = [] :=
          run_ops_no_read _ _ [Op.stop] _ _ _ _ _ (by simp) hstop
        subst hrx22
        subst hm
        rw [read_res_stop _ _ _ _ (by omega)]
        simp [hlen]
    rw [hdrop, hrecv, hk.1, List.nil_append]
    refine ⟨by simp, ?_⟩
    rw [List.take_left, store_zero _ _ (Nat.le_trans hk.2 hsize)]

/-- Witness of C6: the transaction of `test_dev_read_err_data`, which fails in the
second byte and leaves 0xBF, 0x00 in the buffer. -/
theorem dev_read_buffer_witness :
    test_dev_read_err_data.1 = ⟨STWI_ERR_STRETCH, STWI_STAGE_DATA, 1⟩ ∧
      test_dev_read_err_data.2.1 = [0xBF, 0] ∧
      test_dev_read_err_data.1.data_size ≤ (bytes_of_samples
        ((sda_samples (calls_since (setUp (scl_stretch_after 152) sda_read_reg8)
          test_dev_read_err_data.2.2)).drop (2 + (reg_bytes STWI_REG_8 0xF2).length))).length ∧
      test_dev_read_err_data.2.1 = (bytes_of_samples
          ((sda_samples (calls_since (setUp (scl_stretch_after 152) sda_read_reg8)
            test_dev_read_err_data.2.2)).drop (2 + (reg_bytes STWI_REG_8 0xF2).length))).take
            test_dev_read_err_data.1.data_size ++ [0, 0].drop test_dev_read_err_data.1.data_size :=
  ⟨by rfl, by rfl,
    dev_read_buffer 20 fixture_bus 0x25 STWI_REG_8 0xF2 [0, 0] 2
      (setUp (scl_stretch_after 152) sda_read_reg8) test_dev_read_err_data.2.2
      test_dev_read_err_data.1 test_dev_read_err_data.2.1 (by decide) (by rfl)⟩

/-- C7: for a payload `p` and `k < |p|`, if START, the address byte, the register bytes
and the first `k` payload bytes all succeed when run one after the other, and the
write-byte of payload byte `k` then returns an error `e` (NACK or STRETCH), then
`stwi_dev_write` returns that error with stage=DATA and data_size=k, in the world
reached when that write-byte returned: nothing is transmitted after it. -/
theorem dev_write_data_error (fuel : Nat) (bus : stwi σ) (addr : Nat)
    (w : stwi_reg_size_t) (reg : Nat) (p : List Nat) (s s1 s2 : World σ) (n : Nat)
    (rx : List Nat) (e : stwi_err_t) (k : Nat) (hk : k < p.length)
    (hpre : run_ops fuel bus
      ([Op.start, Op.write_byte ((addr <<< 1 ||| 0x00) % 256)]
        ++ (reg_bytes w reg).map Op.write_byte ++ (p.take k).map Op.write_byte) s
        = some (STWI_ERR_OK, n, rx, s1))
    (hfail : stwi_write_byte fuel bus p[k] s1 = some (e, s2)) (he : e ≠ STWI_ERR_OK) :
    stwi_dev_write fuel bus addr w reg p p.length s =
      some (⟨e, STWI_STAGE_DATA, k⟩, s2) := by
  have hn := (run_ops_count _ _ _ _ _ _ _ _ hpre).1 rfl
  have hp : p = p.take k ++ p[k] :: p.drop (k + 1) := by
    rw [List.getElem_cons_drop, List.take_append_drop]
  have hops : write_ops ((addr <<< 1 ||| 0x00) % 256) (reg_bytes w reg) p =
      ([Op.start, Op.write_byte ((addr <<< 1 ||| 0x00) % 256)]
        ++ (reg_bytes w reg).map Op.write_byte ++ (p.take k).map Op.write_byte)
      ++ (Op.write_byte p[k] :: ((p.drop (k + 1)).map Op.write_byte ++ [Op.stop])) := by
    have hmap : p.map Op.write_byte = (p.take k).map Op.write_byte
        ++ Op.write_byte p[k] :: (p.drop (k + 1)).map Op.write_byte := by
      conv_lhs => rw [hp]
      rw [List.map_append, List.map_cons]
    unfold write_ops
    rw [hmap]
    simp only [List.append_assoc, List.cons_append]
  rw [dev_write_eq, payload_self, hops, run_ops_append_ok _ _ _ _ _ _ _ _ hpre, run_ops]
  simp only [Op.run, hfail, Option.map_some', ne_eq, he, not_false_eq_true, if_true,
    Nat.add_zero]
  rw [hn]
  have hlen : ([Op.start, Op.write_byte ((addr <<< 1 ||| 0x00) % 256)]
        ++ (reg_bytes w reg).map Op.write_byte ++ (p.take k).map Op.write_byte).length
      = 2 + (reg_bytes w reg).length + k := by
    simp [List.length_take, Nat.min_eq_left (Nat.le_of_lt hk)]
    omega
  rw [hlen, write_res_data _ _ _ _ hk]

/-- Witness of C7: the transaction of `test_dev_write_err_data`, whose second
payload byte is not acknowledged. -/
theorem dev_write_data_error_witness :
    stwi_dev_write 20 fixture_bus 0x25 STWI_REG_8 0xF2 [0x12, 0x34] 2
        (setUp [] sda_write_err_data) =
      some (⟨STWI_ERR_NACK, STWI_STAGE_DATA, 1⟩, err_data_after) :=
  dev_write_data_error 20 fixture_bus 0x25 STWI_REG_8 0xF2 [0x12, 0x34]
    (setUp [] sda_write_err_data) err_data_before err_data_after 4 [] STWI_ERR_NACK 1
    (by decide) (by rfl) (by rfl) (by decide)

/-- C8: for any register width and size, if START succeeds and the write-byte of the
first address byte returns NACK, then `stwi_dev_write` and `stwi_dev_read` return
err=NACK, stage=ADDR, data_size=0 in the world reached when that write-byte
returned (no register byte, no data byte and no STOP follow; the buffer of a read
is untouched), and the calls made for that byte hold exactly nine clock pulses and
one SDA sample, which is HIGH. -/
theorem dev_addr_nack (fuel : Nat) (bus : stwi σ) (addr : Nat) (w : stwi_reg_size_t)
    (reg : Nat) (buff : List Nat) (size : Nat) (s s1 s2 : World σ)
    (hstart : stwi_start fuel bus s = some (STWI_ERR_OK, s1))
    (hnack : stwi_write_byte fuel bus ((addr <<< 1 ||| 0x00) % 256) s1
      = some (STWI_ERR_NACK, s2)) :
    stwi_dev_write fuel bus addr w reg buff size s =
        some (⟨STWI_ERR_NACK, STWI_STAGE_ADDR, 0⟩, s2) ∧
      stwi_dev_read fuel bus addr w reg buff size s =
        some (⟨STWI_ERR_NACK, STWI_STAGE_ADDR, 0⟩, buff, s2) ∧
      scl_pulses (calls_since s1 s2) = 9 ∧
      sda_samples (calls_since s1 s2) = [STWI_PIN_HIGH] := by
  obtain ⟨t, ht, -, hn⟩ := write_byte_trace _ _ _ _ _ _ hnack
  rw [calls_since_append s1 s2 t ht]
  refine ⟨?_, ?_, (hn rfl).1, (hn rfl).2⟩
  · rw [dev_write_eq, write_ops]
    simp only [List.cons_append, List.nil_append, List.append_assoc]
    rw [run_ops_ok_head _ _ _ _ _ s1 [] (by simp [Op.run, hstart]),
      run_ops_fail_head _ _ _ _ _ s2 STWI_ERR_NACK [] (by simp only [Op.run, hnack]; rfl)
        (by simp)]
    rfl
  · rw [dev_read_eq, read_ops]
    simp only [List.cons_append, List.nil_append, List.append_assoc]
    rw [run_ops_ok_head _ _ _ _ _ s1 [] (by simp [Op.run, hstart]),
      run_ops_fail_head _ _ _ _ _ s2 STWI_ERR_NACK [] (by simp only [Op.run, hnack]; rfl)
        (by simp)]
    rfl

/-- Witness of C8: the transactions of `test_dev_write_err_addr` and
`test_dev_read_err_addr`, with no slave on the bus. -/
theorem dev_addr_nack_witness :
    stwi_dev_write 20 fixture_bus 0x25 STWI_REG_8 0xF2 [0x12, 0x34] 2 (setUp [] []) =
        some (⟨STWI_ERR_NACK, STWI_STAGE_ADDR, 0⟩, err_addr_after) ∧
      stwi_dev_read 20 fixture_bus 0x25 STWI_REG_8 0xF2 [0x12, 0x34] 2 (setUp [] []) =
        some (⟨STWI_ERR_NACK, STWI_STAGE_ADDR, 0⟩, [0x12, 0x34], err_addr_after) ∧
      scl_pulses (calls_since err_addr_before err_addr_after) = 9 ∧
      sda_samples (calls_since err_addr_before err_addr_after) = [STWI_PIN_HIGH] :=
  dev_addr_nack 20 fixture_bus 0x25 STWI_REG_8 0xF2 [0x12, 0x34] 2 (setUp [] [])
    err_addr_before err_addr_after (by rfl) (by rfl)

/-- C9: if the STOP sequence returns STRETCH in the world reached after every phase
before it has succeeded, then `stwi_dev_write` returns err=STRETCH, stage=STOP and
data_size equal to the requested size, and so does `stwi_dev_read`, the buffer
holding the bytes received. -/
theorem dev_stop_stretch (fuel : Nat) (bus : stwi σ) (addr : Nat)
    (w : stwi_reg_size_t) (reg : Nat) (s s1 s2 : World σ) (n : Nat) (rx : List Nat)
    (hstop : stwi_stop fuel bus s1 = some (STWI_ERR_STRETCH, s2)) :
    (∀ p : List Nat,
      run_ops fuel bus
        ([Op.start, Op.write_byte ((addr <<< 1 ||| 0x00) % 256)]
          ++ (reg_bytes w reg).map Op.write_byte ++ p.map Op.write_byte) s
          = some (STWI_ERR_OK, n, rx, s1) →
      stwi_dev_write fuel bus addr w reg p p.length s =
        some (⟨STWI_ERR_STRETCH, STWI_STAGE_STOP, p.length⟩, s2)) ∧
    (∀ (buff : List Nat) (size : Nat),
      run_ops fuel bus
        ([Op.start, Op.write_byte ((addr <<< 1 ||| 0x00) % 256)]
          ++ (reg_bytes w reg).map Op.write_byte
          ++ [Op.start, Op.write_byte ((addr <<< 1 ||| 0x01) % 256)]
          ++ read_data_ops size) s = some (STWI_ERR_OK, n, rx, s1) →
      stwi_dev_read fuel bus addr w reg buff size s =
        some (⟨STWI_ERR_STRETCH, STWI_STAGE_STOP, size⟩, store buff 0 rx, s2)) := by
  constructor
  · intro p hpre
    have hn := (run_ops_count _ _ _ _ _ _ _ _ hpre).1 rfl
    have hops : write_ops ((addr <<< 1 ||| 0x00) % 256) (reg_bytes w reg) p =
        ([Op.start, Op.write_byte ((addr <<< 1 ||| 0x00) % 256)]
          ++ (reg_bytes w reg).map Op.write_byte ++ p.map Op.write_byte) ++ [Op.stop] := by
      simp [write_ops]
    rw [dev_write_eq, payload_self, hops, run_ops_append_ok _ _ _ _ _ _ _ _ hpre,
      run_ops_stop, hstop]
    simp only [ne_eq, reduceCtorEq, not_false_eq_true, if_true, Option.map_some',
      Nat.add_zero]
    rw [write_res_stop]
    rw [hn]
    simp
    omega
  · intro buff size hpre
    have hn := (run_ops_count _ _ _ _ _ _ _ _ hpre).1 rfl
    have hops : read_ops ((addr <<< 1 ||| 0x00) % 256) (reg_bytes w reg)
          ((addr <<< 1 ||| 0x01) % 256) size =
        ([Op.start, Op.write_byte ((addr <<< 1 ||| 0x00) % 256)]
          ++ (reg_bytes w reg).map Op.write_byte
          ++ [Op.start, Op.write_byte ((addr <<< 1 ||| 0x01) % 256)]
          ++ read_data_ops size) ++ [Op.stop] := by
      simp [read_ops]
    rw [dev_read_eq, hops, run_ops_append_ok _ _ _ _ _ _ _ _ hpre, run_ops_stop, hstop]
    simp only [ne_eq, reduceCtorEq, not_false_eq_true, if_true, Option.map_some',
      Nat.add_zero, List.append_nil]
    rw [read_res_stop]
    rw [hn]
    simp [read_data_ops_length]
    omega

/-- Witness of C9: the transactions of `test_dev_write_err_stop` and
`test_dev_read_err_stop`, where the slave stretches the clock during STOP. -/
theorem dev_stop_stretch_witness :
    stwi_dev_write 20 fixture_bus 0x25 STWI_REG_8 0xF2 [0x12, 0x34] 2
        (setUp (scl_stretch_after 148) sda_write_reg8) =
      some (⟨STWI_ERR_STRETCH, STWI_STAGE_STOP, 2⟩,
        err_world (stwi_stop 20 fixture_bus write_err_stop_before) write_err_stop_before) ∧
    stwi_dev_read 20 fixture_bus 0x25 STWI_REG_8 0xF2 [0, 0] 2
        (setUp (scl_stretch_after 188) sda_read_reg8) =
      some (⟨STWI_ERR_STRETCH, STWI_STAGE_STOP, 2⟩, store [0, 0] 0 [0xBF, 0xFE],
        err_world (stwi_stop 20 fixture_bus read_err_stop_before) read_err_stop_before) :=
  ⟨(dev_stop_stretch 20 fixture_bus 0x25 STWI_REG_8 0xF2
      (setUp (scl_stretch_after 148) sda_write_reg8) write_err_stop_before
      (err_world (stwi_stop 20 fixture_bus write_err_stop_before) write_err_stop_before)
      5 [] (by rfl)).1 [0x12, 0x34] (by rfl),
    (dev_stop_stretch 20 fixture_bus 0x25 STWI_REG_8 0xF2
      (setUp (scl_stretch_after 188) sda_read_reg8) read_err_stop_before
      (err_world (stwi_stop 20 fixture_bus read_err_stop_before) read_err_stop_before)
      7 [0xBF, 0xFE] (by rfl)).2 [0, 0] 2 (by rfl)⟩

/-- C10: for a requested size 0: (1) if START, write-byte of the address, write-byte
of the register bytes, repeated START, write-byte of the address with the read bit
and STOP all succeed when run one after the other, then `stwi_dev_read` does exactly
that (no read-byte), hands the buffer back as it was and returns err=OK,
stage=STOP, data_size=0; (2) if `stwi_dev_read` returns and, among the calls it
made, every SDA sample (each one is an acknowledge bit) was LOW and no
`timeout_check` reported an expired timeout, then it returned err=OK, stage=STOP,
data_size=0 and did exactly that sequence; (3) whatever the outcome, the buffer is
handed back as it was. -/
theorem dev_read_size_zero (fuel : Nat) (bus : stwi σ) (addr : Nat)
    (w : stwi_reg_size_t) (reg : Nat) (buff : List Nat) (s : World σ) :
    (∀ (k : Nat) (rx : List Nat) (s1 : World σ),
      run_ops fuel bus
        ([Op.start, Op.write_byte ((addr <<< 1 ||| 0x00) % 256)]
          ++ (reg_bytes w reg).map Op.write_byte
          ++ [Op.start, Op.write_byte ((addr <<< 1 ||| 0x01) % 256), Op.stop]) s
          = some (STWI_ERR_OK, k, rx, s1) →
      stwi_dev_read fuel bus addr w reg buff 0 s =
        some (⟨STWI_ERR_OK, STWI_STAGE_STOP, 0⟩, buff, s1)) ∧
    (∀ (res : stwi_res) (mem : List Nat) (s1 : World σ),
      stwi_dev_read fuel bus addr w reg buff 0 s = some (res, mem, s1) →
      (∀ c ∈ calls_since s s1,
        c ≠ Call.read_sda STWI_PIN_HIGH ∧ c ≠ Call.timeout_check false) →
      res = ⟨STWI_ERR_OK, STWI_STAGE_STOP, 0⟩ ∧
        ∃ k rx, run_ops fuel bus
          ([Op.start, Op.write_byte ((addr <<< 1 ||| 0x00) % 256)]
            ++ (reg_bytes w reg).map Op.write_byte
            ++ [Op.start, Op.write_byte ((addr <<< 1 ||| 0x01) % 256), Op.stop]) s
            = some (STWI_ERR_OK, k, rx, s1)) ∧
    (∀ (res : stwi_res) (mem : List Nat) (s1 : World σ),
      stwi_dev_read fuel bus addr w reg buff 0 s = some (res, mem, s1) → mem = buff) := by
  have hops : [Op.start, Op.write_byte ((addr <<< 1 ||| 0x00) % 256)]
      ++ (reg_bytes w reg).map Op.write_byte
      ++ [Op.start, Op.write_byte ((addr <<< 1 ||| 0x01) % 256), Op.stop]
      = read_ops ((addr <<< 1 ||| 0x00) % 256) (reg_bytes w reg)
          ((addr <<< 1 ||| 0x01) % 256) 0 := by
    simp [read_ops, read_data_ops]
  have hno : ∀ op ∈ read_ops ((addr <<< 1 ||| 0x00) % 256) (reg_bytes w reg)
      ((addr <<< 1 ||| 0x01) % 256) 0, Op.is_tx op = true ∨ op = Op.stop := by
    simp [read_ops, read_data_ops, Op.is_tx, or_imp, forall_and]
  rw [hops]
  refine ⟨?_, ?_, ?_⟩
  · intro k rx s1 hrun
    have hc := (run_ops_count _ _ _ _ _ _ _ _ hrun).1 rfl
    rw [read_ops_length] at hc
    have hrx : rx = [] := run_ops_no_read _ _ _ _ _ _ _ _ hno hrun
    subst hrx
    rw [dev_read_eq, hrun]
    simp only [Option.map_some']
    rw [read_res_stop _ _ _ _ (by omega)]
    rfl
  · intro res mem s1 hret hev
    obtain ⟨e, k, rx, hr, rfl, rfl⟩ := dev_read_inv _ _ _ _ _ _ _ _ _ _ _ hret
    obtain ⟨t, ht, hst, hna⟩ := run_ops_events _ _ _ _ _ _ _ _ hr
    rw [calls_since_append s s1 t ht] at hev
    have he : e = STWI_ERR_OK := by
      cases e with
      | STWI_ERR_OK => rfl
      | STWI_ERR_STRETCH => exact absurd rfl (hev _ (hst rfl)).2
      | STWI_ERR_NACK => exact absurd rfl (hev _ (hna rfl)).1
    subst he
    have hc := (run_ops_count _ _ _ _ _ _ _ _ hr).1 rfl
    rw [read_ops_length] at hc
    rw [read_res_stop _ _ _ _ (by omega)]
    exact ⟨rfl, k, rx, hr⟩
  · intro res mem s1 hret
    obtain ⟨e, k, rx, hr, -, rfl⟩ := dev_read_inv _ _ _ _ _ _ _ _ _ _ _ hret
    rw [run_ops_no_read _ _ _ _ _ _ _ _ hno hr]
    rfl

/-- Witness of C10: a read of no byte on the fixture, the buffer holding 7 and 9. -/
theorem dev_read_size_zero_witness :
    stwi_dev_read 20 fixture_bus 0x25 STWI_REG_8 0xF2 [7, 9] 0 (setUp [] sda_read_reg8) =
      some (⟨STWI_ERR_OK, STWI_STAGE_STOP, 0⟩, [7, 9],
        ops_world 20 fixture_bus
          ([Op.start, Op.write_byte ((0x25 <<< 1 ||| 0x00) % 256)]
            ++ (reg_bytes STWI_REG_8 0xF2).map Op.write_byte
            ++ [Op.start, Op.write_byte ((0x25 <<< 1 ||| 0x01) % 256), Op.stop])
          (setUp [] sda_read_reg8)) ∧
      (test_dev_read_size0.1 = ⟨STWI_ERR_OK, STWI_STAGE_STOP, 0⟩ ∧
        ∃ k rx, run_ops 20 fixture_bus
          ([Op.start, Op.write_byte ((0x25 <<< 1 ||| 0x00) % 256)]
            ++ (reg_bytes STWI_REG_8 0xF2).map Op.write_byte
            ++ [Op.start, Op.write_byte ((0x25 <<< 1 ||| 0x01) % 256), Op.stop])
          (setUp [] sda_read_reg8) = some (STWI_ERR_OK, k, rx, test_dev_read_size0.2.2)) ∧
      test_dev_read_size0.2.1 = [7, 9] :=
  ⟨(dev_read_size_zero 20 fixture_bus 0x25 STWI_REG_8 0xF2 [7, 9]
      (setUp [] sda_read_reg8)).1 6 [] _ (by rfl),
    (dev_read_size_zero 20 fixture_bus 0x25 STWI_REG_8 0xF2 [7, 9]
      (setUp [] sda_read_reg8)).2.1 test_dev_read_size0.1 test_dev_read_size0.2.1
      test_dev_read_size0.2.2 (by rfl)
      (fun c hc => by
        have hall : (calls_since (setUp [] sda_read_reg8) test_dev_read_size0.2.2).all
            (fun c => decide (c ≠ Call.read_sda STWI_PIN_HIGH ∧
              c ≠ Call.timeout_check false)) = true := by rfl
        exact of_decide_eq_true (List.all_eq_true.mp hall c hc)),
    (dev_read_size_zero 20 fixture_bus 0x25 STWI_REG_8 0xF2 [7, 9]
      (setUp [] sda_read_reg8)).2.2 test_dev_read_size0.1 test_dev_read_size0.2.1
      test_dev_read_size0.2.2 (by rfl)⟩

theorem write_res_early (r n idx : Nat) (e : stwi_err_t)
    (h : (write_res r n e idx).stage = STWI_STAGE_START ∨
      (write_res r n e idx).stage = STWI_STAGE_ADDR ∨
      (write_res r n e idx).stage = STWI_STAGE_REG) :
    (write_res r n e idx).data_size = 0 := by
  unfold write_res at h ⊢
  split_ifs at h ⊢ <;> simp_all

theorem read_res_early (r n idx : Nat) (e : stwi_err_t)
    (h : (read_res r n e idx).stage = STWI_STAGE_START ∨
      (read_res r n e idx).stage = STWI_STAGE_ADDR ∨
      (read_res r n e idx).stage = STWI_STAGE_REG) :
    (read_res r n e idx).data_size = 0 := by
  unfold read_res at h ⊢
  split_ifs at h ⊢ <;> simp_all

/-- C11: whatever the arguments and the callbacks, if `stwi_dev_write` or
`stwi_dev_read` returns a result whose stage is START, ADDR or REG, then its
data_size is 0. -/
theorem dev_early_stage_no_data (fuel : Nat) (bus : stwi σ) (addr : Nat)
    (reg_size : stwi_reg_size_t) (reg : Nat) (buff : List Nat) (size : Nat)
    (s s1 : World σ) (res : stwi_res)
    (h : stwi_dev_write fuel bus addr reg_size reg buff size s = some (res, s1) ∨
      ∃ mem, stwi_dev_read fuel bus addr reg_size reg buff size s = some (res, mem, s1))
    (hst : res.stage = STWI_STAGE_START ∨ res.stage = STWI_STAGE_ADDR ∨
      res.stage = STWI_STAGE_REG) :
    res.data_size = 0 := by
  rcases h with h | ⟨mem, h⟩
  · obtain ⟨e, n, rx, -, rfl⟩ := dev_write_inv _ _ _ _ _ _ _ _ _ _ h
    exact write_res_early _ _ _ _ hst
  · obtain ⟨e, n, rx, -, rfl, -⟩ := dev_read_inv _ _ _ _ _ _ _ _ _ _ _ h
    exact read_res_early _ _ _ _ hst

/-- Witness of C11: the transaction of `test_dev_write_err_reg`, whose register byte
is not acknowledged. -/
theorem dev_early_stage_no_data_witness :
    test_dev_write_err_reg.1.err = STWI_ERR_NACK ∧
      test_dev_write_err_reg.1.stage = STWI_STAGE_REG ∧
      test_dev_write_err_reg.1.data_size = 0 :=
  ⟨by rfl, by rfl,
    dev_early_stage_no_data 20 fixture_bus 0x25 STWI_REG_8 0xF2 [0x12, 0x34] 2
      (setUp [] sda_write_err_reg) test_dev_write_err_reg.2 test_dev_write_err_reg.1
      (Or.inl (by rfl)) (Or.inr (Or.inr (by rfl)))⟩

theorem write_res_size_iff (r n idx : Nat) (e : stwi_err_t) :
    (write_res r n e idx).data_size = n ↔
      ((write_res r n e idx).stage = STWI_STAGE_STOP ∨ n = 0) := by
  unfold write_res
  split_ifs <;> simp <;> omega

theorem read_res_size_iff (r n idx : Nat) (e : stwi_err_t) :
    (read_res r n e idx).data_size = n ↔
      ((read_res r n e idx).stage = STWI_STAGE_STOP ∨ n = 0) := by
  unfold read_res
  split_ifs <;> simp <;> omega

/-- C12, as stated, fails in two ways.  The transaction of `test_dev_write_err_stop`
returns data_size = 2, the requested size, with err=STRETCH at stage STOP.  A write
of no byte to a slave that does not acknowledge its address returns data_size = 0,
the requested size, with err=NACK at stage ADDR. -/
theorem dev_size_iff_ok_counterexample :
    (stwi_dev_write 20 fixture_bus 0x25 STWI_REG_8 0xF2 [0x12, 0x34] 2
        (setUp (scl_stretch_after 148) sda_write_reg8) =
      some (⟨STWI_ERR_STRETCH, STWI_STAGE_STOP, 2⟩, test_dev_write_err_stop.2) ∧
    ¬ ((⟨STWI_ERR_STRETCH, STWI_STAGE_STOP, 2⟩ : stwi_res).data_size = 2 ↔
      ((⟨STWI_ERR_STRETCH, STWI_STAGE_STOP, 2⟩ : stwi_res).err = STWI_ERR_OK ∧
        (⟨STWI_ERR_STRETCH, STWI_STAGE_STOP, 2⟩ : stwi_res).stage = STWI_STAGE_STOP))) ∧
    ((stwi_dev_write 20 fixture_bus 0x25 STWI_REG_8 0xF2 [] 0 (setUp [] [])).map Prod.fst =
      some ⟨STWI_ERR_NACK, STWI_STAGE_ADDR, 0⟩ ∧
    ¬ ((⟨STWI_ERR_NACK, STWI_STAGE_ADDR, 0⟩ : stwi_res).data_size = 0 ↔
      ((⟨STWI_ERR_NACK, STWI_STAGE_ADDR, 0⟩ : stwi_res).err = STWI_ERR_OK ∧
        (⟨STWI_ERR_NACK, STWI_STAGE_ADDR, 0⟩ : stwi_res).stage = STWI_STAGE_STOP))) :=
  ⟨⟨by rfl, by decide⟩, ⟨by rfl, by decide⟩⟩

/-- C12, amended: for every result of `stwi_dev_write` or `stwi_dev_read`, data_size
equals the requested size if and only if the stage is STOP or the requested size is
0.  A result with err=OK has stage STOP (hence data_size equal to the size), and a
result with stage STOP has err=OK or, when the STOP sequence timed out,
err=STRETCH. -/
theorem dev_size_iff_stop (fuel : Nat) (bus : stwi σ) (addr : Nat)
    (reg_size : stwi_reg_size_t) (reg : Nat) (buff : List Nat) (size : Nat)
    (s s1 : World σ) (res : stwi_res)
    (h : stwi_dev_write fuel bus addr reg_size reg buff size s = some (res, s1) ∨
      ∃ mem, stwi_dev_read fuel bus addr reg_size reg buff size s = some (res, mem, s1)) :
    (res.data_size = size ↔ (res.stage = STWI_STAGE_STOP ∨ size = 0)) ∧
      (res.err = STWI_ERR_OK → res.stage = STWI_STAGE_STOP) ∧
      (res.stage = STWI_STAGE_STOP →
        res.err = STWI_ERR_OK ∨ res.err = STWI_ERR_STRETCH) := by
  rcases h with h | ⟨mem, h⟩
  · have hnack := dev_write_nack_stage _ _ _ _ _ _ _ _ _ _ h
    obtain ⟨e, n, rx, hr, rfl⟩ := dev_write_inv _ _ _ _ _ _ _ _ _ _ h
    refine ⟨write_res_size_iff _ _ _ _, ?_, ?_⟩
    · intro hok
      rw [write_res_err] at hok
      have hn := (run_ops_count _ _ _ _ _ _ _ _ hr).1 hok
      rw [write_ops_length, payload_length] at hn
      rw [write_res_stop _ _ _ _ (by omega)]
    · intro hstop
      rw [write_res_err] at hnack ⊢
      cases e with
      | STWI_ERR_OK => exact Or.inl rfl
      | STWI_ERR_STRETCH => exact Or.inr rfl
      | STWI_ERR_NACK =>
        rcases hnack rfl with h1 | h1 | h1 <;> rw [hstop] at h1 <;> simp at h1
  · have hnack := dev_read_nack_stage _ _ _ _ _ _ _ _ _ _ _ h
    obtain ⟨e, n, rx, hr, rfl, -⟩ := dev_read_inv _ _ _ _ _ _ _ _ _ _ _ h
    refine ⟨read_res_size_iff _ _ _ _, ?_, ?_⟩
    · intro hok
      rw [read_res_err] at hok
      have hn := (run_ops_count _ _ _ _ _ _ _ _ hr).1 hok
      rw [read_ops_length] at hn
      rw [read_res_stop _ _ _ _ (by omega)]
    · intro hstop
      rw [read_res_err] at hnack ⊢
      cases e with
      | STWI_ERR_OK => exact Or.inl rfl
      | STWI_ERR_STRETCH => exact Or.inr rfl
      | STWI_ERR_NACK =>
        rcases hnack rfl with h1 | h1 <;> rw [hstop] at h1 <;> simp at h1

/-- Witness of C12, amended: the transaction of `test_dev_write_err_stop`. -/
theorem dev_size_iff_stop_witness :
    (test_dev_write_err_stop.1.data_size = 2 ↔
        (test_dev_write_err_stop.1.stage = STWI_STAGE_STOP ∨ 2 = 0)) ∧
      (test_dev_write_err_stop.1.err = STWI_ERR_OK →
        test_dev_write_err_stop.1.stage = STWI_STAGE_STOP) ∧
      (test_dev_write_err_stop.1.stage = STWI_STAGE_STOP →
        test_dev_write_err_stop.1.err = STWI_ERR_OK ∨
          test_dev_write_err_stop.1.err = STWI_ERR_STRETCH) :=
  dev_size_iff_stop 20 fixture_bus 0x25 STWI_REG_8 0xF2 [0x12, 0x34] 2
    (setUp (scl_stretch_after 148) sda_write_reg8) test_dev_write_err_stop.2
    test_dev_write_err_stop.1 (Or.inl (by rfl))

/-- C13: a result of `stwi_dev_write` with err=NACK has stage ADDR, REG or DATA; a
result of `stwi_dev_read` with err=NACK has stage ADDR or REG; and `stwi_start`,
`stwi_stop`, `stwi_write_bit`, `stwi_read_bit`, `stwi_read_byte` and
`stwi_stretch_wait` never return NACK. -/
theorem nack_only_after_sent_byte (fuel : Nat) (bus : stwi σ) (s s1 : World σ) :
    (∀ (addr : Nat) (w : stwi_reg_size_t) (reg : Nat) (buff : List Nat) (size : Nat)
        (res : stwi_res),
      stwi_dev_write fuel bus addr w reg buff size s = some (res, s1) →
      res.err = STWI_ERR_NACK →
      res.stage = STWI_STAGE_ADDR ∨ res.stage = STWI_STAGE_REG ∨
        res.stage = STWI_STAGE_DATA) ∧
    (∀ (addr : Nat) (w : stwi_reg_size_t) (reg : Nat) (buff : List Nat) (size : Nat)
        (res : stwi_res) (mem : List Nat),
      stwi_dev_read fuel bus addr w reg buff size s = some (res, mem, s1) →
      res.err = STWI_ERR_NACK →
      res.stage = STWI_STAGE_ADDR ∨ res.stage = STWI_STAGE_REG) ∧
    (∀ e, stwi_start fuel bus s = some (e, s1) → e ≠ STWI_ERR_NACK) ∧
    (∀ e, stwi_stop fuel bus s = some (e, s1) → e ≠ STWI_ERR_NACK) ∧
    (∀ bit e, stwi_write_bit fuel bus bit s = some (e, s1) → e ≠ STWI_ERR_NACK) ∧
    (∀ b0 e bit, stwi_read_bit fuel bus b0 s = some (e, bit, s1) → e ≠ STWI_ERR_NACK) ∧
    (∀ b0 ack e d, stwi_read_byte fuel bus b0 ack s = some (e, d, s1) →
      e ≠ STWI_ERR_NACK) ∧
    (∀ e, stwi_stretch_wait fuel bus s = some (e, s1) → e ≠ STWI_ERR_NACK) :=
  ⟨fun _ _ _ _ _ _ h hn => dev_write_nack_stage _ _ _ _ _ _ _ _ _ _ h hn,
    fun _ _ _ _ _ _ _ h hn => dev_read_nack_stage _ _ _ _ _ _ _ _ _ _ _ h hn,
    fun _ h => (start_trace _ _ _ _ _ h).1,
    fun _ h => (stop_trace _ _ _ _ _ h).1,
    fun _ _ h => write_bit_err _ _ _ _ _ _ h,
    fun _ _ _ h => read_bit_err _ _ _ _ _ _ _ h,
    fun _ _ _ _ h => (read_byte_trace _ _ _ _ _ _ _ _ h).1,
    fun _ h => stretch_wait_err _ _ _ _ _ h⟩

/-- Witness of C13: the transactions of `test_dev_write_err_data` (NACK in the DATA
stage) and of `test_dev_read_err_reg` (NACK in the REG stage). -/
theorem nack_only_after_sent_byte_witness :
    (test_dev_write_err_data.1.err = STWI_ERR_NACK ∧
      (test_dev_write_err_data.1.stage = STWI_STAGE_ADDR ∨
        test_dev_write_err_data.1.stage = STWI_STAGE_REG ∨
        test_dev_write_err_data.1.stage = STWI_STAGE_DATA)) ∧
    (test_dev_read_err_reg.1.err = STWI_ERR_NACK ∧
      (test_dev_read_err_reg.1.stage = STWI_STAGE_ADDR ∨
        test_dev_read_err_reg.1.stage = STWI_STAGE_REG)) :=
  ⟨⟨by rfl, (nack_only_after_sent_byte 20 fixture_bus (setUp [] sda_write_err_data)
      test_dev_write_err_data.2).1 0x25 STWI_REG_8 0xF2 [0x12, 0x34] 2
      test_dev_write_err_data.1 (by rfl) (by rfl)⟩,
    ⟨by rfl, (nack_only_after_sent_byte 20 fixture_bus (setUp [] sda_read_err_reg)
      test_dev_read_err_reg.2.2).2.1 0x25 STWI_REG_8 0xF2 [0, 0] 2
      test_dev_read_err_reg.1 test_dev_read_err_reg.2.1 (by rfl) (by rfl)⟩⟩

/-- C14: for a bus whose `timeout_check` returns false always, if SCL reads LOW when
the stretch wait of the initial START begins, then `stwi_dev_write` and
`stwi_dev_read` return (with any fuel of at least 1) err=STRETCH, stage=START,
data_size=0, the buffer of the read untouched, after exactly the calls
write_sda(HIGH), delay, write_scl(HIGH), delay, read_scl, timeout_start,
timeout_check: no bit is clocked and no delay is called inside the stretch wait. -/
theorem dev_stretch_disabled (fuel : Nat) (bus : stwi σ) (addr : Nat)
    (w : stwi_reg_size_t) (reg : Nat) (buff : List Nat) (size : Nat) (s : World σ)
    (htc : ∀ st, (bus.timeout_check st).1 = false)
    (hlow : (call_read_scl bus (start_raised bus s)).1 = STWI_PIN_LOW) :
    ∃ s1, stwi_dev_write (fuel + 1) bus addr w reg buff size s =
        some (⟨STWI_ERR_STRETCH, STWI_STAGE_START, 0⟩, s1) ∧
      stwi_dev_read (fuel + 1) bus addr w reg buff size s =
        some (⟨STWI_ERR_STRETCH, STWI_STAGE_START, 0⟩, buff, s1) ∧
      calls_since s s1 =
        [Call.write_sda STWI_PIN_HIGH, Call.delay, Call.write_scl STWI_PIN_HIGH,
          Call.delay, Call.read_scl STWI_PIN_LOW, Call.timeout_start,
          Call.timeout_check false] := by
  refine ⟨_, ?_, ?_, start_no_budget_calls bus s htc hlow⟩
  · rw [dev_write_eq, write_ops]
    simp only [List.cons_append, List.nil_append, List.append_assoc]
    rw [run_ops_fail_head _ _ _ _ _ _ STWI_ERR_STRETCH []
      (by simp only [Op.run, start_no_budget fuel bus s htc hlow]; rfl) (by simp)]
    rfl
  · rw [dev_read_eq, read_ops]
    simp only [List.cons_append, List.nil_append, List.append_assoc]
    rw [run_ops_fail_head _ _ _ _ _ _ STWI_ERR_STRETCH []
      (by simp only [Op.run, start_no_budget fuel bus s htc hlow]; rfl) (by simp)]
    rfl

/-- Witness of C14: the fixture with clock stretching disabled and a slave that
holds SCL low from the start. -/
theorem dev_stretch_disabled_witness :
    ∃ s1, stwi_dev_write (0 + 1) no_stretch_bus 0x25 STWI_REG_8 0xF2 [0x12, 0x34] 2
        (setUp (scl_stretch_after 0) []) =
        some (⟨STWI_ERR_STRETCH, STWI_STAGE_START, 0⟩, s1) ∧
      stwi_dev_read (0 + 1) no_stretch_bus 0x25 STWI_REG_8 0xF2 [0x12, 0x34] 2
        (setUp (scl_stretch_after 0) []) =
        some (⟨STWI_ERR_STRETCH, STWI_STAGE_START, 0⟩, [0x12, 0x34], s1) ∧
      calls_since (setUp (scl_stretch_after 0) []) s1 =
        [Call.write_sda STWI_PIN_HIGH, Call.delay, Call.write_scl STWI_PIN_HIGH,
          Call.delay, Call.read_scl STWI_PIN_LOW, Call.timeout_start,
          Call.timeout_check false] :=
  dev_stretch_disabled 0 no_stretch_bus 0x25 STWI_REG_8 0xF2 [0x12, 0x34] 2
    (setUp (scl_stretch_after 0) []) (fun _ => rfl) (by rfl)

/-- C15: a transaction (`stwi_dev_write` or `stwi_dev_read`) that returns `err = OK`
leaves both lines HIGH: the last level the master wrote to SCL is HIGH, the last
level it wrote to SDA is HIGH, and the last sample of SCL (taken by the final stretch
wait, the one of STOP) is HIGH.  This holds from every initial state of the bus, in
particular from an idle one. -/
theorem dev_ok_lines_high (fuel : Nat) (bus : stwi σ) (addr : Nat)
    (reg_size : stwi_reg_size_t) (reg : Nat) (buff : List Nat) (size : Nat)
    (s s1 : World σ) (res : stwi_res)
    (h : stwi_dev_write fuel bus addr reg_size reg buff size s = some (res, s1) ∨
      ∃ mem, stwi_dev_read fuel bus addr reg_size reg buff size s = some (res, mem, s1))
    (hok : res.err = STWI_ERR_OK) :
    (scl_writes (calls_since s s1)).getLast? = some STWI_PIN_HIGH ∧
    (sda_writes (calls_since s s1)).getLast? = some STWI_PIN_HIGH ∧
    (scl_reads (calls_since s s1)).getLast? = some STWI_PIN_HIGH :=
  (dev_lines fuel bus addr reg_size reg buff size s s1 res h).1 hok

theorem dev_ok_lines_high_witness :
    (scl_writes (calls_since (setUp [] sda_write_reg0) test_dev_write_reg0.2)).getLast?
      = some STWI_PIN_HIGH ∧
    (sda_writes (calls_since (setUp [] sda_write_reg0) test_dev_write_reg0.2)).getLast?
      = some STWI_PIN_HIGH ∧
    (scl_reads (calls_since (setUp [] sda_write_reg0) test_dev_write_reg0.2)).getLast?
      = some STWI_PIN_HIGH :=
  dev_ok_lines_high 20 fixture_bus 0x25 STWI_REG_0 0x0 [0x12, 0x34] 2
    (setUp [] sda_write_reg0) test_dev_write_reg0.2 test_dev_write_reg0.1
    (Or.inl (by rfl)) (by rfl)

/-- C16, as stated, fails: in the run of `test_dev_write_err_addr` (no slave
acknowledges the address) `stwi_dev_write` returns NACK at stage ADDR and the last
level written to SCL is LOW, not HIGH; in the run of `test_dev_write_err_stop` (the
slave stretches the clock during STOP) it returns STRETCH at stage STOP and the last
level written to SDA is LOW, not HIGH. -/
theorem dev_lines_released_counterexample :
    (stwi_dev_write 20 fixture_bus 0x25 STWI_REG_8 0xF2 [0x12, 0x34] 2 (setUp [] [])
        = some (⟨STWI_ERR_NACK, STWI_STAGE_ADDR, 0⟩, test_dev_write_err_addr.2) ∧
      ¬ ((scl_writes (calls_since (setUp [] []) test_dev_write_err_addr.2)).getLast?
            = some STWI_PIN_HIGH ∧
          (sda_writes (calls_since (setUp [] []) test_dev_write_err_addr.2)).getLast?
            = some STWI_PIN_HIGH)) ∧
    (stwi_dev_write 20 fixture_bus 0x25 STWI_REG_8 0xF2 [0x12, 0x34] 2
          (setUp (scl_stretch_after 148) sda_write_reg8)
        = some (⟨STWI_ERR_STRETCH, STWI_STAGE_STOP, 2⟩, test_dev_write_err_stop.2) ∧
      ¬ ((scl_writes (calls_since (setUp (scl_stretch_after 148) sda_write_reg8)
            test_dev_write_err_stop.2)).getLast? = some STWI_PIN_HIGH ∧
          (sda_writes (calls_since (setUp (scl_stretch_after 148) sda_write_reg8)
            test_dev_write_err_stop.2)).getLast? = some STWI_PIN_HIGH)) :=
  ⟨⟨by rfl, fun h => absurd (h.1.symm.trans
      (by rfl : (scl_writes (calls_since (setUp [] []) test_dev_write_err_addr.2)).getLast?
        = some STWI_PIN_LOW)) (by decide)⟩,
    ⟨by rfl, fun h => absurd (h.2.symm.trans
      (by rfl : (sda_writes (calls_since (setUp (scl_stretch_after 148) sda_write_reg8)
        test_dev_write_err_stop.2)).getLast? = some STWI_PIN_LOW)) (by decide)⟩⟩

/-- C16 (amended): the levels a returning call of `stwi_dev_write` or `stwi_dev_read`
leaves on the lines depend on its outcome.  With `err = OK` the last level written to
SCL is HIGH and the last level written to SDA is HIGH.  With `err = STRETCH` the last
level written to SCL is HIGH (the master has released the clock that the slave holds).
With `err = NACK` the last level written to SCL is LOW and the last level written to
SDA is HIGH. -/
theorem dev_lines_by_outcome (fuel : Nat) (bus : stwi σ) (addr : Nat)
    (reg_size : stwi_reg_size_t) (reg : Nat) (buff : List Nat) (size : Nat)
    (s s1 : World σ) (res : stwi_res)
    (h : stwi_dev_write fuel bus addr reg_size reg buff size s = some (res, s1) ∨
      ∃ mem, stwi_dev_read fuel bus addr reg_size reg buff size s = some (res, mem, s1)) :
    (res.err = STWI_ERR_OK →
      (scl_writes (calls_since s s1)).getLast? = some STWI_PIN_HIGH ∧
      (sda_writes (calls_since s s1)).getLast? = some STWI_PIN_HIGH) ∧
    (res.err = STWI_ERR_STRETCH →
      (scl_writes (calls_since s s1)).getLast? = some STWI_PIN_HIGH) ∧
    (res.err = STWI_ERR_NACK →
      (scl_writes (calls_since s s1)).getLast? = some STWI_PIN_LOW ∧
      (sda_writes (calls_since s s1)).getLast? = some STWI_PIN_HIGH) :=
  ⟨fun hok => ⟨((dev_lines fuel bus addr reg_size reg buff size s s1 res h).1 hok).1,
      ((dev_lines fuel bus addr reg_size reg buff size s s1 res h).1 hok).2.1⟩,
    (dev_lines fuel bus addr reg_size reg buff size s s1 res h).2⟩

theorem dev_lines_by_outcome_witness :
    test_dev_read_err_data.1.err = STWI_ERR_STRETCH ∧
    (scl_writes (calls_since (setUp (scl_stretch_after 152) sda_read_reg8)
      test_dev_read_err_data.2.2)).getLast? = some STWI_PIN_HIGH :=
  ⟨by rfl, (dev_lines_by_outcome 20 fixture_bus 0x25 STWI_REG_8 0xF2 [0, 0] 2
    (setUp (scl_stretch_after 152) sda_read_reg8) test_dev_read_err_data.2.2
    test_dev_read_err_data.1 (Or.inr ⟨test_dev_read_err_data.2.1, by rfl⟩)).2.1 (by rfl)⟩

/-- C17: in `stwi_dev_write` and `stwi_dev_read`, let sub-operation number `i` of the
transaction (START, write-byte, read-byte or STOP) be the first one to fail: the
sub-operations before it succeed, leading from world `s` to world `s0`, and it
returns the error `e` (NACK or STRETCH) in world `s1`.  Then the transaction returns,
its `err` is `e`, its `stage` is the value assigned to `res.stage` before
sub-operation `i` began, and the world it returns in is `s1`: no callback is invoked
after the failing sub-operation (no later phase, no retry, no STOP).  For
`stwi_dev_read` the buffer holds the bytes received before the failure. -/
theorem dev_first_failure (fuel : Nat) (bus : stwi σ) (addr : Nat)
    (reg_size : stwi_reg_size_t) (reg : Nat) (buff : List Nat) (size : Nat)
    (s s0 s1 : World σ) (i : Nat) (op : Op) (e : stwi_err_t) (n0 : Nat)
    (rx rx0 : List Nat)
    (hrun : Op.run fuel bus op s0 = some (e, rx0, s1)) (he : e ≠ STWI_ERR_OK) :
    ((write_ops ((addr <<< 1 ||| 0x00) % 256) (reg_bytes reg_size reg)
          (payload size buff))[i]? = some op →
      run_ops fuel bus
          ((write_ops ((addr <<< 1 ||| 0x00) % 256) (reg_bytes reg_size reg)
            (payload size buff)).take i) s = some (STWI_ERR_OK, n0, rx, s0) →
      ∃ res, stwi_dev_write fuel bus addr reg_size reg buff size s = some (res, s1) ∧
        res.err = e ∧
        (write_stages (reg_bytes reg_size reg).length size)[i]? = some res.stage) ∧
    ((read_ops ((addr <<< 1 ||| 0x00) % 256) (reg_bytes reg_size reg)
          ((addr <<< 1 ||| 0x01) % 256) size)[i]? = some op →
      run_ops fuel bus
          ((read_ops ((addr <<< 1 ||| 0x00) % 256) (reg_bytes reg_size reg)
            ((addr <<< 1 ||| 0x01) % 256) size).take i) s
        = some (STWI_ERR_OK, n0, rx, s0) →
      ∃ res, stwi_dev_read fuel bus addr reg_size reg buff size s
          = some (res, store buff 0 rx, s1) ∧
        res.err = e ∧
        (read_stages (reg_bytes reg_size reg).length size)[i]? = some res.stage) := by
  constructor
  · intro hop hpre
    have hi : i < 3 + (reg_bytes reg_size reg).length + size := by
      have := (List.getElem?_eq_some.mp hop).1
      rw [write_ops_length, payload_length] at this
      exact this
    refine ⟨write_res (reg_bytes reg_size reg).length size e i, ?_, write_res_err _ _ _ _,
      write_res_stage_get _ _ _ _ hi⟩
    rw [dev_write_eq, run_ops_first_failure _ _ _ _ _ _ _ _ _ _ _ _ hop hpre hrun he]
    rfl
  · intro hop hpre
    have hi : i < 5 + (reg_bytes reg_size reg).length + size := by
      have := (List.getElem?_eq_some.mp hop).1
      rw [read_ops_length] at this
      exact this
    refine ⟨read_res (reg_bytes reg_size reg).length size e i, ?_, read_res_err _ _ _ _,
      read_res_stage_get _ _ _ _ hi⟩
    rw [dev_read_eq, run_ops_first_failure _ _ _ _ _ _ _ _ _ _ _ _ hop hpre hrun he]
    rfl

theorem dev_first_failure_witness :
    ∃ res, stwi_dev_read 20 fixture_bus 0x25 STWI_REG_8 0xF2 [0, 0] 2
        (setUp [] sda_read_err_rep_addr) = some (res, store [0, 0] 0 [], rep_addr_after) ∧
      res.err = STWI_ERR_NACK ∧
      (read_stages (reg_bytes STWI_REG_8 0xF2).length 2)[4]? = some res.stage :=
  (dev_first_failure 20 fixture_bus 0x25 STWI_REG_8 0xF2 [0, 0] 2
    (setUp [] sda_read_err_rep_addr) rep_addr_before rep_addr_after 4
    (Op.write_byte ((0x25 <<< 1 ||| 0x01) % 256)) STWI_ERR_NACK 4 [] []
    (by rfl) (by decide)).2 (by rfl) (by rfl)

theorem read_err_start_pair :
    test_dev_read_err_start.1 = ⟨STWI_ERR_STRETCH, STWI_STAGE_START, 0⟩ ∧
    test_dev_read_err_rep_start.1 = ⟨STWI_ERR_STRETCH, STWI_STAGE_START, 0⟩ ∧
    ops_count (run_ops 20 fixture_bus
        (read_ops ((0x25 <<< 1 ||| 0x00) % 256) (reg_bytes STWI_REG_8 0xF2)
          ((0x25 <<< 1 ||| 0x01) % 256) 2) (setUp (scl_stretch_after 0) [])) = some 0 ∧
    ops_count (run_ops 20 fixture_bus
        (read_ops ((0x25 <<< 1 ||| 0x00) % 256) (reg_bytes STWI_REG_8 0xF2)
          ((0x25 <<< 1 ||| 0x01) % 256) 2)
        (setUp (scl_stretch_after 76) sda_read_err_rep_addr)) = some 3 :=
  ⟨by rfl, by rfl, by rfl, by rfl⟩

theorem read_err_addr_pair :
    test_dev_read_err_addr.1 = ⟨STWI_ERR_NACK, STWI_STAGE_ADDR, 0⟩ ∧
    test_dev_read_err_rep_addr.1 = ⟨STWI_ERR_NACK, STWI_STAGE_ADDR, 0⟩ ∧
    ops_count (run_ops 20 fixture_bus
        (read_ops ((0x25 <<< 1 ||| 0x00) % 256) (reg_bytes STWI_REG_8 0xF2)
          ((0x25 <<< 1 ||| 0x01) % 256) 2) (setUp [] [])) = some 1 ∧
    ops_count (run_ops 20 fixture_bus
        (read_ops ((0x25 <<< 1 ||| 0x00) % 256) (reg_bytes STWI_REG_8 0xF2)
          ((0x25 <<< 1 ||| 0x01) % 256) 2) (setUp [] sda_read_err_rep_addr)) = some 4 :=
  ⟨by rfl, by rfl, by rfl, by rfl⟩

theorem write_err_reg16_pair :
    test_dev_write_err_reg16_high.1 = ⟨STWI_ERR_NACK, STWI_STAGE_REG, 0⟩ ∧
    test_dev_write_err_reg16_low.1 = ⟨STWI_ERR_NACK, STWI_STAGE_REG, 0⟩ ∧
    ops_count (run_ops 20 fixture_bus
        (write_ops ((0x25 <<< 1 ||| 0x00) % 256) (reg_bytes STWI_REG_16 0xF1F2)
          (payload 2 [0x12, 0x34])) (setUp [] (sda_start ++ sda_ack))) = some 2 ∧
    ops_count (run_ops 20 fixture_bus
        (write_ops ((0x25 <<< 1 ||| 0x00) % 256) (reg_bytes STWI_REG_16 0xF1F2)
          (payload 2 [0x12, 0x34])) (setUp [] (sda_start ++ sda_ack ++ sda_ack_next)))
      = some 3 :=
  ⟨by rfl, by rfl, by rfl, by rfl⟩

/-- C18, as stated, fails.  Three pairs of failing runs with the same arguments return
the same `err`, `stage` and `data_size` although they failed at different
sub-operations.  `test_dev_read_err_start` and `test_dev_read_err_rep_start` both
return STRETCH at stage START, the first with no sub-operation completed, the second
with three.  `test_dev_read_err_addr` and `test_dev_read_err_rep_addr` both return
NACK at stage ADDR, with one and with four sub-operations completed.  Two writes with
a 16-bit register both return NACK at stage REG, with two and with three
sub-operations completed. -/
theorem dev_stage_locates_counterexample :
    (test_dev_read_err_start.1 = test_dev_read_err_rep_start.1 ∧
      test_dev_read_err_start.1.err ≠ STWI_ERR_OK ∧
      ops_count (run_ops 20 fixture_bus
          (read_ops ((0x25 <<< 1 ||| 0x00) % 256) (reg_bytes STWI_REG_8 0xF2)
            ((0x25 <<< 1 ||| 0x01) % 256) 2) (setUp (scl_stretch_after 0) [])) ≠
        ops_count (run_ops 20 fixture_bus
          (read_ops ((0x25 <<< 1 ||| 0x00) % 256) (reg_bytes STWI_REG_8 0xF2)
            ((0x25 <<< 1 ||| 0x01) % 256) 2)
          (setUp (scl_stretch_after 76) sda_read_err_rep_addr))) ∧
    (test_dev_read_err_addr.1 = test_dev_read_err_rep_addr.1 ∧
      test_dev_read_err_addr.1.err ≠ STWI_ERR_OK ∧
      ops_count (run_ops 20 fixture_bus
          (read_ops ((0x25 <<< 1 ||| 0x00) % 256) (reg_bytes STWI_REG_8 0xF2)
            ((0x25 <<< 1 ||| 0x01) % 256) 2) (setUp [] [])) ≠
        ops_count (run_ops 20 fixture_bus
          (read_ops ((0x25 <<< 1 ||| 0x00) % 256) (reg_bytes STWI_REG_8 0xF2)
            ((0x25 <<< 1 ||| 0x01) % 256) 2) (setUp [] sda_read_err_rep_addr))) ∧
    (test_dev_write_err_reg16_high.1 = test_dev_write_err_reg16_low.1 ∧
      test_dev_write_err_reg16_high.1.err ≠ STWI_ERR_OK ∧
      ops_count (run_ops 20 fixture_bus
          (write_ops ((0x25 <<< 1 ||| 0x00) % 256) (reg_bytes STWI_REG_16 0xF1F2)
            (payload 2 [0x12, 0x34])) (setUp [] (sda_start ++ sda_ack))) ≠
        ops_count (run_ops 20 fixture_bus
          (write_ops ((0x25 <<< 1 ||| 0x00) % 256) (reg_bytes STWI_REG_16 0xF1F2)
            (payload 2 [0x12, 0x34])) (setUp [] (sda_start ++ sda_ack ++ sda_ack_next)))) := by
  obtain ⟨a1, a2, a3, a4⟩ := read_err_start_pair
  obtain ⟨b1, b2, b3, b4⟩ := read_err_addr_pair
  obtain ⟨c1, c2, c3, c4⟩ := write_err_reg16_pair
  refine ⟨⟨a1.trans a2.symm, ?_, ?_⟩, ⟨b1.trans b2.symm, ?_, ?_⟩,
    ⟨c1.trans c2.symm, ?_, ?_⟩⟩
  · rw [a1]; decide
  · rw [a3, a4]; decide
  · rw [b1]; decide
  · rw [b3, b4]; decide
  · rw [c1]; decide
  · rw [c3, c4]; decide

/-- C18 (amended): for fixed arguments, two failing runs that return the same `err`,
`stage` and `data_size` have completed the same number of sub-operations before the
failing one, provided the stage tells the sub-operations apart.  For `stwi_dev_write`
this is every stage except REG with a 16-bit register, whose two bytes share the
stage.  For `stwi_dev_read` this is DATA, STOP, and REG with a register of at most 8
bits: the initial and the repeated START share stage START, the two address bytes
share stage ADDR. -/
theorem dev_stage_locates_failure (fuel1 fuel2 : Nat) (bus1 bus2 : stwi σ) (addr : Nat)
    (reg_size : stwi_reg_size_t) (reg : Nat) (buff : List Nat) (size : Nat)
    (s s1 t t1 : World σ) (res : stwi_res) (hfail : res.err ≠ STWI_ERR_OK) :
    (stwi_dev_write fuel1 bus1 addr reg_size reg buff size s = some (res, s1) →
      stwi_dev_write fuel2 bus2 addr reg_size reg buff size t = some (res, t1) →
      reg_size ≠ STWI_REG_16 ∨ res.stage ≠ STWI_STAGE_REG →
      ∃ n rx1 rx2,
        run_ops fuel1 bus1 (write_ops ((addr <<< 1 ||| 0x00) % 256)
          (reg_bytes reg_size reg) (payload size buff)) s = some (res.err, n, rx1, s1) ∧
        run_ops fuel2 bus2 (write_ops ((addr <<< 1 ||| 0x00) % 256)
          (reg_bytes reg_size reg) (payload size buff)) t = some (res.err, n, rx2, t1)) ∧
    (∀ mem1 mem2,
      stwi_dev_read fuel1 bus1 addr reg_size reg buff size s = some (res, mem1, s1) →
      stwi_dev_read fuel2 bus2 addr reg_size reg buff size t = some (res, mem2, t1) →
      res.stage = STWI_STAGE_DATA ∨ res.stage = STWI_STAGE_STOP ∨
        (res.stage = STWI_STAGE_REG ∧ reg_size ≠ STWI_REG_16) →
      ∃ n rx1 rx2,
        run_ops fuel1 bus1 (read_ops ((addr <<< 1 ||| 0x00) % 256)
          (reg_bytes reg_size reg) ((addr <<< 1 ||| 0x01) % 256) size) s
          = some (res.err, n, rx1, s1) ∧
        run_ops fuel2 bus2 (read_ops ((addr <<< 1 ||| 0x00) % 256)
          (reg_bytes reg_size reg) ((addr <<< 1 ||| 0x01) % 256) size) t
          = some (res.err, n, rx2, t1)) := by
  constructor
  · intro h1 h2 hst
    obtain ⟨e1, n1, rx1, hr1, hres1⟩ := dev_write_inv _ _ _ _ _ _ _ _ _ _ h1
    obtain ⟨e2, n2, rx2, hr2, hres2⟩ := dev_write_inv _ _ _ _ _ _ _ _ _ _ h2
    have he1 : res.err = e1 := by rw [hres1, write_res_err]
    have he2 : res.err = e2 := by rw [hres2, write_res_err]
    have hl1 := (run_ops_count _ _ _ _ _ _ _ _ hr1).2 (by rw [← he1]; exact hfail)
    have hl2 := (run_ops_count _ _ _ _ _ _ _ _ hr2).2 (by rw [← he2]; exact hfail)
    rw [write_ops_length, payload_length] at hl1 hl2
    have hn : n1 = n2 := by
      refine write_res_index _ _ _ _ e1 e2 hl1 hl2 (hres1.symm.trans hres2) ?_
      rw [← hres1]
      rcases hst with hst | hst
      · exact Or.inl (reg_bytes_length_le _ _ hst)
      · exact Or.inr hst
    subst hn
    exact ⟨n1, rx1, rx2, by rw [he1]; exact hr1, by rw [he2]; exact hr2⟩
  · intro mem1 mem2 h1 h2 hst
    obtain ⟨e1, n1, rx1, hr1, hres1, -⟩ := dev_read_inv _ _ _ _ _ _ _ _ _ _ _ h1
    obtain ⟨e2, n2, rx2, hr2, hres2, -⟩ := dev_read_inv _ _ _ _ _ _ _ _ _ _ _ h2
    have he1 : res.err = e1 := by rw [hres1, read_res_err]
    have he2 : res.err = e2 := by rw [hres2, read_res_err]
    have hl1 := (run_ops_count _ _ _ _ _ _ _ _ hr1).2 (by rw [← he1]; exact hfail)
    have hl2 := (run_ops_count _ _ _ _ _ _ _ _ hr2).2 (by rw [← he2]; exact hfail)
    rw [read_ops_length] at hl1 hl2
    have hn : n1 = n2 := by
      refine read_res_index _ _ _ _ e1 e2 hl1 hl2 (hres1.symm.trans hres2) ?_
      rw [← hres1]
      rcases hst with hst | hst | ⟨hst, hr⟩
      · exact Or.inl hst
      · exact Or.inr (Or.inl hst)
      · exact Or.inr (Or.inr ⟨hst, reg_bytes_length_le _ _ hr⟩)
    subst hn
    exact ⟨n1, rx1, rx2, by rw [he1]; exact hr1, by rw [he2]; exact hr2⟩

-- Two different runs of one call: the slave of `test_dev_write_err_data` (stretch wait
-- bounded by 20), and a slave that stretches the clock during the address byte (two more
-- quarter periods are spent, stretch wait bounded by 25).  Both return NACK at stage DATA
-- with data_size 1, from different worlds into different worlds.
theorem dev_stage_locates_failure_witness :
    delay_count test_dev_write_err_data.2.trace + 2
        = delay_count test_dev_write_err_data_stretched.2.trace ∧
      ∃ n rx1 rx2,
        run_ops 20 fixture_bus (write_ops ((0x25 <<< 1 ||| 0x00) % 256)
          (reg_bytes STWI_REG_8 0xF2) (payload 2 [0x12, 0x34])) (setUp [] sda_write_err_data)
          = some (STWI_ERR_NACK, n, rx1, test_dev_write_err_data.2) ∧
        run_ops 25 fixture_bus (write_ops ((0x25 <<< 1 ||| 0x00) % 256)
          (reg_bytes STWI_REG_8 0xF2) (payload 2 [0x12, 0x34]))
          (setUp scl_short_stretch sda_write_err_data_late)
          = some (STWI_ERR_NACK, n, rx2, test_dev_write_err_data_stretched.2) :=
  ⟨by rfl,
    (dev_stage_locates_failure 20 25 fixture_bus fixture_bus 0x25 STWI_REG_8 0xF2
      [0x12, 0x34] 2 (setUp [] sda_write_err_data) test_dev_write_err_data.2
      (setUp scl_short_stretch sda_write_err_data_late) test_dev_write_err_data_stretched.2
      ⟨STWI_ERR_NACK, STWI_STAGE_DATA, 1⟩ (by decide)).1
      ((show stwi_dev_write 20 fixture_bus 0x25 STWI_REG_8 0xF2 [0x12, 0x34] 2
          (setUp [] sda_write_err_data)
          = some (test_dev_write_err_data.1, test_dev_write_err_data.2) from by rfl).trans
        (congrArg (fun r => some (r, test_dev_write_err_data.2))
          (show test_dev_write_err_data.1 = ⟨STWI_ERR_NACK, STWI_STAGE_DATA, 1⟩ from by rfl)))
      ((show stwi_dev_write 25 fixture_bus 0x25 STWI_REG_8 0xF2 [0x12, 0x34] 2
          (setUp scl_short_stretch sda_write_err_data_late)
          = some (test_dev_write_err_data_stretched.1, test_dev_write_err_data_stretched.2)
          from by rfl).trans
        (congrArg (fun r => some (r, test_dev_write_err_data_stretched.2))
          (show test_dev_write_err_data_stretched.1 = ⟨STWI_ERR_NACK, STWI_STAGE_DATA, 1⟩
            from by rfl)))
      (Or.inl (by decide))⟩

/-- C19: round trip of the byte framing.  Let `b` be a byte (0..255) that
`stwi_write_byte` sends without stretch timeout, and let a call of `stwi_read_byte`
that meets no stretch timeout sample on SDA the first eight levels that
`stwi_write_byte` wrote to SDA (its data bits), in the same order.  Then
`stwi_read_byte` returns OK and stores exactly `b`. -/
theorem byte_round_trip (fuel1 fuel2 : Nat) (bus1 bus2 : stwi σ) (b d0 d : Nat)
    (ack : Bool) (s1 t1 s2 t2 : World σ) (e1 e2 : stwi_err_t) (hb : b < 256)
    (hw : stwi_write_byte fuel1 bus1 b s1 = some (e1, t1)) (he1 : e1 ≠ STWI_ERR_STRETCH)
    (hr : stwi_read_byte fuel2 bus2 d0 ack s2 = some (e2, d, t2))
    (he2 : e2 ≠ STWI_ERR_STRETCH)
    (hloop : sda_samples (calls_since s2 t2) = (sda_writes (calls_since s1 t1)).take 8) :
    e2 = STWI_ERR_OK ∧ d = b := by
  obtain ⟨hnack, t, ht, hok⟩ := read_byte_trace _ _ _ _ _ _ _ _ hr
  have he : e2 = STWI_ERR_OK := by
    cases e2
    · rfl
    · exact absurd rfl he2
    · exact absurd rfl hnack
  refine ⟨he, ?_⟩
  obtain ⟨-, hd⟩ := hok he
  rw [hd, ← calls_since_append _ _ _ ht, hloop, write_byte_sda_writes _ _ _ _ _ _ hw he1,
    List.take_left' (sent_levels_length 8 b), sent_levels_eq b hb]
  exact byte_msb_bit_levels b hb

theorem byte_round_trip_witness :
    test_read_2bytes_first.1 = STWI_ERR_OK ∧ test_read_2bytes_first.2.1 = 0xC2 :=
  byte_round_trip 20 20 fixture_bus fixture_bus 0xC2 0x00 test_read_2bytes_first.2.1 true
    (started_with sda_ack) test_write_2bytes_first (started_with sda_byte_c2)
    test_read_2bytes_first.2.2 STWI_ERR_OK test_read_2bytes_first.1 (by decide) (by rfl)
    (by decide) (by rfl) (by decide) (by rfl)

/-- C20: for a byte `b` (0..255), a call of `stwi_write_byte` that meets no stretch
timeout makes exactly the calls of eight send-bits followed by one receive-bit, where
the level of send-bit `i` (i = 0..7) is HIGH iff `((b >> (7-i)) & 1) = 1` (the
shift-and-mask-0x80 loop sends these levels), and it returns OK iff the bit sampled
by the receive-bit is LOW and NACK iff it is HIGH. -/
theorem write_byte_msb_first (fuel : Nat) (bus : stwi σ) (b : Nat) (s s1 : World σ)
    (e : stwi_err_t) (hb : b < 256)
    (h : stwi_write_byte fuel bus b s = some (e, s1)) (he : e ≠ STWI_ERR_STRETCH) :
    sent_levels 8 b = (List.range 8).map (bit_level b) ∧
    (∀ i, i < 8 →
      ((List.range 8).map (bit_level b))[i]? =
        some (if (b >>> (7 - i)) &&& 1 = 1 then STWI_PIN_HIGH else STWI_PIN_LOW)) ∧
    ∃ (ws : List (List Call)) (w : List Call) (bit : stwi_pin_state_t), ws.length = 8 ∧
      (∀ w' ∈ w :: ws, ∀ c ∈ w', is_wait_call c = true) ∧
      calls_since s s1 =
        (List.zipWith write_bit_calls ((List.range 8).map (bit_level b)) ws).flatten
          ++ read_bit_calls bit w ∧
      (e = STWI_ERR_OK ↔ bit = STWI_PIN_LOW) ∧ (e = STWI_ERR_NACK ↔ bit = STWI_PIN_HIGH) := by
  refine ⟨sent_levels_eq b hb, ?_, ?_⟩
  · intro i hi
    rw [List.getElem?_map, List.getElem?_range hi]
    rfl
  · obtain ⟨ws, w, bit, hlen, hws, ht, hret⟩ := write_byte_frames _ _ _ _ _ _ h he
    refine ⟨ws, w, bit, hlen, hws, ?_, ?_, ?_⟩
    · rw [calls_since_append _ _ _ ht, sent_levels_eq b hb]
    · rw [hret]
      cases bit <;> simp
    · rw [hret]
      cases bit <;> simp

theorem write_byte_msb_first_witness :
    sent_levels 8 0x5A = (List.range 8).map (bit_level 0x5A) ∧
    (∀ i, i < 8 →
      ((List.range 8).map (bit_level 0x5A))[i]? =
        some (if (0x5A >>> (7 - i)) &&& 1 = 1 then STWI_PIN_HIGH else STWI_PIN_LOW)) ∧
    ∃ (ws : List (List Call)) (w : List Call) (bit : stwi_pin_state_t), ws.length = 8 ∧
      (∀ w' ∈ w :: ws, ∀ c ∈ w', is_wait_call c = true) ∧
      calls_since (started_with sda_ack) test_write_byte_ack =
        (List.zipWith write_bit_calls ((List.range 8).map (bit_level 0x5A)) ws).flatten
          ++ read_bit_calls bit w ∧
      (STWI_ERR_OK = STWI_ERR_OK ↔ bit = STWI_PIN_LOW) ∧
      (STWI_ERR_OK = STWI_ERR_NACK ↔ bit = STWI_PIN_HIGH) :=
  write_byte_msb_first 20 fixture_bus 0x5A (started_with sda_ack) test_write_byte_ack
    STWI_ERR_OK (by decide) (by rfl) (by decide)

/-- C21: `stwi_read_byte` returns whenever every stretch wait returns.  A call that
returns without stretch timeout returns OK; its calls are exactly eight receive-bit
frames, sampling the levels `samples` on SDA, followed by one send-bit frame whose
level is LOW if `ack` is true and HIGH if it is false; the byte stored is the sum
over `i` of `2^(7-i)` for the samples `i` that are HIGH, the first sample being the
most significant bit. -/
theorem read_byte_msb_first (fuel : Nat) (bus : stwi σ) (b0 : Nat) (ack : Bool)
    (s : World σ) :
    ((∀ s0, stwi_stretch_wait fuel bus s0 ≠ none) →
      stwi_read_byte fuel bus b0 ack s ≠ none) ∧
    ∀ e d s1, stwi_read_byte fuel bus b0 ack s = some (e, d, s1) → e ≠ STWI_ERR_STRETCH →
      e = STWI_ERR_OK ∧
      ∃ (samples : List stwi_pin_state_t) (ws : List (List Call)) (w : List Call),
        samples.length = 8 ∧ ws.length = 8 ∧
        (∀ w' ∈ w :: ws, ∀ c ∈ w', is_wait_call c = true) ∧
        calls_since s s1 =
          (List.zipWith read_bit_calls samples ws).flatten
            ++ write_bit_calls (if ack then STWI_PIN_LOW else STWI_PIN_HIGH) w ∧
        sda_samples (calls_since s s1) = samples ∧
        d = byte_msb samples := by
  refine ⟨fun hwait => read_byte_total fuel bus hwait b0 ack s, ?_⟩
  intro e d s1 h he
  obtain ⟨heok, samples, ws, w, hl1, hl2, hws, ht, hd⟩ :=
    read_byte_frames _ _ _ _ _ _ _ _ h he
  refine ⟨heok, samples, ws, w, hl1, hl2, hws, calls_since_append _ _ _ ht, ?_, hd⟩
  rw [calls_since_append _ _ _ ht, sda_samples_append,
    frames_sda_samples samples ws (by rw [hl2, hl1])
      (fun w' hw' => hws w' (List.mem_cons_of_mem _ hw'))]
  have hw := hws w (List.mem_cons_self _ _)
  simp [write_bit_calls, sda_samples_append, sda_samples, sda_samples_wait w hw]

theorem read_byte_msb_first_witness :
    stwi_read_byte 20 fixture_bus 0x00 true
        (started_lines scl_read_byte_stretch sda_read_byte_stretch) ≠ none ∧
    (test_read_byte_stretch.1 = STWI_ERR_OK ∧
      ∃ (samples : List stwi_pin_state_t) (ws : List (List Call)) (w : List Call),
        samples.length = 8 ∧ ws.length = 8 ∧
        (∀ w' ∈ w :: ws, ∀ c ∈ w', is_wait_call c = true) ∧
        calls_since (started_lines scl_read_byte_stretch sda_read_byte_stretch)
            test_read_byte_stretch.2.2 =
          (List.zipWith read_bit_calls samples ws).flatten
            ++ write_bit_calls (if true = true then STWI_PIN_LOW else STWI_PIN_HIGH) w ∧
        sda_samples (calls_since (started_lines scl_read_byte_stretch sda_read_byte_stretch)
          test_read_byte_stretch.2.2) = samples ∧
        test_read_byte_stretch.2.1 = byte_msb samples) :=
  ⟨(read_byte_msb_first 20 fixture_bus 0x00 true
      (started_lines scl_read_byte_stretch sda_read_byte_stretch)).1
      (fixture_wait_total 20 (by decide)),
    (read_byte_msb_first 20 fixture_bus 0x00 true
      (started_lines scl_read_byte_stretch sda_read_byte_stretch)).2
      test_read_byte_stretch.1 test_read_byte_stretch.2.1 test_read_byte_stretch.2.2
      (by rfl) (by decide)⟩

/-- C22: let `b` be a byte (0..255) and `k` in 0..7.  If in `stwi_write_byte(b)` the
data bits before bit `k` are sent (world `s0`) and the stretch wait of data bit `k`
times out (world `s1`), then `stwi_write_byte` returns STRETCH in world `s1`: the
last callback invoked is the failing `timeout_check`; the calls are the `k` send-bit
frames of bits `0..k-1`, then write_sda, delay, write_scl(HIGH), delay of bit `k` and
the calls of its stretch wait; only the levels of bits `0..k` have been written to
SDA (bits `k+1..7` are not sent) and `read_sda` is never called (the acknowledge bit
is not attempted). -/
theorem write_byte_stretch_bit (fuel : Nat) (bus : stwi σ) (b k : Nat)
    (s s0 s1 : World σ) (hb : b < 256) (hk : k < 8)
    (hpre : stwi_write_byte.loop fuel bus k b s = some (STWI_ERR_OK, s0))
    (hto : stwi_stretch_wait fuel bus (bit_raised bus (bit_level b k) s0)
      = some (STWI_ERR_STRETCH, s1)) :
    stwi_write_byte fuel bus b s = some (STWI_ERR_STRETCH, s1) ∧
    s1.trace.getLast? = some (Call.timeout_check false) ∧
    (∃ (ws : List (List Call)) (w : List Call), ws.length = k ∧
      (∀ w' ∈ w :: ws, ∀ c ∈ w', is_wait_call c = true) ∧
      calls_since s s1 =
        (List.zipWith write_bit_calls (((List.range 8).map (bit_level b)).take k) ws).flatten
          ++ [Call.write_sda (bit_level b k), Call.delay, Call.write_scl STWI_PIN_HIGH,
            Call.delay] ++ w) ∧
    sda_writes (calls_since s s1) = ((List.range 8).map (bit_level b)).take (k + 1) ∧
    sda_samples (calls_since s s1) = [] := by
  have hlv : (sent_levels 8 b)[k]? = some (bit_level b k) := by
    rw [sent_levels_eq b hb]
    exact bit_levels_get b k hk
  have hloop := write_byte_loop_stretch_at fuel bus k 8 b s s0 s1 _ hlv hpre hto
  have hwb : stwi_write_byte fuel bus b s = some (STWI_ERR_STRETCH, s1) := by
    rw [stwi_write_byte, hloop]
    rfl
  obtain ⟨ws, hlen, hws, ht0⟩ := write_byte_loop_frames _ _ _ _ _ _ hpre
  obtain ⟨w, hw, ht1⟩ := stretch_wait_trace _ _ _ _ _ hto
  have hlevels : sent_levels k b = ((List.range 8).map (bit_level b)).take k := by
    rw [← sent_levels_eq b hb, sent_levels_take k 8 b (by omega)]
  have hcalls : calls_since s s1 =
      (List.zipWith write_bit_calls (((List.range 8).map (bit_level b)).take k) ws).flatten
        ++ [Call.write_sda (bit_level b k), Call.delay, Call.write_scl STWI_PIN_HIGH,
          Call.delay] ++ w := by
    apply calls_since_append
    rw [ht1, bit_raised_trace, ht0, hlevels]
    simp only [List.append_assoc]
  have hall : ∀ w' ∈ w :: ws, ∀ c ∈ w', is_wait_call c = true := by
    intro w' hw'
    rcases List.mem_cons.mp hw' with rfl | hw'
    · exact hw
    · exact hws w' hw'
  refine ⟨hwb, stretch_wait_last _ _ _ _ hto, ⟨ws, w, hlen, hall, hcalls⟩, ?_, ?_⟩
  · rw [hcalls, sda_writes_append, sda_writes_append,
      frames_sda_writes _ ws (by rw [hlen, ← hlevels, sent_levels_length]) hws,
      sda_writes_wait w hw, List.take_succ, bit_levels_get b k hk]
    simp [sda_writes]
  · rw [hcalls, sda_samples_append, sda_samples_append, frames_no_samples _ ws hws,
      sda_samples_wait w hw]
    simp [sda_samples]

theorem write_byte_stretch_bit_witness :
    stwi_write_byte 20 fixture_bus 0x5A (started_lines (scl_stretch_after 9) sda_ack)
      = some (STWI_ERR_STRETCH, write_stretch_after) ∧
    write_stretch_after.trace.getLast? = some (Call.timeout_check false) ∧
    (∃ (ws : List (List Call)) (w : List Call), ws.length = 2 ∧
      (∀ w' ∈ w :: ws, ∀ c ∈ w', is_wait_call c = true) ∧
      calls_since (started_lines (scl_stretch_after 9) sda_ack) write_stretch_after =
        (List.zipWith write_bit_calls (((List.range 8).map (bit_level 0x5A)).take 2)
            ws).flatten
          ++ [Call.write_sda (bit_level 0x5A 2), Call.delay, Call.write_scl STWI_PIN_HIGH,
            Call.delay] ++ w) ∧
    sda_writes (calls_since (started_lines (scl_stretch_after 9) sda_ack) write_stretch_after)
      = ((List.range 8).map (bit_level 0x5A)).take (2 + 1) ∧
    sda_samples (calls_since (started_lines (scl_stretch_after 9) sda_ack) write_stretch_after)
      = [] :=
  write_byte_stretch_bit 20 fixture_bus 0x5A 2 (started_lines (scl_stretch_after 9) sda_ack)
    write_stretch_before write_stretch_after (by decide) (by decide) (by rfl) (by rfl)

/-- C23: with register width `STWI_REG_0` the register value has no effect and no
register byte is emitted.  For any two register values, `stwi_dev_write` gives the
same outcome (same result, same final world, hence same callback trace) from the same
world, and so does `stwi_dev_read`.  The write transaction is the run of START, the
address byte, the payload bytes and STOP; the read transaction is the run of START,
the address byte, the repeated START, the read address byte, the data bytes and
STOP: no write-byte stands between the address byte and the first payload byte (or
the repeated START).  No result has stage REG. -/
theorem reg_none_no_bytes (fuel : Nat) (bus : stwi σ) (addr reg1 reg2 : Nat)
    (buff : List Nat) (size : Nat) (s : World σ) :
    stwi_dev_write fuel bus addr STWI_REG_0 reg1 buff size s
      = stwi_dev_write fuel bus addr STWI_REG_0 reg2 buff size s ∧
    stwi_dev_read fuel bus addr STWI_REG_0 reg1 buff size s
      = stwi_dev_read fuel bus addr STWI_REG_0 reg2 buff size s ∧
    stwi_dev_write fuel bus addr STWI_REG_0 reg1 buff size s
      = (run_ops fuel bus
          ([Op.start, Op.write_byte ((addr <<< 1 ||| 0x00) % 256)]
            ++ (payload size buff).map Op.write_byte ++ [Op.stop]) s).map
          (fun x => (write_res 0 size x.1 x.2.1, x.2.2.2)) ∧
    stwi_dev_read fuel bus addr STWI_REG_0 reg1 buff size s
      = (run_ops fuel bus
          ([Op.start, Op.write_byte ((addr <<< 1 ||| 0x00) % 256)]
            ++ [Op.start, Op.write_byte ((addr <<< 1 ||| 0x01) % 256)]
            ++ read_data_ops size ++ [Op.stop]) s).map
          (fun x => (read_res 0 size x.1 x.2.1, store buff 0 x.2.2.1, x.2.2.2)) ∧
    (∀ res s1, stwi_dev_write fuel bus addr STWI_REG_0 reg1 buff size s = some (res, s1) →
      res.stage ≠ STWI_STAGE_REG) ∧
    (∀ res mem s1,
      stwi_dev_read fuel bus addr STWI_REG_0 reg1 buff size s = some (res, mem, s1) →
      res.stage ≠ STWI_STAGE_REG) := by
  have hw : ∀ reg, stwi_dev_write fuel bus addr STWI_REG_0 reg buff size s
      = (run_ops fuel bus
          ([Op.start, Op.write_byte ((addr <<< 1 ||| 0x00) % 256)]
            ++ (payload size buff).map Op.write_byte ++ [Op.stop]) s).map
          (fun x => (write_res 0 size x.1 x.2.1, x.2.2.2)) := by
    intro reg
    rw [dev_write_eq]
    simp [reg_bytes, write_ops]
  have hr : ∀ reg, stwi_dev_read fuel bus addr STWI_REG_0 reg buff size s
      = (run_ops fuel bus
          ([Op.start, Op.write_byte ((addr <<< 1 ||| 0x00) % 256)]
            ++ [Op.start, Op.write_byte ((addr <<< 1 ||| 0x01) % 256)]
            ++ read_data_ops size ++ [Op.stop]) s).map
          (fun x => (read_res 0 size x.1 x.2.1, store buff 0 x.2.2.1, x.2.2.2)) := by
    intro reg
    rw [dev_read_eq]
    simp [reg_bytes, read_ops]
  refine ⟨(hw reg1).trans (hw reg2).symm, (hr reg1).trans (hr reg2).symm, hw reg1, hr reg1,
    ?_, ?_⟩
  · intro res s1 h
    rw [hw reg1] at h
    simp only [Option.map_eq_some', Prod.mk.injEq, Prod.exists] at h
    obtain ⟨e, n, rx, s2, -, rfl, -⟩ := h
    unfold write_res
    split_ifs <;> first | omega | simp
  · intro res mem s1 h
    rw [hr reg1] at h
    simp only [Option.map_eq_some', Prod.mk.injEq, Prod.exists] at h
    obtain ⟨e, n, rx, s2, -, rfl, -, -⟩ := h
    unfold read_res
    split_ifs <;> first | omega | simp

theorem reg_none_no_bytes_witness :
    stwi_dev_read 20 fixture_bus 0x25 STWI_REG_0 0x00 [0, 0] 2 (setUp [] sda_read_reg0)
      = stwi_dev_read 20 fixture_bus 0x25 STWI_REG_0 0xF1F2 [0, 0] 2 (setUp [] sda_read_reg0) ∧
    test_dev_read_reg0.1.stage ≠ STWI_STAGE_REG :=
  ⟨(reg_none_no_bytes 20 fixture_bus 0x25 0x00 0xF1F2 [0, 0] 2 (setUp [] sda_read_reg0)).2.1,
    (reg_none_no_bytes 20 fixture_bus 0x25 0x00 0xF1F2 [0, 0] 2
      (setUp [] sda_read_reg0)).2.2.2.2.2 test_dev_read_reg0.1 test_dev_read_reg0.2.1
      test_dev_read_reg0.2.2 (by rfl)⟩

/-- C24: if SCL reads HIGH when `stwi_stretch_wait` is entered, it returns OK at once,
for every bound on its loop, and its only call is that `read_scl`: no
`timeout_start`, no `timeout_check`, no `delay`.  Consequently, if SCL reads HIGH
when `stwi_start` has raised the lines, `stwi_start` returns OK with exactly four
`delay` calls and without `timeout_start` or `timeout_check`; on the idle bus of the
fixture (`test_start`) it returns OK and the stretch timer is still 0. -/
theorem stretch_wait_immediate (fuel : Nat) (bus : stwi σ) (s : World σ) :
    ((bus.read_scl s.st).1 = STWI_PIN_HIGH →
      stwi_stretch_wait fuel bus s = some (STWI_ERR_OK, (call_read_scl bus s).2) ∧
      calls_since s (call_read_scl bus s).2 = [Call.read_scl STWI_PIN_HIGH]) ∧
    ((bus.read_scl (bit_raised bus STWI_PIN_HIGH s).st).1 = STWI_PIN_HIGH →
      ∃ s1, stwi_start fuel bus s = some (STWI_ERR_OK, s1) ∧
        delay_count (calls_since s s1) = 4 ∧
        (∀ c ∈ calls_since s s1, c ≠ Call.timeout_start ∧ ∀ b, c ≠ Call.timeout_check b)) ∧
    (stwi_start fuel fixture_bus (setUp [] [])).map (fun r => (r.1, r.2.st.stretch_timer))
      = some (STWI_ERR_OK, 0) := by
  refine ⟨fun h => ⟨stretch_wait_high fuel bus s h, ?_⟩, fun h => ?_, ?_⟩
  · rw [calls_since_append _ _ _ (read_scl_trace bus s), h]
  · refine ⟨start_lowered bus (call_read_scl bus (bit_raised bus STWI_PIN_HIGH s)).2, ?_, ?_⟩
    · rw [start_of_wait, stretch_wait_high fuel bus _ h]
      rfl
    · have ht : (start_lowered bus (call_read_scl bus (bit_raised bus STWI_PIN_HIGH s)).2).trace
          = s.trace ++ [Call.write_sda STWI_PIN_HIGH, Call.delay,
            Call.write_scl STWI_PIN_HIGH, Call.delay, Call.read_scl STWI_PIN_HIGH,
            Call.write_sda STWI_PIN_LOW, Call.delay, Call.write_scl STWI_PIN_LOW,
            Call.delay] := by
        rw [start_lowered_trace, read_scl_trace, bit_raised_trace, h]
        simp
      rw [calls_since_append _ _ _ ht]
      refine ⟨by decide, ?_⟩
      intro c hc
      simp only [List.mem_cons, List.mem_singleton, List.not_mem_nil, or_false] at hc
      rcases hc with rfl | rfl | rfl | rfl | rfl | rfl | rfl | rfl | rfl <;> simp
  · rw [start_of_wait, stretch_wait_high fuel fixture_bus _ (by rfl)]
    rfl

theorem stretch_wait_immediate_witness :
    (stwi_stretch_wait 0 fixture_bus (bit_raised fixture_bus STWI_PIN_HIGH (setUp [] []))
        = some (STWI_ERR_OK,
          (call_read_scl fixture_bus (bit_raised fixture_bus STWI_PIN_HIGH (setUp [] []))).2) ∧
      calls_since (bit_raised fixture_bus STWI_PIN_HIGH (setUp [] []))
        (call_read_scl fixture_bus (bit_raised fixture_bus STWI_PIN_HIGH (setUp [] []))).2
        = [Call.read_scl STWI_PIN_HIGH]) ∧
    ∃ s1, stwi_start 20 fixture_bus (setUp [] []) = some (STWI_ERR_OK, s1) ∧
      delay_count (calls_since (setUp [] []) s1) = 4 ∧
      (∀ c ∈ calls_since (setUp [] []) s1,
        c ≠ Call.timeout_start ∧ ∀ b, c ≠ Call.timeout_check b) :=
  ⟨(stretch_wait_immediate 0 fixture_bus
      (bit_raised fixture_bus STWI_PIN_HIGH (setUp [] []))).1 (by rfl),
    (stretch_wait_immediate 20 fixture_bus (setUp [] [])).2.1 (by rfl)⟩

/-- C25: on a countdown-timer platform (`timeout_start` sets a budget `N`, `delay`
decrements the budget while it is positive, `timeout_check` tells whether the budget
is positive, nothing else changes it) and with SCL LOW at entry, `stwi_stretch_wait`
returns as soon as its loop bound exceeds `N`.  It calls `timeout_start` exactly once
and `delay` at most `N` times, and it returns either OK or STRETCH.  It returns OK
after exactly `k` delays, `1 ≤ k ≤ N`, SCL having read LOW at entry and after each of
the first `k - 1` delays and HIGH after delay `k`; it returns STRETCH after exactly
`N` delays, SCL having read LOW at entry and after each of them. -/
theorem stretch_wait_countdown (bus : stwi σ) (budget : σ → Nat) (N fuel : Nat)
    (s : World σ) (hstart : ∀ st, budget (bus.timeout_start st) = N)
    (hcheck : ∀ st, (bus.timeout_check st).1 = decide (0 < budget st) ∧
      budget (bus.timeout_check st).2 = budget st)
    (hdelay : ∀ st, budget (bus.delay st) = budget st - 1)
    (hread : ∀ st, budget (bus.read_scl st).2 = budget st)
    (hfuel : N < fuel) (hlow : (bus.read_scl s.st).1 = STWI_PIN_LOW) :
    ∃ e s1, stwi_stretch_wait fuel bus s = some (e, s1) ∧
      (calls_since s s1).count Call.timeout_start = 1 ∧
      delay_count (calls_since s s1) ≤ N ∧
      ((e = STWI_ERR_OK ∧ ∃ k, 1 ≤ k ∧ k ≤ N ∧
          delay_count (calls_since s s1) = k ∧
          scl_reads (calls_since s s1) = List.replicate k STWI_PIN_LOW ++ [STWI_PIN_HIGH] ∧
          calls_since s s1 = [Call.read_scl STWI_PIN_LOW, Call.timeout_start] ++
            ((List.replicate (k - 1) (wait_round STWI_PIN_LOW)).flatten
              ++ wait_round STWI_PIN_HIGH)) ∨
        (e = STWI_ERR_STRETCH ∧
          delay_count (calls_since s s1) = N ∧
          scl_reads (calls_since s s1) = List.replicate (N + 1) STWI_PIN_LOW ∧
          calls_since s s1 = [Call.read_scl STWI_PIN_LOW, Call.timeout_start] ++
            ((List.replicate N (wait_round STWI_PIN_LOW)).flatten
              ++ [Call.timeout_check false]))) := by
  obtain ⟨e, s1, h, hres⟩ :=
    countdown_wait bus budget N fuel s hstart hcheck hdelay hread hfuel hlow
  refine ⟨e, s1, h, ?_⟩
  rcases hres with ⟨he, k, hk1, hk2, ht⟩ | ⟨he, ht⟩
  · have hd : delay_count (calls_since s s1) = k := by
      rw [ht, delay_count_append, delay_count_append, delay_count_rounds]
      simp [delay_count, wait_round]
      omega
    refine ⟨?_, by omega, Or.inl ⟨he, k, hk1, hk2, hd, ?_, ht⟩⟩
    · rw [ht, List.count_append, List.count_append, count_start_rounds]
      simp [wait_round]
    · rw [ht, scl_reads_append, scl_reads_append, scl_reads_rounds]
      obtain ⟨j, rfl⟩ : ∃ j, k = j + 1 := ⟨k - 1, by omega⟩
      simp [scl_reads, wait_round, List.replicate_succ]
  · have hd : delay_count (calls_since s s1) = N := by
      rw [ht, delay_count_append, delay_count_append, delay_count_rounds]
      simp [delay_count]
    refine ⟨?_, by omega, Or.inr ⟨he, hd, ?_, ht⟩⟩
    · rw [ht, List.count_append, List.count_append, count_start_rounds]
      simp
    · rw [ht, scl_reads_append, scl_reads_append, scl_reads_rounds]
      simp [scl_reads, List.replicate_succ]

theorem stretch_wait_countdown_witness :
    ∃ e s1, stwi_stretch_wait 20 fixture_bus
        (bit_raised fixture_bus STWI_PIN_HIGH (setUp (scl_stretch_after 0) []))
        = some (e, s1) ∧
      (calls_since (bit_raised fixture_bus STWI_PIN_HIGH (setUp (scl_stretch_after 0) []))
        s1).count Call.timeout_start = 1 ∧
      delay_count (calls_since
        (bit_raised fixture_bus STWI_PIN_HIGH (setUp (scl_stretch_after 0) [])) s1) ≤ 16 ∧
      ((e = STWI_ERR_OK ∧ ∃ k, 1 ≤ k ∧ k ≤ 16 ∧
          delay_count (calls_since
            (bit_raised fixture_bus STWI_PIN_HIGH (setUp (scl_stretch_after 0) [])) s1) = k ∧
          scl_reads (calls_since
            (bit_raised fixture_bus STWI_PIN_HIGH (setUp (scl_stretch_after 0) [])) s1)
            = List.replicate k STWI_PIN_LOW ++ [STWI_PIN_HIGH] ∧
          calls_since (bit_raised fixture_bus STWI_PIN_HIGH (setUp (scl_stretch_after 0) []))
              s1 = [Call.read_scl STWI_PIN_LOW, Call.timeout_start] ++
            ((List.replicate (k - 1) (wait_round STWI_PIN_LOW)).flatten
              ++ wait_round STWI_PIN_HIGH)) ∨
        (e = STWI_ERR_STRETCH ∧
          delay_count (calls_since
            (bit_raised fixture_bus STWI_PIN_HIGH (setUp (scl_stretch_after 0) [])) s1) = 16 ∧
          scl_reads (calls_since
            (bit_raised fixture_bus STWI_PIN_HIGH (setUp (scl_stretch_after 0) [])) s1)
            = List.replicate (16 + 1) STWI_PIN_LOW ∧
          calls_since (bit_raised fixture_bus STWI_PIN_HIGH (setUp (scl_stretch_after 0) []))
              s1 = [Call.read_scl STWI_PIN_LOW, Call.timeout_start] ++
            ((List.replicate 16 (wait_round STWI_PIN_LOW)).flatten
              ++ [Call.timeout_check false]))) :=
  stretch_wait_countdown fixture_bus (fun st => st.stretch_timer.toNat) 16 20
    (bit_raised fixture_bus STWI_PIN_HIGH (setUp (scl_stretch_after 0) []))
    fixture_budget.1 fixture_budget.2.1 fixture_budget.2.2.1 fixture_budget.2.2.2
    (by decide) (by rfl)

/-- C26: from any state `s` of the lines, if SCL reads HIGH at the stretch wait of
`stwi_start`, then `stwi_start` returns OK, for every bound on the wait loop, and
its calls are exactly write_sda(HIGH), delay, write_scl(HIGH), delay, read_scl,
write_sda(LOW), delay, write_scl(LOW), delay.  When SDA is written LOW the last
level written to SCL is HIGH, the last level written to SDA is HIGH and SCL has just
been read HIGH (the START edge); at the end both lines have last been written LOW. -/
theorem start_edge (fuel : Nat) (bus : stwi σ) (s : World σ)
    (h : (bus.read_scl (bit_raised bus STWI_PIN_HIGH s).st).1 = STWI_PIN_HIGH) :
    ∃ s1, stwi_start fuel bus s = some (STWI_ERR_OK, s1) ∧
      calls_since s s1 =
        [Call.write_sda STWI_PIN_HIGH, Call.delay, Call.write_scl STWI_PIN_HIGH, Call.delay,
          Call.read_scl STWI_PIN_HIGH]
        ++ [Call.write_sda STWI_PIN_LOW, Call.delay, Call.write_scl STWI_PIN_LOW,
          Call.delay] ∧
      (scl_writes ((calls_since s s1).take 5)).getLast? = some STWI_PIN_HIGH ∧
      (sda_writes ((calls_since s s1).take 5)).getLast? = some STWI_PIN_HIGH ∧
      (scl_reads ((calls_since s s1).take 5)).getLast? = some STWI_PIN_HIGH ∧
      (calls_since s s1)[5]? = some (Call.write_sda STWI_PIN_LOW) ∧
      (scl_writes (calls_since s s1)).getLast? = some STWI_PIN_LOW ∧
      (sda_writes (calls_since s s1)).getLast? = some STWI_PIN_LOW := by
  have ht : (start_lowered bus (call_read_scl bus (bit_raised bus STWI_PIN_HIGH s)).2).trace
      = s.trace ++ ([Call.write_sda STWI_PIN_HIGH, Call.delay,
        Call.write_scl STWI_PIN_HIGH, Call.delay, Call.read_scl STWI_PIN_HIGH]
        ++ [Call.write_sda STWI_PIN_LOW, Call.delay, Call.write_scl STWI_PIN_LOW,
        Call.delay]) := by
    rw [start_lowered_trace, read_scl_trace, bit_raised_trace, h]
    simp
  refine ⟨start_lowered bus (call_read_scl bus (bit_raised bus STWI_PIN_HIGH s)).2, ?_, ?_⟩
  · rw [start_of_wait, stretch_wait_high fuel bus _ h]
    rfl
  · rw [calls_since_append _ _ _ ht]
    exact ⟨rfl, rfl, rfl, rfl, rfl, rfl, rfl⟩

theorem start_edge_witness :
    ∃ s1, stwi_start 20 fixture_bus test_start = some (STWI_ERR_OK, s1) ∧
      calls_since test_start s1 =
        [Call.write_sda STWI_PIN_HIGH, Call.delay, Call.write_scl STWI_PIN_HIGH, Call.delay,
          Call.read_scl STWI_PIN_HIGH]
        ++ [Call.write_sda STWI_PIN_LOW, Call.delay, Call.write_scl STWI_PIN_LOW,
          Call.delay] ∧
      (scl_writes ((calls_since test_start s1).take 5)).getLast? = some STWI_PIN_HIGH ∧
      (sda_writes ((calls_since test_start s1).take 5)).getLast? = some STWI_PIN_HIGH ∧
      (scl_reads ((calls_since test_start s1).take 5)).getLast? = some STWI_PIN_HIGH ∧
      (calls_since test_start s1)[5]? = some (Call.write_sda STWI_PIN_LOW) ∧
      (scl_writes (calls_since test_start s1)).getLast? = some STWI_PIN_LOW ∧
      (sda_writes (calls_since test_start s1)).getLast? = some STWI_PIN_LOW :=
  start_edge 20 fixture_bus test_start (by rfl)

/-- C27: if SCL reads HIGH at the stretch wait of `stwi_stop`, then `stwi_stop`
returns OK, for every bound on the wait loop, and its calls are exactly
write_sda(LOW), delay, write_scl(HIGH), delay, read_scl, write_sda(HIGH), delay.  In
every call of `stwi_stop` that returns OK, SDA is released after a stretch wait whose
last sample of SCL is HIGH, SCL having last been written HIGH (the STOP edge).  If
the stretch wait times out, `stwi_stop` returns STRETCH in the world the wait ends
in, the only level written to SDA is LOW and SCL has been written HIGH only. -/
theorem stop_edge (fuel : Nat) (bus : stwi σ) (s : World σ) :
    ((bus.read_scl (bit_raised bus STWI_PIN_LOW s).st).1 = STWI_PIN_HIGH →
      ∃ s1, stwi_stop fuel bus s = some (STWI_ERR_OK, s1) ∧
        calls_since s s1 =
          [Call.write_sda STWI_PIN_LOW, Call.delay, Call.write_scl STWI_PIN_HIGH, Call.delay,
            Call.read_scl STWI_PIN_HIGH, Call.write_sda STWI_PIN_HIGH, Call.delay]) ∧
    (∀ s1, stwi_stop fuel bus s = some (STWI_ERR_OK, s1) →
      ∃ w, (∀ c ∈ w, is_wait_call c = true) ∧
        (scl_reads w).getLast? = some STWI_PIN_HIGH ∧
        calls_since s s1 =
          [Call.write_sda STWI_PIN_LOW, Call.delay, Call.write_scl STWI_PIN_HIGH, Call.delay]
            ++ w ++ [Call.write_sda STWI_PIN_HIGH, Call.delay]) ∧
    (∀ s1, stwi_stretch_wait fuel bus (bit_raised bus STWI_PIN_LOW s)
        = some (STWI_ERR_STRETCH, s1) →
      stwi_stop fuel bus s = some (STWI_ERR_STRETCH, s1) ∧
        sda_writes (calls_since s s1) = [STWI_PIN_LOW] ∧
        scl_writes (calls_since s s1) = [STWI_PIN_HIGH]) := by
  refine ⟨fun h => ?_, fun s1 h => ?_, fun s1 h => ?_⟩
  · refine ⟨stop_released bus (call_read_scl bus (bit_raised bus STWI_PIN_LOW s)).2, ?_, ?_⟩
    · rw [stop_of_wait, stretch_wait_high fuel bus _ h]
      rfl
    · apply calls_since_append
      rw [stop_released_trace, read_scl_trace, bit_raised_trace, h]
      simp
  · obtain ⟨w, hw, hr, ht⟩ := stop_calls _ _ _ _ _ h
    refine ⟨w, hw, hr rfl, ?_⟩
    rw [calls_since_append _ _ _ ht]
    rfl
  · have hstop : stwi_stop fuel bus s = some (STWI_ERR_STRETCH, s1) := by
      rw [stop_of_wait, h]
      rfl
    refine ⟨hstop, ?_⟩
    obtain ⟨w, hw, -, ht⟩ := stop_calls _ _ _ _ _ hstop
    rw [calls_since_append _ _ _ ht]
    constructor
    · simp [sda_writes_append, sda_writes, sda_writes_wait w hw]
    · simp [scl_writes_append, scl_writes, scl_writes_wait w hw]

theorem stop_edge_witness :
    (∃ s1, stwi_stop 20 fixture_bus test_start = some (STWI_ERR_OK, s1) ∧
      calls_since test_start s1 =
        [Call.write_sda STWI_PIN_LOW, Call.delay, Call.write_scl STWI_PIN_HIGH, Call.delay,
          Call.read_scl STWI_PIN_HIGH, Call.write_sda STWI_PIN_HIGH, Call.delay]) ∧
    (stwi_stop 20 fixture_bus write_err_stop_before
        = some (STWI_ERR_STRETCH, test_dev_write_err_stop.2) ∧
      sda_writes (calls_since write_err_stop_before test_dev_write_err_stop.2)
        = [STWI_PIN_LOW] ∧
      scl_writes (calls_since write_err_stop_before test_dev_write_err_stop.2)
        = [STWI_PIN_HIGH]) :=
  ⟨(stop_edge 20 fixture_bus test_start).1 (by rfl),
    (stop_edge 20 fixture_bus write_err_stop_before).2.2 test_dev_write_err_stop.2 (by rfl)⟩

/-- C28: `stwi_read_bit` first writes SDA HIGH and raises SCL, then waits.  If the
stretch wait returns OK in world `s0`, `stwi_read_bit` returns OK: its calls are
write_sda(HIGH), delay, write_scl(HIGH), delay, the calls of the wait (none of them
`read_sda`, the last sample of SCL being HIGH), then delay, read_sda, write_scl(LOW),
delay; SDA is sampled exactly once, and the bit returned is that sample.  If the
stretch wait times out, `stwi_read_bit` returns STRETCH in the world the wait ends
in, the content of `*bit` unchanged, without `read_sda` and without writing SCL
LOW. -/
theorem read_bit_sample (fuel : Nat) (bus : stwi σ) (b0 : stwi_pin_state_t)
    (s s0 : World σ) :
    (stwi_stretch_wait fuel bus (bit_raised bus STWI_PIN_HIGH s) = some (STWI_ERR_OK, s0) →
      ∃ s1 w, stwi_read_bit fuel bus b0 s
          = some (STWI_ERR_OK, (bus.read_sda (bus.delay s0.st)).1, s1) ∧
        (∀ c ∈ w, is_wait_call c = true) ∧
        (scl_reads w).getLast? = some STWI_PIN_HIGH ∧
        calls_since s s1 =
          [Call.write_sda STWI_PIN_HIGH, Call.delay, Call.write_scl STWI_PIN_HIGH, Call.delay]
            ++ w ++ [Call.delay, Call.read_sda (bus.read_sda (bus.delay s0.st)).1,
              Call.write_scl STWI_PIN_LOW, Call.delay] ∧
        sda_samples (calls_since s s1) = [(bus.read_sda (bus.delay s0.st)).1]) ∧
    (stwi_stretch_wait fuel bus (bit_raised bus STWI_PIN_HIGH s)
        = some (STWI_ERR_STRETCH, s0) →
      stwi_read_bit fuel bus b0 s = some (STWI_ERR_STRETCH, b0, s0) ∧
        sda_samples (calls_since s s0) = [] ∧
        scl_writes (calls_since s s0) = [STWI_PIN_HIGH]) := by
  refine ⟨fun h => ?_, fun h => ?_⟩
  · have hrb : stwi_read_bit fuel bus b0 s
        = some (STWI_ERR_OK, (bus.read_sda (bus.delay s0.st)).1,
          call_delay bus (call_write_scl bus STWI_PIN_LOW
            (call_read_sda bus (call_delay bus s0)).2)) := by
      rw [read_bit_of_wait, h]
      rfl
    obtain ⟨w, hw, ht⟩ := read_bit_trace _ _ _ _ _ _ _ hrb
    obtain ⟨w2, ht2, hr⟩ := stretch_wait_reads _ _ _ _ h
    obtain ⟨w3, -, ht3⟩ := stretch_wait_trace _ _ _ _ _ h
    have hw23 : w3 = w2 := List.append_cancel_left (ht3.symm.trans ht2)
    have hs0 : s0.trace = s.trace ++ ([Call.write_sda STWI_PIN_HIGH, Call.delay,
        Call.write_scl STWI_PIN_HIGH, Call.delay] ++ w2) := by
      rw [ht2, bit_raised_trace, List.append_assoc]
    have hfin : (call_delay bus (call_write_scl bus STWI_PIN_LOW
        (call_read_sda bus (call_delay bus s0)).2)).trace = s.trace ++
        ([Call.write_sda STWI_PIN_HIGH, Call.delay, Call.write_scl STWI_PIN_HIGH, Call.delay]
          ++ w2 ++ [Call.delay, Call.read_sda (bus.read_sda (bus.delay s0.st)).1,
            Call.write_scl STWI_PIN_LOW, Call.delay]) := by
      simp [call_delay, call_write_scl, call_read_sda, hs0]
    have hw2 : ∀ c ∈ w2, is_wait_call c = true := by
      have := List.append_cancel_left (ht.symm.trans hfin)
      simp only [if_true, List.append_assoc, List.cons_append, List.nil_append,
        List.cons.injEq, true_and] at this
      have hww : w = w2 := List.append_cancel_right this
      rw [← hww]
      exact hw
    refine ⟨_, w2, hrb, hw2, hr, calls_since_append _ _ _ hfin, ?_⟩
    rw [calls_since_append _ _ _ hfin]
    simp [sda_samples_append, sda_samples, sda_samples_wait w2 hw2]
  · have hrb : stwi_read_bit fuel bus b0 s = some (STWI_ERR_STRETCH, b0, s0) := by
      rw [read_bit_of_wait, h]
      rfl
    refine ⟨hrb, ?_⟩
    obtain ⟨w, hw, ht⟩ := read_bit_trace _ _ _ _ _ _ _ hrb
    rw [calls_since_append _ _ _ ht]
    constructor
    · simp [sda_samples_append, sda_samples, sda_samples_wait w hw]
    · simp [scl_writes_append, scl_writes, scl_writes_wait w hw]

theorem read_bit_sample_witness :
    (∃ s1 w, stwi_read_bit 20 fixture_bus STWI_PIN_LOW (started_with sda_byte_a5)
          = some (STWI_ERR_OK,
            (fixture_bus.read_sda (fixture_bus.delay read_bit_waited.st)).1, s1) ∧
        (∀ c ∈ w, is_wait_call c = true) ∧
        (scl_reads w).getLast? = some STWI_PIN_HIGH ∧
        calls_since (started_with sda_byte_a5) s1 =
          [Call.write_sda STWI_PIN_HIGH, Call.delay, Call.write_scl STWI_PIN_HIGH, Call.delay]
            ++ w ++ [Call.delay,
              Call.read_sda (fixture_bus.read_sda (fixture_bus.delay read_bit_waited.st)).1,
              Call.write_scl STWI_PIN_LOW, Call.delay] ∧
        sda_samples (calls_since (started_with sda_byte_a5) s1)
          = [(fixture_bus.read_sda (fixture_bus.delay read_bit_waited.st)).1]) ∧
    (stwi_read_bit 20 fixture_bus STWI_PIN_LOW (started_lines (scl_stretch_after 1) [])
        = some (STWI_ERR_STRETCH, STWI_PIN_LOW, read_bit_timed_out) ∧
      sda_samples (calls_since (started_lines (scl_stretch_after 1) []) read_bit_timed_out)
        = [] ∧
      scl_writes (calls_since (started_lines (scl_stretch_after 1) []) read_bit_timed_out)
        = [STWI_PIN_HIGH]) :=
  ⟨(read_bit_sample 20 fixture_bus STWI_PIN_LOW (started_with sda_byte_a5)
      read_bit_waited).1 (by rfl),
    (read_bit_sample 20 fixture_bus STWI_PIN_LOW (started_lines (scl_stretch_after 1) [])
      read_bit_timed_out).2 (by rfl)⟩

/-- C29: in a call during which SCL never reads LOW (no clock stretching), the number
of `delay` calls is fixed: 4 for `stwi_write_bit`, `stwi_read_bit` and `stwi_start`,
3 for `stwi_stop`, 36 for `stwi_write_byte` (whether the byte is acknowledged or not)
and for `stwi_read_byte`; none of them returns STRETCH.  Hence a `stwi_dev_write`
that returns OK with `r` register bytes and `size` payload bytes calls `delay`
exactly `7 + 36 * (1 + r + size)` times, and a `stwi_dev_read` that returns OK calls
it exactly `11 + 36 * (2 + r + size)` times. -/
theorem delays_without_stretch (fuel : Nat) (bus : stwi σ) (s s1 : World σ)
    (hq : scl_never_low (calls_since s s1) = true) :
    (∀ bit e, stwi_write_bit fuel bus bit s = some (e, s1) →
      e = STWI_ERR_OK ∧ delay_count (calls_since s s1) = 4) ∧
    (∀ b0 bit e, stwi_read_bit fuel bus b0 s = some (e, bit, s1) →
      e = STWI_ERR_OK ∧ delay_count (calls_since s s1) = 4) ∧
    (∀ e, stwi_start fuel bus s = some (e, s1) →
      e = STWI_ERR_OK ∧ delay_count (calls_since s s1) = 4) ∧
    (∀ e, stwi_stop fuel bus s = some (e, s1) →
      e = STWI_ERR_OK ∧ delay_count (calls_since s s1) = 3) ∧
    (∀ b e, stwi_write_byte fuel bus b s = some (e, s1) →
      e ≠ STWI_ERR_STRETCH ∧ delay_count (calls_since s s1) = 36) ∧
    (∀ b0 ack e d, stwi_read_byte fuel bus b0 ack s = some (e, d, s1) →
      e = STWI_ERR_OK ∧ delay_count (calls_since s s1) = 36) ∧
    (∀ addr reg_size reg buff size res,
      stwi_dev_write fuel bus addr reg_size reg buff size s = some (res, s1) →
      res.err ≠ STWI_ERR_STRETCH ∧
      (res.err = STWI_ERR_OK → delay_count (calls_since s s1)
        = 7 + 36 * (1 + (reg_bytes reg_size reg).length + size))) ∧
    (∀ addr reg_size reg buff size res mem,
      stwi_dev_read fuel bus addr reg_size reg buff size s = some (res, mem, s1) →
      res.err ≠ STWI_ERR_STRETCH ∧
      (res.err = STWI_ERR_OK → delay_count (calls_since s s1)
        = 11 + 36 * (2 + (reg_bytes reg_size reg).length + size))) := by
  refine ⟨?_, ?_, ?_, ?_, ?_, ?_, ?_, ?_⟩
  · intro bit e h
    obtain ⟨t, ht, hr⟩ := write_bit_quiet _ _ _ _ _ _ h
    rw [calls_since_append _ _ _ ht] at hq ⊢
    exact hr hq
  · intro b0 bit e h
    obtain ⟨t, ht, hr⟩ := read_bit_quiet _ _ _ _ _ _ _ h
    rw [calls_since_append _ _ _ ht] at hq ⊢
    exact hr hq
  · intro e h
    obtain ⟨t, ht, hr⟩ := start_quiet _ _ _ _ _ h
    rw [calls_since_append _ _ _ ht] at hq ⊢
    exact hr hq
  · intro e h
    obtain ⟨t, ht, hr⟩ := stop_quiet _ _ _ _ _ h
    rw [calls_since_append _ _ _ ht] at hq ⊢
    exact hr hq
  · intro b e h
    obtain ⟨t, ht, hr⟩ := write_byte_quiet _ _ _ _ _ _ h
    rw [calls_since_append _ _ _ ht] at hq ⊢
    exact hr hq
  · intro b0 ack e d h
    obtain ⟨t, ht, hr⟩ := read_byte_quiet _ _ _ _ _ _ _ _ h
    rw [calls_since_append _ _ _ ht] at hq ⊢
    exact hr hq
  · intro addr reg_size reg buff size res h
    obtain ⟨e, n, rx, hrun, rfl⟩ := dev_write_inv _ _ _ _ _ _ _ _ _ _ h
    obtain ⟨t, ht, hr⟩ := run_ops_quiet _ _ _ _ _ _ _ _ hrun
    rw [calls_since_append _ _ _ ht] at hq ⊢
    rw [write_res_err]
    refine ⟨(hr hq).1, fun hok => ?_⟩
    rw [(hr hq).2 hok, write_ops_delays, payload_length]
  · intro addr reg_size reg buff size res mem h
    obtain ⟨e, n, rx, hrun, rfl, -⟩ := dev_read_inv _ _ _ _ _ _ _ _ _ _ _ h
    obtain ⟨t, ht, hr⟩ := run_ops_quiet _ _ _ _ _ _ _ _ hrun
    rw [calls_since_append _ _ _ ht] at hq ⊢
    rw [read_res_err]
    refine ⟨(hr hq).1, fun hok => ?_⟩
    rw [(hr hq).2 hok, read_ops_delays]

theorem delays_without_stretch_witness :
    delay_count (calls_since (setUp [] sda_write_reg16) test_dev_write_reg16.2) = 187 :=
  ((delays_without_stretch 20 fixture_bus (setUp [] sda_write_reg16) test_dev_write_reg16.2
    (by rfl)).2.2.2.2.2.2.1 0x25 STWI_REG_16 0xF1F2 [0x12, 0x34] 2 test_dev_write_reg16.1
    (by rfl)).2 (by rfl)

/-- C30: in every returning call of `stwi_start`, `stwi_stop`, `stwi_write_byte`,
`stwi_read_byte`, `stwi_dev_write` and `stwi_dev_read`, and in every run of a
sequence of START, write-byte, read-byte and STOP sub-operations, whatever the
outcome, every `write_scl` or `write_sda` call is immediately followed by a `delay`
call.  This property is kept when calls are made one after the other, and it implies
that no pin is written twice between two `delay` calls: starting with both `out_set`
flags clear, the assertion of `gpio_pin_write` holds at every write. -/
theorem writes_followed_by_delay (fuel : Nat) (bus : stwi σ) (s s1 : World σ) :
    (∀ e, stwi_start fuel bus s = some (e, s1) →
      writes_delayed (calls_since s s1) = true) ∧
    (∀ e, stwi_stop fuel bus s = some (e, s1) →
      writes_delayed (calls_since s s1) = true) ∧
    (∀ b e, stwi_write_byte fuel bus b s = some (e, s1) →
      writes_delayed (calls_since s s1) = true) ∧
    (∀ b0 ack e d, stwi_read_byte fuel bus b0 ack s = some (e, d, s1) →
      writes_delayed (calls_since s s1) = true) ∧
    (∀ addr reg_size reg buff size res,
      stwi_dev_write fuel bus addr reg_size reg buff size s = some (res, s1) →
      writes_delayed (calls_since s s1) = true) ∧
    (∀ addr reg_size reg buff size res mem,
      stwi_dev_read fuel bus addr reg_size reg buff size s = some (res, mem, s1) →
      writes_delayed (calls_since s s1) = true) ∧
    (∀ ops e n rx, run_ops fuel bus ops s = some (e, n, rx, s1) →
      writes_delayed (calls_since s s1) = true) ∧
    (∀ a b, writes_delayed a = true → writes_delayed b = true →
      writes_delayed (a ++ b) = true) ∧
    (∀ t, writes_delayed t = true → pin_asserts_hold false false t = true) := by
  refine ⟨?_, ?_, ?_, ?_, ?_, ?_, ?_, writes_delayed_append,
    fun t ht => pin_asserts_of_delayed t false false ht (Or.inr ⟨rfl, rfl⟩)⟩
  · intro e h
    obtain ⟨t, ht, hq⟩ := closed_start writes_delayed_closed _ _ _ _ _ h
    rw [calls_since_append _ _ _ ht]
    exact hq
  · intro e h
    obtain ⟨t, ht, hq⟩ := closed_stop writes_delayed_closed _ _ _ _ _ h
    rw [calls_since_append _ _ _ ht]
    exact hq
  · intro b e h
    obtain ⟨t, ht, hq⟩ := closed_write_byte writes_delayed_closed _ _ _ _ _ _ h
    rw [calls_since_append _ _ _ ht]
    exact hq
  · intro b0 ack e d h
    obtain ⟨t, ht, hq⟩ := closed_read_byte writes_delayed_closed _ _ _ _ _ _ _ _ h
    rw [calls_since_append _ _ _ ht]
    exact hq
  · intro addr reg_size reg buff size res h
    obtain ⟨e, n, rx, hrun, -⟩ := dev_write_inv _ _ _ _ _ _ _ _ _ _ h
    obtain ⟨t, ht, hq⟩ := closed_run_ops writes_delayed_closed _ _ _ _ _ _ _ _ hrun
    rw [calls_since_append _ _ _ ht]
    exact hq
  · intro addr reg_size reg buff size res mem h
    obtain ⟨e, n, rx, hrun, -⟩ := dev_read_inv _ _ _ _ _ _ _ _ _ _ _ h
    obtain ⟨t, ht, hq⟩ := closed_run_ops writes_delayed_closed _ _ _ _ _ _ _ _ hrun
    rw [calls_since_append _ _ _ ht]
    exact hq
  · intro ops e n rx h
    obtain ⟨t, ht, hq⟩ := closed_run_ops writes_delayed_closed _ _ _ _ _ _ _ _ h
    rw [calls_since_append _ _ _ ht]
    exact hq

theorem writes_followed_by_delay_witness :
    writes_delayed (calls_since (setUp (scl_stretch_after 152) sda_read_reg8)
      test_dev_read_err_data.2.2) = true ∧
    pin_asserts_hold false false (calls_since (setUp (scl_stretch_after 152) sda_read_reg8)
      test_dev_read_err_data.2.2) = true ∧
    test_dev_read_err_data.2.2.st.asserts_ok = true :=
  ⟨(writes_followed_by_delay 20 fixture_bus (setUp (scl_stretch_after 152) sda_read_reg8)
      test_dev_read_err_data.2.2).2.2.2.2.2.1 0x25 STWI_REG_8 0xF2 [0, 0] 2
      test_dev_read_err_data.1 test_dev_read_err_data.2.1 (by rfl),
    (writes_followed_by_delay 20 fixture_bus (setUp (scl_stretch_after 152) sda_read_reg8)
      test_dev_read_err_data.2.2).2.2.2.2.2.2.2.2 _
      ((writes_followed_by_delay 20 fixture_bus (setUp (scl_stretch_after 152) sda_read_reg8)
        test_dev_read_err_data.2.2).2.2.2.2.2.1 0x25 STWI_REG_8 0xF2 [0, 0] 2
        test_dev_read_err_data.1 test_dev_read_err_data.2.1 (by rfl)),
    by rfl⟩

/-- C31: take the levels driven by the master to be HIGH on both lines when a
transaction begins, and follow them along its callback trace.  In a `stwi_dev_write`
that returns OK the driven SDA level changes while the driven SCL level is HIGH
exactly twice: first from HIGH to LOW, when one clock pulse has begun (the raise of
SCL by START itself, before any bit), then from LOW to HIGH, when all the
`2 + 9 * (1 + r + size)` clock pulses of the transaction have begun (STOP, after the
last bit).  In a `stwi_dev_read` that returns OK there are exactly three such
changes: HIGH to LOW in START, HIGH to LOW in the repeated START after the
`1 + r` bytes sent, and LOW to HIGH in STOP.  Every other change of the driven SDA
level happens while SCL is driven LOW, and both lines end driven HIGH. -/
theorem sda_changes_under_scl_high (fuel : Nat) (bus : stwi σ) (addr : Nat)
    (reg_size : stwi_reg_size_t) (reg : Nat) (buff : List Nat) (size : Nat)
    (s s1 : World σ) (res : stwi_res) (hok : res.err = STWI_ERR_OK) :
    (stwi_dev_write fuel bus addr reg_size reg buff size s = some (res, s1) →
      sda_edges ⟨STWI_PIN_HIGH, STWI_PIN_HIGH, 0⟩ (calls_since s s1) =
        [(STWI_PIN_LOW, 1),
          (STWI_PIN_HIGH, 2 + 9 * (1 + (reg_bytes reg_size reg).length + size))] ∧
      driven_after ⟨STWI_PIN_HIGH, STWI_PIN_HIGH, 0⟩ (calls_since s s1) =
        ⟨STWI_PIN_HIGH, STWI_PIN_HIGH, 2 + 9 * (1 + (reg_bytes reg_size reg).length + size)⟩) ∧
    (∀ mem, stwi_dev_read fuel bus addr reg_size reg buff size s = some (res, mem, s1) →
      sda_edges ⟨STWI_PIN_HIGH, STWI_PIN_HIGH, 0⟩ (calls_since s s1) =
        [(STWI_PIN_LOW, 1), (STWI_PIN_LOW, 2 + 9 * (1 + (reg_bytes reg_size reg).length)),
          (STWI_PIN_HIGH, 3 + 9 * (2 + (reg_bytes reg_size reg).length + size))] ∧
      driven_after ⟨STWI_PIN_HIGH, STWI_PIN_HIGH, 0⟩ (calls_since s s1) =
        ⟨STWI_PIN_HIGH, STWI_PIN_HIGH,
          3 + 9 * (2 + (reg_bytes reg_size reg).length + size)⟩) := by
  constructor
  · intro h
    obtain ⟨e, n, rx, hrun, hres⟩ := dev_write_inv _ _ _ _ _ _ _ _ _ _ h
    have he : e = STWI_ERR_OK := by
      rw [hres, write_res_err] at hok
      exact hok
    subst he
    have := write_ops_edges _ _ _ _ _ _ _ _ _ hrun
    rw [payload_length] at this
    exact this
  · intro mem h
    obtain ⟨e, n, rx, hrun, hres, -⟩ := dev_read_inv _ _ _ _ _ _ _ _ _ _ _ h
    have he : e = STWI_ERR_OK := by
      rw [hres, read_res_err] at hok
      exact hok
    subst he
    exact read_ops_edges _ _ _ _ _ _ _ _ _ _ hrun

theorem sda_changes_under_scl_high_witness :
    (sda_edges ⟨STWI_PIN_HIGH, STWI_PIN_HIGH, 0⟩
        (calls_since (setUp [] sda_write_reg16) test_dev_write_reg16.2) =
        [(STWI_PIN_LOW, 1), (STWI_PIN_HIGH, 47)] ∧
      driven_after ⟨STWI_PIN_HIGH, STWI_PIN_HIGH, 0⟩
        (calls_since (setUp [] sda_write_reg16) test_dev_write_reg16.2) =
        ⟨STWI_PIN_HIGH, STWI_PIN_HIGH, 47⟩) ∧
    (sda_edges ⟨STWI_PIN_HIGH, STWI_PIN_HIGH, 0⟩
        (calls_since (setUp [] sda_read_reg16) test_dev_read_reg16.2.2) =
        [(STWI_PIN_LOW, 1), (STWI_PIN_LOW, 29), (STWI_PIN_HIGH, 57)] ∧
      driven_after ⟨STWI_PIN_HIGH, STWI_PIN_HIGH, 0⟩
        (calls_since (setUp [] sda_read_reg16) test_dev_read_reg16.2.2) =
        ⟨STWI_PIN_HIGH, STWI_PIN_HIGH, 57⟩) :=
  ⟨(sda_changes_under_scl_high 20 fixture_bus 0x25 STWI_REG_16 0xF1F2 [0x12, 0x34] 2
      (setUp [] sda_write_reg16) test_dev_write_reg16.2 test_dev_write_reg16.1 (by rfl)).1
      (by rfl),
    (sda_changes_under_scl_high 20 fixture_bus 0x25 STWI_REG_16 0xF1F2 [0, 0] 2
      (setUp [] sda_read_reg16) test_dev_read_reg16.2.2 test_dev_read_reg16.1 (by rfl)).2
      test_dev_read_reg16.2.1 (by rfl)⟩

/-- C32: the lines after a failed operation.  Whenever `stwi_start`, `stwi_stop`,
`stwi_write_byte`, `stwi_read_byte`, `stwi_dev_write` or `stwi_dev_read` returns
STRETCH, the last level the master wrote to SCL in that call is HIGH.  Whenever
`stwi_write_byte`, `stwi_dev_write` or `stwi_dev_read` returns NACK, the last level
the master wrote to SCL is LOW and the last level it wrote to SDA is HIGH. -/
theorem failed_op_lines (fuel : Nat) (bus : stwi σ) (s s1 : World σ) :
    (stwi_start fuel bus s = some (STWI_ERR_STRETCH, s1) →
      (scl_writes (calls_since s s1)).getLast? = some STWI_PIN_HIGH) ∧
    (stwi_stop fuel bus s = some (STWI_ERR_STRETCH, s1) →
      (scl_writes (calls_since s s1)).getLast? = some STWI_PIN_HIGH) ∧
    (∀ b, stwi_write_byte fuel bus b s = some (STWI_ERR_STRETCH, s1) →
      (scl_writes (calls_since s s1)).getLast? = some STWI_PIN_HIGH) ∧
    (∀ b0 ack d, stwi_read_byte fuel bus b0 ack s = some (STWI_ERR_STRETCH, d, s1) →
      (scl_writes (calls_since s s1)).getLast? = some STWI_PIN_HIGH) ∧
    (∀ addr reg_size reg buff size res,
      (stwi_dev_write fuel bus addr reg_size reg buff size s = some (res, s1) ∨
        ∃ mem, stwi_dev_read fuel bus addr reg_size reg buff size s = some (res, mem, s1)) →
      (res.err = STWI_ERR_STRETCH →
        (scl_writes (calls_since s s1)).getLast? = some STWI_PIN_HIGH) ∧
      (res.err = STWI_ERR_NACK →
        (scl_writes (calls_since s s1)).getLast? = some STWI_PIN_LOW ∧
        (sda_writes (calls_since s s1)).getLast? = some STWI_PIN_HIGH)) ∧
    (∀ b, stwi_write_byte fuel bus b s = some (STWI_ERR_NACK, s1) →
      (scl_writes (calls_since s s1)).getLast? = some STWI_PIN_LOW ∧
      (sda_writes (calls_since s s1)).getLast? = some STWI_PIN_HIGH) := by
  refine ⟨fun h => ?_, fun h => ?_, fun b h => ?_, fun b0 ack d h => ?_,
    fun addr reg_size reg buff size res h => ?_, fun b h => ?_⟩
  · obtain ⟨t, ht, hl⟩ := start_stretch_scl _ _ _ _ h
    rw [calls_since_append _ _ _ ht]
    exact hl
  · obtain ⟨t, ht, hl⟩ := stop_stretch_scl _ _ _ _ h
    rw [calls_since_append _ _ _ ht]
    exact hl
  · obtain ⟨t, ht, hl⟩ := write_byte_stretch_scl _ _ _ _ _ h
    rw [calls_since_append _ _ _ ht]
    exact hl
  · obtain ⟨t, ht, hl⟩ := read_byte_stretch_scl _ _ _ _ _ _ _ h
    rw [calls_since_append _ _ _ ht]
    exact hl
  · exact (dev_lines fuel bus addr reg_size reg buff size s s1 res h).2
  · obtain ⟨t, ht, hl⟩ := write_byte_nack_lines _ _ _ _ _ h
    rw [calls_since_append _ _ _ ht]
    exact hl

theorem failed_op_lines_witness :
    (scl_writes (calls_since (started_lines (scl_stretch_after 9) sda_ack)
      write_stretch_after)).getLast? = some STWI_PIN_HIGH ∧
    ((scl_writes (calls_since (setUp [] sda_read_err_rep_addr)
        test_dev_read_err_rep_addr.2.2)).getLast? = some STWI_PIN_LOW ∧
      (sda_writes (calls_since (setUp [] sda_read_err_rep_addr)
        test_dev_read_err_rep_addr.2.2)).getLast? = some STWI_PIN_HIGH) :=
  ⟨(failed_op_lines 20 fixture_bus (started_lines (scl_stretch_after 9) sda_ack)
      write_stretch_after).2.2.1 0x5A (by rfl),
    ((failed_op_lines 20 fixture_bus (setUp [] sda_read_err_rep_addr)
      test_dev_read_err_rep_addr.2.2).2.2.2.2.1 0x25 STWI_REG_8 0xF2 [0, 0] 2
      test_dev_read_err_rep_addr.1
      (Or.inr ⟨test_dev_read_err_rep_addr.2.1, by rfl⟩)).2 (by rfl)⟩

/-- C33: a call of `stwi_read_byte` that returns STRETCH leaves the destination byte
as it was.  In particular, if the eight data bits are sampled (world `s0`) and the
send-bit of the acknowledge bit then times out (world `s1`), `stwi_read_byte` returns
STRETCH with the destination unchanged, although eight samples of SDA were taken.
When this happens at data byte `j` of a `stwi_dev_read`, the sub-operations before it
having succeeded and received the bytes `rx`, the transaction returns STRETCH at
stage DATA with `data_size = j`: the `j` bytes received before are stored, byte `j`
and the rest of the buffer are unchanged. -/
theorem read_byte_stretch_keeps (fuel : Nat) (bus : stwi σ) (ack : Bool)
    (s s0 s1 : World σ) (data : Nat)
    (hloop : stwi_read_byte.loop fuel bus 8 0 s = some (STWI_ERR_OK, data, s0))
    (hack : stwi_write_bit fuel bus (if ack then STWI_PIN_LOW else STWI_PIN_HIGH) s0
      = some (STWI_ERR_STRETCH, s1)) :
    (∀ b0 a w w1 d, stwi_read_byte fuel bus b0 a w = some (STWI_ERR_STRETCH, d, w1) →
      d = b0) ∧
    (∀ b0, stwi_read_byte fuel bus b0 ack s = some (STWI_ERR_STRETCH, b0, s1)) ∧
    (sda_samples (calls_since s s1)).length = 8 ∧
    (∀ addr reg_size reg buff size j w n0 rx, j < size → size ≤ buff.length →
      ack = decide (j + 1 < size) →
      run_ops fuel bus
          ([Op.start, Op.write_byte ((addr <<< 1 ||| 0x00) % 256)]
            ++ (reg_bytes reg_size reg).map Op.write_byte
            ++ [Op.start, Op.write_byte ((addr <<< 1 ||| 0x01) % 256)]
            ++ List.replicate j (Op.read_byte true)) w
        = some (STWI_ERR_OK, n0, rx, s) →
      stwi_dev_read fuel bus addr reg_size reg buff size w
          = some (⟨STWI_ERR_STRETCH, STWI_STAGE_DATA, j⟩, store buff 0 rx, s1) ∧
        rx.length = j ∧ (store buff 0 rx).drop j = buff.drop j ∧
        (store buff 0 rx).length = buff.length) := by
  have hrb := fun b0 => read_byte_ack_timeout fuel bus b0 ack s s0 s1 data hloop hack
  refine ⟨fun b0 a w w1 d h => read_byte_fail_keeps _ _ _ _ _ _ _ _ h (by decide), hrb, ?_,
    ?_⟩
  · obtain ⟨samples, ws, hl1, hl2, hws, ht0⟩ := read_byte_loop_frames _ _ _ _ _ _ _ hloop
    obtain ⟨w, hw, ht1⟩ := write_bit_trace _ _ _ _ _ _ hack
    rw [calls_since_append s s1 _ (by rw [ht1, ht0, List.append_assoc]), sda_samples_append,
      frames_sda_samples samples ws (by rw [hl2, hl1]) hws]
    simp [sda_samples_append, sda_samples, sda_samples_wait w hw, hl1]
  · intro addr reg_size reg buff size j w n0 rx hj hsize hackv hpre
    have hop : Op.run fuel bus (Op.read_byte ack) s = some (STWI_ERR_STRETCH, [], s1) := by
      simp [Op.run, hrb 0]
    obtain ⟨rest, hsplit⟩ := read_ops_at_data ((addr <<< 1 ||| 0x00) % 256)
      (reg_bytes reg_size reg) ((addr <<< 1 ||| 0x01) % 256) size j hj
    rw [← hackv] at hsplit
    have hn0 : n0 = 4 + (reg_bytes reg_size reg).length + j := by
      rw [(run_ops_count _ _ _ _ _ _ _ _ hpre).1 rfl]
      simp
      omega
    have hrx : rx.length = j := by
      rcases run_ops_append_inv _ _ _ _ _ _ _ _ _ hpre with ⟨he, -⟩ |
        ⟨n1, rx1, s2, m, rx2, h1, h2, -, hrxe⟩
      · exact absurd rfl he
      · have h10 := (run_ops_tx_trace _ _ _ _ _ _ _ _ (read_pre_is_tx _ _ _) h1).1
        rw [hrxe, h10, List.nil_append]
        exact run_reads_length _ _ _ _ _ _ _ h2
    have hdev : stwi_dev_read fuel bus addr reg_size reg buff size w
        = some (⟨STWI_ERR_STRETCH, STWI_STAGE_DATA, j⟩, store buff 0 rx, s1) := by
      rw [dev_read_eq, hsplit, run_ops_append_ok _ _ _ _ _ _ _ _ hpre,
        run_ops_fail_head _ _ _ _ _ _ _ _ hop (by decide)]
      simp only [Option.map_some', Nat.add_zero, List.append_nil]
      rw [hn0, read_res_data _ _ _ _ hj]
    have hkeep := store_keeps_rest rx buff (by omega)
    rw [hrx] at hkeep
    exact ⟨hdev, hrx, hkeep.1, hkeep.2⟩

theorem read_byte_stretch_keeps_witness :
    stwi_read_byte 20 fixture_bus 7 true ack_stretch_start
      = some (STWI_ERR_STRETCH, 7, ack_stretch_end) ∧
    (sda_samples (calls_since ack_stretch_start ack_stretch_end)).length = 8 ∧
    (stwi_dev_read 20 fixture_bus 0x25 STWI_REG_8 0xF2 [7, 9] 2
          (setUp (scl_stretch_after 149) sda_read_reg8)
        = some (⟨STWI_ERR_STRETCH, STWI_STAGE_DATA, 0⟩, store [7, 9] 0 [], ack_stretch_end) ∧
      ([] : List Nat).length = 0 ∧ (store [7, 9] 0 []).drop 0 = [7, 9].drop 0 ∧
      (store [7, 9] 0 []).length = [7, 9].length) :=
  ⟨(read_byte_stretch_keeps 20 fixture_bus true ack_stretch_start ack_stretch_sampled.2.2
      ack_stretch_end ack_stretch_sampled.2.1 (by rfl) (by rfl)).2.1 7,
    (read_byte_stretch_keeps 20 fixture_bus true ack_stretch_start ack_stretch_sampled.2.2
      ack_stretch_end ack_stretch_sampled.2.1 (by rfl) (by rfl)).2.2.1,
    (read_byte_stretch_keeps 20 fixture_bus true ack_stretch_start ack_stretch_sampled.2.2
      ack_stretch_end ack_stretch_sampled.2.1 (by rfl) (by rfl)).2.2.2
      0x25 STWI_REG_8 0xF2 [7, 9] 2 0 (setUp (scl_stretch_after 149) sda_read_reg8) 5 []
      (by decide) (by decide) (by rfl) (by rfl)⟩

/-- C34: the address byte is truncated to 8 bits.  For `addr` in 0..255,
`stwi_dev_write` is the run of the sub-operations whose address byte is
`(2 * addr) mod 256`, and `stwi_dev_read` the run of those whose address bytes are
`(2 * addr) mod 256` and `(2 * addr) mod 256 + 1`.  Hence from the same world the
calls with `addr` and with `addr XOR 0x80` have the same outcome (result, buffer and
world, so the same callback trace): the eighth address bit is dropped.  For `addr`
in 0..127 the bytes are exactly `(addr << 1) | 0` and `(addr << 1) | 1`. -/
theorem addr_byte_truncated (fuel : Nat) (bus : stwi σ) (addr : Nat)
    (reg_size : stwi_reg_size_t) (reg : Nat) (buff : List Nat) (size : Nat) (s : World σ)
    (haddr : addr < 256) :
    stwi_dev_write fuel bus addr reg_size reg buff size s =
      (run_ops fuel bus
        (write_ops ((2 * addr) % 256) (reg_bytes reg_size reg) (payload size buff)) s).map
        (fun x => (write_res (reg_bytes reg_size reg).length size x.1 x.2.1, x.2.2.2)) ∧
    stwi_dev_read fuel bus addr reg_size reg buff size s =
      (run_ops fuel bus
        (read_ops ((2 * addr) % 256) (reg_bytes reg_size reg) ((2 * addr) % 256 + 1) size)
        s).map
        (fun x => (read_res (reg_bytes reg_size reg).length size x.1 x.2.1,
          store buff 0 x.2.2.1, x.2.2.2)) ∧
    stwi_dev_write fuel bus (addr ^^^ 0x80) reg_size reg buff size s
      = stwi_dev_write fuel bus addr reg_size reg buff size s ∧
    stwi_dev_read fuel bus (addr ^^^ 0x80) reg_size reg buff size s
      = stwi_dev_read fuel bus addr reg_size reg buff size s ∧
    (addr < 128 →
      (2 * addr) % 256 = addr <<< 1 ||| 0x00 ∧ (2 * addr) % 256 + 1 = addr <<< 1 ||| 0x01) := by
  obtain ⟨h0, h1, hx0, hx1⟩ := addr_byte_mod addr haddr
  refine ⟨?_, ?_, ?_, ?_, addr_byte_seven addr⟩
  · rw [dev_write_eq, h0]
  · rw [dev_read_eq, h0, h1]
  · rw [dev_write_eq, dev_write_eq, hx0]
  · rw [dev_read_eq, dev_read_eq, hx0, hx1]

theorem addr_byte_truncated_witness :
    stwi_dev_write 20 fixture_bus (0x25 ^^^ 0x80) STWI_REG_8 0xF2 [0x12, 0x34] 2
        (setUp [] sda_write_reg8)
      = stwi_dev_write 20 fixture_bus 0x25 STWI_REG_8 0xF2 [0x12, 0x34] 2
        (setUp [] sda_write_reg8) ∧
    ((0x25 : Nat) < 128 →
      (2 * 0x25) % 256 = 0x25 <<< 1 ||| 0x00 ∧ (2 * 0x25) % 256 + 1 = 0x25 <<< 1 ||| 0x01) :=
  ⟨(addr_byte_truncated 20 fixture_bus 0x25 STWI_REG_8 0xF2 [0x12, 0x34] 2
      (setUp [] sda_write_reg8) (by decide)).2.2.1,
    (addr_byte_truncated 20 fixture_bus 0x25 STWI_REG_8 0xF2 [0x12, 0x34] 2
      (setUp [] sda_write_reg8) (by decide)).2.2.2.2⟩

end Stwi
